import Mathlib

/-! # Virtual memory manager simulator (`mmu.cpp`): embedding and verification

The C++ program keeps its whole state in globals (`frame_table`, `free_frames`,
`processes`, `THE_PAGER`, `inst_count`, `exitloop`, `randvals`, `ofs`, the
counters of `simulate`).  The embedding threads one `State` record through the
translated functions.  Pointers into `frame_table` are frame indices, a
`Process&` is a process index, a `pte_t&` is a (process index, page index) pair.

Every access that is undefined behaviour in C++ (an index outside a vector, a
null `currentProcess`, a null pager result, a division by zero) makes the
translated function return `none`.

Integer widths: `unsigned int` fields (`frame_t::age`, `frame_t::age_`) are 32
bits wide and are stored reduced modulo `2^32`; `int` is 32 bits; `unsigned long`
(`inst_count`, the statistics) is 64 bits wide.  The 64-bit counters are kept as
natural numbers: they only ever grow by one per step.
-/

namespace MMU

/-! ## Data model -/

/-- Number of virtual pages per process (`NUM_VIRTUAL_PAGES`). -/
def NUM_VIRTUAL_PAGES : Nat := 64

/-- The working-set window (`WorkingSetPager::TAU`, an `int`). -/
def TAU : Int := 49

/-- Virtual memory area (`struct VMA`). -/
structure VMA where
  start_vpage : Int
  end_vpage : Int
  write_protected : Bool
  file_mapped : Bool
deriving DecidableEq

/-- Page table entry (`struct pte_t`); `frame_number` is a 7-bit field. -/
structure pte_t where
  present : Bool
  referenced : Bool
  modified : Bool
  write_protect : Bool
  paged_out : Bool
  file_mapped : Bool
  frame_number : Nat
deriving DecidableEq

/-- The zeroed entry built by the default constructor `pte_t()`. -/
def pte_t.zero : pte_t :=
  { present := false, referenced := false, modified := false, write_protect := false,
    paged_out := false, file_mapped := false, frame_number := 0 }

/-- Frame table entry (`class frame_t`).  The simulated `data` bytes are never
read by the program and are left out. -/
structure frame_t where
  process_id : Int
  virtual_page : Int
  dirty : Bool
  age : Nat
  age_ : Nat
deriving DecidableEq

/-- A freshly constructed frame (`frame_t()` with its member initialisers). -/
def frame_t.fresh : frame_t :=
  { process_id := -1, virtual_page := -1, dirty := false, age := 0, age_ := 0 }

/-- Per-process counters (`struct ProcessStats`). -/
structure ProcessStats where
  maps : Nat
  unmaps : Nat
  ins : Nat
  outs : Nat
  fins : Nat
  fouts : Nat
  zeros : Nat
  segv : Nat
  segprot : Nat
deriving DecidableEq

/-- All counters zero. -/
def ProcessStats.zero : ProcessStats :=
  { maps := 0, unmaps := 0, ins := 0, outs := 0, fins := 0, fouts := 0, zeros := 0,
    segv := 0, segprot := 0 }

/-- A process (`struct Process`). -/
structure Process where
  pid : Int
  vmas : List VMA
  page_table : List pte_t
  stats : ProcessStats
deriving DecidableEq

/-- The lines the program prints when the `O` option is set. -/
inductive Event where
  | instr (inst : Nat) (command : Char) (operand : Int)
  | EXIT (pid : Int)
  | UNMAP (pid : Int) (vpage : Int)
  | OUT
  | FOUT
  | IN
  | FIN
  | ZERO
  | MAP (frame : Nat)
  | SEGV
  | SEGPROT
deriving DecidableEq

/-- The six pager classes selected by `-a`. -/
inductive Algo where
  | fifo
  | random
  | clock
  | nru
  | aging
  | workingSet
deriving DecidableEq

/-- The globals of the program.  `hand` is the cursor member of the pager object
(`current_index`, `currentIndex` or `hand`), `lastReset` the member of
`NRUPager`.  `numFrames` is not stored: `main` builds `frame_table` with
`numFrames` entries, so it is `frame_table.length`. -/
structure State where
  frame_table : List frame_t
  free_frames : List Nat
  processes : List Process
  algo : Algo
  hand : Nat
  lastReset : Nat
  randvals : List Int
  ofs : Nat
  inst_count : Nat
  exitloop : Bool
  ctx_switches : Nat
  process_exits : Nat
  rwcount : Nat
  currentProcess : Option Nat
  o_flag : Bool
  output : List Event

/-! ## Accessors -/

/-- Apply `g` to the `n`-th element of a list (nothing happens past the end). -/
def updateAt {α : Type} (g : α → α) : Nat → List α → List α
  | _, [] => []
  | 0, a :: l => g a :: l
  | n + 1, a :: l => a :: updateAt g n l

/-- A C `int` used as an index: negative values index nothing. -/
def idx? (i : Int) : Option Nat := if i < 0 then none else some i.toNat

/-- The entry `processes[p].page_table[v]`. -/
def State.pte? (s : State) (p v : Nat) : Option pte_t :=
  match s.processes[p]? with
  | none => none
  | some P => P.page_table[v]?

/-- Write through a `pte_t&`. -/
def State.modPte (s : State) (p v : Nat) (g : pte_t → pte_t) : State :=
  { s with processes :=
      updateAt (fun P => { P with page_table := updateAt g v P.page_table }) p s.processes }

/-- Write to `processes[p].stats`. -/
def State.modStats (s : State) (p : Nat) (g : ProcessStats → ProcessStats) : State :=
  { s with processes := updateAt (fun P => { P with stats := g P.stats }) p s.processes }

/-- Write through a `frame_t*`. -/
def State.modFrame (s : State) (i : Nat) (g : frame_t → frame_t) : State :=
  { s with frame_table := updateAt g i s.frame_table }

/-- Print one line, `if (o_flag) std::cout << ...`. -/
def emit (s : State) (e : Event) : State :=
  { s with output := if s.o_flag then s.output ++ [e] else s.output }

/-! ## Unmapping, paging out, mapping -/

/-- The function `out(frame, process)`: write a dirty page to swap or to its file.
The reference `pte` that the source binds first is used only inside the `if`;
the entry is looked up there. -/
def out (s : State) (fi p : Nat) : Option State := do
  let frame ← s.frame_table[fi]?
  if frame.dirty && frame.virtual_page != -1 then
    let v ← idx? frame.virtual_page
    let pte ← s.pte? p v
    let s1 :=
      if pte.file_mapped then
        (emit s Event.FOUT).modStats p (fun st => { st with fouts := st.fouts + 1 })
      else
        ((emit s Event.OUT).modPte p v (fun e => { e with paged_out := true })).modStats p
          (fun st => { st with outs := st.outs + 1 })
    pure (s1.modFrame fi (fun f => { f with dirty := false }))
  else
    pure s

/-- The function `unmap(frame, process)`, used on eviction. -/
def unmap (s : State) (fi p : Nat) : Option State := do
  let frame ← s.frame_table[fi]?
  if frame.virtual_page != -1 then
    let P ← s.processes[p]?
    let v ← idx? frame.virtual_page
    let _ ← P.page_table[v]?
    let s1 := s.modStats p (fun st => { st with unmaps := st.unmaps + 1 })
    let s2 := emit s1 (Event.UNMAP P.pid frame.virtual_page)
    let s3 ← if frame.dirty && !s.exitloop then out s2 fi p else pure s2
    let s4 := s3.modFrame fi
      (fun f => { f with process_id := -1, virtual_page := -1, dirty := false })
    pure (s4.modPte p v
      (fun e => { e with present := false, modified := false, frame_number := 0 }))
  else
    pure s

/-- The function `unmap2(frame, process)`, used on process exit. -/
def unmap2 (s : State) (fi p : Nat) : Option State := do
  let frame ← s.frame_table[fi]?
  if frame.virtual_page != -1 then
    let P ← s.processes[p]?
    let v ← idx? frame.virtual_page
    let pte ← P.page_table[v]?
    let s1 := s.modStats p (fun st => { st with unmaps := st.unmaps + 1 })
    let s2 := emit s1 (Event.UNMAP P.pid frame.virtual_page)
    let s3 :=
      if frame.dirty && frame.virtual_page != -1 then
        (if pte.file_mapped then
          (emit s2 Event.FOUT).modStats p (fun st => { st with fouts := st.fouts + 1 })
        else s2).modFrame fi (fun f => { f with dirty := false })
      else s2
    let s4 := s3.modFrame fi
      (fun f => { f with process_id := -1, virtual_page := -1, dirty := false })
    pure (s4.modPte p v
      (fun e => { e with present := false, modified := false, frame_number := 0 }))
  else
    pure s

/-- The function `map(frame_table, frame, vpage, process)`; `resetAge` stores
`inst_count` in the 32-bit `age_`, the index goes into a 7-bit field. -/
def map (s : State) (fi : Nat) (vpage : Int) (p : Nat) : Option State := do
  let P ← s.processes[p]?
  let v ← idx? vpage
  let _ ← P.page_table[v]?
  let _ ← s.frame_table[fi]?
  let s1 := s.modStats p (fun st => { st with maps := st.maps + 1 })
  let s2 := s1.modFrame fi (fun f =>
    { f with process_id := P.pid, virtual_page := vpage, age := 0,
             age_ := s.inst_count % 4294967296 })
  let s3 := s2.modPte p v (fun e => { e with frame_number := fi % 128, present := true })
  pure (emit s3 (Event.MAP fi))

/-- The function `zero(frame, process)`; `frame->clear()` resets `age`. -/
def zero (s : State) (fi p : Nat) : State :=
  emit ((s.modFrame fi (fun f => { f with age := 0 })).modStats p
    (fun st => { st with zeros := st.zeros + 1 })) Event.ZERO

/-- The function `in(frame, vpage, process)`. -/
def pageIn (s : State) (fi p : Nat) : State :=
  (emit (s.modStats p (fun st => { st with ins := st.ins + 1 })) Event.IN).modFrame fi
    (fun f => { f with dirty := false })

/-- The function `fin(frame, vpage, process)`. -/
def fin (s : State) (fi p : Nat) : State :=
  (emit (s.modStats p (fun st => { st with fins := st.fins + 1 })) Event.FIN).modFrame fi
    (fun f => { f with dirty := false })

/-! ## The replacement policies -/

/-- The random source `myrandom(burst)`; `%` on `int` truncates towards zero. -/
def myrandom (s : State) (burst : Int) : Option (Int × State) := do
  let r ← s.randvals[s.ofs]?
  if burst = 0 then none
  else pure (1 + Int.tmod r burst, { s with ofs := (s.ofs + 1) % s.randvals.length })

/-- The member `FIFOPager::select_victim_frame`. -/
def FIFOPager.select_victim_frame (s : State) : Option (Nat × State) :=
  if s.hand < s.frame_table.length then
    some (s.hand, { s with hand := (s.hand + 1) % s.frame_table.length })
  else none

/-- The `while (true)` loop of `ClockPager::select_victim_frame`, run for at
most `fuel` inspections. -/
def ClockPager.scan : Nat → State → Option (Nat × State)
  | 0, _ => none
  | fuel + 1, s => do
    let candidate ← s.frame_table[s.hand]?
    let p ← idx? candidate.process_id
    let v ← idx? candidate.virtual_page
    let pte ← s.pte? p v
    if !pte.referenced then
      pure (s.hand, { s with hand := (s.hand + 1) % s.frame_table.length })
    else
      ClockPager.scan fuel
        { s.modPte p v (fun e => { e with referenced := false }) with
          hand := (s.hand + 1) % s.frame_table.length }

/-- The member `ClockPager::select_victim_frame`; the loop gets one inspection
more than there are frames. -/
def ClockPager.select_victim_frame (s : State) : Option (Nat × State) :=
  ClockPager.scan (s.frame_table.length + 1)
    (if s.hand ≥ s.frame_table.length then { s with hand := 0 } else s)

/-- The member `RandomPager::select_victim_frame`; a null result is dereferenced
by the caller. -/
def RandomPager.select_victim_frame (s : State) : Option (Nat × State) :=
  if s.frame_table.isEmpty then none
  else do
    let (r, s1) ← myrandom s s.frame_table.length
    let i ← idx? (r - 1)
    if i < s.frame_table.length then pure (i, s1) else none

/-- One round of the first loop of `AgingPager::select_victim_frame`. -/
def AgingPager.ageOne (s : State) (i : Nat) : Option State := do
  let frame ← s.frame_table[i]?
  if frame.process_id != -1 then
    let s1 := s.modFrame i (fun f => { f with age := f.age >>> 1 })
    let p ← idx? frame.process_id
    let v ← idx? frame.virtual_page
    let pte ← s1.pte? p v
    if pte.referenced then
      pure ((s1.modFrame i (fun f => { f with age := f.age ||| 0x80000000 })).modPte p v
        (fun e => { e with referenced := false }))
    else pure s1
  else pure s

/-- The first loop of `AgingPager::select_victim_frame`: `k` more frames from
index `i` on. -/
def AgingPager.ageFrom : Nat → Nat → State → Option State
  | 0, _, s => some s
  | k + 1, i, s => do
    let s1 ← AgingPager.ageOne s i
    AgingPager.ageFrom k (i + 1) s1

/-- The second loop of `AgingPager::select_victim_frame`: `k` more rounds from
loop counter `i` on, with the current `victim_index`. -/
def AgingPager.findMin : Nat → Nat → Nat → State → Option Nat
  | 0, _, victim, _ => some victim
  | k + 1, i, victim, s => do
    let idx := (s.hand + i) % s.frame_table.length
    let f ← s.frame_table[idx]?
    let fv ← s.frame_table[victim]?
    AgingPager.findMin k (i + 1) (if f.age < fv.age then idx else victim) s

/-- The member `AgingPager::select_victim_frame`. -/
def AgingPager.select_victim_frame (s : State) : Option (Nat × State) := do
  let s1 ← AgingPager.ageFrom s.frame_table.length 0 s
  let victim ← AgingPager.findMin s1.frame_table.length 0 s1.hand s1
  let _ ← s1.frame_table[victim]?
  pure (victim, { s1.modFrame victim (fun f => { f with age := 0 }) with
                  hand := (victim + 1) % s1.frame_table.length })

/-- Conversion of an `unsigned long` to `int`: the low 32 bits, two's complement. -/
def toInt32 (n : Nat) : Int :=
  if n % 4294967296 < 2147483648 then ((n % 4294967296 : Nat) : Int)
  else ((n % 4294967296 : Nat) : Int) - 4294967296

/-- Subtraction of `unsigned long` values. -/
def subU64 (a b : Nat) : Nat := (a % 18446744073709551616 + 18446744073709551616
  - b % 18446744073709551616) % 18446744073709551616

/-- The loop of `WorkingSetPager::select_victim_frame` with the statements after
it: `k` more rounds from loop counter `i` on; `victim` is `none` for `nullptr`. -/
def WorkingSetPager.scan : Nat → Nat → Option Nat → Int → State → Option (Nat × State)
  | 0, _, victim, _, s =>
    let v := match victim with
      | some v => v
      | none => s.hand
    if v < s.frame_table.length then
      some (v, { s with hand := (v + 1) % s.frame_table.length })
    else none
  | k + 1, i, victim, minAge, s => do
    let idx := (s.hand + i) % s.frame_table.length
    let frame ← s.frame_table[idx]?
    let p ← idx? frame.process_id
    let v ← idx? frame.virtual_page
    let pte ← s.pte? p v
    let s1 :=
      if pte.referenced then
        (s.modPte p v (fun e => { e with referenced := false })).modFrame idx
          (fun f => { f with age_ := s.inst_count % 4294967296 })
      else s
    let frame1 ← s1.frame_table[idx]?
    let temp_age := toInt32 (subU64 s.inst_count frame1.age_)
    if temp_age > TAU then
      pure (idx, { s1 with hand := (idx + 1) % s.frame_table.length })
    else if temp_age > minAge then
      WorkingSetPager.scan k (i + 1) (some idx) temp_age s1
    else
      WorkingSetPager.scan k (i + 1) victim minAge s1

/-- The member `WorkingSetPager::select_victim_frame`. -/
def WorkingSetPager.select_victim_frame (s : State) : Option (Nat × State) :=
  WorkingSetPager.scan s.frame_table.length 0 none (-1) s

/-- The four `classNIndex` locals of `NRUPager::select_victim_frame`; `none`
stands for `-1`. -/
structure NRUClasses where
  class0Index : Option Nat
  class1Index : Option Nat
  class2Index : Option Nat
  class3Index : Option Nat
deriving DecidableEq

/-- The classification step of the NRU scan. -/
def NRUClasses.record (c : NRUClasses) (pte : pte_t) (idx : Nat) : NRUClasses :=
  if !pte.referenced && !pte.modified then
    (if c.class0Index = none then { c with class0Index := some idx } else c)
  else if !pte.referenced && pte.modified then
    (if c.class1Index = none then { c with class1Index := some idx } else c)
  else if pte.referenced && !pte.modified then
    (if c.class2Index = none then { c with class2Index := some idx } else c)
  else
    (if c.class3Index = none then { c with class3Index := some idx } else c)

/-- The victim choice after the NRU scan: the lowest class that has a frame. -/
def NRUClasses.victim (c : NRUClasses) : Option Nat :=
  match c.class0Index, c.class1Index, c.class2Index, c.class3Index with
  | some i, _, _, _ => some i
  | none, some i, _, _ => some i
  | none, none, some i, _ => some i
  | none, none, none, r => r

/-- The scan loop of `NRUPager::select_victim_frame`: `k` more rounds from loop
counter `i` on. -/
def NRUPager.scan (reset : Bool) : Nat → Nat → NRUClasses → State → Option (NRUClasses × State)
  | 0, _, c, s => some (c, s)
  | k + 1, i, c, s => do
    let idx := (s.hand + i) % s.frame_table.length
    let frame ← s.frame_table[idx]?
    let p ← idx? frame.process_id
    let v ← idx? frame.virtual_page
    let pte ← s.pte? p v
    let c1 := c.record pte idx
    let s1 := if reset then s.modPte p v (fun e => { e with referenced := false }) else s
    if !reset && c1.class0Index != none then pure (c1, s1)
    else NRUPager.scan reset k (i + 1) c1 s1

/-- The member `NRUPager::select_victim_frame`; `RESET_INTERVAL` is 48. -/
def NRUPager.select_victim_frame (s : State) : Option (Nat × State) := do
  let reset := decide (subU64 s.inst_count s.lastReset ≥ 48)
  let s0 := if reset then { s with lastReset := s.inst_count } else s
  let (c, s1) ← NRUPager.scan reset s0.frame_table.length 0
    { class0Index := none, class1Index := none, class2Index := none, class3Index := none } s0
  let victimIndex ← c.victim
  let _ ← s1.frame_table[victimIndex]?
  if s1.frame_table.length = 0 then none
  else pure (victimIndex, { s1 with hand := (victimIndex + 1) % s1.frame_table.length })

/-- The virtual call `THE_PAGER->select_victim_frame(...)`. -/
def select_victim_frame (s : State) : Option (Nat × State) :=
  match s.algo with
  | Algo.fifo => FIFOPager.select_victim_frame s
  | Algo.random => RandomPager.select_victim_frame s
  | Algo.clock => ClockPager.select_victim_frame s
  | Algo.nru => NRUPager.select_victim_frame s
  | Algo.aging => AgingPager.select_victim_frame s
  | Algo.workingSet => WorkingSetPager.select_victim_frame s

/-- The function `get_frame`. -/
def get_frame (s : State) : Option (Nat × State) :=
  match s.free_frames with
  | f :: rest => some (f, { s with free_frames := rest })
  | [] => select_victim_frame s

/-! ## Page faults, process exit and the driver -/

/-- The range test shared by `isValidPage` and `handle_page_fault`. -/
def VMA.covers (vma : VMA) (vpage : Int) : Bool :=
  decide (vpage ≥ vma.start_vpage) && decide (vpage ≤ vma.end_vpage)

/-- The function `isValidPage(vpage, proc)`. -/
def isValidPage (vpage : Int) (proc : Process) : Bool :=
  proc.vmas.any (fun vma => vma.covers vpage)

/-- The loop at the head of `handle_page_fault`: the first VMA of the current
process `P` that covers `vpage` gives the faulting entry its `file_mapped` bit.
The result is the state in which `get_frame` is called. -/
def faultEntry (s : State) (cp : Nat) (vpage : Int) (vp : Nat) (P : Process) : State :=
  match P.vmas.find? (fun vma => vma.covers vpage) with
  | some vma => s.modPte cp vp (fun e => { e with file_mapped := vma.file_mapped })
  | none => s

/-- The function `handle_page_fault(frame_table, processes, current_process, vpage)`;
`cp` is the index of `current_process`. -/
def handle_page_fault (s : State) (cp : Nat) (vpage : Int) : Option State := do
  let P ← s.processes[cp]?
  let vp ← idx? vpage
  let _ ← P.page_table[vp]?
  let s1 := faultEntry s cp vpage vp P
  let (fi, s2) ← get_frame s1
  let frame ← s2.frame_table[fi]?
  let s3 ←
    if frame.process_id != -1 && frame.virtual_page != -1 then do
      let owner ← idx? frame.process_id
      let _ ← s2.processes[owner]?
      let u ← unmap s2 fi owner
      out u fi owner
    else pure s2
  let pte ← s3.pte? cp vp
  let s4 :=
    if pte.file_mapped then fin s3 fi cp
    else if pte.paged_out then pageIn s3 fi cp
    else zero s3 fi cp
  let s5 ← map s4 fi vpage cp
  pure (s5.modPte cp vp (fun e => { e with present := true, frame_number := fi % 128 }))

/-- The loop of `process_exit` over the page table of process `p`: `k` more
entries from page `v` on. -/
def process_exit.loop (p : Nat) : Nat → Nat → State → Option State
  | 0, _, s => some s
  | k + 1, v, s => do
    let s1 := s.modPte p v (fun e => { e with paged_out := false })
    let pte ← s1.pte? p v
    if pte.present then
      let _ ← s1.frame_table[pte.frame_number]?
      let s2 ← unmap2 s1 pte.frame_number p
      process_exit.loop p k (v + 1)
        { s2 with free_frames := s2.free_frames ++ [pte.frame_number], exitloop := false }
    else
      process_exit.loop p k (v + 1) s1

/-- The function `process_exit(process, frame_table)`. -/
def process_exit (s : State) (p : Nat) : Option State := do
  let P ← s.processes[p]?
  process_exit.loop p P.page_table.length 0 (emit { s with exitloop := true } (Event.EXIT P.pid))

/-- The two counter increments that open the `SEGV` branch and the `r`/`w`
branch of `simulate`. -/
def countAccess (s0 : State) : State :=
  { s0 with inst_count := s0.inst_count + 1, rwcount := s0.rwcount + 1 }

/-- The end of the `r`/`w` branch of `simulate`, from `pte.referenced = 1` on:
the page `vp` of process `cp` is present by now. -/
def touch (s2 : State) (command : Char) (cp vp : Nat) : Option State := do
  let s3 := s2.modPte cp vp (fun e => { e with referenced := true })
  if command = 'w' then
    let pte3 ← s3.pte? cp vp
    if !pte3.write_protect then
      let s4 := s3.modPte cp vp (fun e => { e with modified := true })
      let _ ← s4.frame_table[pte3.frame_number]?
      pure (s4.modFrame pte3.frame_number (fun f => { f with dirty := true }))
    else
      pure ((emit s3 Event.SEGPROT).modStats cp
        (fun st => { st with segprot := st.segprot + 1 }))
  else pure s3

/-- The `r`/`w` branch of `simulate` after its counter increments; `cp` is the
index `currentProcess` points at. -/
def access (s1 : State) (command : Char) (cp : Nat) (vpage : Int) : Option State := do
  let vp ← idx? vpage
  let pte ← s1.pte? cp vp
  let s2 ← if !pte.present then handle_page_fault s1 cp vpage else pure s1
  touch s2 command cp vp

/-- The increment `inst_count++` that opens the `c` branch and the `e` branch of
`simulate`. -/
def countInst (s0 : State) : State :=
  { s0 with inst_count := s0.inst_count + 1 }

/-- One round of the loop of `simulate`, for the instruction `command vpage`. -/
def step (s : State) (command : Char) (vpage : Int) : Option State :=
  let s0 := emit s (Event.instr s.inst_count command vpage)
  if command = 'c' then
    let s1 := countInst s0
    if vpage ≥ 0 ∧ vpage < s1.processes.length then
      some { s1 with currentProcess := some vpage.toNat, ctx_switches := s1.ctx_switches + 1 }
    else some s1
  else if command = 'e' then
    let s1 := countInst s0
    if s1.currentProcess.isSome ∧ vpage < s1.processes.length ∧ vpage ≥ 0 then do
      let s2 ← process_exit s1 vpage.toNat
      pure { s2 with process_exits := s2.process_exits + 1 }
    else some s1
  else
    match s0.currentProcess with
    | none =>
      -- `currentProcess` is null: the validity test is skipped and `r`/`w` dereference it
      if command = 'r' ∨ command = 'w' then none else some s0
    | some cp => do
      let P ← s0.processes[cp]?
      if !isValidPage vpage P then
        pure ((emit (countAccess s0) Event.SEGV).modStats cp
          (fun st => { st with segv := st.segv + 1 }))
      else if command = 'r' ∨ command = 'w' then access (countAccess s0) command cp vpage
      else some s0

/-- An instruction line of the trace: the opcode character and its operand. -/
structure Instr where
  command : Char
  operand : Int
deriving DecidableEq

/-- The function `simulate`: the rounds of its loop over the instructions. -/
def simulate : State → List Instr → Option State
  | s, [] => some s
  | s, i :: rest => do
    let s1 ← step s i.command i.operand
    simulate s1 rest

/-! ## Start-up -/

/-- What `main` reads before the simulation: `-f`, `-a`, the `O` option, the VMA
lines of every process, and the numbers of the random file. -/
structure Config where
  numFrames : Nat
  algo : Algo
  o_flag : Bool
  procs : List (List VMA)
  randvals : List Int

/-- The loop of `Process::addVMA` over the pages `i .. i + k - 1`. -/
def addVMA.loop (wp fm : Bool) : Nat → Int → List pte_t → Option (List pte_t)
  | 0, _, pt => some pt
  | k + 1, i, pt => do
    let j ← idx? i
    let _ ← pt[j]?
    addVMA.loop wp fm k (i + 1)
      (updateAt (fun e => { e with write_protect := wp, file_mapped := fm }) j pt)

/-- The member `Process::addVMA(start, end, wp, fm)`. -/
def Process.addVMA (P : Process) (vma : VMA) : Option Process := do
  let pt ← addVMA.loop vma.write_protected vma.file_mapped
    (vma.end_vpage - vma.start_vpage + 1).toNat vma.start_vpage P.page_table
  pure { P with vmas := P.vmas ++ [vma], page_table := pt }

/-- The constructor `Process(id)`. -/
def Process.new (id : Int) : Process :=
  { pid := id, vmas := [], page_table := List.replicate NUM_VIRTUAL_PAGES pte_t.zero,
    stats := ProcessStats.zero }

/-- The VMA loop of `load_processes` for one process. -/
def loadVMAs : Process → List VMA → Option Process
  | P, [] => some P
  | P, vma :: rest => do
    let P1 ← P.addVMA vma
    loadVMAs P1 rest

/-- The process loop of `load_processes`; `i` is the next pid. -/
def load_processes : Nat → List (List VMA) → Option (List Process)
  | _, [] => some []
  | i, vmas :: rest => do
    let P ← loadVMAs (Process.new i) vmas
    let Ps ← load_processes (i + 1) rest
    pure (P :: Ps)

/-- The globals as `main` sets them up around `load_processes`: all frames free
and in the free list, the pager at its start, all counters zero. -/
def initState (cfg : Config) (procs : List Process) : State :=
  { frame_table := List.replicate cfg.numFrames frame_t.fresh
    free_frames := List.range cfg.numFrames
    processes := procs
    algo := cfg.algo
    hand := 0
    lastReset := 0
    randvals := cfg.randvals
    ofs := 0
    inst_count := 0
    exitloop := false
    ctx_switches := 0
    process_exits := 0
    rwcount := 0
    currentProcess := none
    o_flag := cfg.o_flag
    output := [] }

/-- The state `main` has built when it calls `simulate`; `none` when `main`
rejects the frame count. -/
def init (cfg : Config) : Option State :=
  if cfg.numFrames = 0 ∨ cfg.numFrames > 128 then none
  else do
    let procs ← load_processes 0 cfg.procs
    pure (initState cfg procs)

/-- A whole run of the program on a configuration and a trace. -/
def run (cfg : Config) (trace : List Instr) : Option State := do
  let s ← init cfg
  simulate s trace

/-! ## Well-formed inputs -/

/-- Two VMAs share no page. -/
def VMA.disjoint (a b : VMA) : Prop :=
  a.end_vpage < a.start_vpage ∨ b.end_vpage < b.start_vpage ∨
    a.end_vpage < b.start_vpage ∨ b.end_vpage < a.start_vpage

/-- The VMAs of one process lie inside pages 0..63 and are pairwise disjoint. -/
def WFVMAs (vmas : List VMA) : Prop :=
  (∀ vma ∈ vmas, 0 ≤ vma.start_vpage ∧ vma.end_vpage ≤ 63) ∧ vmas.Pairwise VMA.disjoint

/-- A well-formed configuration: 1 to 128 frames, well-formed VMAs. -/
def WFConfig (cfg : Config) : Prop :=
  1 ≤ cfg.numFrames ∧ cfg.numFrames ≤ 128 ∧ ∀ vmas ∈ cfg.procs, WFVMAs vmas

/-- The random file suits the Random policy: it is not empty and holds no
negative number. -/
def WFRandom (cfg : Config) : Prop :=
  cfg.algo = Algo.random → cfg.randvals ≠ [] ∧ ∀ x ∈ cfg.randvals, 0 ≤ x

/-- A well-formed instruction for `nprocs` processes. -/
def WFInstr (nprocs : Nat) (i : Instr) : Prop :=
  ((i.command = 'c' ∨ i.command = 'e') ∧ 0 ≤ i.operand ∧ i.operand < nprocs) ∨
    ((i.command = 'r' ∨ i.command = 'w') ∧ 0 ≤ i.operand ∧ i.operand ≤ 63)

/-- A well-formed trace: well-formed instructions, the first one a `c`. -/
def WFTrace (nprocs : Nat) (t : List Instr) : Prop :=
  (∀ i ∈ t, WFInstr nprocs i) ∧ ∀ i, t.head? = some i → i.command = 'c'

/-! ## Invariants -/

/-- A frame that is marked free. -/
def FreeFrame (f : frame_t) : Prop :=
  f.process_id = -1 ∧ f.virtual_page = -1 ∧ f.dirty = false

/-- Frame `i` is held by a present page table entry that points back at it and
whose modified bit is the frame's dirty flag. -/
def Owned (s : State) (i : Nat) (f : frame_t) : Prop :=
  ∃ (p v : Nat) (pte : pte_t), f.process_id = (p : Int) ∧ f.virtual_page = (v : Int) ∧
    s.pte? p v = some pte ∧ pte.present = true ∧ pte.frame_number = i ∧
    pte.modified = f.dirty

/-- The counters of a process agree with its page table. -/
def StatsOK (P : Process) : Prop :=
  P.stats.maps = P.stats.unmaps + P.page_table.countP (fun e => e.present) ∧
    P.stats.ins + P.stats.fins + P.stats.zeros = P.stats.maps ∧
    P.stats.outs + P.stats.fouts ≤ P.stats.unmaps

/-- The invariant of the simulator.  With `hole = some h` frame `h` is in
transit inside `handle_page_fault`: marked free but not in the free list. -/
structure InvH (hole : Option Nat) (s : State) : Prop where
  nframes : 0 < s.frame_table.length ∧ s.frame_table.length ≤ 128
  procs : ∀ (p : Nat) (P : Process), s.processes[p]? = some P →
    P.pid = (p : Int) ∧ P.page_table.length = 64 ∧ StatsOK P
  frames : ∀ (i : Nat) (f : frame_t), s.frame_table[i]? = some f →
    (FreeFrame f ∧ (i ∈ s.free_frames ↔ hole ≠ some i)) ∨
      (Owned s i f ∧ i ∉ s.free_frames ∧ hole ≠ some i)
  ptes : ∀ (p v : Nat) (pte : pte_t), s.pte? p v = some pte → pte.present = true →
    ∃ f, s.frame_table[pte.frame_number]? = some f ∧ f.process_id = (p : Int) ∧
      f.virtual_page = (v : Int)
  clean : ∀ (p v : Nat) (pte : pte_t), s.pte? p v = some pte →
    (pte.present = false → pte.modified = false ∧ pte.frame_number = 0) ∧
      (pte.write_protect = true → pte.modified = false)
  vmas : ∀ (p : Nat) (P : Process) (vma : VMA) (v : Int), s.processes[p]? = some P →
    vma ∈ P.vmas → vma.covers v = true →
    (0 ≤ v ∧ P.vmas.find? (fun a => a.covers v) = some vma) ∧
      ∃ pte, P.page_table[v.toNat]? = some pte ∧ pte.write_protect = vma.write_protected
  free_nodup : s.free_frames.Nodup
  free_lt : ∀ i ∈ s.free_frames, i < s.frame_table.length
  hole_lt : ∀ h : Nat, hole = some h → h < s.frame_table.length
  hand_lt : s.hand < s.frame_table.length
  cur : ∀ cp : Nat, s.currentProcess = some cp → cp < s.processes.length
  rand : s.algo = Algo.random → s.randvals ≠ [] → s.ofs < s.randvals.length

/-- The invariant between two instructions. -/
def Inv (s : State) : Prop := InvH none s

/-- The random table suits the Random policy: under that policy it is not empty
and holds no negative number. -/
def RandFile (s : State) : Prop :=
  s.algo = Algo.random → s.randvals ≠ [] ∧ ∀ x ∈ s.randvals, 0 ≤ x

/-- The part of a page table entry no policy may write. -/
def pte_t.core (e : pte_t) : pte_t := { e with referenced := false }

/-- The part of a frame no policy may write. -/
def frame_t.core (f : frame_t) : frame_t := { f with age := 0, age_ := 0 }

/-- A process with its page table entries reduced to their cores. -/
def Process.core (P : Process) : Process := { P with page_table := P.page_table.map pte_t.core }

/-- The part of the state outside the reach of the policies: everything but the
referenced bits, the frame ages, the pager members and the random cursor. -/
def State.core (s : State) : State :=
  { s with frame_table := s.frame_table.map frame_t.core,
           processes := s.processes.map Process.core,
           hand := 0, lastReset := 0, ofs := 0 }

/-- The fields of a page table entry the invariant reads. -/
def pte_t.skel (e : pte_t) : pte_t :=
  { e with referenced := false, file_mapped := false, paged_out := false }

/-- The fields of the counters the invariant reads. -/
def ProcessStats.skel (st : ProcessStats) : ProcessStats := { st with segv := 0, segprot := 0 }

/-- A process reduced to what the invariant reads. -/
def Process.skel (P : Process) : Process :=
  { P with page_table := P.page_table.map pte_t.skel, stats := P.stats.skel }

/-- The views of frames and processes the invariant reads. -/
def State.skel (s : State) : List frame_t × List Process :=
  (s.frame_table.map frame_t.core, s.processes.map Process.skel)

/-- The update of one process: its counters and one page table entry. -/
def Process.upd (gs : ProcessStats → ProcessStats) (v : Nat) (g : pte_t → pte_t)
    (P : Process) : Process :=
  { P with stats := gs P.stats, page_table := updateAt g v P.page_table }

/-- The frame after `unmap`/`unmap2`. -/
def unmapFrame (f : frame_t) : frame_t :=
  { f with process_id := -1, virtual_page := -1, dirty := false }

/-- The page table entry after `unmap`; `swap` tells whether `OUT` was done. -/
def unmapPte (swap : Bool) (e : pte_t) : pte_t :=
  { e with present := false, modified := false, frame_number := 0,
           paged_out := e.paged_out || swap }

/-- The counters after `unmap`; `swap`/`fout` tell whether `OUT`/`FOUT` was done. -/
def unmapStats (swap fout : Bool) (st : ProcessStats) : ProcessStats :=
  { st with unmaps := st.unmaps + 1, outs := st.outs + (if swap then 1 else 0),
            fouts := st.fouts + (if fout then 1 else 0) }

/-- Two states agree on everything but the frame table, the process table and
the output. -/
structure SameRest (s s' : State) : Prop where
  free_frames : s'.free_frames = s.free_frames
  hand : s'.hand = s.hand
  algo : s'.algo = s.algo
  randvals : s'.randvals = s.randvals
  ofs : s'.ofs = s.ofs
  currentProcess : s'.currentProcess = s.currentProcess
  lastReset : s'.lastReset = s.lastReset
  inst_count : s'.inst_count = s.inst_count
  exitloop : s'.exitloop = s.exitloop
  ctx_switches : s'.ctx_switches = s.ctx_switches
  process_exits : s'.process_exits = s.process_exits
  rwcount : s'.rwcount = s.rwcount
  o_flag : s'.o_flag = s.o_flag

/-- The frame after the page-in routine and `map`; `keep` is false when `in` or
`fin` cleared the dirty flag. -/
def mapFrame (pid vpage : Int) (inst : Nat) (keep : Bool) (f : frame_t) : frame_t :=
  { process_id := pid, virtual_page := vpage, dirty := keep && f.dirty, age := 0,
    age_ := inst % 4294967296 }

/-- The page table entry after `map`. -/
def mapPte (fi : Nat) (e : pte_t) : pte_t :=
  { e with present := true, frame_number := fi % 128 }

/-- The counters after the page-in routine and `map`, for a faulting entry with
the given `file_mapped` and `paged_out` bits. -/
def mapStats (fm po : Bool) (st : ProcessStats) : ProcessStats :=
  { st with maps := st.maps + 1, fins := st.fins + (if fm then 1 else 0),
            ins := st.ins + (if !fm && po then 1 else 0),
            zeros := st.zeros + (if !fm && !po then 1 else 0) }

/-- The line the page-in routine prints for a faulting entry with the given
`file_mapped` and `paged_out` bits. -/
def pageInEvent (fm po : Bool) : Event :=
  if fm then Event.FIN else if po then Event.IN else Event.ZERO

/-- Every frame has a tenant entry that can be looked up. -/
def Tenants (s : State) : Prop :=
  ∀ (i : Nat) (f : frame_t), s.frame_table[i]? = some f →
    ∃ (p v : Nat) (e : pte_t), f.process_id = (p : Int) ∧ f.virtual_page = (v : Int) ∧
      s.pte? p v = some e

/-- What every policy guarantees about its result `r` when called in state `s`:
only policy-owned data changed, the victim is a frame index, the cursors stay in
range. -/
def PolicyResult (s : State) (r : Nat × State) : Prop :=
  r.2.core = s.core ∧ r.1 < s.frame_table.length ∧ r.2.hand < r.2.frame_table.length ∧
    (r.2.ofs = s.ofs ∨ r.2.ofs < r.2.randvals.length)

/-- The referenced bit of the tenant entry of frame `i`. -/
def refAt (s : State) (i : Nat) : Bool :=
  match s.frame_table[i]? with
  | none => false
  | some f =>
    match idx? f.process_id, idx? f.virtual_page with
    | some p, some v =>
      match s.pte? p v with
      | some e => e.referenced
      | none => false
    | _, _ => false

/-- The number of frames whose tenant entry is referenced. -/
def refCount (s : State) : Nat :=
  ((Finset.range s.frame_table.length).filter (fun i => refAt s i = true)).card

/-- A loop round of a policy: only policy-owned data changed, cursors kept. -/
def StepOK (s s' : State) : Prop :=
  s'.core = s.core ∧ s'.hand = s.hand ∧ s'.ofs = s.ofs

/-- Every index recorded in the class table is below `n`. -/
def ClassesBelow (n : Nat) (c : NRUClasses) : Prop :=
  (∀ i, c.class0Index = some i → i < n) ∧ (∀ i, c.class1Index = some i → i < n) ∧
    (∀ i, c.class2Index = some i → i < n) ∧ (∀ i, c.class3Index = some i → i < n)

/-- The `file_mapped` bit `handle_page_fault` gives the faulting entry `e` of
process `P` for page `vp`: that of the first covering VMA, if there is one. -/
def faultBit (P : Process) (vp : Nat) (e : pte_t) : Bool :=
  match P.vmas.find? (fun vma => vma.covers (vp : Int)) with
  | some vma => vma.file_mapped
  | none => e.file_mapped

/-- The page table entry after `process_exit` has passed it. -/
def resetPte (e : pte_t) : pte_t :=
  { e with present := false, modified := false, paged_out := false, frame_number := 0 }

/-- The dirty flag of the frame an entry points at. -/
def dirtyAt (s : State) (e : pte_t) : Bool :=
  match s.frame_table[e.frame_number]? with
  | some f => f.dirty
  | none => false

/-- The frame after `process_exit` has handled the first `v` pages of process
`p`. -/
def exitFrame (p v : Nat) (f : frame_t) : frame_t :=
  if f.process_id = (p : Int) ∧ f.virtual_page < (v : Int) then unmapFrame f else f

/-- The counters of the exiting process after its first `v` pages are handled;
`s0` and `P0` are the state and the process at the start of the exit. -/
def exitStats (s0 : State) (P0 : Process) (v : Nat) : ProcessStats :=
  { P0.stats with
    unmaps := P0.stats.unmaps + (P0.page_table.take v).countP (fun e => e.present),
    fouts := P0.stats.fouts +
      (P0.page_table.take v).countP (fun e => e.present && e.file_mapped && dirtyAt s0 e) }

/-- The state `s` of the loop of `process_exit` for process `p` when the pages
below `v` are handled; `s0` is the state at the start of the exit and `P0` the
process then. -/
structure ExitProgress (s0 : State) (p : Nat) (P0 : Process) (v : Nat) (s : State) : Prop where
  others : ∀ q : Nat, q ≠ p → s.processes[q]? = s0.processes[q]?
  proc : ∃ P, s.processes[p]? = some P ∧ P.pid = P0.pid ∧ P.vmas = P0.vmas ∧
    P.page_table.length = P0.page_table.length ∧
    (∀ j : Nat, j < v → P.page_table[j]? = (P0.page_table[j]?).map resetPte) ∧
    (∀ j : Nat, v ≤ j → P.page_table[j]? = P0.page_table[j]?) ∧
    P.stats = exitStats s0 P0 v
  frames : ∀ i : Nat, s.frame_table[i]? = (s0.frame_table[i]?).map (exitFrame p v)
  free : s.free_frames = s0.free_frames ++
    ((P0.page_table.take v).filter (fun e => e.present)).map (fun e => e.frame_number)
  hand : s.hand = s0.hand
  algo : s.algo = s0.algo
  randvals : s.randvals = s0.randvals
  ofs : s.ofs = s0.ofs
  currentProcess : s.currentProcess = s0.currentProcess
  lastReset : s.lastReset = s0.lastReset
  inst_count : s.inst_count = s0.inst_count
  ctx_switches : s.ctx_switches = s0.ctx_switches
  process_exits : s.process_exits = s0.process_exits
  rwcount : s.rwcount = s0.rwcount
  o_flag : s.o_flag = s0.o_flag

/-- An entry as the constructor `pte_t()` leaves it, but for the two VMA bits. -/
def Blank (e : pte_t) : Prop :=
  e.present = false ∧ e.modified = false ∧ e.frame_number = 0 ∧ e.paged_out = false

/-- A VMA of `P` that covers a page is the only one that does (the first one the
loop of `handle_page_fault` meets), and the write-protect bits of the page table
of `P` are those of its VMAs. -/
def GoodVmas (P : Process) : Prop :=
  ∀ (vma : VMA) (v : Int), vma ∈ P.vmas → vma.covers v = true →
    (0 ≤ v ∧ P.vmas.find? (fun a => a.covers v) = some vma) ∧
      ∃ pte, P.page_table[v.toNat]? = some pte ∧ pte.write_protect = vma.write_protected

/-- The ownership invariant: (a) every occupied frame has a present tenant entry
that points back at it, (b) every present entry points at a frame that names the
entry's process and page. -/
def Ownership (s : State) : Prop :=
  (∀ (i : Nat) (f : frame_t), s.frame_table[i]? = some f → f.process_id ≠ -1 →
    ∃ (p v : Nat) (pte : pte_t), f.process_id = (p : Int) ∧ f.virtual_page = (v : Int) ∧
      s.pte? p v = some pte ∧ pte.present = true ∧ pte.frame_number = i) ∧
  (∀ (p v : Nat) (pte : pte_t), s.pte? p v = some pte → pte.present = true →
    ∃ f, s.frame_table[pte.frame_number]? = some f ∧ f.process_id = (p : Int) ∧
      f.virtual_page = (v : Int))

/-- The free-list invariant: a frame is in the free list exactly when it is
marked free, no frame is listed twice, and with an empty free list every frame
is occupied. -/
def FreeListOK (s : State) : Prop :=
  (∀ (i : Nat) (f : frame_t), s.frame_table[i]? = some f →
    (i ∈ s.free_frames ↔ f.process_id = -1)) ∧
  s.free_frames.Nodup ∧
  (s.free_frames = [] → ∀ (i : Nat) (f : frame_t), s.frame_table[i]? = some f →
    f.process_id ≠ -1)

/-- Configuration of the C1 witness: two frames, Random policy, one process with
the VMA `0 5 0 0`, and the random file `3 1 4`. -/
def cfgC1w : Config :=
  { numFrames := 2, algo := Algo.random, o_flag := false,
    procs := [[{ start_vpage := 0, end_vpage := 5, write_protected := false,
                 file_mapped := false }]],
    randvals := [3, 1, 4] }

/-- Trace of the C1 witness: `c 0 / r 0 / r 1 / r 2`. -/
def traceC1 : List Instr := [⟨'c', 0⟩, ⟨'r', 0⟩, ⟨'r', 1⟩, ⟨'r', 2⟩]

/-- Configuration of the C2 witness: one frame, Clock, one process with the VMA
`0 5 0 0`, and an empty random file. -/
def cfgC2w : Config :=
  { numFrames := 1, algo := Algo.clock, o_flag := false,
    procs := [[{ start_vpage := 0, end_vpage := 5, write_protected := false,
                 file_mapped := false }]],
    randvals := [] }

/-- Trace of the C2 witness: `c 0 / r 0 / r 1`. -/
def traceC2 : List Instr := [⟨'c', 0⟩, ⟨'r', 0⟩, ⟨'r', 1⟩]

/-- Configuration of the C9 witness: two frames, NRU, one process with the VMA
`0 5 0 0`, and the random file `3 -7`, which NRU does not read. -/
def cfgC9w : Config :=
  { numFrames := 2, algo := Algo.nru, o_flag := false,
    procs := [[{ start_vpage := 0, end_vpage := 5, write_protected := false,
                 file_mapped := false }]],
    randvals := [3, -7] }

/-- Trace of the C9 witness: `c 0 / w 0 / w 1 / w 2 / w 3`. -/
def traceC9 : List Instr := [⟨'c', 0⟩, ⟨'w', 0⟩, ⟨'w', 1⟩, ⟨'w', 2⟩, ⟨'w', 3⟩]

/-- Configuration of the C10 examples: one frame, FIFO, one process with the VMA
`0 1 0 0`, an empty random file. -/
def cfgC10 : Config :=
  { numFrames := 1, algo := Algo.fifo, o_flag := false,
    procs := [[{ start_vpage := 0, end_vpage := 1, write_protected := false,
                 file_mapped := false }]],
    randvals := [] }

/-- Trace of the C10 examples: `c 0 / w 0 / w 1`. -/
def traceC10 : List Instr := [⟨'c', 0⟩, ⟨'w', 0⟩, ⟨'w', 1⟩]

/-- Configuration of the C3 evaluation: one frame, FIFO, two processes, each with
the VMA `0 1 0 0`. -/
def cfgC3 : Config :=
  { numFrames := 1, algo := Algo.fifo, o_flag := true,
    procs := [[{ start_vpage := 0, end_vpage := 1, write_protected := false,
                 file_mapped := false }],
              [{ start_vpage := 0, end_vpage := 1, write_protected := false,
                 file_mapped := false }]],
    randvals := [] }

/-- Trace of the C3 evaluation: `c 0 / e 0 / c 1 / w 0 / w 1`. -/
def traceC3 : List Instr := [⟨'c', 0⟩, ⟨'e', 0⟩, ⟨'c', 1⟩, ⟨'w', 0⟩, ⟨'w', 1⟩]

/-- The events printed so far, without the instruction echoes. -/
def eventsOf (s : State) : List Event :=
  s.output.filter (fun ev => match ev with
    | Event.instr _ _ _ => false
    | _ => true)

/-- Process of the C7 witness: pid 0, VMA `0 3 0 0`, blank page table. -/
def procC7 : Process :=
  { pid := 0
    vmas := [{ start_vpage := 0, end_vpage := 3, write_protected := false,
               file_mapped := false }]
    page_table := List.replicate NUM_VIRTUAL_PAGES pte_t.zero
    stats := ProcessStats.zero }

/-- State of the C7 witness: two free frames, the one process `procC7`, current. -/
def stateC7 : State :=
  { initState { numFrames := 2, algo := Algo.fifo, o_flag := false, procs := [],
                randvals := [] } [procC7] with
    currentProcess := some 0 }

/-- A reachable state: the state after the last instruction of a well-formed run
(any of the six policies, any random file) that did not get stuck. -/
def Reachable (s : State) : Prop :=
  ∃ (cfg : Config) (trace : List Instr), WFConfig cfg ∧ WFTrace cfg.procs.length trace ∧
    run cfg trace = some s

/-- An entry that `process_exit` has reset. -/
def ResetEntry (e : pte_t) : Prop :=
  e.present = false ∧ e.modified = false ∧ e.paged_out = false ∧ e.frame_number = 0

/-- Configuration of scenario S5: one frame, FIFO, one process with the VMA
`0 0 0 0`. -/
def cfgS5 : Config :=
  { numFrames := 1, algo := Algo.fifo, o_flag := true,
    procs := [[{ start_vpage := 0, end_vpage := 0, write_protected := false,
                 file_mapped := false }]],
    randvals := [] }

/-- Trace of scenario S5: `c 0 / w 0 / e 0`. -/
def traceS5 : List Instr := [⟨'c', 0⟩, ⟨'w', 0⟩, ⟨'e', 0⟩]

/-- The state in which `simulate` calls `handle_page_fault`: a reachable state
`s0` after the echo of an instruction (opcode `c`, operand `v`) and the
increments of `inst_count` and `rw_count`. -/
def AccessState (s : State) : Prop :=
  ∃ (s0 : State) (c : Char) (v : Int), Reachable s0 ∧
    s = countAccess (emit s0 (Event.instr s0.inst_count c v))

/-- Configuration of the C4 witness: two frames, FIFO, one process with the
file-mapped VMA `0 3 0 1`. -/
def cfgC4w : Config :=
  { numFrames := 2, algo := Algo.fifo, o_flag := false,
    procs := [[{ start_vpage := 0, end_vpage := 3, write_protected := false,
                 file_mapped := true }]],
    randvals := [] }

/-- Configuration of the first C4 counterexample: two frames, Random policy, one
process with the VMA `0 5 0 0`, and the random file `-1`. -/
def cfgC4 : Config :=
  { numFrames := 2, algo := Algo.random, o_flag := false,
    procs := [[{ start_vpage := 0, end_vpage := 5, write_protected := false,
                 file_mapped := false }]],
    randvals := [-1] }

/-- Configuration of the second C4 counterexample: one frame, FIFO, one process
with the VMA `0 0 0 0`. -/
def cfgC4b : Config :=
  { numFrames := 1, algo := Algo.fifo, o_flag := false,
    procs := [[{ start_vpage := 0, end_vpage := 0, write_protected := false,
                 file_mapped := false }]],
    randvals := [] }

/-- The instruction `c 0`. -/
def ctx0 : Instr := ⟨'c', 0⟩

/-- Configuration of scenario S4: four frames, FIFO, process 0 with the
write-protected VMA `0 3 1 0`, process 1 with the file-mapped VMA `0 3 0 1`. -/
def cfgS4 : Config :=
  { numFrames := 4, algo := Algo.fifo, o_flag := true,
    procs := [[{ start_vpage := 0, end_vpage := 3, write_protected := true,
                 file_mapped := false }],
              [{ start_vpage := 0, end_vpage := 3, write_protected := false,
                 file_mapped := true }]],
    randvals := [] }

/-- Trace of scenario S4: `c 0 / w 0 / c 1 / w 0 / w 0`. -/
def traceS4 : List Instr := [⟨'c', 0⟩, ⟨'w', 0⟩, ⟨'c', 1⟩, ⟨'w', 0⟩, ⟨'w', 0⟩]

/-- Configuration of the C8 counterexample: one frame, Random policy, an empty
random file, one process with the write-protected VMA `0 1 1 0`. -/
def cfgC8 : Config :=
  { numFrames := 1, algo := Algo.random, o_flag := false,
    procs := [[{ start_vpage := 0, end_vpage := 1, write_protected := true,
                 file_mapped := false }]],
    randvals := [] }

/-- The state after a `w` to a present page whose entry is write-protected. -/
def segprotState (s : State) (cp vp : Nat) : State :=
  (emit (s.modPte cp vp (fun e => { e with referenced := true })) Event.SEGPROT).modStats cp
    (fun st => { st with segprot := st.segprot + 1 })

/-- The member `ProcessStats::computeTotalCost`.  The counters and the sum are
64-bit values; like the counters themselves the sum is kept as a natural number
(it grows by less than `2^18` per instruction). -/
def ProcessStats.computeTotalCost (st : ProcessStats) : Nat :=
  st.maps * 350 + st.unmaps * 410 + st.ins * 3200 + st.outs * 2750 +
    st.fins * 2350 + st.fouts * 2800 + st.zeros * 150 + st.segv * 440 + st.segprot * 410

/-- The computation of `total_cost` at the end of `main`, on the state `simulate`
leaves: the loop over the processes, then the three `+=`. -/
def total_cost (s : State) : Nat :=
  let c0 := s.processes.foldl (fun acc proc => acc + proc.stats.computeTotalCost) 0
  let c1 := c0 + s.rwcount
  let c2 := c1 + s.ctx_switches * 130
  c2 + s.process_exits * 1230

/-- Configuration of scenario S1: one frame, FIFO, one process with the VMA
`0 0 0 0`. -/
def cfgS1 : Config :=
  { numFrames := 1, algo := Algo.fifo, o_flag := true,
    procs := [[{ start_vpage := 0, end_vpage := 0, write_protected := false,
                 file_mapped := false }]],
    randvals := [] }

/-- Trace of scenario S1: `c 0 / r 0 / r 0 / e 0`. -/
def traceS1 : List Instr := [⟨'c', 0⟩, ⟨'r', 0⟩, ⟨'r', 0⟩, ⟨'e', 0⟩]

/-- Configuration of scenario S2: two frames, Clock, one process with the VMA
`0 2 0 0`. -/
def cfgS2 : Config :=
  { numFrames := 2, algo := Algo.clock, o_flag := true,
    procs := [[{ start_vpage := 0, end_vpage := 2, write_protected := false,
                 file_mapped := false }]],
    randvals := [] }

/-- Trace of scenario S2: `c 0 / r 0 / r 1 / r 2 / r 0`. -/
def traceS2 : List Instr := [⟨'c', 0⟩, ⟨'r', 0⟩, ⟨'r', 1⟩, ⟨'r', 2⟩, ⟨'r', 0⟩]

/-- Configuration of scenario S3: three frames, Working-Set, one process with the
VMA `0 9 0 0`. -/
def cfgS3 : Config :=
  { numFrames := 3, algo := Algo.workingSet, o_flag := true,
    procs := [[{ start_vpage := 0, end_vpage := 9, write_protected := false,
                 file_mapped := false }]],
    randvals := [] }

/-- Trace of scenario S3: `c 0 / r 0 / r 1 / r 2`, fifty times `r 0`, then `r 3`. -/
def traceS3 : List Instr :=
  [⟨'c', 0⟩, ⟨'r', 0⟩, ⟨'r', 1⟩, ⟨'r', 2⟩] ++ List.replicate 50 ⟨'r', 0⟩ ++ [⟨'r', 3⟩]

/-- The value `temp_age` that the loop of `WorkingSetPager::select_victim_frame`
computes for frame `j` when it reaches it and the frame and its tenant entry are
as in `s`: 0 after the stamp of a referenced entry, else
`inst_count - age_` converted to `int`. -/
def tempAgeOf (s : State) (j : Nat) : Int :=
  match s.frame_table[j]? with
  | some f =>
    toInt32 (subU64 s.inst_count (if refAt s j then s.inst_count % 4294967296 else f.age_))
  | none => 0

/-- The state in which the fault of `r 3` calls `get_frame`, as a function of the
state `s0` before that instruction (process 0 is current). -/
def scanEntryS3 (s0 : State) : Option State :=
  s0.processes[0]?.map
    (fun P => faultEntry (countAccess (emit s0 (Event.instr s0.inst_count 'r' 3))) 0 3 3 P)

/-- State of the C20 counterexample: two frames, Random, the random table `-1`,
cursor 0. -/
def stateC20 : State :=
  initState { numFrames := 2, algo := Algo.random, o_flag := false, procs := [],
              randvals := [-1] } []

/-- State of the C20 witness: two frames, Random, the random table `7, 4`, cursor 1
(the entry 4). -/
def stateC20w : State :=
  { initState { numFrames := 2, algo := Algo.random, o_flag := false, procs := [],
                randvals := [7, 4] } [] with
    ofs := 1 }

/-- States of the C15 witness: the state before the `k`-th call of the FIFO policy
on three frames, with whatever the handler did in between (here: the instruction
counter moved on). -/
def statesC15 (k : Nat) : State :=
  { initState { numFrames := 3, algo := Algo.fifo, o_flag := false, procs := [],
                randvals := [] } [] with
    hand := k % 3, inst_count := 2 * k }

/-- The four global counters and the number of processes are the same in both
states. -/
def SameCounts (s s' : State) : Prop :=
  s'.inst_count = s.inst_count ∧ s'.rwcount = s.rwcount ∧
    s'.ctx_switches = s.ctx_switches ∧ s'.process_exits = s.process_exits ∧
    s'.processes.length = s.processes.length

/-- What one round of `simulate` for the instruction `c v` does to the four global
counters, from `s` to `s'`, when the operand of a `c` or `e` is a process index
and an `e`, `r` or `w` finds a current process. -/
def StepCounts (s : State) (c : Char) (v : Int) (s' : State) : Prop :=
  s'.processes.length = s.processes.length ∧
    (c = 'c' → 0 ≤ v → v < s.processes.length →
      s'.inst_count = s.inst_count + 1 ∧ s'.rwcount = s.rwcount ∧
        s'.ctx_switches = s.ctx_switches + 1 ∧ s'.process_exits = s.process_exits) ∧
    (c = 'e' → s.currentProcess.isSome = true → 0 ≤ v → v < s.processes.length →
      s'.inst_count = s.inst_count + 1 ∧ s'.rwcount = s.rwcount ∧
        s'.ctx_switches = s.ctx_switches ∧ s'.process_exits = s.process_exits + 1) ∧
    (c = 'r' ∨ c = 'w' → s.currentProcess.isSome = true →
      s'.inst_count = s.inst_count + 1 ∧ s'.rwcount = s.rwcount + 1 ∧
        s'.ctx_switches = s.ctx_switches ∧ s'.process_exits = s.process_exits)

/-- The number of instructions with opcode `c` in a trace. -/
def countCmd (c : Char) (t : List Instr) : Nat := t.countP (fun i => i.command = c)

/-- Configuration of the C12 witness: two frames, Random with the random file
`5 2`, one process with the VMA `0 1 0 0`. -/
def cfgC12 : Config :=
  { numFrames := 2, algo := Algo.random, o_flag := false,
    procs := [[{ start_vpage := 0, end_vpage := 1, write_protected := false,
                 file_mapped := false }]],
    randvals := [5, 2] }

/-- Trace of the C12 witness: `c 0 / r 0 / w 1 / r 2 / e 0`; the `r 2` is outside
the VMA and raises SEGV. -/
def traceC12 : List Instr := [⟨'c', 0⟩, ⟨'r', 0⟩, ⟨'w', 1⟩, ⟨'r', 2⟩, ⟨'e', 0⟩]

/-- The tenant entry of frame `i`,
`processes[frame.process_id].page_table[frame.virtual_page]`. -/
def tenantOf (s : State) (i : Nat) : Option pte_t :=
  match s.frame_table[i]? with
  | none => none
  | some f =>
    match idx? f.process_id, idx? f.virtual_page with
    | some p, some v => s.pte? p v
    | _, _ => none

/-- No two frames have the same tenant entry. -/
def DistinctTenants (s : State) : Prop :=
  ∀ (i j : Nat) (f g : frame_t), s.frame_table[i]? = some f → s.frame_table[j]? = some g →
    f.process_id = g.process_id → f.virtual_page = g.virtual_page → i = j

/-- Write through the tenant entry of frame `i`. -/
def modTenant (s : State) (i : Nat) (g : pte_t → pte_t) : State :=
  match s.frame_table[i]? with
  | none => s
  | some f =>
    match idx? f.process_id, idx? f.virtual_page with
    | some p, some v => s.modPte p v g
    | _, _ => s

/-- The entry with its referenced bit cleared. -/
def clearRef (e : pte_t) : pte_t := { e with referenced := false }

/-- The first `d` frame indices in ring order from `h`, for `N` frames:
`h, h+1, ..., h+d-1` modulo `N`. -/
def ringList (h N d : Nat) : List Nat := (List.range d).map (fun j => (h + j) % N)

/-- The state with the referenced bits of the tenants of the frames in `l`
cleared, one frame after the other. -/
def clearList (s : State) (l : List Nat) : State :=
  l.foldl (fun t i => modTenant t i clearRef) s

/-- A decidable form of `Tenants`: every frame has a tenant entry that can be
looked up. -/
def tenantsCheck (s : State) : Bool :=
  s.frame_table.all (fun f =>
    match idx? f.process_id, idx? f.virtual_page with
    | some p, some v => (s.pte? p v).isSome
    | _, _ => false)

/-- A process with the given page table, for the policy witnesses: pid 0, the VMA
`0 3 0 0`. -/
def procOf (pt : List pte_t) : Process :=
  { pid := 0
    vmas := [{ start_vpage := 0, end_vpage := 3, write_protected := false,
               file_mapped := false }]
    page_table := pt
    stats := ProcessStats.zero }

/-- A present entry in frame `fi` with the given referenced and modified bits. -/
def pteIn (fi : Nat) (r m : Bool) : pte_t :=
  { pte_t.zero with present := true, referenced := r, modified := m, frame_number := fi }

/-- State of the C16 witness: three frames holding pages 0, 1, 2 of process 0,
the pages 0 and 1 referenced, page 2 not, the hand at frame 1. -/
def stateC16 : State :=
  { initState { numFrames := 3, algo := Algo.clock, o_flag := false, procs := [],
                randvals := [] }
      [procOf [pteIn 0 true false, pteIn 1 true false, pteIn 2 false false]] with
    frame_table := [{ frame_t.fresh with process_id := 0, virtual_page := 0 },
                    { frame_t.fresh with process_id := 0, virtual_page := 1 },
                    { frame_t.fresh with process_id := 0, virtual_page := 2 }]
    free_frames := []
    hand := 1
    currentProcess := some 0 }

/-- The `age` member of frame `i`. -/
def ageAt (s : State) (i : Nat) : Nat :=
  match s.frame_table[i]? with
  | some f => f.age
  | none => 0

/-- State of the C18 witness: three frames holding pages 0, 1, 2 of process 0 with
the ages 8, 2, 2, no page referenced, the hand at frame 0. -/
def stateC18 : State :=
  { initState { numFrames := 3, algo := Algo.aging, o_flag := false, procs := [],
                randvals := [] }
      [procOf [pteIn 0 false false, pteIn 1 false false, pteIn 2 false false]] with
    frame_table := [{ frame_t.fresh with process_id := 0, virtual_page := 0, age := 8 },
                    { frame_t.fresh with process_id := 0, virtual_page := 1, age := 2 },
                    { frame_t.fresh with process_id := 0, virtual_page := 2, age := 2 }]
    free_frames := []
    hand := 0
    currentProcess := some 0 }

/-- The NRU class of an entry: 0 = not referenced, not modified; 1 = not
referenced, modified; 2 = referenced, not modified; 3 = referenced, modified. -/
def classOf (e : pte_t) : Nat :=
  (if e.referenced then 2 else 0) + (if e.modified then 1 else 0)

/-- The NRU class of frame `i`, read from its tenant entry. -/
def classAt (s : State) (i : Nat) : Nat :=
  match tenantOf s i with
  | some e => classOf e
  | none => 0

/-- The local `classNIndex` for class `k`. -/
def NRUClasses.get (c : NRUClasses) (k : Nat) : Option Nat :=
  match k with
  | 0 => c.class0Index
  | 1 => c.class1Index
  | 2 => c.class2Index
  | _ => c.class3Index

/-- The index recorded for class `k` after `i` rounds of the scan is that of the
first frame of class `k` among the first `i` frames in ring order, classes read
in the state `s`. -/
def RecOK (s : State) (i k : Nat) (o : Option Nat) : Prop :=
  (o = none → ∀ j, j < i → classAt s ((s.hand + j) % s.frame_table.length) ≠ k) ∧
    (∀ x, o = some x → ∃ j, j < i ∧ x = (s.hand + j) % s.frame_table.length ∧
      classAt s ((s.hand + j) % s.frame_table.length) = k ∧
      ∀ j', j' < j → classAt s ((s.hand + j') % s.frame_table.length) ≠ k)

/-- State of the C17 witness: three frames holding pages 0, 1, 2 of process 0 with
the bits R M, !R M, !R M, the hand at frame 2, `inst_count = 10` and no reset
due. -/
def stateC17 : State :=
  { initState { numFrames := 3, algo := Algo.nru, o_flag := false, procs := [],
                randvals := [] }
      [procOf [pteIn 0 true true, pteIn 1 false true, pteIn 2 false true]] with
    frame_table := [{ frame_t.fresh with process_id := 0, virtual_page := 0 },
                    { frame_t.fresh with process_id := 0, virtual_page := 1 },
                    { frame_t.fresh with process_id := 0, virtual_page := 2 }]
    free_frames := []
    hand := 2
    inst_count := 10
    currentProcess := some 0 }

/-- The loop of `WorkingSetPager::select_victim_frame` alone: `k` more rounds from
loop counter `i` on.  The result tells whether the loop was left by its `return`,
and gives the local `victim` (`none` for `nullptr`) and the state at that
point. -/
def WorkingSetPager.loop : Nat → Nat → Option Nat → Int → State →
    Option (Bool × Option Nat × State)
  | 0, _, victim, _, s => some (false, victim, s)
  | k + 1, i, victim, minAge, s => do
    let idx := (s.hand + i) % s.frame_table.length
    let frame ← s.frame_table[idx]?
    let p ← idx? frame.process_id
    let v ← idx? frame.virtual_page
    let pte ← s.pte? p v
    let s1 :=
      if pte.referenced then
        (s.modPte p v (fun e => { e with referenced := false })).modFrame idx
          (fun f => { f with age_ := s.inst_count % 4294967296 })
      else s
    let frame1 ← s1.frame_table[idx]?
    let temp_age := toInt32 (subU64 s.inst_count frame1.age_)
    if temp_age > TAU then
      pure (true, some idx, { s1 with hand := (idx + 1) % s.frame_table.length })
    else if temp_age > minAge then
      WorkingSetPager.loop k (i + 1) (some idx) temp_age s1
    else
      WorkingSetPager.loop k (i + 1) victim minAge s1

/-- The statements of `WorkingSetPager::select_victim_frame` after its loop, on
the outcome of the loop. -/
def WorkingSetPager.finish (r : Bool × Option Nat × State) : Option (Nat × State) :=
  if r.1 then r.2.1.map (fun v => (v, r.2.2))
  else
    let v := match r.2.1 with
      | some v => v
      | none => r.2.2.hand
    if v < r.2.2.frame_table.length then
      some (v, { r.2.2 with hand := (v + 1) % r.2.2.frame_table.length })
    else none

/-- The age of frame `i` as the specification defines it: 0 when the tenant entry
is referenced, else `inst_count` minus the frame's time of last use. -/
def tempAge (s : State) (i : Nat) : Nat :=
  if refAt s i then 0
  else
    match s.frame_table[i]? with
    | some f => s.inst_count - f.age_
    | none => 0

/-- What the Working-Set scan does to frame `i` when it reaches it: a referenced
tenant gets its referenced bit cleared and the frame the current time (in 32
bits) as its time of last use. -/
def wsStamp (s : State) (i : Nat) : State :=
  if refAt s i then
    (modTenant s i clearRef).modFrame i (fun f => { f with age_ := s.inst_count % 4294967296 })
  else s

/-- The state after the Working-Set scan has gone over the frames in `l`. -/
def wsList (s : State) (l : List Nat) : State := l.foldl wsStamp s

/-- State of the C19 witness: three frames holding pages 0, 1, 2 of process 0,
last used at 90, 20 and 10, page 0 referenced, `inst_count = 100`, the hand at
frame 0. -/
def stateC19w : State :=
  { initState { numFrames := 3, algo := Algo.workingSet, o_flag := false, procs := [],
                randvals := [] }
      [procOf [pteIn 0 true false, pteIn 1 false false, pteIn 2 false false]] with
    frame_table := [{ frame_t.fresh with process_id := 0, virtual_page := 0, age_ := 90 },
                    { frame_t.fresh with process_id := 0, virtual_page := 1, age_ := 20 },
                    { frame_t.fresh with process_id := 0, virtual_page := 2, age_ := 10 }]
    free_frames := []
    hand := 0
    inst_count := 100
    currentProcess := some 0 }

/-- State of the C19 counterexample: two frames holding pages 0 and 1 of process
0, neither referenced, last used at 0 and at 2147483643, with
`inst_count = 2147483653 = 2^31 + 5` and the hand at frame 0. -/
def stateC19 : State :=
  { initState { numFrames := 2, algo := Algo.workingSet, o_flag := false, procs := [],
                randvals := [] }
      [procOf [pteIn 0 false false, pteIn 1 false false]] with
    frame_table := [{ frame_t.fresh with process_id := 0, virtual_page := 0, age_ := 0 },
                    { frame_t.fresh with process_id := 0, virtual_page := 1,
                                         age_ := 2147483643 }]
    free_frames := []
    hand := 0
    inst_count := 2147483653
    currentProcess := some 0 }

/-- Second state of the C19 counterexample: one frame holding page 0 of process 0,
not referenced, last used at 0, with `inst_count = 2147483653`. -/
def stateC19b : State :=
  { initState { numFrames := 1, algo := Algo.workingSet, o_flag := false, procs := [],
                randvals := [] }
      [procOf [pteIn 0 false false]] with
    frame_table := [{ frame_t.fresh with process_id := 0, virtual_page := 0, age_ := 0 }]
    free_frames := []
    hand := 0
    inst_count := 2147483653
    currentProcess := some 0 }

/-- No write-protected page table entry is marked as paged out. -/
def WPClean (s : State) : Prop :=
  ∀ (p v : Nat) (e : pte_t), s.pte? p v = some e → e.write_protect = true →
    e.paged_out = false

/-- The lines an eviction may print: nothing, or `UNMAP` alone, or `UNMAP` followed
by one of `OUT` and `FOUT`. -/
def EvictShape (ev : List Event) : Prop :=
  ev = [] ∨ ∃ (pid v : Int), ev = [Event.UNMAP pid v] ∨ ev = [Event.UNMAP pid v, Event.OUT] ∨
    ev = [Event.UNMAP pid v, Event.FOUT]

/-- Configuration of the C26 witness: two frames, Aging, one process with the VMA
`0 3 0 0`, and the random file `-1`, which Aging does not read. -/
def cfgC26w : Config :=
  { numFrames := 2, algo := Algo.aging, o_flag := false,
    procs := [[{ start_vpage := 0, end_vpage := 3, write_protected := false,
                 file_mapped := false }]],
    randvals := [-1] }

/-- Trace of the C26 witness: `c 0 / w 0 / r 1 / w 2 / r 0`. -/
def traceC26 : List Instr := [⟨'c', 0⟩, ⟨'w', 0⟩, ⟨'r', 1⟩, ⟨'w', 2⟩, ⟨'r', 0⟩]

/-- The agreement of dirty flags and modified bits: an occupied frame is dirty
exactly when its tenant entry is modified, a free frame is not dirty, an entry
that is not present is not modified, and a write-protected entry is neither
modified nor paged out. -/
def DirtyAgreement (s : State) : Prop :=
  (∀ (i : Nat) (f : frame_t), s.frame_table[i]? = some f → f.process_id ≠ -1 →
    ∃ (p v : Nat) (pte : pte_t), f.process_id = (p : Int) ∧ f.virtual_page = (v : Int) ∧
      s.pte? p v = some pte ∧ f.dirty = pte.modified) ∧
  (∀ (i : Nat) (f : frame_t), s.frame_table[i]? = some f → f.process_id = -1 →
    f.dirty = false) ∧
  (∀ (p v : Nat) (pte : pte_t), s.pte? p v = some pte → pte.present = false →
    pte.modified = false) ∧
  (∀ (p v : Nat) (pte : pte_t), s.pte? p v = some pte → pte.write_protect = true →
    pte.modified = false ∧ pte.paged_out = false)

/-- Configuration of the C27 witness: two frames, Clock, one process with the
write-protected VMA `0 1 1 0` and the VMA `2 3 0 0`. -/
def cfgC27w : Config :=
  { numFrames := 2, algo := Algo.clock, o_flag := false,
    procs := [[{ start_vpage := 0, end_vpage := 1, write_protected := true,
                 file_mapped := false },
               { start_vpage := 2, end_vpage := 3, write_protected := false,
                 file_mapped := false }]],
    randvals := [] }

/-- Trace of the C27 witness: `c 0 / w 0 / w 2 / w 3 / r 0`. -/
def traceC27 : List Instr := [⟨'c', 0⟩, ⟨'w', 0⟩, ⟨'w', 2⟩, ⟨'w', 3⟩, ⟨'r', 0⟩]

/-- Configuration of the C21 witness: one frame, FIFO, event tracing on, one
process with the VMA `0 1 0 0`. -/
def cfgC21w : Config :=
  { numFrames := 1, algo := Algo.fifo, o_flag := true,
    procs := [[{ start_vpage := 0, end_vpage := 1, write_protected := false,
                 file_mapped := false }]],
    randvals := [] }

/-- Configuration of the C21 counterexample: one frame, Random with an empty
random file, event tracing on, one process with the VMA `0 1 0 0`. -/
def cfgC21 : Config := { cfgC21w with algo := Algo.random }

/-- Trace of the C21 examples: `c 0 / w 0`. -/
def traceC21 : List Instr := [⟨'c', 0⟩, ⟨'w', 0⟩]

/-- State of the C24 witness: two frames, Random, the random table `7, 4, 9` with
the cursor on its last entry. -/
def stateC24 : State :=
  { initState { numFrames := 2, algo := Algo.random, o_flag := false, procs := [],
                randvals := [7, 4, 9] } [] with
    ofs := 2 }

/-- Configuration of the C24 witness: one frame, FIFO, the random file `7, 4, 9`,
one process with the VMA `0 1 0 0`. -/
def cfgC24 : Config :=
  { numFrames := 1, algo := Algo.fifo, o_flag := false,
    procs := [[{ start_vpage := 0, end_vpage := 1, write_protected := false,
                 file_mapped := false }]],
    randvals := [7, 4, 9] }

/-- Trace of the C24 witness: `c 0 / w 0 / w 1 / r 0`, two evictions. -/
def traceC24 : List Instr := [⟨'c', 0⟩, ⟨'w', 0⟩, ⟨'w', 1⟩, ⟨'r', 0⟩]

/-- State of the C25 witness: three frames, NRU, hand at frame 2, a reset due
(`inst_count = 60`, last reset at 0); the tenants have the classes 3, 1, 1. -/
def stateC25 : State :=
  { initState { numFrames := 3, algo := Algo.nru, o_flag := false, procs := [],
                randvals := [] }
      [procOf [{ pteIn 0 true true with paged_out := true }, pteIn 1 false true,
               { pteIn 2 false true with file_mapped := true }]] with
    frame_table := [{ frame_t.fresh with process_id := 0, virtual_page := 0, dirty := true },
                    { frame_t.fresh with process_id := 0, virtual_page := 1, dirty := true },
                    { frame_t.fresh with process_id := 0, virtual_page := 2, dirty := true }]
    free_frames := []
    hand := 2
    inst_count := 60
    currentProcess := some 0 }

/-- State of the C22 witness: three frames under NRU, tenants with the referenced
bits 1, 0, 1, last reset at 10 and `inst_count = 60`, so a reset is due. -/
def stateC22 : State :=
  { initState { numFrames := 3, algo := Algo.nru, o_flag := false, procs := [],
                randvals := [] }
      [procOf [pteIn 0 true true, pteIn 1 false true, pteIn 2 true false]] with
    frame_table := [{ frame_t.fresh with process_id := 0, virtual_page := 0 },
                    { frame_t.fresh with process_id := 0, virtual_page := 1 },
                    { frame_t.fresh with process_id := 0, virtual_page := 2 }]
    free_frames := []
    hand := 1
    lastReset := 10
    inst_count := 60
    currentProcess := some 0 }

/-- Every frame is free (`process_id = -1`) or has a tenant entry that can be
looked up. -/
def OccTenants (s : State) : Prop :=
  ∀ (i : Nat) (f : frame_t), s.frame_table[i]? = some f → f.process_id ≠ -1 →
    ∃ (p v : Nat) (e : pte_t), f.process_id = (p : Int) ∧ f.virtual_page = (v : Int) ∧
      s.pte? p v = some e

/-- No two occupied frames have the same tenant entry. -/
def DistinctOcc (s : State) : Prop :=
  ∀ (i j : Nat) (f g : frame_t), s.frame_table[i]? = some f → s.frame_table[j]? = some g →
    f.process_id ≠ -1 → f.process_id = g.process_id → f.virtual_page = g.virtual_page → i = j

/-- A decidable form of `OccTenants`. -/
def occTenantsCheck (s : State) : Bool :=
  s.frame_table.all (fun f => f.process_id == -1 ||
    match idx? f.process_id, idx? f.virtual_page with
    | some p, some v => (s.pte? p v).isSome
    | _, _ => false)

/-- A decidable form of `DistinctOcc`: the pairs `(process_id, virtual_page)` of two
different frames differ unless the first frame is free. -/
def distinctOccCheck (s : State) : Bool :=
  decide (∀ i, i < s.frame_table.length → ∀ j, j < s.frame_table.length →
    s.frame_table[i]?.map frame_t.process_id ≠ some (-1) →
    s.frame_table[i]?.map (fun f => (f.process_id, f.virtual_page))
      = s.frame_table[j]?.map (fun f => (f.process_id, f.virtual_page)) → i = j)

/-- The age one round of the first loop of `AgingPager::select_victim_frame`
leaves in an occupied frame of age `a` whose tenant has the referenced bit `r`:
`age >>= 1`, then `age |= 0x80000000` when `r` is set. -/
def AgingPager.newAge (r : Bool) (a : Nat) : Nat :=
  if r then (a >>> 1) ||| 0x80000000 else a >>> 1

/-- State of the C23 witness: frame 0 holds page 0 (referenced, age 6), frame 1
is free (age 5), frame 2 holds page 2 (not referenced, age 9). -/
def stateC23 : State :=
  { initState { numFrames := 3, algo := Algo.aging, o_flag := false, procs := [],
                randvals := [] }
      [procOf [pteIn 0 true false, pte_t.zero, pteIn 2 false true]] with
    frame_table := [{ frame_t.fresh with process_id := 0, virtual_page := 0, age := 6 },
                    { frame_t.fresh with age := 5 },
                    { frame_t.fresh with process_id := 0, virtual_page := 2, age := 9 }]
    free_frames := [1]
    hand := 0
    currentProcess := some 0 }

/-! # Theorems -/

/-! ## Lists -/

theorem length_updateAt {α : Type} (g : α → α) (n : Nat) (l : List α) :
    (updateAt g n l).length = l.length := by
  induction l generalizing n with
  | nil => simp [updateAt]
  | cons a l ih => cases n <;> simp [updateAt, ih]

theorem getElem?_updateAt {α : Type} (g : α → α) (n m : Nat) (l : List α) :
    (updateAt g n l)[m]? = if n = m then (l[m]?).map g else l[m]? := by
  induction l generalizing n m with
  | nil => simp [updateAt]
  | cons a l ih =>
    cases n with
    | zero => cases m <;> simp [updateAt]
    | succ n => cases m <;> simp [updateAt, ih]

theorem updateAt_updateAt {α : Type} (g h : α → α) (n : Nat) (l : List α) :
    updateAt g n (updateAt h n l) = updateAt (fun a => g (h a)) n l := by
  induction l generalizing n with
  | nil => simp [updateAt]
  | cons a l ih => cases n <;> simp [updateAt, ih]

theorem updateAt_id {α : Type} (n : Nat) (l : List α) : updateAt (fun a => a) n l = l := by
  induction l generalizing n with
  | nil => simp [updateAt]
  | cons a l ih => cases n <;> simp [updateAt, ih]

theorem map_updateAt {α β : Type} (k : α → β) (g : α → α) (hk : ∀ a, k (g a) = k a) (n : Nat)
    (l : List α) : (updateAt g n l).map k = l.map k := by
  induction l generalizing n with
  | nil => simp [updateAt]
  | cons a l ih => cases n <;> simp [updateAt, ih, hk]

theorem countP_updateAt {α : Type} (q : α → Bool) (g : α → α) (n : Nat) (l : List α) (a : α)
    (h : l[n]? = some a) :
    (updateAt g n l).countP q + (if q a then 1 else 0) =
      l.countP q + (if q (g a) then 1 else 0) := by
  induction l generalizing n with
  | nil => simp at h
  | cons b l ih =>
    cases n with
    | zero =>
      simp at h
      subst h
      simp only [updateAt, List.countP_cons]
      omega
    | succ n =>
      simp at h
      have := ih n h
      simp only [updateAt, List.countP_cons]
      omega

/-! ## Reading an updated state -/

theorem getElem?_upd_processes {procs : List Process} {gs : ProcessStats → ProcessStats}
    {v : Nat} {g : pte_t → pte_t} (p q : Nat) :
    (updateAt (Process.upd gs v g) p procs)[q]? =
      if p = q then (procs[q]?).map (Process.upd gs v g) else procs[q]? :=
  getElem?_updateAt _ _ _ _

theorem pte?_of_processes {s s' : State} {p v : Nat} {gs : ProcessStats → ProcessStats}
    {g : pte_t → pte_t} (h : s'.processes = updateAt (Process.upd gs v g) p s.processes)
    (p' v' : Nat) :
    s'.pte? p' v' = if p = p' ∧ v = v' then (s.pte? p' v').map g else s.pte? p' v' := by
  unfold State.pte?
  rw [h, getElem?_updateAt]
  by_cases hp : p = p'
  · subst hp
    cases hP : s.processes[p]? with
    | none => simp
    | some P =>
      simp only [if_true, Option.map_some', Process.upd, getElem?_updateAt, true_and]
  · simp [hp]

theorem pte?_eq_of_processes_eq {s s' : State} (h : s'.processes = s.processes) (p v : Nat) :
    s'.pte? p v = s.pte? p v := by
  unfold State.pte?
  rw [h]

theorem modPte_processes (s : State) (p v : Nat) (g : pte_t → pte_t) :
    (s.modPte p v g).processes = updateAt (Process.upd (fun st => st) v g) p s.processes := rfl

theorem modStats_processes (s : State) (p v : Nat) (gs : ProcessStats → ProcessStats) :
    (s.modStats p gs).processes = updateAt (Process.upd gs v (fun e => e)) p s.processes := by
  have h : (Process.upd gs v fun e => e) = fun P : Process => { P with stats := gs P.stats } := by
    funext P
    simp only [Process.upd, updateAt_id]
  rw [h]
  rfl

theorem upd_upd (gs gs' : ProcessStats → ProcessStats) (v : Nat) (g g' : pte_t → pte_t)
    (P : Process) :
    Process.upd gs v g (Process.upd gs' v g' P) =
      Process.upd (fun st => gs (gs' st)) v (fun e => g (g' e)) P := by
  simp only [Process.upd, updateAt_updateAt]

theorem pte?_some_iff {s : State} {p v : Nat} {e : pte_t} :
    s.pte? p v = some e ↔ ∃ P, s.processes[p]? = some P ∧ P.page_table[v]? = some e := by
  unfold State.pte?
  cases s.processes[p]? <;> simp

theorem natCast_ne_neg_one (p : Nat) : (p : Int) ≠ -1 := by omega

/-- A local change of one frame and of the page table entry tied to it keeps the
invariant, as long as the pair stays consistent. -/
theorem InvH_local {s s' : State} {o q : Option Nat} {fi p v : Nat} {F : frame_t → frame_t}
    {gs : ProcessStats → ProcessStats} {g : pte_t → pte_t} {f : frame_t} {e : pte_t}
    (hI : InvH o s)
    (hft : s'.frame_table = updateAt F fi s.frame_table)
    (hpr : s'.processes = updateAt (Process.upd gs v g) p s.processes)
    (hfree : s'.free_frames = s.free_frames)
    (hhand : s'.hand = s.hand) (halgo : s'.algo = s.algo) (hrv : s'.randvals = s.randvals)
    (hofs : s'.ofs = s.ofs) (hcur : s'.currentProcess = s.currentProcess)
    (hf : s.frame_table[fi]? = some f) (he : s.pte? p v = some e)
    (ho : ∀ j, j ≠ fi → (o = some j ↔ q = some j))
    (hA : e.present = true → e.frame_number = fi)
    (hB : FreeFrame f ∨ (f.process_id = (p : Int) ∧ f.virtual_page = (v : Int)))
    (hfi : (FreeFrame (F f) ∧ q = some fi ∧ fi ∉ s.free_frames ∧ (g e).present = false) ∨
      (q ≠ some fi ∧ fi ∉ s.free_frames ∧ (F f).process_id = (p : Int) ∧
        (F f).virtual_page = (v : Int) ∧ (g e).present = true ∧ (g e).frame_number = fi ∧
        (g e).modified = (F f).dirty))
    (hclean : ((g e).present = false → (g e).modified = false ∧ (g e).frame_number = 0) ∧
      ((g e).write_protect = true → (g e).modified = false))
    (hwp : (g e).write_protect = e.write_protect)
    (hstats : ∀ (st : ProcessStats) (c c' : Nat),
      c' + (if e.present then 1 else 0) = c + (if (g e).present then 1 else 0) →
      st.maps = st.unmaps + c → st.ins + st.fins + st.zeros = st.maps →
      st.outs + st.fouts ≤ st.unmaps →
      (gs st).maps = (gs st).unmaps + c' ∧
        (gs st).ins + (gs st).fins + (gs st).zeros = (gs st).maps ∧
        (gs st).outs + (gs st).fouts ≤ (gs st).unmaps) :
    InvH q s' := by
  have hpte := pte?_of_processes hpr
  obtain ⟨P0, hP0, hP0e⟩ := pte?_some_iff.mp he
  have hlen : s'.frame_table.length = s.frame_table.length := by rw [hft, length_updateAt]
  have hfilt : fi < s.frame_table.length := by
    rcases List.getElem?_eq_some_iff.mp hf with ⟨h, _⟩
    exact h
  refine
    { nframes := by rw [hlen]; exact hI.nframes
      procs := ?_, frames := ?_, ptes := ?_, clean := ?_, vmas := ?_
      free_nodup := by rw [hfree]; exact hI.free_nodup
      free_lt := by rw [hfree, hlen]; exact hI.free_lt
      hole_lt := ?_
      hand_lt := by rw [hhand, hlen]; exact hI.hand_lt
      cur := by
        intro cp hcp
        rw [hpr, length_updateAt]
        exact hI.cur cp (hcur ▸ hcp)
      rand := by rw [halgo, hofs, hrv]; exact hI.rand }
  · -- procs
    intro q Q hQ
    rw [hpr, getElem?_updateAt] at hQ
    by_cases hpq : p = q
    · subst hpq
      rw [hP0] at hQ
      simp only [if_true, Option.map_some', Option.some.injEq] at hQ
      subst hQ
      obtain ⟨h1, h2, h3, h4, h5⟩ := hI.procs p P0 hP0
      refine ⟨h1, ?_, ?_⟩
      · simp only [Process.upd, length_updateAt]; exact h2
      · have hc := countP_updateAt (fun e : pte_t => e.present) g v P0.page_table e hP0e
        exact hstats P0.stats _ _ hc h3 h4 h5
    · rw [if_neg hpq] at hQ
      exact hI.procs q Q hQ
  · -- frames
    intro j fj hj
    rw [hft, getElem?_updateAt] at hj
    by_cases hij : fi = j
    · subst hij
      rw [hf] at hj
      simp only [if_true, Option.map_some', Option.some.injEq] at hj
      subst hj
      rcases hfi with ⟨h1, h2, h3, _⟩ | ⟨h1, h2, h3, h4, h5, h6, h7⟩
      · left
        refine ⟨h1, ?_⟩
        rw [hfree, h2]
        simp [h3]
      · right
        refine ⟨⟨p, v, g e, h3, h4, ?_, h5, h6, h7⟩, by rw [hfree]; exact h2, h1⟩
        rw [hpte, he]
        simp
    · rw [if_neg hij] at hj
      have hoj : o ≠ some j ↔ q ≠ some j := not_congr (ho j (Ne.symm hij))
      rcases hI.frames j fj hj with ⟨h1, h2⟩ | ⟨⟨p', v', pte, h1, h2, h3, h4, h5, h6⟩, h7, h8⟩
      · left
        refine ⟨h1, ?_⟩
        rw [hfree, ← hoj]
        exact h2
      · right
        refine ⟨⟨p', v', pte, h1, h2, ?_, h4, h5, h6⟩, by rw [hfree]; exact h7, hoj.mp h8⟩
        rw [hpte]
        by_cases hpv : p = p' ∧ v = v'
        · obtain ⟨rfl, rfl⟩ := hpv
          rw [he] at h3
          cases h3
          exact absurd ((hA h4).symm.trans h5) hij
        · rw [if_neg hpv]
          exact h3
  · -- ptes
    intro p' v' pte hpte' hpres
    rw [hpte] at hpte'
    by_cases hpv : p = p' ∧ v = v'
    · obtain ⟨rfl, rfl⟩ := hpv
      rw [he] at hpte'
      simp only [and_self, if_true, Option.map_some', Option.some.injEq] at hpte'
      subst hpte'
      rcases hfi with ⟨_, _, _, h4⟩ | ⟨h1, h2, h3, h4, h5, h6, h7⟩
      · rw [h4] at hpres
        cases hpres
      · refine ⟨F f, ?_, h3, h4⟩
        rw [h6, hft, getElem?_updateAt, hf]
        simp
    · rw [if_neg hpv] at hpte'
      obtain ⟨fj, hfj, h1, h2⟩ := hI.ptes p' v' pte hpte' hpres
      by_cases hk : fi = pte.frame_number
      · exfalso
        rw [← hk, hf] at hfj
        cases hfj
        rcases hB with ⟨hb, _⟩ | ⟨hb1, hb2⟩
        · rw [hb] at h1
          exact natCast_ne_neg_one p' h1.symm
        · apply hpv
          constructor
          · exact Int.ofNat.inj (hb1.symm.trans h1)
          · exact Int.ofNat.inj (hb2.symm.trans h2)
      · refine ⟨fj, ?_, h1, h2⟩
        rw [hft, getElem?_updateAt, if_neg hk]
        exact hfj
  · -- clean
    intro p' v' pte hpte'
    rw [hpte] at hpte'
    by_cases hpv : p = p' ∧ v = v'
    · obtain ⟨rfl, rfl⟩ := hpv
      rw [he] at hpte'
      simp only [and_self, if_true, Option.map_some', Option.some.injEq] at hpte'
      subst hpte'
      exact hclean
    · rw [if_neg hpv] at hpte'
      exact hI.clean p' v' pte hpte'
  · -- vmas
    intro q Q vma w hQ hvma hcov
    rw [hpr, getElem?_updateAt] at hQ
    by_cases hpq : p = q
    · subst hpq
      rw [hP0] at hQ
      simp only [if_true, Option.map_some', Option.some.injEq] at hQ
      subst hQ
      obtain ⟨h1, pte, h2, h3⟩ := hI.vmas p P0 vma w hP0 hvma hcov
      refine ⟨h1, ?_⟩
      simp only [Process.upd, getElem?_updateAt]
      by_cases hvw : v = w.toNat
      · subst hvw
        rw [hP0e] at h2
        cases h2
        exact ⟨g e, by simp [hP0e], hwp.trans h3⟩
      · exact ⟨pte, by simp [hvw, h2], h3⟩
    · rw [if_neg hpq] at hQ
      exact hI.vmas q Q vma w hQ hvma hcov
  · -- hole_lt
    intro h hh
    rw [hlen]
    by_cases hhf : h = fi
    · rw [hhf]; exact hfilt
    · exact hI.hole_lt h ((ho h hhf).mpr hh)

/-! ## Transfer of the invariant along equal skeletons -/

theorem getElem?_of_map_eq {α β : Type} {k : α → β} {l l' : List α} (h : l.map k = l'.map k)
    {i : Nat} {a : α} (ha : l[i]? = some a) : ∃ a', l'[i]? = some a' ∧ k a = k a' := by
  have h1 : (l.map k)[i]? = (l'.map k)[i]? := by rw [h]
  rw [List.getElem?_map, List.getElem?_map, ha] at h1
  cases h2 : l'[i]? with
  | none => rw [h2] at h1; cases h1
  | some a' =>
    rw [h2] at h1
    exact ⟨a', rfl, Option.some.inj h1⟩

theorem length_eq_of_map_eq {α β : Type} {k : α → β} {l l' : List α} (h : l.map k = l'.map k) :
    l.length = l'.length := by
  have := congrArg List.length h
  simpa using this

theorem countP_present_skel (l : List pte_t) :
    (l.map pte_t.skel).countP (fun e => e.present) = l.countP (fun e => e.present) := by
  rw [List.countP_map]
  rfl

theorem frame_of_skel {s s' : State} (h : s.skel = s'.skel) {i : Nat} {f : frame_t}
    (hf : s.frame_table[i]? = some f) :
    ∃ f', s'.frame_table[i]? = some f' ∧ f'.process_id = f.process_id ∧
      f'.virtual_page = f.virtual_page ∧ f'.dirty = f.dirty := by
  have h1 : s.frame_table.map frame_t.core = s'.frame_table.map frame_t.core :=
    congrArg Prod.fst h
  obtain ⟨f', hf', hc⟩ := getElem?_of_map_eq h1 hf
  refine ⟨f', hf', ?_, ?_, ?_⟩
  · exact (congrArg frame_t.process_id hc).symm
  · exact (congrArg frame_t.virtual_page hc).symm
  · exact (congrArg frame_t.dirty hc).symm

theorem process_of_skel {s s' : State} (h : s.skel = s'.skel) {p : Nat} {P : Process}
    (hP : s.processes[p]? = some P) :
    ∃ P', s'.processes[p]? = some P' ∧ P.skel = P'.skel := by
  have h1 : s.processes.map Process.skel = s'.processes.map Process.skel :=
    congrArg Prod.snd h
  exact getElem?_of_map_eq h1 hP

theorem pte_of_skel {s s' : State} (h : s.skel = s'.skel) {p v : Nat} {e : pte_t}
    (he : s.pte? p v = some e) :
    ∃ e', s'.pte? p v = some e' ∧ e'.present = e.present ∧ e'.modified = e.modified ∧
      e'.write_protect = e.write_protect ∧ e'.frame_number = e.frame_number := by
  obtain ⟨P, hP, hPe⟩ := pte?_some_iff.mp he
  obtain ⟨P', hP', hsk⟩ := process_of_skel h hP
  have h1 : P.page_table.map pte_t.skel = P'.page_table.map pte_t.skel :=
    congrArg Process.page_table hsk
  obtain ⟨e', he', hc⟩ := getElem?_of_map_eq h1 hPe
  refine ⟨e', pte?_some_iff.mpr ⟨P', hP', he'⟩, ?_, ?_, ?_, ?_⟩
  · exact (congrArg pte_t.present hc).symm
  · exact (congrArg pte_t.modified hc).symm
  · exact (congrArg pte_t.write_protect hc).symm
  · exact (congrArg pte_t.frame_number hc).symm

theorem statsOK_of_skel {P P' : Process} (h : P.skel = P'.skel) (hs : StatsOK P) :
    StatsOK P' := by
  have h1 : P.page_table.map pte_t.skel = P'.page_table.map pte_t.skel :=
    congrArg Process.page_table h
  have h2 : P.stats.skel = P'.stats.skel := congrArg Process.stats h
  have hc : P.page_table.countP (fun e => e.present) = P'.page_table.countP (fun e => e.present) := by
    rw [← countP_present_skel P.page_table, ← countP_present_skel P'.page_table, h1]
  have m1 : P.stats.maps = P'.stats.maps := by
    have := congrArg ProcessStats.maps h2
    exact this
  have m2 : P.stats.unmaps = P'.stats.unmaps := by
    have := congrArg ProcessStats.unmaps h2
    exact this
  have m3 : P.stats.ins = P'.stats.ins := by
    have := congrArg ProcessStats.ins h2
    exact this
  have m4 : P.stats.outs = P'.stats.outs := by
    have := congrArg ProcessStats.outs h2
    exact this
  have m5 : P.stats.fins = P'.stats.fins := by
    have := congrArg ProcessStats.fins h2
    exact this
  have m6 : P.stats.fouts = P'.stats.fouts := by
    have := congrArg ProcessStats.fouts h2
    exact this
  have m7 : P.stats.zeros = P'.stats.zeros := by
    have := congrArg ProcessStats.zeros h2
    exact this
  unfold StatsOK at hs ⊢
  rw [← m1, ← m2, ← m3, ← m4, ← m5, ← m6, ← m7, ← hc]
  exact hs

/-- States with equal skeletons, free lists and current process satisfy the
invariant together. -/
theorem InvH_transfer {s s' : State} {o : Option Nat} (h : s.skel = s'.skel)
    (hfree : s'.free_frames = s.free_frames) (hhand : s'.hand < s'.frame_table.length)
    (hofs : s'.algo = Algo.random → s'.randvals ≠ [] → s'.ofs < s'.randvals.length)
    (hcur : s'.currentProcess = s.currentProcess) (hI : InvH o s) : InvH o s' := by
  have hlen : s.frame_table.length = s'.frame_table.length :=
    length_eq_of_map_eq (congrArg Prod.fst h)
  have hplen : s.processes.length = s'.processes.length :=
    length_eq_of_map_eq (congrArg Prod.snd h)
  refine
    { nframes := by rw [← hlen]; exact hI.nframes
      procs := ?_, frames := ?_, ptes := ?_, clean := ?_, vmas := ?_
      free_nodup := by rw [hfree]; exact hI.free_nodup
      free_lt := by rw [hfree, ← hlen]; exact hI.free_lt
      hole_lt := by rw [← hlen]; exact hI.hole_lt
      hand_lt := hhand
      cur := by
        intro cp hcp
        rw [← hplen]
        exact hI.cur cp (hcur ▸ hcp)
      rand := hofs }
  · intro p P' hP'
    obtain ⟨P, hP, hsk⟩ := process_of_skel h.symm hP'
    obtain ⟨h1, h2, h3⟩ := hI.procs p P hP
    refine ⟨?_, ?_, statsOK_of_skel hsk.symm h3⟩
    · rw [← h1]
      have := congrArg Process.pid hsk
      exact this
    · rw [← h2]
      exact length_eq_of_map_eq (congrArg Process.page_table hsk)
  · intro i f' hf'
    obtain ⟨f, hf, e1, e2, e3⟩ := frame_of_skel h.symm hf'
    rcases hI.frames i f hf with ⟨⟨a1, a2, a3⟩, hb⟩ | ⟨⟨p, v, pte, a1, a2, a3, a4, a5, a6⟩, hb, hc⟩
    · left
      refine ⟨⟨?_, ?_, ?_⟩, by rw [hfree]; exact hb⟩
      · rw [← e1]; exact a1
      · rw [← e2]; exact a2
      · rw [← e3]; exact a3
    · right
      obtain ⟨pte', hp', b1, b2, b3, b5⟩ := pte_of_skel h a3
      refine ⟨⟨p, v, pte', ?_, ?_, hp', ?_, ?_, ?_⟩, by rw [hfree]; exact hb, hc⟩
      · rw [← e1]; exact a1
      · rw [← e2]; exact a2
      · rw [b1]; exact a4
      · rw [b5]; exact a5
      · rw [b2, ← e3]; exact a6
  · intro p v pte' hp' hpres
    obtain ⟨pte, hp, b1, b2, b3, b5⟩ := pte_of_skel h.symm hp'
    obtain ⟨f, hf, c1, c2⟩ := hI.ptes p v pte hp (by rw [b1]; exact hpres)
    obtain ⟨f', hf', e1, e2, e3⟩ := frame_of_skel h hf
    refine ⟨f', ?_, ?_, ?_⟩
    · rw [← b5]; exact hf'
    · rw [e1]; exact c1
    · rw [e2]; exact c2
  · intro p v pte' hp'
    obtain ⟨pte, hp, b1, b2, b3, b5⟩ := pte_of_skel h.symm hp'
    have := hI.clean p v pte hp
    rw [b1, b2, b3, b5] at this
    exact this
  · intro p P' vma w hP' hvma hcov
    obtain ⟨P, hP, hsk⟩ := process_of_skel h.symm hP'
    have hv : P'.vmas = P.vmas := by
      have := congrArg Process.vmas hsk
      exact this
    obtain ⟨h1, pte, h2, h3⟩ := hI.vmas p P vma w hP (hv ▸ hvma) hcov
    refine ⟨by rw [hv]; exact h1, ?_⟩
    have hpt : P.page_table.map pte_t.skel = P'.page_table.map pte_t.skel :=
      (congrArg Process.page_table hsk).symm
    obtain ⟨pte', hp', hc⟩ := getElem?_of_map_eq hpt h2
    refine ⟨pte', hp', ?_⟩
    rw [← h3]
    exact (congrArg pte_t.write_protect hc).symm

theorem SameRest_refl (s : State) : SameRest s s :=
  ⟨rfl, rfl, rfl, rfl, rfl, rfl, rfl, rfl, rfl, rfl, rfl, rfl, rfl⟩

theorem SameRest_trans {a b c : State} (h1 : SameRest a b) (h2 : SameRest b c) : SameRest a c :=
  ⟨h2.1.trans h1.1, h2.2.trans h1.2, h2.3.trans h1.3, h2.4.trans h1.4, h2.5.trans h1.5,
    h2.6.trans h1.6, h2.7.trans h1.7, h2.8.trans h1.8, h2.9.trans h1.9, h2.10.trans h1.10,
    h2.11.trans h1.11, h2.12.trans h1.12, h2.13.trans h1.13⟩

theorem idx?_natCast (v : Nat) : idx? (v : Int) = some v := by
  simp [idx?]

theorem updateAt_congr {α : Type} {g h : α → α} (hgh : ∀ a, g a = h a) (n : Nat) (l : List α) :
    updateAt g n l = updateAt h n l := by
  have : g = h := funext hgh
  rw [this]

theorem out_clean {s : State} {fi p : Nat} {f : frame_t} (hf : s.frame_table[fi]? = some f)
    (hd : f.dirty = false) : out s fi p = some s := by
  simp [out, hf, hd]

theorem natCast_bne_neg_one (v : Nat) : ((v : Int) != -1) = true := by
  have : (v : Int) ≠ -1 := by omega
  simp [this]

theorem out_dirty {s : State} {fi p v : Nat} {f : frame_t} {e : pte_t}
    (hf : s.frame_table[fi]? = some f) (hd : f.dirty = true) (hv : f.virtual_page = (v : Int))
    (he : s.pte? p v = some e) :
    out s fi p = some
      ((if e.file_mapped then
          (emit s Event.FOUT).modStats p (fun st => { st with fouts := st.fouts + 1 })
        else
          ((emit s Event.OUT).modPte p v (fun e => { e with paged_out := true })).modStats p
            (fun st => { st with outs := st.outs + 1 })).modFrame fi
        (fun f => { f with dirty := false })) := by
  simp only [out, hf, hd, hv, natCast_bne_neg_one, idx?_natCast, he, Option.bind_eq_bind,
    Option.some_bind, Bool.and_self, if_true, Option.pure_def]

/-- The effect of `unmap` on a frame that holds page `v` of process `p`. -/
theorem unmap_eq {s : State} {fi p v : Nat} {f : frame_t} {P : Process} {e : pte_t}
    (hf : s.frame_table[fi]? = some f) (hv : f.virtual_page = (v : Int))
    (hP : s.processes[p]? = some P) (he : P.page_table[v]? = some e) :
    ∃ u, unmap s fi p = some u ∧
      u.frame_table = updateAt unmapFrame fi s.frame_table ∧
      u.processes = updateAt (Process.upd
        (unmapStats (f.dirty && !s.exitloop && !e.file_mapped)
          (f.dirty && !s.exitloop && e.file_mapped)) v
        (unmapPte (f.dirty && !s.exitloop && !e.file_mapped))) p s.processes ∧
      SameRest s u ∧
      u.output = s.output ++ (if s.o_flag then
        Event.UNMAP P.pid (v : Int) :: (if (f.dirty && !s.exitloop) = true
          then [if e.file_mapped then Event.FOUT else Event.OUT] else [])
        else []) := by
  have hpte : ∀ ev, (emit (s.modStats p fun st => { st with unmaps := st.unmaps + 1 }) ev).pte? p v
      = some e := by
    intro ev
    simp [State.pte?, emit, State.modStats, getElem?_updateAt, hP, he]
  simp only [unmap, hf, natCast_bne_neg_one, hP, he, hv, idx?_natCast, Option.bind_eq_bind,
    Option.some_bind, Option.pure_def, if_true]
  by_cases hd : (f.dirty && !s.exitloop) = true
  · have hfd : f.dirty = true := by simp at hd; exact hd.1
    have hfe : s.exitloop = false := by simp at hd; exact hd.2
    have hf2 : ∀ ev, (emit (s.modStats p fun st => { st with unmaps := st.unmaps + 1 })
        ev).frame_table[fi]? = some f := fun _ => hf
    rw [if_pos hd, out_dirty (hf2 _) hfd hv (hpte _)]
    simp only [Option.some_bind]
    by_cases hfm : e.file_mapped = true
    · rw [if_pos hfm]
      refine ⟨_, rfl, ?_, ?_, ⟨rfl, rfl, rfl, rfl, rfl, rfl, rfl, rfl, rfl, rfl, rfl, rfl, rfl⟩,
        ?_⟩
      · show updateAt _ fi (updateAt _ fi s.frame_table) = _
        rw [updateAt_updateAt]
        exact updateAt_congr (fun a => rfl) _ _
      · show updateAt _ p (updateAt _ p (updateAt _ p s.processes)) = _
        rw [updateAt_updateAt, updateAt_updateAt]
        apply updateAt_congr
        intro Q
        simp only [Process.upd, unmapStats, unmapPte, hfm, hfd, hfe]
        simp
        exact updateAt_congr (fun a => by simp [unmapPte]) _ _
      · cases ho : s.o_flag <;>
          simp [emit, State.modStats, State.modPte, State.modFrame, ho, hfd, hfe, hfm]
    · rw [if_neg hfm]
      refine ⟨_, rfl, ?_, ?_, ⟨rfl, rfl, rfl, rfl, rfl, rfl, rfl, rfl, rfl, rfl, rfl, rfl, rfl⟩,
        ?_⟩
      · show updateAt _ fi (updateAt _ fi s.frame_table) = _
        rw [updateAt_updateAt]
        exact updateAt_congr (fun a => rfl) _ _
      · show updateAt _ p (updateAt _ p (updateAt _ p (updateAt _ p s.processes))) = _
        rw [updateAt_updateAt, updateAt_updateAt, updateAt_updateAt]
        apply updateAt_congr
        intro Q
        simp only [Process.upd, unmapStats, unmapPte, hfm, hfd, hfe, updateAt_updateAt]
        simp
        exact updateAt_congr (fun a => by simp [unmapPte]) _ _
      · cases ho : s.o_flag <;>
          simp [emit, State.modStats, State.modPte, State.modFrame, ho, hfd, hfe, hfm]
  · rw [if_neg hd]
    have hsw : (f.dirty && !s.exitloop) = false := by simpa using hd
    refine ⟨_, rfl, ?_, ?_, ⟨rfl, rfl, rfl, rfl, rfl, rfl, rfl, rfl, rfl, rfl, rfl, rfl, rfl⟩,
      ?_⟩
    · exact updateAt_congr (fun a => rfl) _ _
    · show updateAt _ p (updateAt _ p s.processes) = _
      rw [updateAt_updateAt]
      apply updateAt_congr
      intro Q
      simp only [Process.upd, unmapStats, unmapPte, hsw]
      simp
      exact updateAt_congr (fun a => by simp [unmapPte]) _ _
    · rw [hsw]
      cases ho : s.o_flag <;> simp [emit, State.modStats, State.modPte, State.modFrame, ho]

theorem getElem?_lt_length {α : Type} {l : List α} {i : Nat} {a : α} (h : l[i]? = some a) :
    i < l.length := by
  rcases List.getElem?_eq_some_iff.mp h with ⟨h1, _⟩
  exact h1

theorem exists_getElem?_of_lt {α : Type} {l : List α} {i : Nat} (h : i < l.length) :
    ∃ a, l[i]? = some a :=
  ⟨l[i], by simp [h]⟩

/-- An occupied frame of a state that satisfies the invariant is held by an entry. -/
theorem owned_of_occupied {s : State} {o : Option Nat} {fi : Nat} {f : frame_t} (hI : InvH o s)
    (hf : s.frame_table[fi]? = some f) (hocc : f.process_id ≠ -1) :
    Owned s fi f ∧ fi ∉ s.free_frames ∧ o ≠ some fi := by
  rcases hI.frames fi f hf with ⟨⟨h1, _, _⟩, _⟩ | h
  · exact absurd h1 hocc
  · exact h

/-- Unmapping an occupied frame: `unmap` succeeds, the `out` call after it does
nothing, and the frame becomes the hole of the invariant. -/
theorem unmap_spec {s : State} {fi : Nat} {f : frame_t} (hI : InvH none s)
    (hf : s.frame_table[fi]? = some f) (hocc : f.process_id ≠ -1) :
    ∃ (p v : Nat) (P : Process) (e : pte_t) (u : State),
      f.process_id = (p : Int) ∧ f.virtual_page = (v : Int) ∧ s.processes[p]? = some P ∧
      P.page_table[v]? = some e ∧ e.present = true ∧ e.frame_number = fi ∧
      e.modified = f.dirty ∧
      unmap s fi p = some u ∧ out u fi p = some u ∧ InvH (some fi) u ∧
      u.frame_table = updateAt unmapFrame fi s.frame_table ∧
      u.processes = updateAt (Process.upd
        (unmapStats (f.dirty && !s.exitloop && !e.file_mapped)
          (f.dirty && !s.exitloop && e.file_mapped)) v
        (unmapPte (f.dirty && !s.exitloop && !e.file_mapped))) p s.processes ∧
      SameRest s u ∧
      u.output = s.output ++ (if s.o_flag then
        Event.UNMAP P.pid (v : Int) :: (if (f.dirty && !s.exitloop) = true
          then [if e.file_mapped then Event.FOUT else Event.OUT] else [])
        else []) := by
  obtain ⟨⟨p, v, e, h1, h2, h3, h4, h5, h6⟩, hnf, _⟩ := owned_of_occupied hI hf hocc
  obtain ⟨P, hP, hPe⟩ := pte?_some_iff.mp h3
  obtain ⟨u, hu, huf, hup, hur, huo⟩ := unmap_eq (s := s) hf h2 hP hPe
  refine ⟨p, v, P, e, u, h1, h2, hP, hPe, h4, h5, h6, hu, ?_, ?_, huf, hup, hur, huo⟩
  · apply out_clean (f := unmapFrame f)
    · rw [huf, getElem?_updateAt, hf]; simp
    · rfl
  · have hcl := hI.clean p v e h3
    refine InvH_local (o := none) (q := some fi) (f := f) (e := e) hI huf hup hur.free_frames
      hur.hand hur.algo hur.randvals hur.ofs hur.currentProcess hf h3 ?_ (fun _ => h5)
      (Or.inr ⟨h1, h2⟩) (Or.inl ⟨⟨rfl, rfl, rfl⟩, rfl, hnf, rfl⟩) ?_ rfl ?_
    · intro j hj
      constructor
      · intro h; cases h
      · intro h; exact absurd (Option.some.inj h).symm hj
    · exact ⟨fun _ => ⟨rfl, rfl⟩, fun _ => rfl⟩
    · intro st c c' hc a1 a2 a3
      rw [h4] at hc
      simp only [unmapPte, unmapStats] at hc ⊢
      simp at hc
      refine ⟨by omega, a2, ?_⟩
      cases f.dirty <;> cases s.exitloop <;> cases e.file_mapped <;> simp <;> omega

/-- The effect of the page-in routine, `map` and the last two assignments of
`handle_page_fault`. -/
theorem fault_tail_eq {s : State} {fi cp vp : Nat} {f : frame_t} {P : Process} {e : pte_t}
    (hf : s.frame_table[fi]? = some f) (hP : s.processes[cp]? = some P)
    (he : P.page_table[vp]? = some e) :
    ∃ s5, map (if e.file_mapped then fin s fi cp else if e.paged_out then pageIn s fi cp
        else zero s fi cp) fi (vp : Int) cp = some s5 ∧
      (s5.modPte cp vp (fun e => { e with present := true, frame_number := fi % 128 })).frame_table
        = updateAt (mapFrame P.pid vp s.inst_count (!e.file_mapped && !e.paged_out)) fi
            s.frame_table ∧
      (s5.modPte cp vp (fun e => { e with present := true, frame_number := fi % 128 })).processes
        = updateAt (Process.upd (mapStats e.file_mapped e.paged_out) vp (mapPte fi)) cp
            s.processes ∧
      SameRest s (s5.modPte cp vp (fun e => { e with present := true, frame_number := fi % 128 }))
      ∧ (s5.modPte cp vp (fun e => { e with present := true, frame_number := fi % 128 })).output
        = s.output ++ (if s.o_flag then [pageInEvent e.file_mapped e.paged_out, Event.MAP fi]
            else []) := by
  have hfl : fi < s.frame_table.length := getElem?_lt_length hf
  by_cases hfm : e.file_mapped = true
  · rw [if_pos hfm]
    simp only [map, fin, emit, State.modStats, State.modFrame, State.modPte, getElem?_updateAt,
      hP, he, hf, idx?_natCast, Option.bind_eq_bind, Option.some_bind, Option.map_some', if_true,
      Option.pure_def]
    refine ⟨_, rfl, ?_, ?_, ⟨rfl, rfl, rfl, rfl, rfl, rfl, rfl, rfl, rfl, rfl, rfl, rfl, rfl⟩,
      ?_⟩
    · simp only [updateAt_updateAt]
      exact updateAt_congr (fun a => by simp [mapFrame, hfm]) _ _
    · simp only [updateAt_updateAt]
      apply updateAt_congr
      intro Q
      simp [Process.upd, mapStats, hfm, updateAt_updateAt]
      exact updateAt_congr (fun a => by simp [mapPte]) _ _
    · cases s.o_flag <;> simp [pageInEvent, hfm]
  · rw [if_neg hfm]
    have hfm' : e.file_mapped = false := by simpa using hfm
    by_cases hpo : e.paged_out = true
    · rw [if_pos hpo]
      simp only [map, pageIn, emit, State.modStats, State.modFrame, State.modPte,
        getElem?_updateAt, hP, he, hf, idx?_natCast, Option.bind_eq_bind, Option.some_bind,
        Option.map_some', if_true, Option.pure_def]
      refine ⟨_, rfl, ?_, ?_, ⟨rfl, rfl, rfl, rfl, rfl, rfl, rfl, rfl, rfl, rfl, rfl, rfl, rfl⟩,
        ?_⟩
      · simp only [updateAt_updateAt]
        exact updateAt_congr (fun a => by simp [mapFrame, hfm', hpo]) _ _
      · simp only [updateAt_updateAt]
        apply updateAt_congr
        intro Q
        simp [Process.upd, mapStats, hfm', hpo, updateAt_updateAt]
        exact updateAt_congr (fun a => by simp [mapPte]) _ _
      · cases s.o_flag <;> simp [pageInEvent, hfm', hpo]
    · rw [if_neg hpo]
      have hpo' : e.paged_out = false := by simpa using hpo
      simp only [map, zero, emit, State.modStats, State.modFrame, State.modPte,
        getElem?_updateAt, hP, he, hf, idx?_natCast, Option.bind_eq_bind, Option.some_bind,
        Option.map_some', if_true, Option.pure_def]
      refine ⟨_, rfl, ?_, ?_, ⟨rfl, rfl, rfl, rfl, rfl, rfl, rfl, rfl, rfl, rfl, rfl, rfl, rfl⟩,
        ?_⟩
      · simp only [updateAt_updateAt]
        exact updateAt_congr (fun a => by simp [mapFrame, hfm', hpo']) _ _
      · simp only [updateAt_updateAt]
        apply updateAt_congr
        intro Q
        simp [Process.upd, mapStats, hfm', hpo', updateAt_updateAt]
        exact updateAt_congr (fun a => by simp [mapPte]) _ _
      · cases s.o_flag <;> simp [pageInEvent, hfm', hpo']

/-- Mapping the hole frame to a page that is not present restores the
invariant. -/
theorem InvH_map {s s' : State} {fi cp vp : Nat} {f : frame_t} {P : Process} {e : pte_t}
    {keep fm po : Bool}
    (hI : InvH (some fi) s) (hf : s.frame_table[fi]? = some f) (hP : s.processes[cp]? = some P)
    (he : P.page_table[vp]? = some e) (hnp : e.present = false)
    (hft : s'.frame_table = updateAt (mapFrame P.pid vp s.inst_count keep) fi s.frame_table)
    (hpr : s'.processes = updateAt (Process.upd (mapStats fm po) vp (mapPte fi)) cp s.processes)
    (hr : SameRest s s') : InvH none s' := by
  have hpte : s.pte? cp vp = some e := pte?_some_iff.mpr ⟨P, hP, he⟩
  have hfree : FreeFrame f ∧ fi ∉ s.free_frames := by
    rcases hI.frames fi f hf with ⟨h1, h2⟩ | ⟨_, _, h3⟩
    · exact ⟨h1, fun h => (h2.mp h) rfl⟩
    · exact absurd rfl h3
  have hpid := (hI.procs cp P hP).1
  have hcl := hI.clean cp vp e hpte
  have hfi128 : fi % 128 = fi := by
    have := hI.nframes.2
    have := getElem?_lt_length hf
    omega
  refine InvH_local (o := some fi) (q := none) (f := f) (e := e) hI hft hpr hr.free_frames
    hr.hand hr.algo hr.randvals hr.ofs hr.currentProcess hf hpte ?_
    (fun h => by rw [hnp] at h; cases h) (Or.inl hfree.1) (Or.inr ?_) ?_ rfl ?_
  · intro j hj
    constructor
    · intro h; exact absurd (Option.some.inj h).symm hj
    · intro h; cases h
  · refine ⟨by simp, hfree.2, hpid, rfl, rfl, hfi128, ?_⟩
    simp only [mapPte, mapFrame]
    rw [(hcl.1 hnp).1, hfree.1.2.2]
    simp
  · refine ⟨fun h => by simp [mapPte] at h, ?_⟩
    intro hw
    exact hcl.2 hw
  · intro st c c' hc a1 a2 a3
    rw [hnp] at hc
    simp only [mapPte, mapStats] at hc ⊢
    simp at hc
    refine ⟨by omega, ?_, a3⟩
    cases fm <;> cases po <;> simp <;> omega

/-! ## The part of the state the policies leave alone -/

theorem core_modPte {s : State} (p v : Nat) {g : pte_t → pte_t}
    (hg : ∀ e, (g e).core = e.core) : (s.modPte p v g).core = s.core := by
  have h : (updateAt (fun P : Process => { P with page_table := updateAt g v P.page_table }) p
      s.processes).map Process.core = s.processes.map Process.core := by
    apply map_updateAt
    intro P
    simp only [Process.core]
    rw [map_updateAt pte_t.core g hg]
  simp only [State.core, State.modPte, h]

theorem core_modFrame {s : State} (i : Nat) {g : frame_t → frame_t}
    (hg : ∀ f, (g f).core = f.core) : (s.modFrame i g).core = s.core := by
  simp only [State.core, State.modFrame, map_updateAt frame_t.core g hg]

theorem frame_of_core {s s' : State} (h : s.core = s'.core) {i : Nat} {f : frame_t}
    (hf : s.frame_table[i]? = some f) :
    ∃ f', s'.frame_table[i]? = some f' ∧ f'.core = f.core := by
  have h1 : s.frame_table.map frame_t.core = s'.frame_table.map frame_t.core :=
    congrArg State.frame_table h
  obtain ⟨f', hf', hc⟩ := getElem?_of_map_eq h1 hf
  exact ⟨f', hf', hc.symm⟩

theorem process_of_core {s s' : State} (h : s.core = s'.core) {p : Nat} {P : Process}
    (hP : s.processes[p]? = some P) :
    ∃ P', s'.processes[p]? = some P' ∧ P'.core = P.core := by
  have h1 : s.processes.map Process.core = s'.processes.map Process.core :=
    congrArg State.processes h
  obtain ⟨P', hP', hc⟩ := getElem?_of_map_eq h1 hP
  exact ⟨P', hP', hc.symm⟩

theorem pte_of_core {s s' : State} (h : s.core = s'.core) {p v : Nat} {e : pte_t}
    (he : s.pte? p v = some e) : ∃ e', s'.pte? p v = some e' ∧ e'.core = e.core := by
  obtain ⟨P, hP, hPe⟩ := pte?_some_iff.mp he
  obtain ⟨P', hP', hc⟩ := process_of_core h hP
  have h1 : P.page_table.map pte_t.core = P'.page_table.map pte_t.core := by
    have := congrArg Process.page_table hc
    exact this.symm
  obtain ⟨e', he', hce⟩ := getElem?_of_map_eq h1 hPe
  exact ⟨e', pte?_some_iff.mpr ⟨P', hP', he'⟩, hce.symm⟩

theorem skel_core_pte (e : pte_t) : e.core.skel = e.skel := rfl

theorem skel_core_process (P : Process) : P.core.skel = P.skel := by
  simp only [Process.skel, Process.core, List.map_map]
  rfl

theorem skel_of_core {s s' : State} (h : s.core = s'.core) : s.skel = s'.skel := by
  have h1 : s.frame_table.map frame_t.core = s'.frame_table.map frame_t.core :=
    congrArg State.frame_table h
  have h2 : s.processes.map Process.core = s'.processes.map Process.core :=
    congrArg State.processes h
  have h3 : ∀ l : List Process, l.map Process.skel = (l.map Process.core).map Process.skel := by
    intro l
    rw [List.map_map]
    apply List.map_congr_left
    intro P _
    exact (skel_core_process P).symm
  simp only [State.skel]
  rw [h1, h3 s.processes, h3 s'.processes, h2]

/-- A state that differs from one satisfying the invariant only in what the
policies may write satisfies it too (given its cursors are in range). -/
theorem InvH_of_core {s s' : State} {o : Option Nat} (h : s.core = s'.core)
    (hhand : s'.hand < s'.frame_table.length)
    (hofs : s'.algo = Algo.random → s'.randvals ≠ [] → s'.ofs < s'.randvals.length)
    (hI : InvH o s) : InvH o s' := by
  refine InvH_transfer (skel_of_core h) ?_ hhand hofs ?_ hI
  · exact (congrArg State.free_frames h).symm
  · exact (congrArg State.currentProcess h).symm

theorem length_of_core {s s' : State} (h : s.core = s'.core) :
    s'.frame_table.length = s.frame_table.length :=
  (length_eq_of_map_eq (congrArg State.frame_table h)).symm

theorem Tenants_of_core {s s' : State} (h : s.core = s'.core) (hT : Tenants s) : Tenants s' := by
  intro i f' hf'
  obtain ⟨f, hf, hc⟩ := frame_of_core h.symm hf'
  obtain ⟨p, v, e, h1, h2, h3⟩ := hT i f hf
  obtain ⟨e', he', _⟩ := pte_of_core h h3
  refine ⟨p, v, e', ?_, ?_, he'⟩
  · rw [← h1]
    have := congrArg frame_t.process_id hc
    exact this.symm
  · rw [← h2]
    have := congrArg frame_t.virtual_page hc
    exact this.symm

theorem Tenants_of_Inv {s : State} (hI : InvH none s) (hfree : s.free_frames = []) :
    Tenants s := by
  intro i f hf
  rcases hI.frames i f hf with ⟨_, h2⟩ | ⟨⟨p, v, e, h1, h2, h3, _⟩, _⟩
  · rw [hfree] at h2
    simp at h2
  · exact ⟨p, v, e, h1, h2, h3⟩

theorem FIFO_result {s : State} (hh : s.hand < s.frame_table.length) :
    ∃ r, FIFOPager.select_victim_frame s = some r ∧ PolicyResult s r := by
  refine ⟨(s.hand, { s with hand := (s.hand + 1) % s.frame_table.length }), ?_, rfl, hh, ?_,
    Or.inl rfl⟩
  · simp only [FIFOPager.select_victim_frame, if_pos hh]
  · exact Nat.mod_lt _ (by omega)

theorem Random_result {s : State} (hn : 0 < s.frame_table.length)
    (ho : s.ofs < s.randvals.length) (hr : ∀ x ∈ s.randvals, 0 ≤ x) (hh : s.hand < s.frame_table.length) :
    ∃ r, RandomPager.select_victim_frame s = some r ∧ PolicyResult s r := by
  obtain ⟨x, hx⟩ : ∃ x, s.randvals[s.ofs]? = some x := ⟨s.randvals[s.ofs], by simp [ho]⟩
  have hx0 : 0 ≤ x := hr x (List.getElem?_mem hx)
  have hne : s.frame_table.isEmpty = false := by
    cases hft : s.frame_table with
    | nil => rw [hft] at hn; simp at hn
    | cons a l => rfl
  have hN : (0 : Int) < (s.frame_table.length : Int) := by omega
  have h1 : 0 ≤ Int.tmod x s.frame_table.length := Int.tmod_nonneg _ hx0
  have h2 : Int.tmod x s.frame_table.length < s.frame_table.length := Int.tmod_lt_of_pos _ hN
  have hb : ¬ ((s.frame_table.length : Int) = 0) := by omega
  have hidx : idx? (1 + Int.tmod x s.frame_table.length - 1)
      = some (Int.tmod x s.frame_table.length).toNat := by
    have : 1 + Int.tmod x s.frame_table.length - 1 = Int.tmod x s.frame_table.length := by omega
    rw [this]
    simp [idx?, h1]
  have hlt : (Int.tmod x s.frame_table.length).toNat < s.frame_table.length := by
    omega
  refine ⟨((Int.tmod x s.frame_table.length).toNat,
    { s with ofs := (s.ofs + 1) % s.randvals.length }), ?_, rfl, hlt, hh, Or.inr ?_⟩
  · simp only [RandomPager.select_victim_frame, hne, myrandom, hx, Option.bind_eq_bind,
      Option.some_bind, if_neg hb, Option.pure_def, hidx, if_pos hlt]
    simp
  · exact Nat.mod_lt _ (by omega)

theorem PolicyResult_trans {s s' : State} {r : Nat × State} (h : PolicyResult s' r)
    (hc : s'.core = s.core) (ho : s'.ofs = s.ofs) : PolicyResult s r := by
  obtain ⟨h1, h2, h3, h4⟩ := h
  refine ⟨h1.trans hc, ?_, h3, ?_⟩
  · rw [← length_of_core hc.symm]; exact h2
  · rw [← ho]; exact h4

theorem refCount_le (s : State) : refCount s ≤ s.frame_table.length := by
  unfold refCount
  calc _ ≤ (Finset.range s.frame_table.length).card := Finset.card_filter_le _ _
    _ = s.frame_table.length := Finset.card_range _

theorem refCount_clear_lt {s : State} {f : frame_t} {p v : Nat} {e : pte_t} (h : Nat)
    (hf : s.frame_table[s.hand]? = some f) (hp : f.process_id = (p : Int))
    (hv : f.virtual_page = (v : Int)) (he : s.pte? p v = some e) (hr : e.referenced = true) :
    refCount { s.modPte p v (fun e => { e with referenced := false }) with hand := h }
      < refCount s := by
  have hpte : ∀ p' v', ({ s.modPte p v (fun e => { e with referenced := false }) with
      hand := h } : State).pte? p' v' =
      if p = p' ∧ v = v' then (s.pte? p' v').map (fun e => { e with referenced := false })
      else s.pte? p' v' := by
    intro p' v'
    exact pte?_of_processes (s := s) (modPte_processes s p v _) p' v'
  have hmono : ∀ i, refAt { s.modPte p v (fun e => { e with referenced := false }) with
      hand := h } i = true → refAt s i = true := by
    intro i hi
    unfold refAt at hi ⊢
    change (match s.frame_table[i]? with
      | none => false
      | some f =>
        match idx? f.process_id, idx? f.virtual_page with
        | some p', some v' =>
          match ({ s.modPte p v (fun e => { e with referenced := false }) with
            hand := h } : State).pte? p' v' with
          | some e => e.referenced
          | none => false
        | _, _ => false) = true at hi
    cases hfi : s.frame_table[i]? with
    | none => rw [hfi] at hi; cases hi
    | some fi =>
      rw [hfi] at hi
      simp only at hi ⊢
      cases hp' : idx? fi.process_id with
      | none => rw [hp'] at hi; cases hi
      | some p' =>
        cases hv' : idx? fi.virtual_page with
        | none => rw [hp', hv'] at hi; cases hi
        | some v' =>
          rw [hp', hv'] at hi
          simp only at hi ⊢
          rw [hpte] at hi
          by_cases hpv : p = p' ∧ v = v'
          · rw [if_pos hpv] at hi
            cases hs : s.pte? p' v' with
            | none => rw [hs] at hi; cases hi
            | some e' => rw [hs] at hi; simp at hi
          · rw [if_neg hpv] at hi
            exact hi
  have hlt : s.hand < s.frame_table.length := getElem?_lt_length hf
  unfold refCount
  apply Finset.card_lt_card
  rw [Finset.ssubset_iff_of_subset]
  · refine ⟨s.hand, ?_, ?_⟩
    · simp only [Finset.mem_filter, Finset.mem_range]
      refine ⟨hlt, ?_⟩
      simp only [refAt, hf, hp, hv, idx?_natCast, he, hr]
    · simp only [Finset.mem_filter, Finset.mem_range, not_and]
      intro _
      unfold refAt
      change ¬ (match s.frame_table[s.hand]? with
        | none => false
        | some f =>
          match idx? f.process_id, idx? f.virtual_page with
          | some p', some v' =>
            match ({ s.modPte p v (fun e => { e with referenced := false }) with
              hand := h } : State).pte? p' v' with
            | some e => e.referenced
            | none => false
          | _, _ => false) = true
      rw [hf]
      simp only [hp, hv, idx?_natCast, hpte, he]
      simp
  · intro i hi
    simp only [Finset.mem_filter, Finset.mem_range] at hi ⊢
    refine ⟨?_, hmono i hi.2⟩
    have : ({ s.modPte p v (fun e => { e with referenced := false }) with
      hand := h } : State).frame_table.length = s.frame_table.length := rfl
    rw [← this]
    exact hi.1

theorem Clock_scan_result : ∀ (fuel : Nat) (s : State), Tenants s →
    s.hand < s.frame_table.length → refCount s < fuel →
    ∃ r, ClockPager.scan fuel s = some r ∧ PolicyResult s r := by
  intro fuel
  induction fuel with
  | zero => intro s _ _ h; omega
  | succ fuel ih =>
    intro s hT hh hR
    obtain ⟨f, hf⟩ : ∃ f, s.frame_table[s.hand]? = some f := ⟨s.frame_table[s.hand], by simp [hh]⟩
    obtain ⟨p, v, e, hp, hv, he⟩ := hT s.hand f hf
    have hnext : (s.hand + 1) % s.frame_table.length < s.frame_table.length :=
      Nat.mod_lt _ (by omega)
    by_cases hr : e.referenced = true
    · have hc : ({ s.modPte p v (fun e => { e with referenced := false }) with
          hand := (s.hand + 1) % s.frame_table.length } : State).core = s.core :=
        core_modPte (s := s) p v (fun e => rfl)
      have hlt := refCount_clear_lt ((s.hand + 1) % s.frame_table.length) hf hp hv he hr
      obtain ⟨r, hr1, hr2⟩ := ih _ (Tenants_of_core hc.symm hT) hnext (by omega)
      refine ⟨r, ?_, PolicyResult_trans hr2 hc rfl⟩
      simp only [ClockPager.scan, hf, hp, hv, idx?_natCast, he, hr, Option.bind_eq_bind,
        Option.some_bind]
      simpa using hr1
    · have hr' : e.referenced = false := by simpa using hr
      refine ⟨(s.hand, { s with hand := (s.hand + 1) % s.frame_table.length }), ?_, rfl, hh,
        hnext, Or.inl rfl⟩
      simp only [ClockPager.scan, hf, hp, hv, idx?_natCast, he, hr', Option.bind_eq_bind,
        Option.some_bind]
      simp

theorem Clock_result {s : State} (hT : Tenants s) (hh : s.hand < s.frame_table.length) :
    ∃ r, ClockPager.select_victim_frame s = some r ∧ PolicyResult s r := by
  have h : ¬ s.hand ≥ s.frame_table.length := by omega
  simp only [ClockPager.select_victim_frame, if_neg h]
  exact Clock_scan_result _ s hT hh (Nat.lt_succ_of_le (refCount_le s))

theorem StepOK_trans {a b c : State} (h1 : StepOK a b) (h2 : StepOK b c) : StepOK a c :=
  ⟨h2.1.trans h1.1, h2.2.1.trans h1.2.1, h2.2.2.trans h1.2.2⟩

theorem ageOne_result {s : State} {i : Nat} (hT : Tenants s) (hi : i < s.frame_table.length) :
    ∃ s1, AgingPager.ageOne s i = some s1 ∧ StepOK s s1 := by
  obtain ⟨f, hf⟩ : ∃ f, s.frame_table[i]? = some f := ⟨s.frame_table[i], by simp [hi]⟩
  obtain ⟨p, v, e, hp, hv, he⟩ := hT i f hf
  have hne : (f.process_id != -1) = true := by rw [hp]; exact natCast_bne_neg_one p
  have he1 : (s.modFrame i (fun f => { f with age := f.age >>> 1 })).pte? p v = some e := he
  have hc1 : (s.modFrame i (fun f => { f with age := f.age >>> 1 })).core = s.core :=
    core_modFrame i (fun f => rfl)
  by_cases hr : e.referenced = true
  · refine ⟨((s.modFrame i (fun f => { f with age := f.age >>> 1 })).modFrame i
      (fun f => { f with age := f.age ||| 0x80000000 })).modPte p v
        (fun e => { e with referenced := false }), ?_, ?_, rfl, rfl⟩
    · simp only [AgingPager.ageOne, hf, hne, hv, idx?_natCast, he1, hr,
        Option.bind_eq_bind, Option.some_bind, if_true, Option.pure_def]
      rw [hp]
      simp only [idx?_natCast, Option.some_bind, he1, hr, if_true]
    · exact Eq.trans (core_modPte p v (fun e => rfl))
        (Eq.trans (core_modFrame i (fun f => rfl)) hc1)
  · have hr' : e.referenced = false := by simpa using hr
    refine ⟨s.modFrame i (fun f => { f with age := f.age >>> 1 }), ?_, hc1, rfl, rfl⟩
    simp only [AgingPager.ageOne, hf, hne, hv, idx?_natCast, he1, hr',
      Option.bind_eq_bind, Option.some_bind, if_true, Option.pure_def]
    rw [hp]
    simp only [idx?_natCast, Option.some_bind, he1, hr']
    simp

theorem ageFrom_result : ∀ (k i : Nat) (s : State), Tenants s → i + k ≤ s.frame_table.length →
    ∃ s1, AgingPager.ageFrom k i s = some s1 ∧ StepOK s s1 := by
  intro k
  induction k with
  | zero => intro i s _ _; exact ⟨s, rfl, rfl, rfl, rfl⟩
  | succ k ih =>
    intro i s hT hik
    obtain ⟨s1, h1, h2⟩ := ageOne_result (i := i) hT (by omega)
    obtain ⟨s2, h3, h4⟩ := ih (i + 1) s1 (Tenants_of_core h2.1.symm hT)
      (by rw [length_of_core h2.1.symm]; omega)
    refine ⟨s2, ?_, StepOK_trans h2 h4⟩
    simp only [AgingPager.ageFrom, h1, Option.bind_eq_bind, Option.some_bind]
    exact h3

theorem findMin_result : ∀ (k i victim : Nat) (s : State), victim < s.frame_table.length →
    ∃ v, AgingPager.findMin k i victim s = some v ∧ v < s.frame_table.length := by
  intro k
  induction k with
  | zero => intro i victim s hv; exact ⟨victim, rfl, hv⟩
  | succ k ih =>
    intro i victim s hv
    have hidx : (s.hand + i) % s.frame_table.length < s.frame_table.length :=
      Nat.mod_lt _ (by omega)
    obtain ⟨f, hf⟩ : ∃ f, s.frame_table[(s.hand + i) % s.frame_table.length]? = some f :=
      ⟨s.frame_table[(s.hand + i) % s.frame_table.length], by simp [hidx]⟩
    obtain ⟨fv, hfv⟩ : ∃ f, s.frame_table[victim]? = some f :=
      ⟨s.frame_table[victim], by simp [hv]⟩
    have hnew : (if f.age < fv.age then (s.hand + i) % s.frame_table.length else victim)
        < s.frame_table.length := by
      split
      · exact hidx
      · exact hv
    obtain ⟨v, h1, h2⟩ := ih (i + 1) _ s hnew
    refine ⟨v, ?_, h2⟩
    simp only [AgingPager.findMin, hf, hfv, Option.bind_eq_bind, Option.some_bind]
    exact h1

theorem Aging_result {s : State} (hT : Tenants s) (hh : s.hand < s.frame_table.length) :
    ∃ r, AgingPager.select_victim_frame s = some r ∧ PolicyResult s r := by
  obtain ⟨s1, h1, hc, hhand, hofs⟩ := ageFrom_result s.frame_table.length 0 s hT (by omega)
  have hlen : s1.frame_table.length = s.frame_table.length := length_of_core hc.symm
  obtain ⟨v, h2, h3⟩ := findMin_result s1.frame_table.length 0 s1.hand s1
    (by rw [hhand, hlen]; exact hh)
  obtain ⟨f, hf⟩ : ∃ f, s1.frame_table[v]? = some f := ⟨s1.frame_table[v], by simp [h3]⟩
  refine ⟨(v, { s1.modFrame v (fun f => { f with age := 0 }) with
    hand := (v + 1) % s1.frame_table.length }), ?_, ?_, ?_, ?_, Or.inl hofs⟩
  · simp only [AgingPager.select_victim_frame, h1, h2, hf, Option.bind_eq_bind,
      Option.some_bind, Option.pure_def]
  · have hc2 : (s1.modFrame v (fun f => { f with age := 0 })).core = s1.core :=
      core_modFrame v (fun f => rfl)
    exact hc2.trans hc
  · rw [← hlen]; exact h3
  · show (v + 1) % s1.frame_table.length < (updateAt _ v s1.frame_table).length
    rw [length_updateAt]
    exact Nat.mod_lt _ (by omega)

theorem WorkingSet_scan_result : ∀ (k i : Nat) (victim : Option Nat) (minAge : Int) (s : State),
    Tenants s → s.hand < s.frame_table.length →
    (∀ v, victim = some v → v < s.frame_table.length) →
    ∃ r, WorkingSetPager.scan k i victim minAge s = some r ∧ PolicyResult s r := by
  intro k
  induction k with
  | zero =>
    intro i victim minAge s _ hh hv
    have hpos : 0 < s.frame_table.length := Nat.lt_of_le_of_lt (Nat.zero_le _) hh
    cases victim with
    | none =>
      refine ⟨(s.hand, { s with hand := (s.hand + 1) % s.frame_table.length }), ?_, rfl, hh,
        Nat.mod_lt _ hpos, Or.inl rfl⟩
      simp only [WorkingSetPager.scan, if_pos hh]
    | some v =>
      have hlt := hv v rfl
      refine ⟨(v, { s with hand := (v + 1) % s.frame_table.length }), ?_, rfl, hlt,
        Nat.mod_lt _ hpos, Or.inl rfl⟩
      simp only [WorkingSetPager.scan, if_pos hlt]
  | succ k ih =>
    intro i victim minAge s hT hh hv
    have hidx : (s.hand + i) % s.frame_table.length < s.frame_table.length :=
      Nat.mod_lt _ (by omega)
    obtain ⟨f, hf⟩ : ∃ f, s.frame_table[(s.hand + i) % s.frame_table.length]? = some f :=
      ⟨s.frame_table[(s.hand + i) % s.frame_table.length], by simp [hidx]⟩
    obtain ⟨p, v, e, hp, hpv, he⟩ := hT _ f hf
    -- the state after the referenced test
    obtain ⟨s1, hs1, hok, hlen⟩ : ∃ s1 : State,
        (if e.referenced then
          (s.modPte p v (fun e => { e with referenced := false })).modFrame
            ((s.hand + i) % s.frame_table.length)
            (fun f => { f with age_ := s.inst_count % 4294967296 })
        else s) = s1 ∧ StepOK s s1 ∧ s1.frame_table.length = s.frame_table.length := by
      by_cases hr : e.referenced = true
      · refine ⟨_, rfl, ?_, ?_⟩
        · rw [if_pos hr]
          exact ⟨Eq.trans (core_modFrame _ (fun f => rfl)) (core_modPte p v (fun e => rfl)),
            rfl, rfl⟩
        · rw [if_pos hr]
          show (updateAt _ _ s.frame_table).length = _
          rw [length_updateAt]
      · refine ⟨_, rfl, ?_, ?_⟩
        · rw [if_neg hr]; exact ⟨rfl, rfl, rfl⟩
        · rw [if_neg hr]
    obtain ⟨f1, hf1⟩ : ∃ f, s1.frame_table[(s.hand + i) % s.frame_table.length]? = some f :=
      exists_getElem?_of_lt (by rw [hlen]; exact hidx)
    have hT1 : Tenants s1 := Tenants_of_core hok.1.symm hT
    have hh1 : s1.hand < s1.frame_table.length := by rw [hok.2.1, hlen]; exact hh
    have hunf : WorkingSetPager.scan (k + 1) i victim minAge s =
        if toInt32 (subU64 s.inst_count f1.age_) > TAU then
          some ((s.hand + i) % s.frame_table.length,
            { s1 with hand := ((s.hand + i) % s.frame_table.length + 1) % s.frame_table.length })
        else if toInt32 (subU64 s.inst_count f1.age_) > minAge then
          WorkingSetPager.scan k (i + 1) (some ((s.hand + i) % s.frame_table.length))
            (toInt32 (subU64 s.inst_count f1.age_)) s1
        else WorkingSetPager.scan k (i + 1) victim minAge s1 := by
      simp only [WorkingSetPager.scan, hf, hp, hpv, idx?_natCast, he, Option.bind_eq_bind,
        Option.some_bind, hs1, hf1, Option.pure_def]
    rw [hunf]
    by_cases h1 : toInt32 (subU64 s.inst_count f1.age_) > TAU
    · rw [if_pos h1]
      refine ⟨_, rfl, hok.1, hidx, ?_, Or.inl hok.2.2⟩
      show _ % s.frame_table.length < s1.frame_table.length
      rw [hlen]
      exact Nat.mod_lt _ (by omega)
    · rw [if_neg h1]
      by_cases h2 : toInt32 (subU64 s.inst_count f1.age_) > minAge
      · rw [if_pos h2]
        obtain ⟨r, hr1, hr2⟩ := ih (i + 1) (some ((s.hand + i) % s.frame_table.length))
          (toInt32 (subU64 s.inst_count f1.age_)) s1 hT1 hh1
          (by intro w hw; cases hw; rw [hlen]; exact hidx)
        exact ⟨r, hr1, PolicyResult_trans hr2 hok.1 hok.2.2⟩
      · rw [if_neg h2]
        obtain ⟨r, hr1, hr2⟩ := ih (i + 1) victim minAge s1 hT1 hh1
          (by intro w hw; rw [hlen]; exact hv w hw)
        exact ⟨r, hr1, PolicyResult_trans hr2 hok.1 hok.2.2⟩

theorem WorkingSet_result {s : State} (hT : Tenants s) (hh : s.hand < s.frame_table.length) :
    ∃ r, WorkingSetPager.select_victim_frame s = some r ∧ PolicyResult s r :=
  WorkingSet_scan_result _ 0 none (-1) s hT hh (by intro v hv; cases hv)

theorem record_victim_isSome (c : NRUClasses) (pte : pte_t) (idx : Nat) :
    (c.record pte idx).victim.isSome = true := by
  obtain ⟨c0, c1, c2, c3⟩ := c
  cases hr : pte.referenced <;> cases hm : pte.modified <;> cases c0 <;> cases c1 <;>
    cases c2 <;> cases c3 <;> simp [NRUClasses.record, NRUClasses.victim, hr, hm]

theorem record_victim_mono (c : NRUClasses) (pte : pte_t) (idx : Nat) :
    ClassesBelow n c → idx < n → ClassesBelow n (c.record pte idx) := by
  obtain ⟨c0, c1, c2, c3⟩ := c
  intro ⟨h0, h1, h2, h3⟩ hidx
  cases hr : pte.referenced <;> cases hm : pte.modified <;> cases c0 <;> cases c1 <;>
    cases c2 <;> cases c3 <;>
    simp_all [NRUClasses.record, ClassesBelow]

theorem victim_below {n : Nat} {c : NRUClasses} {j : Nat} (h : ClassesBelow n c)
    (hj : c.victim = some j) : j < n := by
  obtain ⟨c0, c1, c2, c3⟩ := c
  obtain ⟨h0, h1, h2, h3⟩ := h
  cases c0 <;> cases c1 <;> cases c2 <;> cases c3 <;>
    simp_all [NRUClasses.victim]

theorem ClassesBelow_empty (n : Nat) : ClassesBelow n
    { class0Index := none, class1Index := none, class2Index := none, class3Index := none } := by
  simp [ClassesBelow]

theorem NRU_scan_result (reset : Bool) : ∀ (k i : Nat) (c : NRUClasses) (s : State),
    Tenants s → s.hand < s.frame_table.length → ClassesBelow s.frame_table.length c →
    ∃ c' s', NRUPager.scan reset k i c s = some (c', s') ∧ StepOK s s' ∧
      ClassesBelow s.frame_table.length c' ∧
      ((0 < k ∨ c.victim.isSome = true) → c'.victim.isSome = true) := by
  intro k
  induction k with
  | zero =>
    intro i c s _ _ hc
    refine ⟨c, s, rfl, ⟨rfl, rfl, rfl⟩, hc, ?_⟩
    intro h
    rcases h with h | h
    · omega
    · exact h
  | succ k ih =>
    intro i c s hT hh hc
    have hidx : (s.hand + i) % s.frame_table.length < s.frame_table.length :=
      Nat.mod_lt _ (by omega)
    obtain ⟨f, hf⟩ : ∃ f, s.frame_table[(s.hand + i) % s.frame_table.length]? = some f :=
      ⟨s.frame_table[(s.hand + i) % s.frame_table.length], by simp [hidx]⟩
    obtain ⟨p, v, e, hp, hpv, he⟩ := hT _ f hf
    have hc1 := record_victim_mono c e _ hc hidx
    have hv1 := record_victim_isSome c e ((s.hand + i) % s.frame_table.length)
    obtain ⟨s1, hs1, hok⟩ : ∃ s1 : State,
        (if reset then s.modPte p v (fun e => { e with referenced := false }) else s) = s1 ∧
        StepOK s s1 := by
      cases reset with
      | true => exact ⟨_, rfl, core_modPte p v (fun e => rfl), rfl, rfl⟩
      | false => exact ⟨_, rfl, rfl, rfl, rfl⟩
    have hlen : s1.frame_table.length = s.frame_table.length := length_of_core hok.1.symm
    have hunf : NRUPager.scan reset (k + 1) i c s =
        if (!reset && (c.record e ((s.hand + i) % s.frame_table.length)).class0Index != none)
          = true then
          some (c.record e ((s.hand + i) % s.frame_table.length), s1)
        else NRUPager.scan reset k (i + 1)
          (c.record e ((s.hand + i) % s.frame_table.length)) s1 := by
      simp only [NRUPager.scan, hf, hp, hpv, idx?_natCast, he, Option.bind_eq_bind,
        Option.some_bind, hs1, Option.pure_def]
    rw [hunf]
    split
    · exact ⟨_, _, rfl, hok, hc1, fun _ => hv1⟩
    · obtain ⟨c', s', h1, h2, h3, h4⟩ := ih (i + 1) _ s1 (Tenants_of_core hok.1.symm hT)
        (by rw [hok.2.1, hlen]; exact hh) (by rw [hlen]; exact hc1)
      refine ⟨c', s', h1, StepOK_trans hok h2, by rw [← hlen]; exact h3, fun _ => h4 (Or.inr hv1)⟩

theorem NRU_result {s : State} (hT : Tenants s) (hh : s.hand < s.frame_table.length) :
    ∃ r, NRUPager.select_victim_frame s = some r ∧ PolicyResult s r := by
  have hpos : 0 < s.frame_table.length := by omega
  obtain ⟨s0, hs0, hok0⟩ : ∃ s0 : State,
      (if decide (subU64 s.inst_count s.lastReset ≥ 48) = true then
        { s with lastReset := s.inst_count } else s) = s0 ∧ StepOK s s0 := by
    split
    · exact ⟨_, rfl, rfl, rfl, rfl⟩
    · exact ⟨_, rfl, rfl, rfl, rfl⟩
  have hlen0 : s0.frame_table.length = s.frame_table.length := length_of_core hok0.1.symm
  obtain ⟨c, s1, h1, hok1, hcb, hv⟩ := NRU_scan_result (decide (subU64 s.inst_count s.lastReset ≥ 48))
    s0.frame_table.length 0
    { class0Index := none, class1Index := none, class2Index := none, class3Index := none } s0
    (Tenants_of_core hok0.1.symm hT) (by rw [hok0.2.1, hlen0]; exact hh)
    (ClassesBelow_empty _)
  have hlen1 : s1.frame_table.length = s0.frame_table.length := length_of_core hok1.1.symm
  have hsome := hv (Or.inl (by rw [hlen0]; exact hpos))
  obtain ⟨j, hj⟩ := Option.isSome_iff_exists.mp hsome
  have hjlt : j < s0.frame_table.length := victim_below hcb hj
  obtain ⟨f, hf⟩ : ∃ f, s1.frame_table[j]? = some f :=
    exists_getElem?_of_lt (by rw [hlen1]; exact hjlt)
  have hne : ¬ s1.frame_table.length = 0 := by rw [hlen1, hlen0]; omega
  refine ⟨(j, { s1 with hand := (j + 1) % s1.frame_table.length }), ?_, ?_, ?_, ?_, ?_⟩
  · simp only [NRUPager.select_victim_frame, hs0, h1, hj, hf, if_neg hne, Option.bind_eq_bind,
      Option.some_bind, Option.pure_def]
  · exact hok1.1.trans hok0.1
  · rw [← hlen0]; exact hjlt
  · exact Nat.mod_lt _ (by omega)
  · exact Or.inl (hok1.2.2.trans hok0.2.2)

theorem skel_modPte {s : State} (p v : Nat) {g : pte_t → pte_t}
    (hg : ∀ e, (g e).skel = e.skel) : (s.modPte p v g).skel = s.skel := by
  have h : (updateAt (fun P : Process => { P with page_table := updateAt g v P.page_table }) p
      s.processes).map Process.skel = s.processes.map Process.skel := by
    apply map_updateAt
    intro P
    simp only [Process.skel]
    rw [map_updateAt pte_t.skel g hg]
  simp only [State.skel, State.modPte, h]

theorem skel_modStats {s : State} (p : Nat) {g : ProcessStats → ProcessStats}
    (hg : ∀ st, (g st).skel = st.skel) : (s.modStats p g).skel = s.skel := by
  have h : (updateAt (fun P : Process => { P with stats := g P.stats }) p
      s.processes).map Process.skel = s.processes.map Process.skel := by
    apply map_updateAt
    intro P
    simp only [Process.skel, hg]
  simp only [State.skel, State.modStats, h]

/-- Setting bits the invariant does not read keeps the invariant. -/
theorem InvH_modPte {s : State} {o : Option Nat} (p v : Nat) {g : pte_t → pte_t}
    (hg : ∀ e, (g e).skel = e.skel) (hI : InvH o s) : InvH o (s.modPte p v g) :=
  InvH_transfer (skel_modPte p v hg).symm rfl hI.hand_lt hI.rand rfl hI

theorem InvH_modStats {s : State} {o : Option Nat} (p : Nat) {g : ProcessStats → ProcessStats}
    (hg : ∀ st, (g st).skel = st.skel) (hI : InvH o s) : InvH o (s.modStats p g) :=
  InvH_transfer (skel_modStats p hg).symm rfl hI.hand_lt hI.rand rfl hI

/-- The Random policy, whenever it returns, returns a frame index and a cursor in
range. -/
theorem Random_returned {s : State} {r : Nat × State} (hh : s.hand < s.frame_table.length)
    (h : RandomPager.select_victim_frame s = some r) : PolicyResult s r := by
  unfold RandomPager.select_victim_frame at h
  split at h
  · cases h
  · cases hx : s.randvals[s.ofs]? with
    | none => simp [myrandom, hx] at h
    | some x =>
      have hlen : 0 < s.randvals.length := by
        have := getElem?_lt_length hx
        omega
      simp only [myrandom, hx, Option.bind_eq_bind, Option.some_bind] at h
      split at h
      · cases h
      · simp only [Option.pure_def, Option.some_bind] at h
        obtain ⟨i, _, h⟩ := Option.bind_eq_some.mp h
        split at h
        · rename_i hlt
          cases h
          exact ⟨rfl, hlt, hh, Or.inr (Nat.mod_lt _ hlen)⟩
        · cases h

/-- The virtual call succeeds when no frame is free, given a random table that
suits the Random policy; and whenever it returns, also with another table, its
result is a `PolicyResult`. -/
theorem select_victim_result {s : State} (hI : InvH none s) (hfree : s.free_frames = [])
    (hdef : RandFile s ∨ ∃ r, select_victim_frame s = some r) :
    ∃ r, select_victim_frame s = some r ∧ PolicyResult s r := by
  have hT := Tenants_of_Inv hI hfree
  have hh := hI.hand_lt
  unfold select_victim_frame at hdef ⊢
  cases ha : s.algo with
  | fifo => exact FIFO_result hh
  | random =>
    rcases hdef with hR | ⟨r, hr⟩
    · exact Random_result hI.nframes.1 (hI.rand ha (hR ha).1) (hR ha).2 hh
    · rw [ha] at hr
      exact ⟨r, hr, Random_returned hh hr⟩
  | clock => exact Clock_result hT hh
  | nru => exact NRU_result hT hh
  | aging => exact Aging_result hT hh
  | workingSet => exact WorkingSet_result hT hh

theorem InvH_of_PolicyResult {s : State} {r : Nat × State} {o : Option Nat} (hI : InvH o s)
    (hr : PolicyResult s r) : InvH o r.2 := by
  obtain ⟨h1, _, h3, h4⟩ := hr
  refine InvH_of_core h1.symm h3 ?_ hI
  intro ha hne
  rcases h4 with h4 | h4
  · have ha' : s.algo = Algo.random := by
      rw [← ha]
      have := congrArg State.algo h1.symm
      exact this
    have hrv : r.2.randvals = s.randvals := by
      have := congrArg State.randvals h1
      exact this
    rw [h4, hrv]
    rw [hrv] at hne
    exact hI.rand ha' hne
  · exact h4

/-- Taking a frame: either the head of the free list, which becomes the hole,
or a victim chosen by the policy among frames that are all occupied. -/
theorem get_frame_spec {s : State} (hI : InvH none s)
    (hdef : RandFile s ∨ ∃ r, get_frame s = some r) :
    ∃ fi s2, get_frame s = some (fi, s2) ∧ fi < s.frame_table.length ∧
      ((∃ rest f, s.free_frames = fi :: rest ∧ s2 = { s with free_frames := rest } ∧
          InvH (some fi) s2 ∧ s2.frame_table[fi]? = some f ∧ FreeFrame f) ∨
        (s.free_frames = [] ∧ select_victim_frame s = some (fi, s2) ∧ PolicyResult s (fi, s2) ∧
          InvH none s2 ∧ ∃ f, s2.frame_table[fi]? = some f ∧ f.process_id ≠ -1)) := by
  cases hfree : s.free_frames with
  | nil =>
    obtain ⟨⟨fi, s2⟩, h1, h2⟩ := select_victim_result hI hfree (by
      rcases hdef with h | ⟨r, h⟩
      · exact Or.inl h
      · right
        simp only [get_frame, hfree] at h
        exact ⟨r, h⟩)
    have hI2 : InvH none s2 := InvH_of_PolicyResult hI h2
    have hlen : s2.frame_table.length = s.frame_table.length := length_of_core h2.1.symm
    have hlt : fi < s2.frame_table.length := by rw [hlen]; exact h2.2.1
    refine ⟨fi, s2, ?_, h2.2.1, Or.inr ⟨rfl, h1, h2, hI2, s2.frame_table[fi], by simp [hlt], ?_⟩⟩
    · simp only [get_frame, hfree, h1]
    · intro hneg
      have hf : s2.frame_table[fi]? = some s2.frame_table[fi] := by simp [hlt]
      have hfr2 : s2.free_frames = [] := by
        have := congrArg State.free_frames h2.1
        exact this.trans hfree
      rcases hI2.frames fi _ hf with ⟨_, h4⟩ | ⟨⟨p, v, e, h5, _⟩, _⟩
      · rw [hfr2] at h4
        simp at h4
      · rw [h5] at hneg
        exact natCast_ne_neg_one p hneg
  | cons fi rest =>
    have hmem : fi ∈ s.free_frames := by rw [hfree]; simp
    have hlt : fi < s.frame_table.length := hI.free_lt fi hmem
    have hnd : (fi :: rest).Nodup := hfree ▸ hI.free_nodup
    have hfi_rest : fi ∉ rest := (List.nodup_cons.mp hnd).1
    obtain ⟨f, hf⟩ : ∃ f, s.frame_table[fi]? = some f := ⟨s.frame_table[fi], by simp [hlt]⟩
    have hfree_f : FreeFrame f := by
      rcases hI.frames fi f hf with ⟨h, _⟩ | ⟨_, h, _⟩
      · exact h
      · exact absurd hmem h
    refine ⟨fi, { s with free_frames := rest }, ?_, hlt,
      Or.inl ⟨rest, f, rfl, rfl, ?_, hf, hfree_f⟩⟩
    · simp only [get_frame, hfree]
    · refine
        { nframes := hI.nframes, procs := hI.procs, frames := ?_, ptes := hI.ptes
          clean := hI.clean, vmas := hI.vmas
          free_nodup := (List.nodup_cons.mp hnd).2
          free_lt := fun i hi => hI.free_lt i (by rw [hfree]; exact List.mem_cons_of_mem _ hi)
          hole_lt := fun h hh => by cases hh; exact hlt
          hand_lt := hI.hand_lt, cur := hI.cur, rand := hI.rand }
      intro i g hg
      rcases hI.frames i g hg with ⟨h1, h2⟩ | ⟨h1, h2, _⟩
      · left
        refine ⟨h1, ?_⟩
        show i ∈ rest ↔ some fi ≠ some i
        rw [hfree] at h2
        have hi : i ∈ fi :: rest := h2.mpr (by simp)
        constructor
        · intro hir h
          cases h
          exact hfi_rest hir
        · intro hne
          rcases List.mem_cons.mp hi with h | h
          · exact absurd (congrArg some h.symm) hne
          · exact h
      · right
        refine ⟨h1, ?_, ?_⟩
        · show i ∉ rest
          intro hir
          exact h2 (by rw [hfree]; exact List.mem_cons_of_mem _ hir)
        · intro h
          cases h
          exact h2 hmem

/-- A write to one page table entry that keeps its write-protect bit, and its
paged-out bit when the entry is write-protected, keeps `WPClean`. -/
theorem WPClean_upd {s s' : State} {p v : Nat} {gs : ProcessStats → ProcessStats}
    {g : pte_t → pte_t} (h : s'.processes = updateAt (Process.upd gs v g) p s.processes)
    (hg : ∀ e, s.pte? p v = some e → (g e).write_protect = e.write_protect ∧
      (e.write_protect = true → e.paged_out = false → (g e).paged_out = false))
    (hJ : WPClean s) : WPClean s' := by
  intro p' v' e' he' hwp
  rw [pte?_of_processes h] at he'
  by_cases hc : p = p' ∧ v = v'
  · rw [if_pos hc] at he'
    obtain ⟨e, he, rfl⟩ := Option.map_eq_some'.mp he'
    obtain ⟨rfl, rfl⟩ := hc
    obtain ⟨a, b⟩ := hg e he
    rw [a] at hwp
    exact b hwp (hJ p v e he hwp)
  · rw [if_neg hc] at he'
    exact hJ p' v' e' he' hwp

theorem WPClean_of_core {s s' : State} (h : s.core = s'.core) (hJ : WPClean s) :
    WPClean s' := by
  intro p v e' he' hwp
  obtain ⟨e, he, hc⟩ := pte_of_core h.symm he'
  have h1 : e.write_protect = e'.write_protect := by
    have := congrArg pte_t.write_protect hc
    exact this
  have h2 : e.paged_out = e'.paged_out := by
    have := congrArg pte_t.paged_out hc
    exact this
  rw [← h2]
  exact hJ p v e he (h1.trans hwp)

theorem WPClean_of_processes {s s' : State} (h : s'.processes = s.processes)
    (hJ : WPClean s) : WPClean s' := by
  intro p v e he hwp
  rw [pte?_eq_of_processes_eq h] at he
  exact hJ p v e he hwp

theorem WPClean_modPte {s : State} (p v : Nat) {g : pte_t → pte_t}
    (hg : ∀ e, (g e).write_protect = e.write_protect ∧ (g e).paged_out = e.paged_out)
    (hJ : WPClean s) : WPClean (s.modPte p v g) :=
  WPClean_upd (modPte_processes s p v g)
    (fun e _ => ⟨(hg e).1, fun _ h => (hg e).2.trans h⟩) hJ

theorem WPClean_modStats {s : State} (p : Nat) (gs : ProcessStats → ProcessStats)
    (hJ : WPClean s) : WPClean (s.modStats p gs) :=
  WPClean_upd (modStats_processes s p 0 gs) (fun _ _ => ⟨rfl, fun _ h => h⟩) hJ

theorem WPClean_faultEntry {s : State} (cp : Nat) (vpage : Int) (vp : Nat) (P : Process)
    (hJ : WPClean s) : WPClean (faultEntry s cp vpage vp P) := by
  unfold faultEntry
  cases P.vmas.find? (fun vma => vma.covers vpage) with
  | none => exact hJ
  | some vma => exact WPClean_modPte cp vp (fun e => ⟨rfl, rfl⟩) hJ

theorem faultEntry_output (s : State) (cp : Nat) (vpage : Int) (vp : Nat) (P : Process) :
    (faultEntry s cp vpage vp P).output = s.output := by
  unfold faultEntry
  cases P.vmas.find? (fun vma => vma.covers vpage) with
  | none => rfl
  | some vma => rfl

theorem SameCounts_refl (s : State) : SameCounts s s := ⟨rfl, rfl, rfl, rfl, rfl⟩

theorem SameCounts_trans {a b c : State} (h1 : SameCounts a b) (h2 : SameCounts b c) :
    SameCounts a c :=
  ⟨h2.1.trans h1.1, h2.2.1.trans h1.2.1, h2.2.2.1.trans h1.2.2.1,
    h2.2.2.2.1.trans h1.2.2.2.1, h2.2.2.2.2.trans h1.2.2.2.2⟩

theorem SameCounts_of_rest {s s' : State} (h : SameRest s s')
    (hl : s'.processes.length = s.processes.length) : SameCounts s s' :=
  ⟨h.inst_count, h.rwcount, h.ctx_switches, h.process_exits, hl⟩

theorem SameCounts_modPte (s : State) (p v : Nat) (g : pte_t → pte_t) :
    SameCounts s (s.modPte p v g) :=
  ⟨rfl, rfl, rfl, rfl, length_updateAt _ _ _⟩

theorem SameCounts_modStats (s : State) (p : Nat) (g : ProcessStats → ProcessStats) :
    SameCounts s (s.modStats p g) :=
  ⟨rfl, rfl, rfl, rfl, length_updateAt _ _ _⟩

theorem SameCounts_modFrame (s : State) (i : Nat) (g : frame_t → frame_t) :
    SameCounts s (s.modFrame i g) :=
  ⟨rfl, rfl, rfl, rfl, rfl⟩

theorem SameCounts_emit (s : State) (e : Event) : SameCounts s (emit s e) :=
  ⟨rfl, rfl, rfl, rfl, rfl⟩

theorem faultEntry_length (s : State) (cp vp : Nat) (P : Process) :
    (faultEntry s cp (vp : Int) vp P).processes.length = s.processes.length := by
  unfold faultEntry
  cases P.vmas.find? (fun vma => vma.covers (vp : Int)) with
  | none => rfl
  | some vma => exact length_updateAt _ _ _

theorem faultEntry_eq (s : State) (cp vp : Nat) (P : Process) :
    ∃ b : Bool, (faultEntry s cp (vp : Int) vp P = s.modPte cp vp (fun e => { e with file_mapped := b }) ∨
      faultEntry s cp (vp : Int) vp P = s) ∧
      ∀ e, s.pte? cp vp = some e →
        (faultEntry s cp (vp : Int) vp P).pte? cp vp = some { e with file_mapped := faultBit P vp e } := by
  unfold faultEntry faultBit
  cases P.vmas.find? (fun vma => vma.covers (vp : Int)) with
  | none =>
    refine ⟨false, Or.inr rfl, ?_⟩
    intro e he
    exact he
  | some vma =>
    refine ⟨vma.file_mapped, Or.inl rfl, ?_⟩
    intro e he
    rw [pte?_of_processes (modPte_processes s cp vp _), he]
    simp

theorem InvH_faultEntry {s : State} {o : Option Nat} (cp vp : Nat) (P : Process)
    (hI : InvH o s) : InvH o (faultEntry s cp (vp : Int) vp P) := by
  obtain ⟨b, h | h, _⟩ := faultEntry_eq s cp vp P
  · rw [h]; exact InvH_modPte cp vp (fun e => rfl) hI
  · rw [h]; exact hI

theorem faultEntry_process {s : State} {cp vp : Nat} {P : Process}
    (hP : s.processes[cp]? = some P) (Q : Process) :
    ∃ P1, (faultEntry s cp (vp : Int) vp Q).processes[cp]? = some P1 ∧ P1.stats = P.stats ∧
      P1.pid = P.pid ∧ P1.vmas = P.vmas := by
  obtain ⟨b, h | h, _⟩ := faultEntry_eq s cp vp Q
  · rw [h, modPte_processes, getElem?_updateAt, hP]
    exact ⟨Process.upd (fun st => st) vp (fun e => { e with file_mapped := b }) P, by simp,
      rfl, rfl, rfl⟩
  · rw [h]; exact ⟨P, hP, rfl, rfl, rfl⟩

theorem faultEntry_rest (s : State) (cp vp : Nat) (P : Process) :
    SameRest s (faultEntry s cp (vp : Int) vp P) ∧
      (faultEntry s cp (vp : Int) vp P).frame_table = s.frame_table := by
  obtain ⟨b, h | h, _⟩ := faultEntry_eq s cp vp P
  · rw [h]; exact ⟨⟨rfl, rfl, rfl, rfl, rfl, rfl, rfl, rfl, rfl, rfl, rfl, rfl, rfl⟩, rfl⟩
  · rw [h]; exact ⟨SameRest_refl s, rfl⟩

theorem RandFile_of_eq {s s' : State} (ha : s'.algo = s.algo) (hr : s'.randvals = s.randvals)
    (h : RandFile s) : RandFile s' := by
  unfold RandFile
  rw [ha, hr]
  exact h

/-- The page fault handler on a page of the current process that is not present:
it succeeds (given a random table that suits the Random policy; with another
table the statement is about the calls that return) and keeps the invariant;
`s3` is the state once the frame `fi` has been taken and emptied. -/
theorem handle_page_fault_spec {s : State} {cp vp : Nat} {P : Process} {e : pte_t}
    (hI : InvH none s) (hP : s.processes[cp]? = some P) (he : P.page_table[vp]? = some e)
    (hnp : e.present = false)
    (hdef : RandFile s ∨ ∃ r, handle_page_fault s cp (vp : Int) = some r) :
    ∃ (fi : Nat) (s2 s3 s' : State) (P3 : Process) (e3 : pte_t) (f3 : frame_t),
      get_frame (faultEntry s cp (vp : Int) vp P) = some (fi, s2) ∧
      handle_page_fault s cp (vp : Int) = some s' ∧
      InvH (some fi) s3 ∧ s3.frame_table[fi]? = some f3 ∧ FreeFrame f3 ∧
      s3.processes[cp]? = some P3 ∧ P3.page_table[vp]? = some e3 ∧
      e3.core = ({ e with file_mapped := faultBit P vp e } : pte_t).core ∧
      P3.pid = P.pid ∧ P3.vmas = P.vmas ∧
      P3.stats.maps = P.stats.maps ∧ P3.stats.ins = P.stats.ins ∧
      P3.stats.fins = P.stats.fins ∧ P3.stats.zeros = P.stats.zeros ∧
      P3.stats.segv = P.stats.segv ∧ P3.stats.segprot = P.stats.segprot ∧
      s3.inst_count = s.inst_count ∧ s3.currentProcess = s.currentProcess ∧
      s'.frame_table = updateAt (mapFrame P3.pid vp s3.inst_count
        (!e3.file_mapped && !e3.paged_out)) fi s3.frame_table ∧
      s'.processes = updateAt (Process.upd (mapStats e3.file_mapped e3.paged_out) vp
        (mapPte fi)) cp s3.processes ∧
      SameRest s3 s' ∧ InvH none s' ∧ s'.algo = s.algo ∧ s'.randvals = s.randvals ∧
      s'.o_flag = s.o_flag ∧
      s'.output = s3.output ++
        (if s.o_flag then [pageInEvent e3.file_mapped e3.paged_out, Event.MAP fi] else []) ∧
      SameCounts s s' ∧ (WPClean s → WPClean s') ∧
      ∃ ev, s3.output = s.output ++ ev ∧ EvictShape ev ∧
        (s.o_flag = false → ev = []) := by
  have hpte : s.pte? cp vp = some e := pte?_some_iff.mpr ⟨P, hP, he⟩
  have hI1 : InvH none (faultEntry s cp (vp : Int) vp P) := InvH_faultEntry cp vp P hI
  obtain ⟨b, _, hpte1⟩ := faultEntry_eq s cp vp P
  have hpte1 := hpte1 e hpte
  obtain ⟨P1, hP1, hst1, hpid1, hvm1⟩ := @faultEntry_process s cp vp P hP P
  obtain ⟨hr1, hft1⟩ := faultEntry_rest s cp vp P
  have hdef1 : RandFile (faultEntry s cp (vp : Int) vp P) ∨
      ∃ r, get_frame (faultEntry s cp (vp : Int) vp P) = some r := by
    rcases hdef with h | ⟨r, h⟩
    · exact Or.inl (RandFile_of_eq hr1.algo hr1.randvals h)
    · right
      simp only [handle_page_fault, hP, he, idx?_natCast, Option.bind_eq_bind,
        Option.some_bind] at h
      obtain ⟨a, ha, _⟩ := Option.bind_eq_some.mp h
      exact ⟨a, ha⟩
  obtain ⟨fi, s2, hg, hfilt, hcase⟩ := get_frame_spec hI1 hdef1
  rcases hcase with ⟨rest, f, hfree, hs2, hI2, hf2, hff⟩ | ⟨hfree, hsel, hres, hI2, f, hf2, hocc⟩
  · -- a free frame
    have hcond : (f.process_id != -1 && f.virtual_page != -1) = false := by
      rw [hff.1]; rfl
    have hpr2 : s2.processes = (faultEntry s cp (vp : Int) vp P).processes := by rw [hs2]
    have hP2 : s2.processes[cp]? = some P1 := by rw [hpr2]; exact hP1
    have hpte2 : s2.pte? cp vp = some { e with file_mapped := faultBit P vp e } := by
      rw [pte?_eq_of_processes_eq hpr2]; exact hpte1
    obtain ⟨P2, hP2', he2⟩ := pte?_some_iff.mp hpte2
    rw [hP2] at hP2'
    cases hP2'
    obtain ⟨s5, hmap, hft, hpr, hsr, hout5⟩ := @fault_tail_eq s2 fi cp vp _ _ _ hf2 hP2 he2
    have hof2 : s2.o_flag = s.o_flag := by rw [hs2]; exact hr1.o_flag
    have hic : s2.inst_count = s.inst_count := by rw [hs2]; exact hr1.inst_count
    have hcur : s2.currentProcess = s.currentProcess := by rw [hs2]; exact hr1.currentProcess
    refine ⟨fi, s2, s2, _, P1, _, f, hg, ?_, hI2, hf2, hff, hP2, he2, rfl, hpid1, hvm1,
      by rw [hst1], by rw [hst1], by rw [hst1], by rw [hst1], by rw [hst1], by rw [hst1],
      hic, hcur, hft, hpr, hsr,
      InvH_map hI2 hf2 hP2 he2 hnp hft hpr hsr,
      hsr.algo.trans (by rw [hs2]; exact hr1.algo),
      hsr.randvals.trans (by rw [hs2]; exact hr1.randvals), hsr.o_flag.trans hof2,
      by rw [hout5, hof2],
      SameCounts_trans (SameCounts_of_rest hr1 (faultEntry_length s cp vp P))
        (SameCounts_trans (by rw [hs2]; exact SameCounts_refl _)
          (SameCounts_of_rest hsr (by rw [hpr, length_updateAt]))),
      fun hJ => WPClean_upd hpr (fun _ _ => ⟨rfl, fun _ h => h⟩)
        (WPClean_of_processes hpr2 (WPClean_faultEntry cp (vp : Int) vp P hJ)),
      [], by rw [hs2, List.append_nil]; exact faultEntry_output s cp (vp : Int) vp P,
      Or.inl rfl, fun _ => rfl⟩
    simp only [handle_page_fault, hP, he, idx?_natCast, Option.bind_eq_bind, Option.some_bind,
      Option.pure_def]
    rw [hg]
    simp only [Option.some_bind, hf2, hcond, hpte2, hmap]
    simp
  · -- a victim chosen by the policy
    obtain ⟨p, v, Pv, ev, u, h1, h2, hPv, hev, hpres, hfn, hmod, hunmap, hout, hIu, huf, hup, hur,
      huo⟩ := unmap_spec hI2 hf2 hocc
    have hcond : (f.process_id != -1 && f.virtual_page != -1) = true := by
      rw [h1, h2, natCast_bne_neg_one, natCast_bne_neg_one]; rfl
    have hcore : s2.core = (faultEntry s cp (vp : Int) vp P).core := hres.1
    obtain ⟨P2, hP2, hPc⟩ := process_of_core hcore.symm hP1
    obtain ⟨e2, hpte2, hec⟩ := pte_of_core hcore.symm hpte1
    have hne : ¬ (p = cp ∧ v = vp) := by
      rintro ⟨rfl, rfl⟩
      have : s2.pte? p v = some ev := pte?_some_iff.mpr ⟨Pv, hPv, hev⟩
      rw [this] at hpte2
      cases hpte2
      have hp := congrArg pte_t.present hec
      simp only [pte_t.core] at hp
      rw [hpres, hnp] at hp
      cases hp
    have hpte3 : u.pte? cp vp = some e2 := by
      rw [pte?_of_processes hup, if_neg hne]; exact hpte2
    obtain ⟨P3, hP3, he3⟩ := pte?_some_iff.mp hpte3
    have hP3' : P3 = P2 ∨ ∃ g h, P3 = Process.upd (unmapStats g h) v (unmapPte g) P2 := by
      rw [hup, getElem?_updateAt] at hP3
      by_cases hpc : p = cp
      · rw [if_pos hpc, hP2] at hP3
        right
        exact ⟨_, _, (Option.some.inj hP3).symm⟩
      · rw [if_neg hpc, hP2] at hP3
        left
        exact (Option.some.inj hP3).symm
    have hpid2 : P2.pid = P1.pid := by
      have := congrArg Process.pid hPc; exact this
    have hvm2 : P2.vmas = P1.vmas := by
      have := congrArg Process.vmas hPc; exact this
    have hst2 : P2.stats = P1.stats := by
      have := congrArg Process.stats hPc; exact this
    have hfu : u.frame_table[fi]? = some (unmapFrame f) := by
      rw [huf, getElem?_updateAt, hf2]; simp
    obtain ⟨s5, hmap, hft, hpr, hsr, hout5⟩ := @fault_tail_eq u fi cp vp _ _ _ hfu hP3 he3
    have hofu : u.o_flag = s.o_flag := by
      have := congrArg State.o_flag hcore
      exact hur.o_flag.trans (this.trans hr1.o_flag)
    have hic2 : s2.inst_count = s.inst_count := by
      have := congrArg State.inst_count hcore
      exact this.trans hr1.inst_count
    have hcur2 : s2.currentProcess = s.currentProcess := by
      have := congrArg State.currentProcess hcore
      exact this.trans hr1.currentProcess
    have hidxp : idx? f.process_id = some p := by rw [h1]; exact idx?_natCast p
    have halgo2 : s2.algo = s.algo := by
      have := congrArg State.algo hcore
      exact this.trans hr1.algo
    have hrv2 : s2.randvals = s.randvals := by
      have := congrArg State.randvals hcore
      exact this.trans hr1.randvals
    have hwpu : WPClean s → WPClean u := by
      intro hJ
      refine WPClean_upd hup ?_
        (WPClean_of_core hcore.symm (WPClean_faultEntry cp (vp : Int) vp P hJ))
      intro e0 he0
      have hev0 : s2.pte? p v = some ev := pte?_some_iff.mpr ⟨Pv, hPv, hev⟩
      rw [hev0] at he0
      cases he0
      refine ⟨rfl, ?_⟩
      intro hwp hpo
      have hm : ev.modified = false := (hI2.clean p v ev hev0).2 hwp
      have hd : f.dirty = false := by rw [← hmod]; exact hm
      simp only [unmapPte, hd, hpo]
      rfl
    have hout3 : u.output = s.output ++ (if s2.o_flag then
        Event.UNMAP Pv.pid (v : Int) :: (if (f.dirty && !s2.exitloop) = true
          then [if ev.file_mapped then Event.FOUT else Event.OUT] else [])
        else []) ∧
        EvictShape (if s2.o_flag then
          Event.UNMAP Pv.pid (v : Int) :: (if (f.dirty && !s2.exitloop) = true
            then [if ev.file_mapped then Event.FOUT else Event.OUT] else [])
          else []) ∧
        (s.o_flag = false → (if s2.o_flag then
          Event.UNMAP Pv.pid (v : Int) :: (if (f.dirty && !s2.exitloop) = true
            then [if ev.file_mapped then Event.FOUT else Event.OUT] else [])
          else []) = []) := by
      have ho2 : s2.output = s.output := by
        have := congrArg State.output hcore
        exact this.trans (faultEntry_output s cp (vp : Int) vp P)
      have hof2 : s2.o_flag = s.o_flag := by
        have := congrArg State.o_flag hcore
        exact this.trans hr1.o_flag
      refine ⟨by rw [huo, ho2], ?_, ?_⟩
      · unfold EvictShape
        cases s2.o_flag
        · exact Or.inl rfl
        · right
          refine ⟨Pv.pid, (v : Int), ?_⟩
          cases (f.dirty && !s2.exitloop)
          · exact Or.inl rfl
          · cases ev.file_mapped
            · exact Or.inr (Or.inl rfl)
            · exact Or.inr (Or.inr rfl)
      · intro h
        rw [hof2, h]
        rfl
    have hcn2 : SameCounts (faultEntry s cp (vp : Int) vp P) s2 := by
      have h1 := congrArg State.inst_count hcore
      have h2 := congrArg State.rwcount hcore
      have h3 := congrArg State.ctx_switches hcore
      have h4 := congrArg State.process_exits hcore
      have h5 := congrArg (fun x => x.processes.length) hcore
      exact ⟨h1, h2, h3, h4, by simpa [State.core] using h5⟩
    refine ⟨fi, s2, u, _, P3, e2, unmapFrame f, hg, ?_, hIu, hfu, ⟨rfl, rfl, rfl⟩, hP3, he3, hec,
      ?_, ?_, ?_, ?_, ?_, ?_, ?_, ?_, hur.inst_count.trans hic2,
      hur.currentProcess.trans hcur2, hft, hpr, hsr,
      InvH_map hIu hfu hP3 he3
        (by have hp := congrArg pte_t.present hec
            simp only [pte_t.core] at hp
            rw [hp]; exact hnp) hft hpr hsr,
      hsr.algo.trans (hur.algo.trans halgo2), hsr.randvals.trans (hur.randvals.trans hrv2),
      hsr.o_flag.trans hofu, by rw [hout5, hofu],
      SameCounts_trans (SameCounts_of_rest hr1 (faultEntry_length s cp vp P))
        (SameCounts_trans hcn2
          (SameCounts_trans (SameCounts_of_rest hur (by rw [hup, length_updateAt]))
            (SameCounts_of_rest hsr (by rw [hpr, length_updateAt])))),
      fun hJ => WPClean_upd hpr (fun _ _ => ⟨rfl, fun _ h => h⟩) (hwpu hJ),
      _, hout3.1, hout3.2.1, hout3.2.2⟩
    · simp only [handle_page_fault, hP, he, idx?_natCast, Option.bind_eq_bind, Option.some_bind,
        Option.pure_def]
      rw [hg]
      simp only [Option.some_bind, hf2, hcond, hidxp, hPv, hunmap, hout, hpte3, hmap]
      simp
    all_goals
      rcases hP3' with h | ⟨g, h, hh⟩
      · subst h
        first
          | exact hpid2.trans hpid1
          | exact hvm2.trans hvm1
          | rw [hst2, hst1]
      · subst hh
        first
          | exact hpid2.trans hpid1
          | exact hvm2.trans hvm1
          | (simp only [Process.upd, unmapStats]; rw [hst2, hst1])

/-- The effect of `unmap2` on a frame that holds page `v` of process `p`. -/
theorem unmap2_eq {s : State} {fi p v : Nat} {f : frame_t} {P : Process} {e : pte_t}
    (hf : s.frame_table[fi]? = some f) (hv : f.virtual_page = (v : Int))
    (hP : s.processes[p]? = some P) (he : P.page_table[v]? = some e) :
    ∃ u, unmap2 s fi p = some u ∧
      u.frame_table = updateAt unmapFrame fi s.frame_table ∧
      u.processes = updateAt (Process.upd (unmapStats false (f.dirty && e.file_mapped)) v
        (unmapPte false)) p s.processes ∧
      SameRest s u := by
  simp only [unmap2, hf, natCast_bne_neg_one, hP, he, hv, idx?_natCast, Option.bind_eq_bind,
    Option.some_bind, Option.pure_def, if_true, Bool.and_true]
  by_cases hd : f.dirty = true
  · rw [if_pos hd]
    by_cases hfm : e.file_mapped = true
    · rw [if_pos hfm]
      refine ⟨_, rfl, ?_, ?_, ⟨rfl, rfl, rfl, rfl, rfl, rfl, rfl, rfl, rfl, rfl, rfl, rfl, rfl⟩⟩
      · show updateAt _ fi (updateAt _ fi s.frame_table) = _
        rw [updateAt_updateAt]
        exact updateAt_congr (fun a => rfl) _ _
      · show updateAt _ p (updateAt _ p (updateAt _ p s.processes)) = _
        rw [updateAt_updateAt, updateAt_updateAt]
        apply updateAt_congr
        intro Q
        simp only [Process.upd, unmapStats, hfm, hd]
        simp
        exact updateAt_congr (fun a => by simp [unmapPte]) _ _
    · rw [if_neg hfm]
      have hfm' : e.file_mapped = false := by simpa using hfm
      refine ⟨_, rfl, ?_, ?_, ⟨rfl, rfl, rfl, rfl, rfl, rfl, rfl, rfl, rfl, rfl, rfl, rfl, rfl⟩⟩
      · show updateAt _ fi (updateAt _ fi s.frame_table) = _
        rw [updateAt_updateAt]
        exact updateAt_congr (fun a => rfl) _ _
      · show updateAt _ p (updateAt _ p s.processes) = _
        rw [updateAt_updateAt]
        apply updateAt_congr
        intro Q
        simp only [Process.upd, unmapStats, hfm', hd]
        simp
        exact updateAt_congr (fun a => by simp [unmapPte]) _ _
  · rw [if_neg hd]
    have hd' : f.dirty = false := by simpa using hd
    refine ⟨_, rfl, ?_, ?_, ⟨rfl, rfl, rfl, rfl, rfl, rfl, rfl, rfl, rfl, rfl, rfl, rfl, rfl⟩⟩
    · exact updateAt_congr (fun a => rfl) _ _
    · show updateAt _ p (updateAt _ p s.processes) = _
      rw [updateAt_updateAt]
      apply updateAt_congr
      intro Q
      simp only [Process.upd, unmapStats, hd']
      simp
      exact updateAt_congr (fun a => by simp [unmapPte]) _ _

/-- Emptying a frame together with its tenant entry turns the frame into the
hole of the invariant. -/
theorem InvH_unmapped {s u : State} {fi p v : Nat} {f : frame_t} {e : pte_t} {sw fo : Bool}
    (hI : InvH none s) (hf : s.frame_table[fi]? = some f) (hp : f.process_id = (p : Int))
    (hv : f.virtual_page = (v : Int)) (he : s.pte? p v = some e) (hpres : e.present = true)
    (hfn : e.frame_number = fi)
    (hnf : fi ∉ s.free_frames) (hx : ¬ (sw = true ∧ fo = true))
    (huf : u.frame_table = updateAt unmapFrame fi s.frame_table)
    (hup : u.processes = updateAt (Process.upd (unmapStats sw fo) v (unmapPte sw)) p
      s.processes)
    (hur : SameRest s u) : InvH (some fi) u := by
  refine InvH_local (o := none) (q := some fi) (f := f) (e := e) hI huf hup hur.free_frames
    hur.hand hur.algo hur.randvals hur.ofs hur.currentProcess hf he ?_ (fun _ => hfn)
    (Or.inr ⟨hp, hv⟩) (Or.inl ⟨⟨rfl, rfl, rfl⟩, rfl, hnf, rfl⟩) ?_ rfl ?_
  · intro j hj
    constructor
    · intro h; cases h
    · intro h; exact absurd (Option.some.inj h).symm hj
  · exact ⟨fun _ => ⟨rfl, rfl⟩, fun _ => rfl⟩
  · intro st c c' hc a1 a2 a3
    simp only [unmapPte, unmapStats] at hc ⊢
    rw [hpres] at hc
    simp at hc
    refine ⟨by omega, a2, ?_⟩
    cases sw <;> cases fo <;> simp at hx ⊢ <;> omega

/-- Returning the hole frame to the free list restores the invariant. -/
theorem InvH_push {u : State} {fi : Nat} (b : Bool) (hI : InvH (some fi) u) :
    InvH none { u with free_frames := u.free_frames ++ [fi], exitloop := b } := by
  have hlt := hI.hole_lt fi rfl
  obtain ⟨f, hf⟩ : ∃ f, u.frame_table[fi]? = some f := ⟨u.frame_table[fi], by simp [hlt]⟩
  have hnf : fi ∉ u.free_frames := by
    rcases hI.frames fi f hf with ⟨_, h⟩ | ⟨_, _, h⟩
    · intro hm; exact (h.mp hm) rfl
    · exact absurd rfl h
  refine
    { nframes := hI.nframes, procs := hI.procs, frames := ?_, ptes := hI.ptes
      clean := hI.clean, vmas := hI.vmas
      free_nodup := ?_
      free_lt := ?_
      hole_lt := fun h hh => by cases hh
      hand_lt := hI.hand_lt, cur := hI.cur, rand := hI.rand }
  · intro i g hg
    rcases hI.frames i g hg with ⟨h1, h2⟩ | ⟨h1, h2, h3⟩
    · left
      refine ⟨h1, ?_⟩
      show i ∈ u.free_frames ++ [fi] ↔ none ≠ some i
      simp only [List.mem_append, List.mem_singleton, ne_eq, not_false_eq_true, iff_true,
        reduceCtorEq]
      by_cases hi : i = fi
      · exact Or.inr hi
      · left
        apply h2.mpr
        intro h
        exact hi (Option.some.inj h).symm
    · right
      refine ⟨h1, ?_, by simp⟩
      show i ∉ u.free_frames ++ [fi]
      simp only [List.mem_append, List.mem_singleton, not_or]
      refine ⟨h2, ?_⟩
      intro h
      exact h3 (by rw [h])
  · show (u.free_frames ++ [fi]).Nodup
    rw [List.nodup_append]
    refine ⟨hI.free_nodup, List.nodup_singleton fi, ?_⟩
    intro a ha hb
    simp only [List.mem_singleton] at hb
    rw [hb] at ha
    exact hnf ha
  · intro i hi
    show i < u.frame_table.length
    have hi' : i ∈ u.free_frames ++ [fi] := hi
    simp only [List.mem_append, List.mem_singleton] at hi'
    rcases hi' with h | h
    · exact hI.free_lt i h
    · rw [h]; exact hlt

theorem ExitProgress_start {s0 : State} {p : Nat} {P0 : Process} (hI : InvH none s0)
    (hP : s0.processes[p]? = some P0) : ExitProgress s0 p P0 0 s0 := by
  refine
    { others := fun _ _ => rfl
      proc := ⟨P0, hP, rfl, rfl, rfl, fun j hj => by omega, fun _ _ => rfl, ?_⟩
      frames := ?_
      free := by simp
      hand := rfl, algo := rfl, randvals := rfl, ofs := rfl, currentProcess := rfl
      lastReset := rfl, inst_count := rfl, ctx_switches := rfl, process_exits := rfl
      rwcount := rfl, o_flag := rfl }
  · simp [exitStats]
  · intro i
    cases hf : s0.frame_table[i]? with
    | none => rfl
    | some f =>
      simp only [Option.map_some', exitFrame]
      rw [if_neg]
      rintro ⟨h1, h2⟩
      rcases hI.frames i f hf with ⟨⟨a, _, _⟩, _⟩ | ⟨⟨q, w, e, _, a2, _⟩, _⟩
      · rw [a] at h1
        exact natCast_ne_neg_one p h1.symm
      · rw [a2] at h2
        omega

theorem exitFrame_succ {s0 : State} {p v i : Nat} {f : frame_t} (hI0 : InvH none s0)
    (hf : s0.frame_table[i]? = some f)
    (hne : ∀ e, s0.pte? p v = some e → e.present = true → e.frame_number ≠ i) :
    exitFrame p (v + 1) f = exitFrame p v f := by
  unfold exitFrame
  by_cases hp : f.process_id = (p : Int)
  · by_cases hv : f.virtual_page = (v : Int)
    · exfalso
      rcases hI0.frames i f hf with ⟨⟨a, _, _⟩, _⟩ | ⟨⟨q, w, e, a1, a2, a3, a4, a5, _⟩, _⟩
      · rw [a] at hp
        exact natCast_ne_neg_one p hp.symm
      · have hq : q = p := Int.ofNat.inj (a1.symm.trans hp)
        have hw : w = v := Int.ofNat.inj (a2.symm.trans hv)
        subst hq hw
        exact hne e a3 a4 a5
    · have : (f.virtual_page < ((v + 1 : Nat) : Int)) ↔ (f.virtual_page < (v : Int)) := by
        constructor
        · intro h; omega
        · intro h; omega
      simp only [hp, true_and, this]
  · simp only [hp, false_and]

theorem take_succ_of_getElem? {α : Type} {l : List α} {n : Nat} {a : α} (h : l[n]? = some a) :
    l.take (n + 1) = l.take n ++ [a] := by
  rw [List.take_succ, h]
  rfl

/-- One round of the loop of `process_exit`. -/
theorem exit_step {s0 s : State} {p v : Nat} {P0 : Process} (hI0 : InvH none s0)
    (hP0 : s0.processes[p]? = some P0) (hI : InvH none s) (hE : ExitProgress s0 p P0 v s)
    (hv : v < P0.page_table.length) :
    ∃ s', (∀ k, process_exit.loop p (k + 1) v s = process_exit.loop p k (v + 1) s') ∧
      InvH none s' ∧ ExitProgress s0 p P0 (v + 1) s' := by
  obtain ⟨P, hP, hpid, hvm, hlen, hlow, hhigh, hst⟩ := hE.proc
  obtain ⟨e0, he0⟩ : ∃ e0, P0.page_table[v]? = some e0 := ⟨P0.page_table[v], by simp [hv]⟩
  have hPe : P.page_table[v]? = some e0 := by rw [hhigh v (Nat.le_refl v)]; exact he0
  have hpte0 : s0.pte? p v = some e0 := pte?_some_iff.mpr ⟨P0, hP0, he0⟩
  have hpte : s.pte? p v = some e0 := pte?_some_iff.mpr ⟨P, hP, hPe⟩
  have hI1 : InvH none (s.modPte p v (fun e => { e with paged_out := false })) :=
    InvH_modPte p v (fun e => rfl) hI
  have hpr1 := modPte_processes s p v (fun e => { e with paged_out := false })
  have hpte1 : (s.modPte p v (fun e => { e with paged_out := false })).pte? p v
      = some { e0 with paged_out := false } := by
    rw [pte?_of_processes hpr1, hpte]
    simp
  obtain ⟨P1, hP1, hP1e⟩ := pte?_some_iff.mp hpte1
  have hP1eq : P1 = Process.upd (fun st => st) v (fun e => { e with paged_out := false }) P := by
    rw [hpr1, getElem?_updateAt, hP] at hP1
    simp at hP1
    exact hP1.symm
  by_cases hpres : e0.present = true
  · -- a present page: unmap2, then back to the free list
    obtain ⟨f0, hf0, hfp, hfv⟩ := hI0.ptes p v e0 hpte0 hpres
    have hxf : exitFrame p v f0 = f0 := by
      unfold exitFrame
      rw [if_neg]
      rintro ⟨_, h⟩
      rw [hfv] at h
      omega
    have hf : s.frame_table[e0.frame_number]? = some f0 := by
      rw [hE.frames, hf0]
      simp [hxf]
    have hf1 : (s.modPte p v (fun e => { e with paged_out := false })).frame_table[
        e0.frame_number]? = some f0 := hf
    obtain ⟨u, hu, huf, hup, hur⟩ := unmap2_eq hf1 hfv hP1 hP1e
    have hnf : e0.frame_number ∉ (s.modPte p v (fun e => { e with paged_out := false })).free_frames
        := by
      rcases hI1.frames _ f0 hf1 with ⟨⟨a, _, _⟩, _⟩ | ⟨_, a, _⟩
      · rw [a] at hfp
        exact absurd hfp.symm (natCast_ne_neg_one p)
      · exact a
    have hIu : InvH (some e0.frame_number) u :=
      InvH_unmapped hI1 hf1 hfp hfv hpte1 hpres rfl hnf (by simp) huf hup hur
    refine ⟨{ u with free_frames := u.free_frames ++ [e0.frame_number], exitloop := false },
      ?_, InvH_push false hIu, ?_⟩
    · intro k
      simp only [process_exit.loop, hpte1, hpres, hf1, hu, Option.bind_eq_bind,
        Option.some_bind, if_true]
    · have hprocs : u.processes = updateAt (fun Q => Process.upd
          (unmapStats false (f0.dirty && e0.file_mapped)) v
          (fun e => unmapPte false { e with paged_out := false }) Q) p s.processes := by
        rw [hup, hpr1, updateAt_updateAt]
        exact updateAt_congr (fun Q => upd_upd _ _ _ _ _ Q) _ _
      refine
        { others := ?_, proc := ?_, frames := ?_, free := ?_
          hand := hur.hand.trans hE.hand, algo := hur.algo.trans hE.algo
          randvals := hur.randvals.trans hE.randvals, ofs := hur.ofs.trans hE.ofs
          currentProcess := hur.currentProcess.trans hE.currentProcess
          lastReset := hur.lastReset.trans hE.lastReset
          inst_count := hur.inst_count.trans hE.inst_count
          ctx_switches := hur.ctx_switches.trans hE.ctx_switches
          process_exits := hur.process_exits.trans hE.process_exits
          rwcount := hur.rwcount.trans hE.rwcount, o_flag := hur.o_flag.trans hE.o_flag }
      · intro q hq
        show u.processes[q]? = _
        rw [hprocs, getElem?_updateAt, if_neg (Ne.symm hq)]
        exact hE.others q hq
      · refine ⟨Process.upd (unmapStats false (f0.dirty && e0.file_mapped)) v
          (fun e => unmapPte false { e with paged_out := false }) P, ?_, hpid, hvm, ?_, ?_, ?_, ?_⟩
        · show u.processes[p]? = _
          rw [hprocs, getElem?_updateAt, hP]
          simp
        · simp only [Process.upd, length_updateAt]
          exact hlen
        · intro j hj
          simp only [Process.upd, getElem?_updateAt]
          by_cases hjv : v = j
          · subst hjv
            rw [if_pos rfl, hPe, he0]
            simp [unmapPte, resetPte]
          · rw [if_neg hjv]
            exact hlow j (by omega)
        · intro j hj
          simp only [Process.upd, getElem?_updateAt]
          rw [if_neg (by omega)]
          exact hhigh j (by omega)
        · simp only [Process.upd, hst, exitStats, unmapStats, take_succ_of_getElem? he0,
            List.countP_append, List.countP_cons, List.countP_nil, hpres, dirtyAt, hf0]
          simp
          constructor
          · omega
          · cases f0.dirty <;> cases e0.file_mapped <;> first | (simp; done) | (simp; omega)
      · intro i
        show u.frame_table[i]? = _
        rw [huf]
        show (updateAt unmapFrame e0.frame_number s.frame_table)[i]? = _
        rw [getElem?_updateAt]
        by_cases hi : e0.frame_number = i
        · subst hi
          rw [if_pos rfl, hf, hf0]
          simp only [Option.map_some', exitFrame]
          rw [if_pos]
          exact ⟨hfp, by rw [hfv]; omega⟩
        · rw [if_neg hi, hE.frames]
          cases hfi : s0.frame_table[i]? with
          | none => rfl
          | some fi =>
            simp only [Option.map_some']
            rw [exitFrame_succ hI0 hfi]
            intro e he _
            rw [hpte0] at he
            cases he
            exact hi
      · show u.free_frames ++ [e0.frame_number] = _
        rw [hur.free_frames]
        show s.free_frames ++ [e0.frame_number] = _
        rw [hE.free, take_succ_of_getElem? he0, List.filter_append, List.map_append,
          List.append_assoc]
        simp [hpres]
  · -- a page that is not present
    have hnp : e0.present = false := by simpa using hpres
    obtain ⟨hm0, hfn0⟩ := (hI0.clean p v e0 hpte0).1 hnp
    refine ⟨s.modPte p v (fun e => { e with paged_out := false }), ?_, hI1, ?_⟩
    · intro k
      simp only [process_exit.loop, hpte1, hnp, Option.bind_eq_bind, Option.some_bind]
      simp
    · refine
        { others := ?_, proc := ?_, frames := ?_, free := ?_
          hand := hE.hand, algo := hE.algo, randvals := hE.randvals, ofs := hE.ofs
          currentProcess := hE.currentProcess, lastReset := hE.lastReset
          inst_count := hE.inst_count, ctx_switches := hE.ctx_switches
          process_exits := hE.process_exits, rwcount := hE.rwcount, o_flag := hE.o_flag }
      · intro q hq
        rw [hpr1, getElem?_updateAt, if_neg (Ne.symm hq)]
        exact hE.others q hq
      · refine ⟨P1, hP1, ?_, ?_, ?_, ?_, ?_, ?_⟩
        · rw [hP1eq]; exact hpid
        · rw [hP1eq]; exact hvm
        · rw [hP1eq]
          simp only [Process.upd, length_updateAt]
          exact hlen
        · intro j hj
          rw [hP1eq]
          simp only [Process.upd, getElem?_updateAt]
          by_cases hjv : v = j
          · subst hjv
            rw [if_pos rfl, hPe, he0]
            simp [resetPte, hnp, hm0, hfn0]
          · rw [if_neg hjv]
            exact hlow j (by omega)
        · intro j hj
          rw [hP1eq]
          simp only [Process.upd, getElem?_updateAt]
          rw [if_neg (by omega)]
          exact hhigh j (by omega)
        · rw [hP1eq]
          simp only [Process.upd, hst, exitStats, take_succ_of_getElem? he0,
            List.countP_append, List.countP_cons, List.countP_nil, hnp]
          simp
      · intro i
        show s.frame_table[i]? = _
        rw [hE.frames]
        cases hfi : s0.frame_table[i]? with
        | none => rfl
        | some fi =>
          simp only [Option.map_some']
          rw [exitFrame_succ hI0 hfi]
          intro e he hp
          rw [hpte0] at he
          cases he
          rw [hnp] at hp
          cases hp
      · show s.free_frames = _
        rw [hE.free, take_succ_of_getElem? he0, List.filter_append, List.map_append]
        simp [hnp]

theorem exit_loop_spec {s0 : State} {p : Nat} {P0 : Process} (hI0 : InvH none s0)
    (hP0 : s0.processes[p]? = some P0) : ∀ (k v : Nat) (s : State), InvH none s →
    ExitProgress s0 p P0 v s → v + k = P0.page_table.length →
    ∃ s', process_exit.loop p k v s = some s' ∧ InvH none s' ∧
      ExitProgress s0 p P0 P0.page_table.length s' := by
  intro k
  induction k with
  | zero =>
    intro v s hI hE hvk
    have : v = P0.page_table.length := by omega
    subst this
    exact ⟨s, rfl, hI, hE⟩
  | succ k ih =>
    intro v s hI hE hvk
    obtain ⟨s1, h1, h2, h3⟩ := exit_step hI0 hP0 hI hE (by omega)
    obtain ⟨s', h4, h5, h6⟩ := ih (v + 1) s1 h2 h3 (by omega)
    exact ⟨s', by rw [h1 k]; exact h4, h5, h6⟩

/-- The function `process_exit` on an existing process: it succeeds, keeps the
invariant, and its effect is the one `ExitProgress` describes for all pages. -/
theorem process_exit_spec {s : State} {p : Nat} {P : Process} (hI : InvH none s)
    (hP : s.processes[p]? = some P) :
    ∃ s', process_exit s p = some s' ∧ InvH none s' ∧
      ExitProgress s p P P.page_table.length s' := by
  have hI0 : InvH none (emit { s with exitloop := true } (Event.EXIT P.pid)) :=
    { nframes := hI.nframes, procs := hI.procs, frames := hI.frames, ptes := hI.ptes
      clean := hI.clean, vmas := hI.vmas, free_nodup := hI.free_nodup, free_lt := hI.free_lt
      hole_lt := hI.hole_lt, hand_lt := hI.hand_lt, cur := hI.cur, rand := hI.rand }
  have hP0 : (emit { s with exitloop := true } (Event.EXIT P.pid)).processes[p]? = some P := hP
  obtain ⟨s', h1, h2, h3⟩ := exit_loop_spec hI0 hP0 P.page_table.length 0 _ hI0
    (ExitProgress_start hI0 hP0) (by omega)
  refine ⟨s', ?_, h2, ?_⟩
  · simp only [process_exit, hP, Option.bind_eq_bind, Option.some_bind]
    exact h1
  · exact
      { others := h3.others, proc := h3.proc, frames := h3.frames, free := h3.free
        hand := h3.hand, algo := h3.algo, randvals := h3.randvals, ofs := h3.ofs
        currentProcess := h3.currentProcess, lastReset := h3.lastReset
        inst_count := h3.inst_count, ctx_switches := h3.ctx_switches
        process_exits := h3.process_exits, rwcount := h3.rwcount, o_flag := h3.o_flag }

/-- The process table keeps its length over `process_exit`. -/
theorem ExitProgress_length {s0 s : State} {p v : Nat} {P0 : Process}
    (hP0 : s0.processes[p]? = some P0) (h : ExitProgress s0 p P0 v s) :
    s.processes.length = s0.processes.length := by
  obtain ⟨P, hP, _⟩ := h.proc
  have key : ∀ q : Nat, q < s.processes.length ↔ q < s0.processes.length := by
    intro q
    by_cases hq : q = p
    · subst hq
      exact ⟨fun _ => getElem?_lt_length hP0, fun _ => getElem?_lt_length hP⟩
    · have := h.others q hq
      constructor
      · intro hlt
        by_contra hge
        rw [List.getElem?_eq_getElem hlt, List.getElem?_eq_none (by omega)] at this
        cases this
      · intro hlt
        by_contra hge
        rw [List.getElem?_eq_getElem hlt, List.getElem?_eq_none (by omega)] at this
        cases this
  by_contra hne
  rcases Nat.lt_or_gt_of_ne hne with hlt | hgt
  · exact absurd ((key _).mpr hlt) (Nat.lt_irrefl _)
  · exact absurd ((key _).mp hgt) (Nat.lt_irrefl _)

/-- The reset entries of an exiting process are not marked as paged out. -/
theorem WPClean_exit {s0 s : State} {p : Nat} {P0 : Process}
    (hP0 : s0.processes[p]? = some P0)
    (h : ExitProgress s0 p P0 P0.page_table.length s) (hJ : WPClean s0) : WPClean s := by
  intro q j e' he' hwp
  by_cases hq : q = p
  · subst hq
    obtain ⟨P, hP, _, _, hlen, hlt, _, _⟩ := h.proc
    obtain ⟨P', hP', hj⟩ := pte?_some_iff.mp he'
    rw [hP] at hP'
    cases hP'
    have hjl : j < P0.page_table.length := by
      rw [← hlen]
      exact getElem?_lt_length hj
    rw [hlt j hjl] at hj
    obtain ⟨e0, _, rfl⟩ := Option.map_eq_some'.mp hj
    rfl
  · have hs := h.others q hq
    obtain ⟨P', hP', hj⟩ := pte?_some_iff.mp he'
    rw [hs] at hP'
    exact hJ q j e' (pte?_some_iff.mpr ⟨P', hP', hj⟩) hwp

/-- The end of an access to a present page succeeds and keeps the invariant. -/
theorem touch_spec {s2 : State} {cp vp : Nat} {e2 : pte_t} (c : Char) (hI2 : InvH none s2)
    (hpte2 : s2.pte? cp vp = some e2) (hpres2 : e2.present = true) :
    ∃ s', touch s2 c cp vp = some s' ∧ InvH none s' ∧
      s'.currentProcess = s2.currentProcess ∧ s'.algo = s2.algo ∧
      s'.randvals = s2.randvals ∧ SameCounts s2 s' ∧ (WPClean s2 → WPClean s') ∧
      s'.output = s2.output ++
        (if c = 'w' ∧ e2.write_protect = true ∧ s2.o_flag = true then [Event.SEGPROT]
          else []) := by
  have hI3 : InvH none (s2.modPte cp vp (fun e => { e with referenced := true })) :=
    InvH_modPte cp vp (fun e => rfl) hI2
  have hpte3 : (s2.modPte cp vp (fun e => { e with referenced := true })).pte? cp vp
      = some { e2 with referenced := true } := by
    rw [pte?_of_processes (modPte_processes s2 cp vp _), hpte2]
    simp
  simp only [touch, Option.bind_eq_bind, Option.pure_def]
  by_cases hw : c = 'w'
  · rw [if_pos hw, hpte3]
    simp only [Option.some_bind]
    by_cases hwp : e2.write_protect = true
    · have : (!({ e2 with referenced := true } : pte_t).write_protect) = false := by
        simp [hwp]
      rw [this]
      simp only [Bool.false_eq_true, if_false]
      refine ⟨_, rfl, InvH_modStats cp (fun st => rfl) ?_, rfl, rfl, rfl,
        SameCounts_trans (SameCounts_modPte _ _ _ _)
          (SameCounts_trans (SameCounts_emit _ _) (SameCounts_modStats _ _ _)),
        fun hJ => WPClean_modStats cp _
          (WPClean_of_processes rfl (WPClean_modPte cp vp (fun e => ⟨rfl, rfl⟩) hJ)),
        by cases ho : s2.o_flag <;> simp [emit, State.modStats, State.modPte, ho, hw, hwp]⟩
      exact
        { nframes := hI3.nframes, procs := hI3.procs, frames := hI3.frames, ptes := hI3.ptes
          clean := hI3.clean, vmas := hI3.vmas, free_nodup := hI3.free_nodup
          free_lt := hI3.free_lt, hole_lt := hI3.hole_lt, hand_lt := hI3.hand_lt
          cur := hI3.cur, rand := hI3.rand }
    · have hwp' : e2.write_protect = false := by simpa using hwp
      have : (!({ e2 with referenced := true } : pte_t).write_protect) = true := by
        simp [hwp']
      rw [this]
      simp only [if_true]
      obtain ⟨f, hf, hfp, hfv⟩ := hI3.ptes cp vp _ hpte3 hpres2
      have hf4 : ((s2.modPte cp vp (fun e => { e with referenced := true })).modPte cp vp
          (fun e => { e with modified := true })).frame_table[e2.frame_number]? = some f := hf
      rw [hf4]
      simp only [Option.some_bind]
      refine ⟨_, rfl, ?_, rfl, rfl, rfl,
        SameCounts_trans (SameCounts_modPte _ _ _ _)
          (SameCounts_trans (SameCounts_modPte _ _ _ _) (SameCounts_modFrame _ _ _)),
        fun hJ => WPClean_of_processes rfl (WPClean_modPte cp vp (fun e => ⟨rfl, rfl⟩)
          (WPClean_modPte cp vp (fun e => ⟨rfl, rfl⟩) hJ)),
        by simp [State.modPte, State.modFrame, hwp']⟩
      have hnf : e2.frame_number ∉
          (s2.modPte cp vp (fun e => { e with referenced := true })).free_frames := by
        rcases hI3.frames _ f hf with ⟨⟨a, _, _⟩, _⟩ | ⟨_, a, _⟩
        · rw [a] at hfp
          exact absurd hfp.symm (natCast_ne_neg_one cp)
        · exact a
      refine InvH_local (o := none) (q := none) (f := f)
        (F := fun f => { f with dirty := true })
        (g := fun e => { e with modified := true })
        (e := { e2 with referenced := true }) hI3 rfl
        (modPte_processes _ cp vp _) rfl rfl rfl rfl rfl rfl hf hpte3 (fun j _ => Iff.rfl)
        (fun _ => rfl) (Or.inr ⟨hfp, hfv⟩) (Or.inr ⟨by simp, hnf, hfp, hfv, hpres2, rfl, rfl⟩)
        ⟨?_, ?_⟩ rfl ?_
      · intro h
        have h' : e2.present = false := h
        rw [hpres2] at h'
        cases h'
      · intro h
        have h' : e2.write_protect = true := h
        rw [hwp'] at h'
        cases h'
      · intro st c0 c' hcc a1 a2 a3
        have : c' = c0 := by
          simp only [hpres2] at hcc
          omega
        rw [this]
        exact ⟨a1, a2, a3⟩
  · rw [if_neg hw]
    exact ⟨_, rfl, hI3, rfl, rfl, rfl, SameCounts_modPte _ _ _ _,
      fun hJ => WPClean_modPte cp vp (fun e => ⟨rfl, rfl⟩) hJ,
      by simp [State.modPte, hw]⟩

/-- An access to a page of the current process succeeds (given a random table
that suits the Random policy) and keeps the invariant. -/
theorem access_spec {s : State} {cp vp : Nat} {P : Process} {e : pte_t} (c : Char)
    (hI : InvH none s) (hP : s.processes[cp]? = some P) (he : P.page_table[vp]? = some e)
    (hdef : RandFile s ∨ ∃ r, access s c cp (vp : Int) = some r) :
    ∃ s', access s c cp (vp : Int) = some s' ∧ InvH none s' ∧
      s'.currentProcess = s.currentProcess ∧ s'.algo = s.algo ∧
      s'.randvals = s.randvals ∧ SameCounts s s' ∧ (WPClean s → WPClean s') := by
  have hpte1 : s.pte? cp vp = some e := pte?_some_iff.mpr ⟨P, hP, he⟩
  by_cases hp : e.present = true
  · obtain ⟨s', h1, h2, h3, h4, h5, h6, h7, _⟩ := touch_spec c hI hpte1 hp
    refine ⟨s', ?_, h2, h3, h4, h5, h6, h7⟩
    simp only [access, idx?_natCast, hpte1, Option.bind_eq_bind, Option.some_bind, hp,
      Bool.not_true, Bool.false_eq_true, if_false, Option.pure_def]
    exact h1
  · have hnp : e.present = false := by simpa using hp
    have hdef1 : RandFile s ∨ ∃ r, handle_page_fault s cp (vp : Int) = some r := by
      rcases hdef with h | ⟨r, h⟩
      · exact Or.inl h
      · right
        simp only [access, idx?_natCast, hpte1, Option.bind_eq_bind, Option.some_bind, hnp,
          Bool.not_false, if_true] at h
        obtain ⟨a, ha, _⟩ := Option.bind_eq_some.mp h
        exact ⟨a, ha⟩
    obtain ⟨fi, s2, s3, s', P3, e3, f3, _, h2, _, _, _, hP3, he3, hec, _, _, _, _, _, _, _, _, _,
      hcur, _, hpr, hsr, hI', halg, hrv, _, _, hcn, hwf, _⟩ :=
      handle_page_fault_spec hI hP he hnp hdef1
    have hpte3 : s3.pte? cp vp = some e3 := pte?_some_iff.mpr ⟨P3, hP3, he3⟩
    have hpte' : s'.pte? cp vp = some (mapPte fi e3) := by
      rw [pte?_of_processes hpr, hpte3]
      simp
    obtain ⟨t, h4, h5, h6, h7, h8, h9, hwt, _⟩ := touch_spec c hI' hpte' rfl
    refine ⟨t, ?_, h5, h6.trans (hsr.currentProcess.trans hcur), h7.trans halg,
      h8.trans hrv, SameCounts_trans hcn h9, fun hJ => hwt (hwf hJ)⟩
    simp only [access, idx?_natCast, hpte1, Option.bind_eq_bind, Option.some_bind, hnp,
      Bool.not_false, if_true, h2]
    exact h4

/-- The invariant only reads the tables, the free list, the cursors and the
current process. -/
theorem InvH_of_eq {s s' : State} {o : Option Nat} (hI : InvH o s)
    (h1 : s'.frame_table = s.frame_table) (h2 : s'.processes = s.processes)
    (h3 : s'.free_frames = s.free_frames) (h4 : s'.hand = s.hand) (h5 : s'.algo = s.algo)
    (h6 : s'.randvals = s.randvals) (h7 : s'.ofs = s.ofs)
    (h8 : ∀ cp : Nat, s'.currentProcess = some cp → cp < s.processes.length) : InvH o s' := by
  have hp : ∀ p v, s'.pte? p v = s.pte? p v := pte?_eq_of_processes_eq h2
  refine
    { nframes := by rw [h1]; exact hI.nframes
      procs := by rw [h2]; exact hI.procs
      frames := ?_
      ptes := ?_
      clean := by intro p v e he; rw [hp] at he; exact hI.clean p v e he
      vmas := by rw [h2]; exact hI.vmas
      free_nodup := by rw [h3]; exact hI.free_nodup
      free_lt := by rw [h3, h1]; exact hI.free_lt
      hole_lt := by rw [h1]; exact hI.hole_lt
      hand_lt := by rw [h4, h1]; exact hI.hand_lt
      cur := by rw [h2]; exact h8
      rand := by rw [h5, h6, h7]; exact hI.rand }
  · intro i f hf
    rw [h1] at hf
    rw [h3]
    rcases hI.frames i f hf with h | ⟨⟨p, v, e, a1, a2, a3, a4⟩, b⟩
    · exact Or.inl h
    · exact Or.inr ⟨⟨p, v, e, a1, a2, by rw [hp]; exact a3, a4⟩, b⟩
  · intro p v e he hpres
    rw [hp] at he
    rw [h1]
    exact hI.ptes p v e he hpres

theorem isValidPage_iff {v : Int} {P : Process} :
    isValidPage v P = true ↔ ∃ vma ∈ P.vmas, vma.covers v = true := by
  simp [isValidPage, List.any_eq_true]

/-- One round of `simulate` succeeds and keeps the invariant, unless it is an
`r`/`w` before any `c`, given a random table that suits the Random policy; with
another table the statement is about the rounds that return. -/
theorem step_spec {s : State} (c : Char) (v : Int) (hI : InvH none s)
    (hcur : s.currentProcess.isSome = true ∨ (c ≠ 'r' ∧ c ≠ 'w'))
    (hdef : RandFile s ∨ ∃ r, step s c v = some r) :
    ∃ s', step s c v = some s' ∧ InvH none s' ∧
      (s.currentProcess.isSome = true → s'.currentProcess.isSome = true) ∧
      (c = 'c' → 0 ≤ v → v < s.processes.length → s'.currentProcess.isSome = true) ∧
      s'.algo = s.algo ∧ s'.randvals = s.randvals ∧ StepCounts s c v s' ∧
      (WPClean s → WPClean s') := by
  by_cases hc : c = 'c'
  · subst hc
    by_cases hv : v ≥ 0 ∧ v < s.processes.length
    · have hstep : step s 'c' v = some { countInst (emit s (Event.instr s.inst_count 'c' v)) with
          currentProcess := some v.toNat, ctx_switches := s.ctx_switches + 1 } := by
        simp only [step, if_true]
        exact if_pos hv
      refine ⟨_, hstep, ?_, fun _ => rfl, fun _ _ _ => rfl, rfl, rfl,
        ⟨rfl, fun _ _ _ => ⟨rfl, rfl, rfl, rfl⟩, fun h => absurd h (by decide),
          fun h => h.elim (fun h => absurd h (by decide)) (fun h => absurd h (by decide))⟩,
        fun hJ => WPClean_of_processes rfl hJ⟩
      refine InvH_of_eq hI rfl rfl rfl rfl rfl rfl rfl ?_
      intro cp hcp
      have : cp = v.toNat := (Option.some.inj hcp).symm
      omega
    · have hstep : step s 'c' v = some (countInst (emit s (Event.instr s.inst_count 'c' v)))
          := by
        simp only [step, if_true]
        exact if_neg hv
      refine ⟨_, hstep, ?_, fun h => h, fun _ h1 h2 => absurd ⟨h1, h2⟩ hv, rfl, rfl,
        ⟨rfl, fun _ h1 h2 => absurd ⟨h1, h2⟩ hv, fun h => absurd h (by decide),
          fun h => h.elim (fun h => absurd h (by decide)) (fun h => absurd h (by decide))⟩,
        fun hJ => WPClean_of_processes rfl hJ⟩
      exact InvH_of_eq hI rfl rfl rfl rfl rfl rfl rfl hI.cur
  · by_cases he : c = 'e'
    · subst he
      by_cases hv : s.currentProcess.isSome = true ∧ v < s.processes.length ∧ v ≥ 0
      · obtain ⟨P, hP⟩ : ∃ P, s.processes[v.toNat]? = some P :=
          exists_getElem?_of_lt (by omega)
        have hI1 : InvH none (countInst (emit s (Event.instr s.inst_count 'e' v))) :=
          InvH_of_eq hI rfl rfl rfl rfl rfl rfl rfl hI.cur
        obtain ⟨s2, h1, h2, h3⟩ := process_exit_spec hI1 hP
        have hstep : step s 'e' v = some { s2 with process_exits := s2.process_exits + 1 } := by
          simp only [step, if_neg hc, if_true]
          refine (if_pos hv).trans ?_
          simp only [Option.bind_eq_bind, h1, Option.some_bind, Option.pure_def]
        refine ⟨_, hstep, ?_, ?_, ?_, h3.algo, h3.randvals,
          ⟨@ExitProgress_length (countInst (emit s (Event.instr s.inst_count 'e' v))) s2 _ _ _
              hP h3, fun h => absurd h (by decide),
            fun _ _ _ _ => ⟨h3.inst_count, h3.rwcount, h3.ctx_switches,
              congrArg (fun n => n + 1) h3.process_exits⟩,
            fun h => h.elim (fun h => absurd h (by decide)) (fun h => absurd h (by decide))⟩,
          fun hJ => WPClean_of_processes rfl
            (@WPClean_exit (countInst (emit s (Event.instr s.inst_count 'e' v))) s2 _ _ hP h3
              (WPClean_of_processes rfl hJ))⟩
        · exact InvH_of_eq h2 rfl rfl rfl rfl rfl rfl rfl h2.cur
        · intro h
          show s2.currentProcess.isSome = true
          rw [h3.currentProcess]
          exact h
        · intro h; cases h
      · have hstep : step s 'e' v = some (countInst (emit s (Event.instr s.inst_count 'e' v)))
            := by
          simp only [step, if_neg hc, if_true]
          exact if_neg hv
        refine ⟨_, hstep, ?_, fun h => h, (fun h => by cases h), rfl, rfl,
          ⟨rfl, fun h => absurd h (by decide), fun _ a b c => absurd ⟨a, c, b⟩ hv,
            fun h => h.elim (fun h => absurd h (by decide)) (fun h => absurd h (by decide))⟩,
          fun hJ => WPClean_of_processes rfl hJ⟩
        exact InvH_of_eq hI rfl rfl rfl rfl rfl rfl rfl hI.cur
    · cases hcp : s.currentProcess with
      | none =>
        have hnrw : ¬ (c = 'r' ∨ c = 'w') := by
          rcases hcur with h | ⟨h1, h2⟩
          · rw [hcp] at h; cases h
          · intro h; rcases h with h | h
            · exact h1 h
            · exact h2 h
        have hcp0 : (emit s (Event.instr s.inst_count c v)).currentProcess = none := hcp
        have hstep : step s c v = some (emit s (Event.instr s.inst_count c v)) := by
          simp only [step, if_neg hc, if_neg he, hcp0, if_neg hnrw]
        refine ⟨_, hstep, ?_, (fun h => by cases h), (fun h => absurd h hc), rfl, rfl,
          ⟨rfl, fun h => absurd h hc, fun h => absurd h he,
            fun _ h => by rw [hcp] at h; cases h⟩,
          fun hJ => WPClean_of_processes rfl hJ⟩
        exact InvH_of_eq hI rfl rfl rfl rfl rfl rfl rfl hI.cur
      | some cp =>
        have hcplt := hI.cur cp hcp
        obtain ⟨P, hP⟩ : ∃ P, s.processes[cp]? = some P :=
          ⟨s.processes[cp], by simp [hcplt]⟩
        have hcp0 : (emit s (Event.instr s.inst_count c v)).currentProcess = some cp := hcp
        have hP0 : (emit s (Event.instr s.inst_count c v)).processes[cp]? = some P := hP
        have hI1 : InvH none (countAccess (emit s (Event.instr s.inst_count c v))) :=
          InvH_of_eq hI rfl rfl rfl rfl rfl rfl rfl hI.cur
        by_cases hval : isValidPage v P = true
        · by_cases hrw : c = 'r' ∨ c = 'w'
          · obtain ⟨vma, hvma, hcov⟩ := isValidPage_iff.mp hval
            obtain ⟨⟨hv0, _⟩, e, hpe, _⟩ := hI.vmas cp P vma v hP hvma hcov
            have hvn : v = ((v.toNat : Nat) : Int) := by omega
            have hsteq : step s c v =
                access (countAccess (emit s (Event.instr s.inst_count c v))) c cp v := by
              simp only [step, if_neg hc, if_neg he, hcp0, hP0, hval, if_pos hrw,
                Option.bind_eq_bind, Option.some_bind, Bool.not_true, Bool.false_eq_true,
                if_false]
            have hdef1 : RandFile (countAccess (emit s (Event.instr s.inst_count c v))) ∨
                ∃ r, access (countAccess (emit s (Event.instr s.inst_count c v))) c cp
                  ((v.toNat : Nat) : Int) = some r := by
              rcases hdef with h | ⟨r, h⟩
              · exact Or.inl h
              · right
                rw [hsteq] at h
                refine ⟨r, ?_⟩
                rw [← hvn]
                exact h
            obtain ⟨s', h1, h2, h3, h4, h5, h6, h7⟩ :=
              @access_spec _ cp v.toNat P e c hI1 hP hpe hdef1
            rw [← hvn] at h1
            have hstep : step s c v = some s' := hsteq.trans h1
            refine ⟨s', hstep, h2, ?_, (fun h => absurd h hc), h4, h5,
              ⟨h6.2.2.2.2, fun h => absurd h hc, fun h => absurd h he,
                fun _ _ => ⟨h6.1, h6.2.1, h6.2.2.1, h6.2.2.2.1⟩⟩,
              fun hJ => h7 (WPClean_of_processes rfl hJ)⟩
            intro _
            rw [h3]
            show (emit s (Event.instr s.inst_count c v)).currentProcess.isSome = true
            rw [hcp0]; rfl
          · have hstep : step s c v = some (emit s (Event.instr s.inst_count c v)) := by
              simp only [step, if_neg hc, if_neg he, hcp0, hP0, hval, if_neg hrw,
                Option.bind_eq_bind, Option.some_bind, Bool.not_true, Bool.false_eq_true,
                if_false]
            refine ⟨_, hstep, ?_, (fun _ => by rw [hcp0]; rfl), (fun h => absurd h hc), rfl,
              rfl, ⟨rfl, fun h => absurd h hc, fun h => absurd h he,
                fun h _ => absurd h hrw⟩, fun hJ => WPClean_of_processes rfl hJ⟩
            exact InvH_of_eq hI rfl rfl rfl rfl rfl rfl rfl hI.cur
        · have hval' : isValidPage v P = false := by simpa using hval
          have hstep : step s c v = some ((emit (countAccess (emit s
              (Event.instr s.inst_count c v))) Event.SEGV).modStats cp
              (fun st => { st with segv := st.segv + 1 })) := by
            simp only [step, if_neg hc, if_neg he, hcp0, hP0, hval', Option.bind_eq_bind,
              Option.some_bind, Bool.not_false, if_true, Option.pure_def]
          refine ⟨_, hstep, ?_, (fun _ => by
            show (emit s (Event.instr s.inst_count c v)).currentProcess.isSome = true
            rw [hcp0]; rfl), (fun h => absurd h hc), rfl, rfl,
            ⟨length_updateAt _ _ _, fun h => absurd h hc, fun h => absurd h he,
              fun _ _ => ⟨rfl, rfl, rfl, rfl⟩⟩,
            fun hJ => WPClean_modStats cp _ (WPClean_of_processes rfl hJ)⟩
          refine InvH_modStats cp (fun st => rfl) ?_
          exact InvH_of_eq hI rfl rfl rfl rfl rfl rfl rfl hI.cur

/-! ## Start-up -/

theorem covers_iff (vma : VMA) (v : Int) :
    vma.covers v = true ↔ vma.start_vpage ≤ v ∧ v ≤ vma.end_vpage := by
  simp [VMA.covers]

theorem addVMA_loop_spec (wp fm : Bool) : ∀ (k : Nat) (i : Int) (pt : List pte_t),
    0 ≤ i → (k = 0 ∨ i + k ≤ pt.length) →
    ∃ pt', addVMA.loop wp fm k i pt = some pt' ∧ pt'.length = pt.length ∧
      ∀ j : Nat, pt'[j]? =
        if i ≤ (j : Int) ∧ (j : Int) < i + k then
          (pt[j]?).map (fun e => { e with write_protect := wp, file_mapped := fm })
        else pt[j]? := by
  intro k
  induction k with
  | zero =>
    intro i pt _ _
    refine ⟨pt, rfl, rfl, ?_⟩
    intro j
    rw [if_neg]
    intro h
    omega
  | succ k ih =>
    intro i pt hi hlen0
    have hlen : i + ((k + 1 : Nat) : Int) ≤ pt.length := by
      rcases hlen0 with h | h
      · omega
      · exact h
    have hidx : idx? i = some i.toNat := by simp [idx?]; omega
    have hlt : i.toNat < pt.length := by omega
    obtain ⟨e, he⟩ : ∃ e, pt[i.toNat]? = some e := ⟨pt[i.toNat], by simp [hlt]⟩
    obtain ⟨pt', h1, h2, h3⟩ := ih (i + 1)
      (updateAt (fun e => { e with write_protect := wp, file_mapped := fm }) i.toNat pt)
      (by omega) (by rw [length_updateAt]; push_cast at hlen ⊢; omega)
    refine ⟨pt', ?_, by rw [h2, length_updateAt], ?_⟩
    · simp only [addVMA.loop, hidx, he, Option.bind_eq_bind, Option.some_bind]
      exact h1
    · intro j
      rw [h3 j, getElem?_updateAt]
      by_cases hj : i.toNat = j
      · subst hj
        have : ¬ (i + 1 ≤ ((i.toNat : Nat) : Int) ∧ ((i.toNat : Nat) : Int) < i + 1 + (k : Int)) := by
          omega
        rw [if_neg this, if_pos rfl, if_pos]
        push_cast
        omega
      · rw [if_neg hj]
        by_cases hr : i + 1 ≤ (j : Int) ∧ (j : Int) < i + 1 + (k : Int)
        · rw [if_pos hr, if_pos]
          push_cast
          omega
        · rw [if_neg hr, if_neg]
          push_cast
          omega

theorem disjoint_not_covers {a b : VMA} {v : Int} (h : VMA.disjoint a b)
    (ha : a.covers v = true) (hb : b.covers v = true) : False := by
  rw [covers_iff] at ha hb
  unfold VMA.disjoint at h
  omega

theorem loadVMAs_spec : ∀ (rest : List VMA) (P : Process), P.page_table.length = 64 →
    (P.vmas ++ rest).Pairwise VMA.disjoint →
    (∀ vma ∈ rest, 0 ≤ vma.start_vpage ∧ vma.end_vpage ≤ 63) → GoodVmas P →
    (∀ e ∈ P.page_table, Blank e) →
    ∃ P', loadVMAs P rest = some P' ∧ P'.page_table.length = 64 ∧ GoodVmas P' ∧
      (∀ e ∈ P'.page_table, Blank e) ∧ P'.pid = P.pid ∧ P'.stats = P.stats := by
  intro rest
  induction rest with
  | nil =>
    intro P hlen _ _ hg hb
    exact ⟨P, rfl, hlen, hg, hb, rfl, rfl⟩
  | cons vma rest ih =>
    intro P hlen hpw hr hg hb
    obtain ⟨hr1, hr2⟩ := hr vma (List.mem_cons_self _ _)
    have hk : (vma.end_vpage - vma.start_vpage + 1).toNat = 0 ∨
        vma.start_vpage + ((vma.end_vpage - vma.start_vpage + 1).toNat : Nat)
        ≤ (P.page_table.length : Int) := by
      rw [hlen]
      omega
    obtain ⟨pt', h1, h2, h3⟩ := addVMA_loop_spec vma.write_protected vma.file_mapped
      (vma.end_vpage - vma.start_vpage + 1).toNat vma.start_vpage P.page_table hr1 hk
    have hadd : P.addVMA vma = some { P with vmas := P.vmas ++ [vma], page_table := pt' } := by
      simp only [Process.addVMA, h1, Option.bind_eq_bind, Option.some_bind, Option.pure_def]
    have hpw' : ((P.vmas ++ [vma]) ++ rest).Pairwise VMA.disjoint := by
      rw [List.append_assoc]
      exact hpw
    have hinr : ∀ j : Nat, (vma.start_vpage ≤ (j : Int) ∧
        (j : Int) < vma.start_vpage + ((vma.end_vpage - vma.start_vpage + 1).toNat : Nat)) ↔
        vma.covers (j : Int) = true := by
      intro j
      rw [covers_iff]
      omega
    have hgood : GoodVmas { P with vmas := P.vmas ++ [vma], page_table := pt' } := by
      intro w v hw hcov
      have hw' : w ∈ P.vmas ∨ w = vma := by
        simpa using hw
      rcases hw' with hw' | hw'
      · obtain ⟨⟨a1, a0⟩, pte, a2, a3⟩ := hg w v hw' hcov
        refine ⟨⟨a1, ?_⟩, pte, ?_, a3⟩
        · show (P.vmas ++ [vma]).find? (fun a => a.covers v) = some w
          rw [List.find?_append, a0]
          rfl
        show pt'[v.toNat]? = some pte
        rw [h3, if_neg]
        · exact a2
        · rw [hinr]
          intro hc
          have hv : ((v.toNat : Nat) : Int) = v := by omega
          rw [hv] at hc
          have hd : VMA.disjoint w vma := by
            have := List.pairwise_append.mp hpw
            exact this.2.2 w hw' vma (List.mem_cons_self _ _)
          exact disjoint_not_covers hd hcov hc
      · subst hw'
        have hc := (covers_iff w v).mp hcov
        have hv0 : 0 ≤ v := by omega
        have hv : ((v.toNat : Nat) : Int) = v := by omega
        have hlt : v.toNat < P.page_table.length := by omega
        obtain ⟨e0, he0⟩ : ∃ e0, P.page_table[v.toNat]? = some e0 :=
          ⟨P.page_table[v.toNat], by simp [hlt]⟩
        have hnone : P.vmas.find? (fun a => a.covers v) = none := by
          rw [List.find?_eq_none]
          intro u hu hcu
          have hd : VMA.disjoint u w := by
            have := List.pairwise_append.mp hpw
            exact this.2.2 u hu w (List.mem_cons_self _ _)
          exact disjoint_not_covers hd (by simpa using hcu) hcov
        refine ⟨⟨hv0, ?_⟩, ?_⟩
        · show (P.vmas ++ [w]).find? (fun a => a.covers v) = some w
          rw [List.find?_append, hnone]
          simp [List.find?, hcov]
        show ∃ pte, pt'[v.toNat]? = some pte ∧ pte.write_protect = w.write_protected
        have hcond := (hinr v.toNat).mpr (by rw [hv]; exact hcov)
        rw [h3, if_pos hcond, he0]
        exact ⟨_, rfl, rfl⟩
    have hblank : ∀ e ∈ ({ P with vmas := P.vmas ++ [vma], page_table := pt' } :
        Process).page_table, Blank e := by
      intro e he
      obtain ⟨j, hj⟩ := List.mem_iff_getElem?.mp he
      have hj' : pt'[j]? = some e := hj
      rw [h3] at hj'
      split at hj'
      · cases hpj : P.page_table[j]? with
        | none => rw [hpj] at hj'; cases hj'
        | some e0 =>
          rw [hpj] at hj'
          simp only [Option.map_some', Option.some.injEq] at hj'
          subst hj'
          exact hb e0 (List.getElem?_mem hpj)
      · exact hb e (List.getElem?_mem hj')
    obtain ⟨P', h4, h5, h6, h7, h8, h9⟩ :=
      ih { P with vmas := P.vmas ++ [vma], page_table := pt' } (by rw [← hlen]; exact h2) hpw'
        (fun w hw => hr w (List.mem_cons_of_mem _ hw)) hgood hblank
    refine ⟨P', ?_, h5, h6, h7, h8, h9⟩
    simp only [loadVMAs, hadd, Option.bind_eq_bind, Option.some_bind]
    exact h4

theorem load_processes_spec : ∀ (procs : List (List VMA)) (i : Nat),
    (∀ vmas ∈ procs, WFVMAs vmas) →
    ∃ Ps, load_processes i procs = some Ps ∧ Ps.length = procs.length ∧
      ∀ (p : Nat) (P : Process), Ps[p]? = some P →
        P.pid = ((i + p : Nat) : Int) ∧ P.page_table.length = 64 ∧ GoodVmas P ∧
          (∀ e ∈ P.page_table, Blank e) ∧ P.stats = ProcessStats.zero := by
  intro procs
  induction procs with
  | nil =>
    intro i _
    refine ⟨[], rfl, rfl, ?_⟩
    intro p P h
    simp at h
  | cons vmas rest ih =>
    intro i hwf
    obtain ⟨hr, hpw⟩ := hwf vmas (List.mem_cons_self _ _)
    obtain ⟨P, h1, h2, h3, h4, h5, h6⟩ := loadVMAs_spec vmas (Process.new i)
      (by simp [Process.new, NUM_VIRTUAL_PAGES]) (by simpa [Process.new] using hpw) hr
      (by intro vma v hv; simp [Process.new] at hv)
      (by
        intro e he
        simp only [Process.new] at he
        have := List.eq_of_mem_replicate he
        rw [this]
        exact ⟨rfl, rfl, rfl, rfl⟩)
    obtain ⟨Ps, h7, h8, h9⟩ := ih (i + 1) (fun w hw => hwf w (List.mem_cons_of_mem _ hw))
    refine ⟨P :: Ps, ?_, by simp [h8], ?_⟩
    · simp only [load_processes, h1, h7, Option.bind_eq_bind, Option.some_bind, Option.pure_def]
    · intro p Q hQ
      cases p with
      | zero =>
        simp only [List.getElem?_cons_zero, Option.some.injEq] at hQ
        subst hQ
        exact ⟨by rw [h5]; rfl, h2, h3, h4, by rw [h6]; rfl⟩
      | succ p =>
        simp only [List.getElem?_cons_succ] at hQ
        obtain ⟨a1, a2⟩ := h9 p Q hQ
        refine ⟨?_, a2⟩
        rw [a1]
        congr 1
        omega

/-- The state `main` builds from a well-formed configuration satisfies the
invariant. -/
theorem init_spec {cfg : Config} (hcfg : WFConfig cfg) :
    ∃ s, init cfg = some s ∧ InvH none s ∧ s.currentProcess = none ∧
      s.processes.length = cfg.procs.length ∧ s.algo = cfg.algo ∧ s.exitloop = false ∧
      s.randvals = cfg.randvals ∧
      ∀ (p : Nat) (P : Process), s.processes[p]? = some P → ∀ e ∈ P.page_table, Blank e := by
  obtain ⟨hn1, hn2, hv⟩ := hcfg
  obtain ⟨Ps, h1, h2, h3⟩ := load_processes_spec cfg.procs 0 hv
  have hnot : ¬ (cfg.numFrames = 0 ∨ cfg.numFrames > 128) := by omega
  refine ⟨initState cfg Ps, by simp only [init, if_neg hnot, h1, Option.bind_eq_bind,
    Option.some_bind, Option.pure_def], ?_, rfl, h2, rfl, rfl, rfl,
    fun p P hP => (h3 p P hP).2.2.2.1⟩
  have hpte : ∀ (p v : Nat) (e : pte_t) (s : State), s.processes = Ps → s.pte? p v = some e →
      Blank e := by
    intro p v e s hs he
    obtain ⟨P, hP, hPe⟩ := pte?_some_iff.mp he
    rw [hs] at hP
    exact (h3 p P hP).2.2.2.1 e (List.getElem?_mem hPe)
  refine
    { nframes := by simp [initState]; omega
      procs := ?_, frames := ?_, ptes := ?_, clean := ?_, vmas := ?_
      free_nodup := List.nodup_range _
      free_lt := by
        intro i hi
        simpa [initState] using hi
      hole_lt := fun h hh => by cases hh
      hand_lt := by simp [initState]; omega
      cur := fun cp h => by cases h
      rand := ?_ }
  · intro p P hP
    obtain ⟨a1, a2, a3, a4, a5⟩ := h3 p P hP
    refine ⟨by simpa using a1, a2, ?_⟩
    have hc : P.page_table.countP (fun e => e.present) = 0 := by
      rw [List.countP_eq_zero]
      intro e he
      rw [(a4 e he).1]
      simp
    unfold StatsOK
    rw [a5, hc]
    exact ⟨rfl, rfl, Nat.le_refl _⟩
  · intro i f hf
    have hf' : (List.replicate cfg.numFrames frame_t.fresh)[i]? = some f := hf
    have hlt : i < cfg.numFrames := by
      have := getElem?_lt_length hf'
      simpa using this
    have hfe : f = frame_t.fresh := by
      rw [List.getElem?_replicate, if_pos hlt] at hf'
      exact (Option.some.inj hf').symm
    left
    refine ⟨by rw [hfe]; exact ⟨rfl, rfl, rfl⟩, ?_⟩
    show i ∈ List.range cfg.numFrames ↔ none ≠ some i
    simp [hlt]
  · intro p v e he hpres
    have := (hpte p v e _ rfl he).1
    rw [this] at hpres
    cases hpres
  · intro p v e he
    obtain ⟨a1, a2, a3, _⟩ := hpte p v e _ rfl he
    exact ⟨fun _ => ⟨a2, a3⟩, fun _ => a2⟩
  · intro p P vma v hP hvma hcov
    exact (h3 p P hP).2.2.1 vma v hvma hcov
  · intro _ hne
    show 0 < cfg.randvals.length
    exact List.length_pos.mpr hne

/-! ## Whole runs -/

theorem simulate_spec : ∀ (trace : List Instr) (s : State), InvH none s →
    (s.currentProcess.isSome = true ∨ ∀ i, trace.head? = some i →
      i.command = 'c' ∧ 0 ≤ i.operand ∧ i.operand < s.processes.length) →
    (RandFile s ∨ ∃ r, simulate s trace = some r) →
    ∃ s', simulate s trace = some s' ∧ InvH none s' ∧
      (trace ≠ [] → s'.currentProcess.isSome = true) := by
  intro trace
  induction trace with
  | nil => intro s hI _ _; exact ⟨s, rfl, hI, fun h => absurd rfl h⟩
  | cons i rest ih =>
    intro s hI hcur hdef
    have hc : s.currentProcess.isSome = true ∨ (i.command ≠ 'r' ∧ i.command ≠ 'w') := by
      rcases hcur with h | h
      · exact Or.inl h
      · right
        rw [(h i rfl).1]
        exact ⟨by decide, by decide⟩
    have hdef1 : RandFile s ∨ ∃ r, step s i.command i.operand = some r := by
      rcases hdef with h | ⟨r, h⟩
      · exact Or.inl h
      · right
        simp only [simulate, Option.bind_eq_bind] at h
        obtain ⟨a, ha, _⟩ := Option.bind_eq_some.mp h
        exact ⟨a, ha⟩
    obtain ⟨s1, h1, h2, h3, h4, h5, h6, _⟩ := step_spec i.command i.operand hI hc hdef1
    have hcur1 : s1.currentProcess.isSome = true := by
      rcases hcur with h | h
      · exact h3 h
      · obtain ⟨a, b, c⟩ := h i rfl
        exact h4 a b c
    have hsim : simulate s (i :: rest) = simulate s1 rest := by
      simp only [simulate, h1, Option.bind_eq_bind, Option.some_bind]
    have hdef2 : RandFile s1 ∨ ∃ r, simulate s1 rest = some r := by
      rcases hdef with h | ⟨r, h⟩
      · exact Or.inl (RandFile_of_eq h5 h6 h)
      · exact Or.inr ⟨r, hsim ▸ h⟩
    obtain ⟨s', h7, h8, h9⟩ := ih s1 h2 (Or.inl hcur1) hdef2
    refine ⟨s', hsim.trans h7, h8, fun _ => ?_⟩
    cases rest with
    | nil =>
      cases h7
      exact hcur1
    | cons j rest2 => exact h9 (by simp)

theorem WFTrace_take {n : Nat} {trace : List Instr} (k : Nat) (h : WFTrace n trace) :
    WFTrace n (trace.take k) := by
  obtain ⟨h1, h2⟩ := h
  refine ⟨fun i hi => h1 i (List.mem_of_mem_take hi), ?_⟩
  intro i hi
  cases trace with
  | nil => simp at hi
  | cons a rest =>
    cases k with
    | zero => simp at hi
    | succ k =>
      simp only [List.take_succ_cons, List.head?_cons, Option.some.injEq] at hi
      exact h2 i (by simp [hi])

/-- A well-formed run with a random file that suits the Random policy never
gets stuck, and the invariant holds at its end; with another random file the
invariant holds at the end of every run that does not get stuck. -/
theorem run_spec {cfg : Config} {trace : List Instr} (hcfg : WFConfig cfg)
    (htr : WFTrace cfg.procs.length trace)
    (hdef : WFRandom cfg ∨ ∃ r, run cfg trace = some r) :
    ∃ s, run cfg trace = some s ∧ InvH none s ∧
      (trace ≠ [] → s.currentProcess.isSome = true) ∧
      (trace = [] → ∀ (p : Nat) (P : Process), s.processes[p]? = some P →
        ∀ e ∈ P.page_table, Blank e) := by
  obtain ⟨s0, h1, h2, h3, h4, ha, _, hrv, hbl⟩ := init_spec hcfg
  have hrun : run cfg trace = simulate s0 trace := by
    simp only [run, h1, Option.bind_eq_bind, Option.some_bind]
  have hdef1 : RandFile s0 ∨ ∃ r, simulate s0 trace = some r := by
    rcases hdef with h | ⟨r, h⟩
    · left
      unfold RandFile
      rw [ha, hrv]
      exact h
    · exact Or.inr ⟨r, hrun ▸ h⟩
  obtain ⟨s, h5, h6, h7⟩ := simulate_spec trace s0 h2 (by
    right
    intro i hi
    have hci := htr.2 i hi
    have hmem : i ∈ trace := by
      cases trace with
      | nil => simp at hi
      | cons a rest =>
        simp only [List.head?_cons, Option.some.injEq] at hi
        simp [hi]
    rcases htr.1 i hmem with ⟨_, a, b⟩ | ⟨hrw, _⟩
    · exact ⟨hci, a, by rw [h4]; exact b⟩
    · rw [hci] at hrw
      rcases hrw with h | h <;> exact absurd h (by decide)) hdef1
  refine ⟨s, hrun.trans h5, h6, h7, ?_⟩
  intro hnil
  subst hnil
  cases h5
  exact hbl

/-- Every state a well-formed run returns satisfies the invariant, whatever the
random file. -/
theorem run_returned {cfg : Config} {trace : List Instr} {s : State} (hcfg : WFConfig cfg)
    (htr : WFTrace cfg.procs.length trace) (hs : run cfg trace = some s) : InvH none s := by
  obtain ⟨s', h1, h2, _⟩ := run_spec hcfg htr (Or.inr ⟨s, hs⟩)
  rw [h1] at hs
  cases hs
  exact h2

/-- A well-formed run returns when the random file suits the Random policy. -/
theorem run_defined {cfg : Config} {trace : List Instr} (hcfg : WFConfig cfg)
    (htr : WFTrace cfg.procs.length trace) (hrand : WFRandom cfg) :
    ∃ s, run cfg trace = some s := by
  obtain ⟨s, h1, _⟩ := run_spec hcfg htr (Or.inl hrand)
  exact ⟨s, h1⟩

theorem Ownership_of_Inv {s : State} (hI : InvH none s) : Ownership s := by
  refine ⟨?_, hI.ptes⟩
  intro i f hf hocc
  obtain ⟨⟨p, v, e, h1, h2, h3, h4, h5, _⟩, _⟩ := owned_of_occupied hI hf hocc
  exact ⟨p, v, e, h1, h2, h3, h4, h5⟩

/-- C1: for every well-formed run, under any of the six policies and after every
instruction of the trace (every prefix `trace.take k`), in the state the run has
reached every occupied frame has a present tenant entry with that frame's index,
and every present entry points at a frame that names the entry's process and
page.  That state exists whenever the random file suits the Random policy (no
condition under the other five policies). -/
theorem C1_ownership (cfg : Config) (trace : List Instr) (k : Nat) (hcfg : WFConfig cfg)
    (htr : WFTrace cfg.procs.length trace) :
    (WFRandom cfg → ∃ s, run cfg (trace.take k) = some s) ∧
    ∀ s, run cfg (trace.take k) = some s → Ownership s :=
  ⟨run_defined hcfg (WFTrace_take k htr),
    fun _ hs => Ownership_of_Inv (run_returned hcfg (WFTrace_take k htr) hs)⟩

theorem WFConfig_cfgC1w : WFConfig cfgC1w := by
  simp [WFConfig, WFVMAs, cfgC1w]

theorem WFTrace_traceC1 : WFTrace 1 traceC1 := by
  simp [WFTrace, WFInstr, traceC1]

/-- Witness of C1: the theorem at two frames, Random policy with the random file
`3 1 4`, and the trace `c 0 / r 0 / r 1 / r 2`, after all four instructions. -/
theorem C1_ownership_witness :
    WFConfig cfgC1w ∧ WFTrace cfgC1w.procs.length traceC1 ∧
      (WFRandom cfgC1w → ∃ s, run cfgC1w (traceC1.take 4) = some s) ∧
      ∀ s, run cfgC1w (traceC1.take 4) = some s → Ownership s :=
  ⟨WFConfig_cfgC1w, WFTrace_traceC1,
    C1_ownership cfgC1w traceC1 4 WFConfig_cfgC1w WFTrace_traceC1⟩

theorem FreeListOK_of_Inv {s : State} (hI : InvH none s) : FreeListOK s := by
  have h1 : ∀ (i : Nat) (f : frame_t), s.frame_table[i]? = some f →
      (i ∈ s.free_frames ↔ f.process_id = -1) := by
    intro i f hf
    rcases hI.frames i f hf with ⟨⟨a, _, _⟩, b⟩ | ⟨⟨p, v, e, a, _⟩, b, _⟩
    · constructor
      · intro _; exact a
      · intro _; exact b.mpr (by simp)
    · constructor
      · intro h; exact absurd h b
      · intro h
        rw [a] at h
        exact absurd h (natCast_ne_neg_one p)
  refine ⟨h1, hI.free_nodup, ?_⟩
  intro hfree i f hf hneg
  have := (h1 i f hf).mpr hneg
  rw [hfree] at this
  simp at this

/-- C2: for every well-formed run, under every policy and after every instruction
(every prefix `trace.take k`), in the state the run has reached a frame is in
the free list if and only if its `process_id` is -1, the free list holds no frame
twice, and when the free list is empty (the case in which `get_frame` calls the
policy) every frame is occupied.  That state exists whenever the random file
suits the Random policy (no condition under the other five policies). -/
theorem C2_free_list (cfg : Config) (trace : List Instr) (k : Nat) (hcfg : WFConfig cfg)
    (htr : WFTrace cfg.procs.length trace) :
    (WFRandom cfg → ∃ s, run cfg (trace.take k) = some s) ∧
    ∀ s, run cfg (trace.take k) = some s → FreeListOK s :=
  ⟨run_defined hcfg (WFTrace_take k htr),
    fun _ hs => FreeListOK_of_Inv (run_returned hcfg (WFTrace_take k htr) hs)⟩

theorem WFTrace_traceC2 : WFTrace 1 traceC2 := by
  simp [WFTrace, WFInstr, traceC2]

/-- Witness of C2: the theorem at one frame, Clock, the trace `c 0 / r 0 / r 1`,
after all three instructions. -/
theorem C2_free_list_witness :
    WFConfig cfgC2w ∧ WFTrace cfgC2w.procs.length traceC2 ∧
      (WFRandom cfgC2w → ∃ s, run cfgC2w (traceC2.take 3) = some s) ∧
      ∀ s, run cfgC2w (traceC2.take 3) = some s → FreeListOK s :=
  ⟨by simp [WFConfig, WFVMAs, cfgC2w], WFTrace_traceC2,
    C2_free_list cfgC2w traceC2 3 (by simp [WFConfig, WFVMAs, cfgC2w]) WFTrace_traceC2⟩

/-- C9: for every well-formed run, under any policy and after every instruction
(every prefix `trace.take k`), in the state the run has reached every process
has `unmaps <= maps`.  That state exists whenever the random file suits the
Random policy (no condition under the other five policies). -/
theorem C9_unmaps_le_maps (cfg : Config) (trace : List Instr) (k : Nat)
    (hcfg : WFConfig cfg) (htr : WFTrace cfg.procs.length trace) :
    (WFRandom cfg → ∃ s, run cfg (trace.take k) = some s) ∧
    ∀ s, run cfg (trace.take k) = some s →
      ∀ (p : Nat) (P : Process), s.processes[p]? = some P → P.stats.unmaps ≤ P.stats.maps := by
  refine ⟨run_defined hcfg (WFTrace_take k htr), ?_⟩
  intro s hs p P hP
  obtain ⟨_, _, h3, _, _⟩ := (run_returned hcfg (WFTrace_take k htr) hs).procs p P hP
  omega

theorem WFTrace_traceC9 : WFTrace 1 traceC9 := by
  simp [WFTrace, WFInstr, traceC9]

/-- Witness of C9: the theorem at two frames, NRU, the trace
`c 0 / w 0 / w 1 / w 2 / w 3`, after all five instructions. -/
theorem C9_unmaps_le_maps_witness :
    WFConfig cfgC9w ∧ WFTrace cfgC9w.procs.length traceC9 ∧
      (WFRandom cfgC9w → ∃ s, run cfgC9w (traceC9.take 5) = some s) ∧
      ∀ s, run cfgC9w (traceC9.take 5) = some s →
        ∀ (p : Nat) (P : Process), s.processes[p]? = some P →
          P.stats.unmaps ≤ P.stats.maps :=
  ⟨by simp [WFConfig, WFVMAs, cfgC9w], WFTrace_traceC9,
    C9_unmaps_le_maps cfgC9w traceC9 5 (by simp [WFConfig, WFVMAs, cfgC9w]) WFTrace_traceC9⟩

/-- C10 (amended): for every well-formed run, under any policy and after every
instruction (every prefix `trace.take k`), in the state the run has reached
every process has `zeros + ins + fins <= maps` and `outs + fouts <= unmaps`.
That state exists whenever the random file suits the Random policy (no
condition under the other five policies). -/
theorem C10_counters (cfg : Config) (trace : List Instr) (k : Nat)
    (hcfg : WFConfig cfg) (htr : WFTrace cfg.procs.length trace) :
    (WFRandom cfg → ∃ s, run cfg (trace.take k) = some s) ∧
    ∀ s, run cfg (trace.take k) = some s →
      ∀ (p : Nat) (P : Process), s.processes[p]? = some P →
        P.stats.zeros + P.stats.ins + P.stats.fins ≤ P.stats.maps ∧
          P.stats.outs + P.stats.fouts ≤ P.stats.unmaps := by
  refine ⟨run_defined hcfg (WFTrace_take k htr), ?_⟩
  intro s hs p P hP
  obtain ⟨_, _, h3, h4, h5⟩ := (run_returned hcfg (WFTrace_take k htr) hs).procs p P hP
  exact ⟨by omega, h5⟩

theorem WFTrace_traceC10 : WFTrace 1 traceC10 := by
  simp [WFTrace, WFInstr, traceC10]

/-- Witness of C10: the theorem at one frame, FIFO, the trace `c 0 / w 0 / w 1`,
after all three instructions. -/
theorem C10_counters_witness :
    WFConfig cfgC10 ∧ WFTrace cfgC10.procs.length traceC10 ∧
      (WFRandom cfgC10 → ∃ s, run cfgC10 (traceC10.take 3) = some s) ∧
      ∀ s, run cfgC10 (traceC10.take 3) = some s →
        ∀ (p : Nat) (P : Process), s.processes[p]? = some P →
          P.stats.zeros + P.stats.ins + P.stats.fins ≤ P.stats.maps ∧
            P.stats.outs + P.stats.fouts ≤ P.stats.unmaps :=
  ⟨by simp [WFConfig, WFVMAs, cfgC10], WFTrace_traceC10,
    C10_counters cfgC10 traceC10 3 (by simp [WFConfig, WFVMAs, cfgC10]) WFTrace_traceC10⟩

/-- C10 as stated fails: one frame, FIFO, `c 0 / w 0 / w 1` is a well-formed run
after which process 0 has `maps = 2` but `outs + fouts + zeros + ins + fins = 3`
(two `ZERO` and one `OUT`). -/
theorem C10_counterexample :
    WFConfig cfgC10 ∧ WFTrace cfgC10.procs.length traceC10 ∧
      ∃ s P, run cfgC10 traceC10 = some s ∧ s.processes[0]? = some P ∧
        ¬ (P.stats.outs + P.stats.fouts + P.stats.zeros + P.stats.ins + P.stats.fins
            ≤ P.stats.maps) := by
  refine ⟨by simp [WFConfig, WFVMAs, cfgC10], WFTrace_traceC10, ?_⟩
  refine ⟨_, _, rfl, rfl, ?_⟩
  decide

/-! ## Dirty eviction after an exit that unmaps nothing -/

theorem WFTrace_traceC3 (k : Nat) : WFTrace cfgC3.procs.length (traceC3.take k) := by
  apply WFTrace_take
  refine ⟨?_, ?_⟩
  · intro i hi
    simp only [traceC3, List.mem_cons, List.mem_singleton, List.not_mem_nil, or_false] at hi
    rcases hi with h | h | h | h | h <;> subst h <;> simp [WFInstr, cfgC3]
  · intro i hi
    simp only [traceC3, List.head?_cons, Option.some.injEq] at hi
    subst hi
    rfl

set_option maxRecDepth 20000 in
/-- C3, evaluation at the failing input (one frame, FIFO, two processes with the
VMA `0 1 0 0`, trace `c 0 / e 0 / c 1 / w 0 / w 1`).  The state `s` before `w 1`
is reachable and has `exitloop` still true, because the exit of process 0 found
no present page.  The `w 1` of process 1 faults, `get_frame` returns frame 0,
which holds page 0 of process 1 and is dirty, and that page is not file-mapped.
After the step the page is unmapped (`unmaps` one more) but `outs` is unchanged,
`paged_out` of the page is still 0 and no `OUT` is printed.  The same accesses
without the `e 0` count one `OUT` and set `paged_out`. -/
theorem C3_eviction_after_empty_exit :
    (∃ (s s2 s' : State) (P P' : Process) (f : frame_t) (e e' : pte_t),
      run cfgC3 (traceC3.take 4) = some s ∧ Reachable s ∧ s.exitloop = true ∧
      s.currentProcess = some 1 ∧ s.processes[1]? = some P ∧
      get_frame (faultEntry (countAccess (emit s (Event.instr s.inst_count 'w' 1))) 1 1 1 P)
        = some (0, s2) ∧
      s2.frame_table[0]? = some f ∧ f.process_id = 1 ∧ f.virtual_page = 0 ∧ f.dirty = true ∧
      P.page_table[0]? = some e ∧ e.present = true ∧ e.file_mapped = false ∧
      e.paged_out = false ∧
      step s 'w' 1 = some s' ∧ run cfgC3 traceC3 = some s' ∧ s'.processes[1]? = some P' ∧
      P'.stats.unmaps = P.stats.unmaps + 1 ∧ P'.stats.outs = P.stats.outs ∧
      P'.stats.fouts = P.stats.fouts ∧
      P'.page_table[0]? = some e' ∧ e'.present = false ∧ e'.paged_out = false ∧
      eventsOf s' = [Event.EXIT 0, Event.ZERO, Event.MAP 0, Event.UNMAP 1 0, Event.ZERO,
        Event.MAP 0]) ∧
    (∃ (s : State) (P : Process) (e : pte_t),
      run cfgC3 [⟨'c', 1⟩, ⟨'w', 0⟩, ⟨'w', 1⟩] = some s ∧ s.exitloop = false ∧
      s.processes[1]? = some P ∧ P.stats.unmaps = 1 ∧ P.stats.outs = 1 ∧
      P.page_table[0]? = some e ∧ e.present = false ∧ e.paged_out = true ∧
      eventsOf s = [Event.ZERO, Event.MAP 0, Event.UNMAP 1 0, Event.OUT, Event.ZERO,
        Event.MAP 0]) :=
  ⟨⟨_, _, _, _, _, _, _, _, rfl, ⟨cfgC3, traceC3.take 4, by simp [WFConfig, WFVMAs, cfgC3],
      WFTrace_traceC3 4, rfl⟩, rfl, rfl, rfl, rfl, rfl, rfl, rfl, rfl, rfl, rfl, rfl, rfl, rfl,
      rfl, rfl, rfl, rfl, rfl, rfl, rfl, rfl, rfl⟩,
    ⟨_, _, _, rfl, rfl, rfl, rfl, rfl, rfl, rfl, rfl, rfl⟩⟩

/-! ## An access outside every VMA -/

/-- C7: in every state with a current process (index `cp`, an existing process
`P`), an `r` or `w` to a page that no VMA of `P` covers succeeds, adds one to
`inst_count`, to `rwcount` and to the `segv` counter of the current process, and
changes nothing else: the frame table, the free list, the pager members (`hand`,
`lastReset`, `algo`), the random table and cursor, `exitloop`, the other global
counters and the current process are the same, and the process table differs
only in that counter (all page tables, referenced bits included, VMAs and other
counters are the same). -/
theorem C7_segv_frame (s : State) (c : Char) (v : Int) (cp : Nat) (P : Process)
    (hc : c = 'r' ∨ c = 'w') (hcur : s.currentProcess = some cp)
    (hP : s.processes[cp]? = some P) (hv : isValidPage v P = false) :
    ∃ s', step s c v = some s' ∧
      s'.inst_count = s.inst_count + 1 ∧ s'.rwcount = s.rwcount + 1 ∧
      s'.processes = updateAt
        (fun Q => { Q with stats := { Q.stats with segv := Q.stats.segv + 1 } }) cp s.processes ∧
      s'.processes[cp]? = some { P with stats := { P.stats with segv := P.stats.segv + 1 } } ∧
      (∀ q : Nat, q ≠ cp → s'.processes[q]? = s.processes[q]?) ∧
      s'.frame_table = s.frame_table ∧ s'.free_frames = s.free_frames ∧
      s'.hand = s.hand ∧ s'.lastReset = s.lastReset ∧ s'.algo = s.algo ∧
      s'.randvals = s.randvals ∧ s'.ofs = s.ofs ∧ s'.exitloop = s.exitloop ∧
      s'.ctx_switches = s.ctx_switches ∧ s'.process_exits = s.process_exits ∧
      s'.currentProcess = s.currentProcess ∧ s'.o_flag = s.o_flag := by
  have hnc : c ≠ 'c' := by rcases hc with h | h <;> rw [h] <;> decide
  have hne : c ≠ 'e' := by rcases hc with h | h <;> rw [h] <;> decide
  have hcp0 : (emit s (Event.instr s.inst_count c v)).currentProcess = some cp := hcur
  have hP0 : (emit s (Event.instr s.inst_count c v)).processes[cp]? = some P := hP
  have hstep : step s c v = some ((emit (countAccess (emit s
      (Event.instr s.inst_count c v))) Event.SEGV).modStats cp
      (fun st => { st with segv := st.segv + 1 })) := by
    simp only [step, if_neg hnc, if_neg hne, hcp0, hP0, hv, Option.bind_eq_bind,
      Option.some_bind, Bool.not_false, if_true, Option.pure_def]
  refine ⟨_, hstep, rfl, rfl, rfl, ?_, ?_, rfl, rfl, rfl, rfl, rfl, rfl, rfl, rfl, rfl, rfl,
    rfl, rfl⟩
  · show (updateAt _ cp s.processes)[cp]? = _
    rw [getElem?_updateAt, hP]
    simp
  · intro q hq
    show (updateAt _ cp s.processes)[q]? = _
    rw [getElem?_updateAt, if_neg (Ne.symm hq)]

/-- Witness of C7: a `w` to page 7 in `stateC7`, whose only VMA is `0 3`. -/
theorem C7_segv_frame_witness :
    ∃ s', step stateC7 'w' 7 = some s' ∧
      s'.inst_count = stateC7.inst_count + 1 ∧ s'.rwcount = stateC7.rwcount + 1 ∧
      s'.processes = updateAt
        (fun Q => { Q with stats := { Q.stats with segv := Q.stats.segv + 1 } }) 0
        stateC7.processes ∧
      s'.processes[0]? =
        some { procC7 with stats := { procC7.stats with segv := procC7.stats.segv + 1 } } ∧
      (∀ q : Nat, q ≠ 0 → s'.processes[q]? = stateC7.processes[q]?) ∧
      s'.frame_table = stateC7.frame_table ∧ s'.free_frames = stateC7.free_frames ∧
      s'.hand = stateC7.hand ∧ s'.lastReset = stateC7.lastReset ∧ s'.algo = stateC7.algo ∧
      s'.randvals = stateC7.randvals ∧ s'.ofs = stateC7.ofs ∧
      s'.exitloop = stateC7.exitloop ∧ s'.ctx_switches = stateC7.ctx_switches ∧
      s'.process_exits = stateC7.process_exits ∧
      s'.currentProcess = stateC7.currentProcess ∧ s'.o_flag = stateC7.o_flag :=
  C7_segv_frame stateC7 'w' 7 0 procC7 (Or.inr rfl) rfl rfl rfl

/-! ## Reachable states and process exit -/

/-- A reachable state satisfies the invariant, and while no process is current
every page table entry is still blank. -/
theorem Reachable_inv {s : State} (hR : Reachable s) :
    InvH none s ∧ (s.currentProcess = none → ∀ (p : Nat) (P : Process),
      s.processes[p]? = some P → ∀ e ∈ P.page_table, Blank e) := by
  obtain ⟨cfg, trace, hcfg, htr, hrun⟩ := hR
  obtain ⟨s', h1, h2, h3, h4⟩ := run_spec hcfg htr (Or.inr ⟨s, hrun⟩)
  have hs : s' = s := Option.some.inj (h1.symm.trans hrun)
  subst hs
  refine ⟨h2, ?_⟩
  intro hcur
  by_cases hnil : trace = []
  · exact h4 hnil
  · have := h3 hnil
    rw [hcur] at this
    cases this

/-- What the instruction `e v` does in a state that satisfies the invariant, for
an existing process `v`. -/
theorem exit_step_spec {s : State} {p : Nat} {P : Process} (hI : InvH none s)
    (hbl : s.currentProcess = none → ∀ e ∈ P.page_table, Blank e)
    (hP : s.processes[p]? = some P) :
    ∃ s' P', step s 'e' (p : Int) = some s' ∧ s'.processes[p]? = some P' ∧
      (∀ q : Nat, q ≠ p → s'.processes[q]? = s.processes[q]?) ∧
      P'.pid = P.pid ∧ P'.vmas = P.vmas ∧ P'.page_table.length = P.page_table.length ∧
      P'.stats = exitStats s P P.page_table.length ∧
      (∀ j : Nat, P'.page_table[j]? = (P.page_table[j]?).map resetPte ∨
        (P'.page_table[j]? = P.page_table[j]? ∧ ∀ e, P.page_table[j]? = some e → Blank e)) ∧
      (∀ i : Nat, s'.frame_table[i]? = (s.frame_table[i]?).map (exitFrame p P.page_table.length)) ∧
      s'.free_frames = s.free_frames ++
        (P.page_table.filter (fun e => e.present)).map (fun e => e.frame_number) := by
  have hplt : p < s.processes.length := getElem?_lt_length hP
  have hne : ¬ ('e' = 'c') := by decide
  by_cases hcur : s.currentProcess.isSome = true
  · have hI1 : InvH none (countInst (emit s (Event.instr s.inst_count 'e' (p : Int)))) :=
      InvH_of_eq hI rfl rfl rfl rfl rfl rfl rfl hI.cur
    obtain ⟨s2, h1, h2, h3⟩ := @process_exit_spec _ p P hI1 hP
    have hv : s.currentProcess.isSome = true ∧ (p : Int) < s.processes.length ∧ (p : Int) ≥ 0 :=
      ⟨hcur, by omega, by omega⟩
    have hstep : step s 'e' (p : Int) = some { s2 with process_exits := s2.process_exits + 1 } := by
      simp only [step, if_neg hne, if_true]
      refine (if_pos hv).trans ?_
      simp only [Int.toNat_ofNat, Option.bind_eq_bind, h1, Option.some_bind, Option.pure_def]
    obtain ⟨P', a1, a2, a3, a4, a5, a6, a7⟩ := h3.proc
    refine ⟨_, P', hstep, a1, h3.others, a2, a3, a4, a7, ?_, h3.frames, ?_⟩
    · intro j
      by_cases hj : j < P.page_table.length
      · exact Or.inl (a5 j hj)
      · right
        have hj' : P.page_table[j]? = none := by
          rw [List.getElem?_eq_none_iff]; omega
        refine ⟨a6 j (by omega), ?_⟩
        intro e he
        rw [hj'] at he
        cases he
    · have := h3.free
      rw [List.take_length] at this
      exact this
  · have hcn : s.currentProcess = none := by
      cases h : s.currentProcess with
      | none => rfl
      | some c => rw [h] at hcur; exact absurd rfl hcur
    have hb := hbl hcn
    have hv : ¬ (s.currentProcess.isSome = true ∧ (p : Int) < s.processes.length ∧
        (p : Int) ≥ 0) := fun h => hcur h.1
    have hstep : step s 'e' (p : Int) =
        some (countInst (emit s (Event.instr s.inst_count 'e' (p : Int)))) := by
      simp only [step, if_neg hne, if_true]
      exact if_neg hv
    have hfil : P.page_table.filter (fun e => e.present) = [] := by
      rw [List.filter_eq_nil_iff]
      intro e he
      rw [(hb e he).1]
      simp
    refine ⟨_, P, hstep, hP, fun _ _ => rfl, rfl, rfl, rfl, ?_, ?_, ?_, ?_⟩
    · have h1 : (P.page_table.take P.page_table.length).countP (fun e => e.present) = 0 := by
        rw [List.take_length, List.countP_eq_zero]
        intro e he
        rw [(hb e he).1]
        simp
      have h2 : (P.page_table.take P.page_table.length).countP
          (fun e => e.present && e.file_mapped && dirtyAt s e) = 0 := by
        rw [List.take_length, List.countP_eq_zero]
        intro e he
        rw [(hb e he).1]
        simp
      simp only [exitStats, h1, h2, Nat.add_zero]
    · intro j
      exact Or.inr ⟨rfl, fun e he => hb e (List.getElem?_mem he)⟩
    · intro i
      show s.frame_table[i]? = _
      cases hf : s.frame_table[i]? with
      | none => rfl
      | some f =>
        simp only [Option.map_some', Option.some.injEq]
        unfold exitFrame
        rw [if_neg]
        rintro ⟨hpid, _⟩
        obtain ⟨⟨p', v', e', b1, b2, b3, b4, _⟩, _⟩ :=
          owned_of_occupied hI hf (by rw [hpid]; exact natCast_ne_neg_one p)
        have hpp : p' = p := by
          rw [hpid] at b1
          omega
        subst hpp
        obtain ⟨P2, c1, c2⟩ := pte?_some_iff.mp b3
        rw [hP] at c1
        cases c1
        have := (hb e' (List.getElem?_mem c2)).1
        rw [b4] at this
        cases this
    · show s.free_frames = _
      rw [hfil]
      simp

theorem WFConfig_cfgS5 : WFConfig cfgS5 := by
  simp [WFConfig, WFVMAs, cfgS5]

theorem WFTrace_traceS5 (k : Nat) : WFTrace cfgS5.procs.length (traceS5.take k) := by
  apply WFTrace_take
  refine ⟨?_, ?_⟩
  · intro i hi
    simp only [traceS5, List.mem_cons, List.mem_singleton, List.not_mem_nil, or_false] at hi
    rcases hi with h | h | h <;> subst h <;> simp [WFInstr, cfgS5]
  · intro i hi
    simp only [traceS5, List.head?_cons, Option.some.injEq] at hi
    subst hi
    rfl

set_option maxRecDepth 20000 in
/-- C5: in every reachable state `s`, for every existing process `v` (entry `P`
of the process table), the instruction `e v` succeeds and (a) leaves the `outs`
counter of every process unchanged, (b) adds to the `unmaps` of `v` the number
of entries of `v` that were present, (c) adds to the `fouts` of `v` the number of
present entries of `v` that are file-mapped and whose frame was dirty.  And in
scenario S5 (one frame, FIFO, VMA `0 0 0 0`, trace `c 0 / w 0 / e 0`) the final
counters are `outs = 0`, `fouts = 0`, `unmaps = 1`, `maps = 1`, `zeros = 1`, and
no `OUT` is printed. -/
theorem C5_exit_never_swaps_out :
    (∀ (s : State) (v : Nat) (P : Process), Reachable s → s.processes[v]? = some P →
      ∃ s' P', step s 'e' (v : Int) = some s' ∧ s'.processes[v]? = some P' ∧
        (∀ (q : Nat) (Q : Process), s.processes[q]? = some Q →
          ∃ Q', s'.processes[q]? = some Q' ∧ Q'.stats.outs = Q.stats.outs) ∧
        P'.stats.unmaps = P.stats.unmaps + P.page_table.countP (fun e => e.present) ∧
        P'.stats.fouts = P.stats.fouts +
          P.page_table.countP (fun e => e.present && e.file_mapped && dirtyAt s e)) ∧
      ∃ s P, run cfgS5 traceS5 = some s ∧ s.processes = [P] ∧ P.stats.outs = 0 ∧
        P.stats.fouts = 0 ∧ P.stats.unmaps = 1 ∧ P.stats.maps = 1 ∧ P.stats.zeros = 1 ∧
        Event.OUT ∉ s.output := by
  refine ⟨?_, ⟨_, _, rfl, rfl, rfl, rfl, rfl, rfl, rfl, by decide⟩⟩
  intro s v P hR hP
  obtain ⟨hI, hbl⟩ := Reachable_inv hR
  obtain ⟨s', P', h1, h2, h3, _, _, _, h7, _⟩ :=
    exit_step_spec hI (fun hc e he => hbl hc v P hP e he) hP
  refine ⟨s', P', h1, h2, ?_, ?_, ?_⟩
  · intro q Q hQ
    by_cases hq : q = v
    · subst hq
      rw [hP] at hQ
      cases hQ
      exact ⟨P', h2, by rw [h7]; rfl⟩
    · exact ⟨Q, by rw [h3 q hq]; exact hQ, rfl⟩
  · rw [h7]
    simp only [exitStats, List.take_length]
  · rw [h7]
    simp only [exitStats, List.take_length]

/-- Witness of C5: the state of scenario S5 before its `e 0`. -/
theorem C5_exit_never_swaps_out_witness :
    ∃ s P, run cfgS5 (traceS5.take 2) = some s ∧ s.processes[0]? = some P ∧
      ∃ s' P', step s 'e' ((0 : Nat) : Int) = some s' ∧ s'.processes[0]? = some P' ∧
        (∀ (q : Nat) (Q : Process), s.processes[q]? = some Q →
          ∃ Q', s'.processes[q]? = some Q' ∧ Q'.stats.outs = Q.stats.outs) ∧
        P'.stats.unmaps = P.stats.unmaps + P.page_table.countP (fun e => e.present) ∧
        P'.stats.fouts = P.stats.fouts +
          P.page_table.countP (fun e => e.present && e.file_mapped && dirtyAt s e) :=
  ⟨_, _, rfl, rfl, C5_exit_never_swaps_out.1 _ 0 _
    ⟨cfgS5, traceS5.take 2, WFConfig_cfgS5, WFTrace_traceS5 2, rfl⟩ rfl⟩

/-- C6: in every reachable state `s`, for every existing process `v` (entry `P`
of the process table), the instruction `e v` succeeds, and afterwards (a) the
page table of `v` has 64 entries, all with `present = 0`, `modified = 0`,
`paged_out = 0`, `frame_number = 0`; (b) every frame that `v` held is marked free
(`process_id = -1`, `virtual_page = -1`, `dirty = false`) and is in the free
list, where it was not before; (c) the free list is the old one with the frames
`v` held appended; (d) every other process, page table included, is unchanged,
and so is every frame that `v` did not hold. -/
theorem C6_exit_resets_process (s : State) (v : Nat) (P : Process) (hR : Reachable s)
    (hP : s.processes[v]? = some P) :
    ∃ s' P', step s 'e' (v : Int) = some s' ∧ s'.processes[v]? = some P' ∧
      P'.page_table.length = 64 ∧ (∀ e ∈ P'.page_table, ResetEntry e) ∧
      (∀ (i : Nat) (f : frame_t), s.frame_table[i]? = some f → f.process_id = (v : Int) →
        ∃ f', s'.frame_table[i]? = some f' ∧ FreeFrame f' ∧ i ∉ s.free_frames ∧
          i ∈ s'.free_frames) ∧
      (∃ held, s'.free_frames = s.free_frames ++ held ∧
        ∀ i : Nat, i ∈ held ↔ ∃ f, s.frame_table[i]? = some f ∧ f.process_id = (v : Int)) ∧
      (∀ q : Nat, q ≠ v → s'.processes[q]? = s.processes[q]?) ∧
      (∀ (i : Nat) (f : frame_t), s.frame_table[i]? = some f → f.process_id ≠ (v : Int) →
        s'.frame_table[i]? = some f) := by
  obtain ⟨hI, hbl⟩ := Reachable_inv hR
  obtain ⟨s', P', h1, h2, h3, _, _, h6, _, h8, h9, h10⟩ :=
    exit_step_spec hI (fun hc e he => hbl hc v P hP e he) hP
  have hlen : P.page_table.length = 64 := (hI.procs v P hP).2.1
  have hheld : ∀ (i : Nat) (f : frame_t), s.frame_table[i]? = some f →
      f.process_id = (v : Int) →
      f.virtual_page < (P.page_table.length : Int) ∧ i ∉ s.free_frames ∧
        i ∈ (P.page_table.filter (fun e => e.present)).map (fun e => e.frame_number) := by
    intro i f hf hpid
    obtain ⟨⟨p', v', e', b1, b2, b3, b4, b5, _⟩, b6, _⟩ :=
      owned_of_occupied hI hf (by rw [hpid]; exact natCast_ne_neg_one v)
    have hpp : p' = v := by
      rw [hpid] at b1
      omega
    subst hpp
    obtain ⟨P2, c1, c2⟩ := pte?_some_iff.mp b3
    rw [hP] at c1
    cases c1
    refine ⟨?_, b6, ?_⟩
    · rw [b2]
      have := getElem?_lt_length c2
      omega
    · rw [List.mem_map]
      exact ⟨e', List.mem_filter.mpr ⟨List.getElem?_mem c2, b4⟩, b5⟩
  refine ⟨s', P', h1, h2, h6.trans hlen, ?_, ?_, ⟨_, h10, ?_⟩, h3, ?_⟩
  · intro e he
    obtain ⟨j, hj⟩ := List.mem_iff_getElem?.mp he
    rcases h8 j with h | ⟨h, hb⟩
    · rw [h] at hj
      cases h0 : P.page_table[j]? with
      | none => rw [h0] at hj; cases hj
      | some e0 =>
        rw [h0] at hj
        simp only [Option.map_some', Option.some.injEq] at hj
        subst hj
        exact ⟨rfl, rfl, rfl, rfl⟩
    · rw [h] at hj
      obtain ⟨a1, a2, a3, a4⟩ := hb e hj
      exact ⟨a1, a2, a4, a3⟩
  · intro i f hf hpid
    obtain ⟨a1, a2, a3⟩ := hheld i f hf hpid
    refine ⟨unmapFrame f, ?_, ⟨rfl, rfl, rfl⟩, a2, ?_⟩
    · rw [h9, hf]
      simp only [Option.map_some', Option.some.injEq]
      unfold exitFrame
      rw [if_pos ⟨hpid, a1⟩]
    · rw [h10]
      exact List.mem_append_right _ a3
  · intro i
    constructor
    · intro hi
      obtain ⟨e, he, hfn⟩ := List.mem_map.mp hi
      obtain ⟨he1, he2⟩ := List.mem_filter.mp he
      obtain ⟨j, hj⟩ := List.mem_iff_getElem?.mp he1
      have hpte : s.pte? v j = some e := pte?_some_iff.mpr ⟨P, hP, hj⟩
      obtain ⟨f, c1, c2, _⟩ := hI.ptes v j e hpte (by simpa using he2)
      exact ⟨f, by rw [← hfn]; exact c1, c2⟩
    · rintro ⟨f, hf, hpid⟩
      exact (hheld i f hf hpid).2.2
  · intro i f hf hpid
    rw [h9, hf]
    simp only [Option.map_some', Option.some.injEq]
    unfold exitFrame
    rw [if_neg (fun h => hpid h.1)]

/-- Witness of C6: the state of scenario S5 before its `e 0`. -/
theorem C6_exit_resets_process_witness :
    ∃ s P, run cfgS5 (traceS5.take 2) = some s ∧ s.processes[0]? = some P ∧
      ∃ s' P', step s 'e' ((0 : Nat) : Int) = some s' ∧ s'.processes[0]? = some P' ∧
        P'.page_table.length = 64 ∧ (∀ e ∈ P'.page_table, ResetEntry e) ∧
        (∀ (i : Nat) (f : frame_t), s.frame_table[i]? = some f →
          f.process_id = ((0 : Nat) : Int) →
          ∃ f', s'.frame_table[i]? = some f' ∧ FreeFrame f' ∧ i ∉ s.free_frames ∧
            i ∈ s'.free_frames) ∧
        (∃ held, s'.free_frames = s.free_frames ++ held ∧
          ∀ i : Nat, i ∈ held ↔
            ∃ f, s.frame_table[i]? = some f ∧ f.process_id = ((0 : Nat) : Int)) ∧
        (∀ q : Nat, q ≠ 0 → s'.processes[q]? = s.processes[q]?) ∧
        (∀ (i : Nat) (f : frame_t), s.frame_table[i]? = some f →
          f.process_id ≠ ((0 : Nat) : Int) → s'.frame_table[i]? = some f) :=
  ⟨_, _, rfl, rfl, C6_exit_resets_process _ 0 _
    ⟨cfgS5, traceS5.take 2, WFConfig_cfgS5, WFTrace_traceS5 2, rfl⟩ rfl⟩

/-! ## Page-in classification -/

theorem AccessState_inv {s : State} (h : AccessState s) : InvH none s := by
  obtain ⟨s0, c, v, hR, rfl⟩ := h
  exact InvH_of_eq (Reachable_inv hR).1 rfl rfl rfl rfl rfl rfl rfl (Reachable_inv hR).1.cur

/-- C4 (amended): at every fault (`s` is the state in which `simulate` calls
`handle_page_fault`) on a page `vp` of the current process `cp` that is not
present and that the VMA `vma` of that process covers, with a random table that
suits the Random policy, `get_frame` returns a frame `fi`
and `handle_page_fault` succeeds; it adds one to exactly one of `fins`, `ins`,
`zeros` of the current process (`fins` if `vma` is file-mapped, otherwise `ins`
if the faulting entry has `paged_out = 1`, otherwise `zeros`) and one to `maps`;
the entry ends with `present = 1` and `frame_number = fi`; frame `fi` ends with
`process_id` the current pid, `virtual_page = vp`, `age = 0` and
`age_ = inst_count mod 2^32`. -/
theorem C4_page_in_classification (s : State) (cp vp : Nat) (P : Process) (e : pte_t)
    (vma : VMA) (hA : AccessState s) (hrf : RandFile s) (_ : s.currentProcess = some cp)
    (hP : s.processes[cp]? = some P) (hmem : vma ∈ P.vmas)
    (hcov : vma.covers (vp : Int) = true)
    (he : P.page_table[vp]? = some e) (hnp : e.present = false) :
    ∃ (fi : Nat) (s2 s' : State) (P' : Process) (e' : pte_t) (f' : frame_t),
      get_frame (faultEntry s cp (vp : Int) vp P) = some (fi, s2) ∧
      handle_page_fault s cp (vp : Int) = some s' ∧
      s'.processes[cp]? = some P' ∧
      P'.stats.fins = P.stats.fins + (if vma.file_mapped then 1 else 0) ∧
      P'.stats.ins = P.stats.ins + (if !vma.file_mapped && e.paged_out then 1 else 0) ∧
      P'.stats.zeros = P.stats.zeros + (if !vma.file_mapped && !e.paged_out then 1 else 0) ∧
      P'.stats.maps = P.stats.maps + 1 ∧
      P'.page_table[vp]? = some e' ∧ e'.present = true ∧ e'.frame_number = fi ∧
      s'.frame_table[fi]? = some f' ∧ f'.process_id = P.pid ∧ P.pid = (cp : Int) ∧
      f'.virtual_page = (vp : Int) ∧ f'.age = 0 ∧ f'.age_ = s.inst_count % 4294967296 := by
  have hI := AccessState_inv hA
  have hvma : P.vmas.find? (fun a => a.covers (vp : Int)) = some vma :=
    (hI.vmas cp P vma vp hP hmem hcov).1.2
  obtain ⟨fi, s2, s3, s', P3, e3, f3, hg, hh, hI3, hf3, _, hP3, he3, hec, hpid, _, hmaps, hins,
    hfins, hzeros, _, _, hic, _, hft, hpr, _, _, _, _⟩ :=
    handle_page_fault_spec hI hP he hnp (Or.inl hrf)
  have hfm : e3.file_mapped = vma.file_mapped := by
    have := congrArg pte_t.file_mapped hec
    simp only [pte_t.core, faultBit, hvma] at this
    exact this
  have hpo : e3.paged_out = e.paged_out := by
    have := congrArg pte_t.paged_out hec
    simp only [pte_t.core] at this
    exact this
  have hfilt : fi < 128 := by
    have h1 := hI3.hole_lt fi rfl
    have h2 := hI3.nframes.2
    omega
  have hP' : s'.processes[cp]? =
      some (Process.upd (mapStats e3.file_mapped e3.paged_out) vp (mapPte fi) P3) := by
    rw [hpr, getElem?_updateAt, hP3]
    simp
  refine ⟨fi, s2, s', _, mapPte fi e3,
    mapFrame P3.pid (vp : Int) s3.inst_count (!e3.file_mapped && !e3.paged_out) f3,
    hg, hh, hP', ?_, ?_, ?_, ?_, ?_, rfl, ?_, ?_, ?_, (hI.procs cp P hP).1, rfl, rfl, ?_⟩
  · show P3.stats.fins + _ = _
    rw [hfins, hfm]
  · show P3.stats.ins + _ = _
    rw [hins, hfm, hpo]
  · show P3.stats.zeros + _ = _
    rw [hzeros, hfm, hpo]
  · show P3.stats.maps + 1 = _
    rw [hmaps]
  · show (updateAt (mapPte fi) vp P3.page_table)[vp]? = _
    rw [getElem?_updateAt, he3]
    simp
  · show fi % 128 = fi
    exact Nat.mod_eq_of_lt hfilt
  · rw [hft, getElem?_updateAt, hf3]
    simp
  · exact hpid
  · show s3.inst_count % 4294967296 = _
    rw [hic]

theorem WFConfig_cfgC4w : WFConfig cfgC4w := by
  simp [WFConfig, WFVMAs, cfgC4w]

theorem WFTrace_ctx0 (n k : Nat) (h : 0 < n) : WFTrace n (List.replicate k ctx0) := by
  refine ⟨?_, ?_⟩
  · intro i hi
    rw [List.eq_of_mem_replicate hi]
    left
    exact ⟨Or.inl rfl, by decide, by simp [ctx0]; omega⟩
  · intro i hi
    cases k with
    | zero => simp at hi
    | succ k =>
      simp only [List.replicate_succ, List.head?_cons, Option.some.injEq] at hi
      rw [← hi]
      rfl

/-- Witness of C4: the first read of page 0 in a run with two frames, FIFO and the
file-mapped VMA `0 3 0 1`. -/
theorem C4_page_in_classification_witness :
    ∃ (s0 s : State) (P : Process) (e : pte_t) (vma : VMA),
      run cfgC4w (List.replicate 1 ctx0) = some s0 ∧
      s = countAccess (emit s0 (Event.instr s0.inst_count 'r' 0)) ∧
      s.processes[0]? = some P ∧ P.page_table[0]? = some e ∧ P.vmas = [vma] ∧
      ∃ (fi : Nat) (s2 s' : State) (P' : Process) (e' : pte_t) (f' : frame_t),
        get_frame (faultEntry s 0 ((0 : Nat) : Int) 0 P) = some (fi, s2) ∧
        handle_page_fault s 0 ((0 : Nat) : Int) = some s' ∧
        s'.processes[0]? = some P' ∧
        P'.stats.fins = P.stats.fins + (if vma.file_mapped then 1 else 0) ∧
        P'.stats.ins = P.stats.ins + (if !vma.file_mapped && e.paged_out then 1 else 0) ∧
        P'.stats.zeros = P.stats.zeros + (if !vma.file_mapped && !e.paged_out then 1 else 0) ∧
        P'.stats.maps = P.stats.maps + 1 ∧
        P'.page_table[0]? = some e' ∧ e'.present = true ∧ e'.frame_number = fi ∧
        s'.frame_table[fi]? = some f' ∧ f'.process_id = P.pid ∧ P.pid = ((0 : Nat) : Int) ∧
        f'.virtual_page = ((0 : Nat) : Int) ∧ f'.age = 0 ∧
        f'.age_ = s.inst_count % 4294967296 :=
  ⟨_, _, _, _, _, rfl, rfl, rfl, rfl, rfl,
    C4_page_in_classification _ 0 0 _ _ _
      ⟨_, 'r', 0, ⟨cfgC4w, List.replicate 1 ctx0, WFConfig_cfgC4w,
        WFTrace_ctx0 _ 1 (by decide), rfl⟩, rfl⟩
      (fun h => absurd h (by decide)) rfl rfl (List.mem_cons_self _ _) rfl rfl rfl⟩

theorem step_ctx0 (s : State) (ho : s.o_flag = false) (hp : 0 < s.processes.length) :
    step s 'c' 0 = some { s with inst_count := s.inst_count + 1
                                 ctx_switches := s.ctx_switches + 1
                                 currentProcess := some 0 } := by
  have hv : (0 : Int) ≥ 0 ∧
      (0 : Int) < (countInst (emit s (Event.instr s.inst_count 'c' 0))).processes.length := by
    refine ⟨by omega, ?_⟩
    show (0 : Int) < s.processes.length
    omega
  simp only [step, if_true]
  rw [if_pos hv]
  simp [emit, countInst, ho]

theorem simulate_cons (s : State) (i : Instr) (rest : List Instr) :
    simulate s (i :: rest) = (step s i.command i.operand).bind (fun s1 => simulate s1 rest) :=
  rfl

/-- After `n + 1` instructions `c 0` only the two counters and the current
process have changed (nothing is printed without the `O` option). -/
theorem simulate_ctx0 : ∀ (n : Nat) (s : State), s.o_flag = false → 0 < s.processes.length →
    simulate s (List.replicate (n + 1) ctx0) =
      some { s with inst_count := s.inst_count + (n + 1)
                    ctx_switches := s.ctx_switches + (n + 1)
                    currentProcess := some 0 } := by
  intro n
  induction n with
  | zero =>
    intro s ho hp
    rw [List.replicate_succ, simulate_cons]
    show (step s 'c' 0).bind _ = _
    rw [step_ctx0 s ho hp]
    rfl
  | succ n ih =>
    intro s ho hp
    rw [List.replicate_succ, simulate_cons]
    show (step s 'c' 0).bind _ = _
    rw [step_ctx0 s ho hp]
    refine (ih { s with inst_count := s.inst_count + 1
                        ctx_switches := s.ctx_switches + 1
                        currentProcess := some 0 } ho hp).trans ?_
    have h1 : s.inst_count + 1 + (n + 1) = s.inst_count + (n + 1 + 1) := by omega
    have h2 : s.ctx_switches + 1 + (n + 1) = s.ctx_switches + (n + 1 + 1) := by omega
    show some { s with inst_count := s.inst_count + 1 + (n + 1)
                       ctx_switches := s.ctx_switches + 1 + (n + 1)
                       currentProcess := some 0 } = _
    rw [h1, h2]

/-- A run of `n + 1` instructions `c 0` without the `O` option, from the state
`sI` that `init` builds. -/
theorem run_ctx0 {cfg : Config} {sI : State} (n : Nat) (hI : init cfg = some sI)
    (ho : sI.o_flag = false) (hp : 0 < sI.processes.length) :
    run cfg (List.replicate (n + 1) ctx0) =
      some { sI with inst_count := sI.inst_count + (n + 1)
                     ctx_switches := sI.ctx_switches + (n + 1)
                     currentProcess := some 0 } := by
  simp only [run, hI, Option.bind_eq_bind, Option.some_bind]
  exact simulate_ctx0 n sI ho hp

theorem WFTrace_traceC4 :
    WFTrace cfgC4.procs.length [⟨'c', 0⟩, ⟨'r', 0⟩, ⟨'r', 1⟩] := by
  refine ⟨?_, ?_⟩
  · intro i hi
    simp only [List.mem_cons, List.mem_singleton, List.not_mem_nil, or_false] at hi
    rcases hi with h | h | h <;> subst h <;> simp [WFInstr, cfgC4]
  · intro i hi
    simp only [List.head?_cons, Option.some.injEq] at hi
    subst hi
    rfl

/-- C4 as stated fails in two ways.  (1) Two frames, Random policy, random file
`-1`, VMA `0 5 0 0`: after `c 0 / r 0 / r 1` the fault of `r 2` makes the policy
index the frame table at -1, so `handle_page_fault` has no result.  (2) One
frame, FIFO, VMA `0 0 0 0`: after 4294967296 instructions `c 0` the fault of
`r 0` happens at `inst_count = 4294967297` and leaves the frame with `age_ = 1`,
the 32-bit truncation of that count. -/
theorem C4_counterexample :
    (∃ (s0 s : State) (P : Process) (e : pte_t) (vma : VMA), Reachable s0 ∧
      s = countAccess (emit s0 (Event.instr s0.inst_count 'r' 2)) ∧
      s.currentProcess = some 0 ∧ s.processes[0]? = some P ∧
      vma ∈ P.vmas ∧ vma.covers 2 = true ∧ P.page_table[2]? = some e ∧
      e.present = false ∧ handle_page_fault s 0 2 = none) ∧
    (∃ (s0 s s' : State) (P : Process) (e : pte_t) (vma : VMA) (f : frame_t), Reachable s0 ∧
      s = countAccess (emit s0 (Event.instr s0.inst_count 'r' 0)) ∧
      s.currentProcess = some 0 ∧ s.processes[0]? = some P ∧
      vma ∈ P.vmas ∧ vma.covers 0 = true ∧ P.page_table[0]? = some e ∧
      e.present = false ∧ handle_page_fault s 0 0 = some s' ∧
      s'.frame_table[0]? = some f ∧ s.inst_count = 4294967297 ∧ f.age_ = 1 ∧
      f.age_ ≠ s.inst_count) :=
  ⟨⟨_, _, _, _, _, ⟨cfgC4, [⟨'c', 0⟩, ⟨'r', 0⟩, ⟨'r', 1⟩],
      by simp [WFConfig, WFVMAs, cfgC4], WFTrace_traceC4, rfl⟩, rfl, rfl, rfl,
      List.mem_cons_self _ _, rfl, rfl, rfl, rfl⟩,
    ⟨_, _, _, _, _, _, _, ⟨cfgC4b, List.replicate 4294967296 ctx0,
      by simp [WFConfig, WFVMAs, cfgC4b], WFTrace_ctx0 _ _ (by decide),
      run_ctx0 4294967295 rfl rfl (by decide)⟩, rfl, rfl,
      rfl, List.mem_cons_self _ _, rfl, rfl, rfl, rfl, rfl, rfl, rfl, by decide⟩⟩

/-! ## Writes to write-protected pages -/

theorem touch_write_protected {s : State} {cp vp : Nat} {e : pte_t}
    (hpte : s.pte? cp vp = some e) (hwp : e.write_protect = true) :
    touch s 'w' cp vp = some (segprotState s cp vp) := by
  have hpte3 : (s.modPte cp vp (fun e => { e with referenced := true })).pte? cp vp
      = some { e with referenced := true } := by
    rw [pte?_of_processes (modPte_processes s cp vp _), hpte]
    simp
  have : (!({ e with referenced := true } : pte_t).write_protect) = false := by
    simp [hwp]
  simp only [touch, Option.bind_eq_bind, Option.pure_def, if_true, hpte3, Option.some_bind, this,
    Bool.false_eq_true, if_false, segprotState]

theorem segprotState_processes (s : State) (cp vp : Nat) :
    (segprotState s cp vp).processes =
      updateAt (Process.upd (fun st => { st with segprot := st.segprot + 1 }) vp
        (fun e => { e with referenced := true })) cp s.processes := by
  show updateAt _ cp (updateAt _ cp s.processes) = _
  rw [updateAt_updateAt]
  exact updateAt_congr (fun a => rfl) _ _

/-- An `r`/`w` of the current process to a page that a VMA covers is the branch
`access` of `simulate`. -/
theorem step_access {s : State} {c : Char} {cp vp : Nat} {P : Process} {vma : VMA}
    (hc : c = 'r' ∨ c = 'w') (hcur : s.currentProcess = some cp)
    (hP : s.processes[cp]? = some P) (hvma : vma ∈ P.vmas)
    (hcov : vma.covers (vp : Int) = true) :
    step s c (vp : Int) =
      access (countAccess (emit s (Event.instr s.inst_count c (vp : Int)))) c cp (vp : Int) := by
  have hnc : c ≠ 'c' := by rcases hc with h | h <;> rw [h] <;> decide
  have hne : c ≠ 'e' := by rcases hc with h | h <;> rw [h] <;> decide
  have hcp0 : (emit s (Event.instr s.inst_count c (vp : Int))).currentProcess = some cp := hcur
  have hP0 : (emit s (Event.instr s.inst_count c (vp : Int))).processes[cp]? = some P := hP
  have hval : isValidPage (vp : Int) P = true := isValidPage_iff.mpr ⟨vma, hvma, hcov⟩
  simp only [step, if_neg hnc, if_neg hne, hcp0, hP0, hval, if_pos hc, Option.bind_eq_bind,
    Option.some_bind, Bool.not_true, Bool.false_eq_true, if_false]

theorem WFConfig_cfgS4 : WFConfig cfgS4 := by
  simp [WFConfig, WFVMAs, cfgS4, VMA.disjoint]

theorem WFTrace_traceS4 (k : Nat) : WFTrace cfgS4.procs.length (traceS4.take k) := by
  apply WFTrace_take
  refine ⟨?_, ?_⟩
  · intro i hi
    simp only [traceS4, List.mem_cons, List.mem_singleton, List.not_mem_nil, or_false] at hi
    rcases hi with h | h | h | h | h <;> subst h <;> simp [WFInstr, cfgS4]
  · intro i hi
    simp only [traceS4, List.head?_cons, Option.some.injEq] at hi
    subst hi
    rfl

theorem pageInEvent_cases (fm po : Bool) :
    pageInEvent fm po = Event.IN ∨ pageInEvent fm po = Event.FIN ∨
      pageInEvent fm po = Event.ZERO := by
  cases fm <;> cases po <;> simp [pageInEvent]

/-- C8 (amended): let `s` be a reachable state, `cp` its current process and `vp`
a page that a write-protected VMA of `cp` covers.  (1) If the entry of `vp` is
not present and the random table suits the Random policy, `w vp` first runs
`handle_page_fault` (one more `maps` and one more of `ins`, `fins`, `zeros`,
`segprot` unchanged; one of `IN`/`FIN`/`ZERO`, then `MAP`, printed), then adds
one to `segprot` and prints `SEGPROT`, and ends with the entry `present = 1`,
`referenced = 1`, `modified = 0` and the backing frame `dirty = false`.  (2) If
the entry is present, `w vp` changes only the `referenced` bit of that entry,
`segprot` of `cp`, `inst_count` and `rw_count` (and the output).  (3) Scenario
S4 (four frames, FIFO, process 0 with VMA `0 3 1 0`, process 1 with VMA
`0 3 0 1`, trace `c 0 / w 0 / c 1 / w 0 / w 0`): process 0 ends with `maps = 1`,
`zeros = 1`, `segprot = 1` and page 0 unmodified, process 1 with `maps = 1`,
`fins = 1` and page 0 modified in a dirty frame. -/
theorem C8_write_protected :
    (∀ (s : State) (cp vp : Nat) (P : Process) (e : pte_t) (vma : VMA), Reachable s →
      RandFile s → s.currentProcess = some cp → s.processes[cp]? = some P → vma ∈ P.vmas →
      vma.covers (vp : Int) = true → vma.write_protected = true →
      P.page_table[vp]? = some e → e.present = false →
      ∃ (fi : Nat) (s2 s' : State) (P2 P' : Process) (e' : pte_t) (f' : frame_t),
        handle_page_fault (countAccess (emit s (Event.instr s.inst_count 'w' (vp : Int)))) cp
          (vp : Int) = some s2 ∧
        touch s2 'w' cp vp = some s' ∧ step s 'w' (vp : Int) = some s' ∧
        s2.processes[cp]? = some P2 ∧ s'.processes[cp]? = some P' ∧
        P2.stats.maps = P.stats.maps + 1 ∧
        P2.stats.ins + P2.stats.fins + P2.stats.zeros =
          P.stats.ins + P.stats.fins + P.stats.zeros + 1 ∧
        P2.stats.segprot = P.stats.segprot ∧
        P'.stats = { P2.stats with segprot := P2.stats.segprot + 1 } ∧
        P'.page_table[vp]? = some e' ∧ e'.present = true ∧ e'.referenced = true ∧
        e'.modified = false ∧ e'.frame_number = fi ∧
        s'.frame_table[fi]? = some f' ∧ f'.process_id = (cp : Int) ∧
        f'.virtual_page = (vp : Int) ∧ f'.dirty = false ∧
        (s.o_flag = true → ∃ (pre : List Event) (ev : Event),
          (ev = Event.IN ∨ ev = Event.FIN ∨ ev = Event.ZERO) ∧
          s'.output = pre ++ [ev, Event.MAP fi, Event.SEGPROT])) ∧
    (∀ (s : State) (cp vp : Nat) (P : Process) (e : pte_t) (vma : VMA), Reachable s →
      s.currentProcess = some cp → s.processes[cp]? = some P → vma ∈ P.vmas →
      vma.covers (vp : Int) = true → vma.write_protected = true →
      P.page_table[vp]? = some e → e.present = true →
      ∃ s', step s 'w' (vp : Int) = some s' ∧
        s'.inst_count = s.inst_count + 1 ∧ s'.rwcount = s.rwcount + 1 ∧
        s'.processes = updateAt
          (Process.upd (fun st => { st with segprot := st.segprot + 1 }) vp
            (fun e => { e with referenced := true })) cp s.processes ∧
        s'.frame_table = s.frame_table ∧ s'.free_frames = s.free_frames ∧
        s'.hand = s.hand ∧ s'.lastReset = s.lastReset ∧ s'.algo = s.algo ∧
        s'.randvals = s.randvals ∧ s'.ofs = s.ofs ∧ s'.exitloop = s.exitloop ∧
        s'.ctx_switches = s.ctx_switches ∧ s'.process_exits = s.process_exits ∧
        s'.currentProcess = s.currentProcess ∧ s'.o_flag = s.o_flag) ∧
    (∃ (s : State) (P0 P1 : Process) (e0 e1 : pte_t) (f1 : frame_t),
      run cfgS4 traceS4 = some s ∧ s.processes = [P0, P1] ∧
      P0.stats.maps = 1 ∧ P0.stats.zeros = 1 ∧ P0.stats.segprot = 1 ∧
      P0.page_table[0]? = some e0 ∧ e0.present = true ∧ e0.modified = false ∧
      P1.stats.maps = 1 ∧ P1.stats.fins = 1 ∧
      P1.page_table[0]? = some e1 ∧ e1.present = true ∧ e1.modified = true ∧
      s.frame_table[e1.frame_number]? = some f1 ∧ f1.dirty = true) := by
  have hwpe : ∀ {s : State} {cp vp : Nat} {P : Process} {e : pte_t} {vma : VMA},
      InvH none s → s.processes[cp]? = some P → vma ∈ P.vmas → vma.covers (vp : Int) = true →
      vma.write_protected = true → P.page_table[vp]? = some e → e.write_protect = true := by
    intro s cp vp P e vma hI hP hvma hcov hwp he
    obtain ⟨_, pte, hp1, hp2⟩ := hI.vmas cp P vma vp hP hvma hcov
    simp only [Int.toNat_ofNat] at hp1
    rw [he] at hp1
    cases hp1
    rw [hp2, hwp]
  refine ⟨?_, ?_, ⟨_, _, _, _, _, _, rfl, rfl, rfl, rfl, rfl, rfl, rfl, rfl, rfl, rfl, rfl, rfl,
    rfl, rfl, rfl⟩⟩
  · intro s cp vp P e vma hR hrf hcur hP hvma hcov hwp he hnp
    have hI := (Reachable_inv hR).1
    have hI1 : InvH none (countAccess (emit s (Event.instr s.inst_count 'w' (vp : Int)))) :=
      InvH_of_eq hI rfl rfl rfl rfl rfl rfl rfl hI.cur
    have hP1 : (countAccess (emit s (Event.instr s.inst_count 'w' (vp : Int)))).processes[cp]?
        = some P := hP
    have hew := hwpe hI hP hvma hcov hwp he
    have hem : e.modified = false :=
      ((hI.clean cp vp e (pte?_some_iff.mpr ⟨P, hP, he⟩)).1 hnp).1
    obtain ⟨fi, s2g, s3, s2, P3, e3, f3, _, hh, hI3, hf3, hff, hP3, he3, hec, hpid, _, hmaps,
      hins, hfins, hzeros, _, hsegprot, _, _, hft, hpr, _, _, _, _, hofl, hout, _⟩ :=
      handle_page_fault_spec hI1 hP1 he hnp (Or.inl (RandFile_of_eq rfl rfl hrf))
    have hwp3 : e3.write_protect = true := by
      have := congrArg pte_t.write_protect hec
      simp only [pte_t.core] at this
      rw [this]
      exact hew
    have hm3 : e3.modified = false := by
      have := congrArg pte_t.modified hec
      simp only [pte_t.core] at this
      rw [this]
      exact hem
    have hfilt : fi < 128 := by
      have h1 := hI3.hole_lt fi rfl
      have h2 := hI3.nframes.2
      omega
    have hP2 : s2.processes[cp]? =
        some (Process.upd (mapStats e3.file_mapped e3.paged_out) vp (mapPte fi) P3) := by
      rw [hpr, getElem?_updateAt, hP3]
      simp
    have he2 : (Process.upd (mapStats e3.file_mapped e3.paged_out) vp (mapPte fi)
        P3).page_table[vp]? = some (mapPte fi e3) := by
      show (updateAt (mapPte fi) vp P3.page_table)[vp]? = _
      rw [getElem?_updateAt, he3]
      simp
    have hpte2 : s2.pte? cp vp = some (mapPte fi e3) := pte?_some_iff.mpr ⟨_, hP2, he2⟩
    have htouch := @touch_write_protected s2 cp vp (mapPte fi e3) hpte2 hwp3
    have hpte1 : (countAccess (emit s (Event.instr s.inst_count 'w' (vp : Int)))).pte? cp vp
        = some e := pte?_some_iff.mpr ⟨P, hP1, he⟩
    have hstep : step s 'w' (vp : Int) = some (segprotState s2 cp vp) := by
      rw [step_access (Or.inr rfl) hcur hP hvma hcov]
      simp only [access, idx?_natCast, hpte1, Option.bind_eq_bind, Option.some_bind, hnp,
        Bool.not_false, if_true, hh]
      exact htouch
    have hP' : (segprotState s2 cp vp).processes[cp]? =
        some (Process.upd (fun st => { st with segprot := st.segprot + 1 }) vp
          (fun e => { e with referenced := true })
          (Process.upd (mapStats e3.file_mapped e3.paged_out) vp (mapPte fi) P3)) := by
      rw [segprotState_processes, getElem?_updateAt, hP2]
      simp
    refine ⟨fi, s2, segprotState s2 cp vp, _, _, { mapPte fi e3 with referenced := true },
      mapFrame P3.pid (vp : Int) s3.inst_count (!e3.file_mapped && !e3.paged_out) f3,
      hh, htouch, hstep, hP2, hP', ?_, ?_, hsegprot, rfl, ?_, rfl, rfl, hm3, ?_, ?_, ?_, rfl,
      ?_, ?_⟩
    · show P3.stats.maps + 1 = _
      rw [hmaps]
    · show P3.stats.ins + _ + (P3.stats.fins + _) + (P3.stats.zeros + _) = _
      rw [hins, hfins, hzeros]
      cases e3.file_mapped <;> cases e3.paged_out <;> simp <;> omega
    · show (updateAt _ vp (updateAt (mapPte fi) vp P3.page_table))[vp]? = _
      rw [getElem?_updateAt, getElem?_updateAt, he3]
      simp
    · show fi % 128 = fi
      exact Nat.mod_eq_of_lt hfilt
    · show s2.frame_table[fi]? = _
      rw [hft, getElem?_updateAt, hf3]
      simp
    · show P3.pid = _
      rw [hpid]
      exact (hI.procs cp P hP).1
    · show (_ && f3.dirty) = false
      rw [hff.2.2]
      simp
    · intro ho
      have ho' : (countAccess (emit s (Event.instr s.inst_count 'w' (vp : Int)))).o_flag = true :=
        ho
      refine ⟨s3.output, pageInEvent e3.file_mapped e3.paged_out, pageInEvent_cases _ _, ?_⟩
      show (if s2.o_flag = true then s2.output ++ [Event.SEGPROT] else s2.output) = _
      rw [hofl, if_pos ho', hout, if_pos ho']
      simp
  · intro s cp vp P e vma hR hcur hP hvma hcov hwp he hpres
    have hI := (Reachable_inv hR).1
    have hew := hwpe hI hP hvma hcov hwp he
    have hpte1 : (countAccess (emit s (Event.instr s.inst_count 'w' (vp : Int)))).pte? cp vp
        = some e := pte?_some_iff.mpr ⟨P, hP, he⟩
    have hstep : step s 'w' (vp : Int) = some (segprotState
        (countAccess (emit s (Event.instr s.inst_count 'w' (vp : Int)))) cp vp) := by
      rw [step_access (Or.inr rfl) hcur hP hvma hcov]
      simp only [access, idx?_natCast, hpte1, Option.bind_eq_bind, Option.some_bind, hpres,
        Bool.not_true, Bool.false_eq_true, if_false, Option.pure_def]
      exact touch_write_protected hpte1 hew
    exact ⟨_, hstep, rfl, rfl, segprotState_processes _ cp vp, rfl, rfl, rfl, rfl, rfl, rfl, rfl,
      rfl, rfl, rfl, rfl, rfl⟩

/-- Witness of C8: in scenario S4, the first `w 0` of process 0 (state after
`c 0`, the page is not present) and a second `w 0` of process 0 (state after
`c 0 / w 0`, the page is present). -/
theorem C8_write_protected_witness :
    (∃ (s : State) (P : Process) (e : pte_t) (vma : VMA),
      run cfgS4 (traceS4.take 1) = some s ∧ s.processes[0]? = some P ∧
      P.page_table[0]? = some e ∧ P.vmas = [vma] ∧
      ∃ (fi : Nat) (s2 s' : State) (P2 P' : Process) (e' : pte_t) (f' : frame_t),
        handle_page_fault (countAccess (emit s (Event.instr s.inst_count 'w' ((0 : Nat) : Int))))
          0 ((0 : Nat) : Int) = some s2 ∧
        touch s2 'w' 0 0 = some s' ∧ step s 'w' ((0 : Nat) : Int) = some s' ∧
        s2.processes[0]? = some P2 ∧ s'.processes[0]? = some P' ∧
        P2.stats.maps = P.stats.maps + 1 ∧
        P2.stats.ins + P2.stats.fins + P2.stats.zeros =
          P.stats.ins + P.stats.fins + P.stats.zeros + 1 ∧
        P2.stats.segprot = P.stats.segprot ∧
        P'.stats = { P2.stats with segprot := P2.stats.segprot + 1 } ∧
        P'.page_table[0]? = some e' ∧ e'.present = true ∧ e'.referenced = true ∧
        e'.modified = false ∧ e'.frame_number = fi ∧
        s'.frame_table[fi]? = some f' ∧ f'.process_id = ((0 : Nat) : Int) ∧
        f'.virtual_page = ((0 : Nat) : Int) ∧ f'.dirty = false ∧
        (s.o_flag = true → ∃ (pre : List Event) (ev : Event),
          (ev = Event.IN ∨ ev = Event.FIN ∨ ev = Event.ZERO) ∧
          s'.output = pre ++ [ev, Event.MAP fi, Event.SEGPROT])) ∧
    (∃ (s : State) (P : Process) (e : pte_t) (vma : VMA),
      run cfgS4 (traceS4.take 2) = some s ∧ s.processes[0]? = some P ∧
      P.page_table[0]? = some e ∧ P.vmas = [vma] ∧
      ∃ s', step s 'w' ((0 : Nat) : Int) = some s' ∧
        s'.inst_count = s.inst_count + 1 ∧ s'.rwcount = s.rwcount + 1 ∧
        s'.processes = updateAt
          (Process.upd (fun st => { st with segprot := st.segprot + 1 }) 0
            (fun e => { e with referenced := true })) 0 s.processes ∧
        s'.frame_table = s.frame_table ∧ s'.free_frames = s.free_frames ∧
        s'.hand = s.hand ∧ s'.lastReset = s.lastReset ∧ s'.algo = s.algo ∧
        s'.randvals = s.randvals ∧ s'.ofs = s.ofs ∧ s'.exitloop = s.exitloop ∧
        s'.ctx_switches = s.ctx_switches ∧ s'.process_exits = s.process_exits ∧
        s'.currentProcess = s.currentProcess ∧ s'.o_flag = s.o_flag) :=
  ⟨⟨_, _, _, _, rfl, rfl, rfl, rfl,
      C8_write_protected.1 _ 0 0 _ _ _
        ⟨cfgS4, traceS4.take 1, WFConfig_cfgS4, WFTrace_traceS4 1, rfl⟩
        (fun h => absurd h (by decide)) rfl rfl (List.mem_cons_self _ _) rfl rfl rfl rfl⟩,
    ⟨_, _, _, _, rfl, rfl, rfl, rfl,
      C8_write_protected.2.1 _ 0 0 _ _ _
        ⟨cfgS4, traceS4.take 2, WFConfig_cfgS4, WFTrace_traceS4 2, rfl⟩
        rfl rfl (List.mem_cons_self _ _) rfl rfl rfl rfl⟩⟩

theorem WFTrace_traceC8 : WFTrace cfgC8.procs.length [⟨'c', 0⟩, ⟨'r', 0⟩] := by
  refine ⟨?_, ?_⟩
  · intro i hi
    simp only [List.mem_cons, List.mem_singleton, List.not_mem_nil, or_false] at hi
    rcases hi with h | h <;> subst h <;> simp [WFInstr, cfgC8]
  · intro i hi
    simp only [List.head?_cons, Option.some.injEq] at hi
    subst hi
    rfl

/-- C8 as stated fails: one frame, Random policy, an empty random file, the
write-protected VMA `0 1 1 0`.  After `c 0 / r 0` the state is reachable, page 1
is covered by the write-protected VMA and not present, and `w 1` faults with
no free frame: the Random policy reads `randvals[0]` of an empty table, so the
step has no result. -/
theorem C8_counterexample :
    ∃ (s : State) (P : Process) (e : pte_t) (vma : VMA), Reachable s ∧
      s.currentProcess = some 0 ∧ s.processes[0]? = some P ∧ vma ∈ P.vmas ∧
      vma.covers 1 = true ∧ vma.write_protected = true ∧ P.page_table[1]? = some e ∧
      e.present = false ∧ s.free_frames = [] ∧ step s 'w' 1 = none :=
  ⟨_, _, _, _, ⟨cfgC8, [⟨'c', 0⟩, ⟨'r', 0⟩], by simp [WFConfig, WFVMAs, cfgC8],
    WFTrace_traceC8, rfl⟩, rfl, rfl, List.mem_cons_self _ _, rfl, rfl, rfl, rfl, rfl, rfl⟩

/-! ## The total cost and the scenarios S1, S2 and S3 -/

theorem foldl_add_eq_sum {α : Type} (f : α → Nat) (l : List α) (a : Nat) :
    l.foldl (fun acc x => acc + f x) a = a + (l.map f).sum := by
  induction l generalizing a with
  | nil => simp
  | cons x l ih =>
    simp only [List.foldl_cons, List.map_cons, List.sum_cons, ih]
    omega

set_option maxRecDepth 20000 in
/-- C11: the value `main` computes as `total_cost` from the state `simulate`
leaves is `rw_count * 1 + ctx_switches * 130 + process_exits * 1230` plus the sum
over all processes of `maps * 350 + unmaps * 410 + ins * 3200 + outs * 2750 +
fins * 2350 + fouts * 2800 + zeros * 150 + segv * 440 + segprot * 410`.  In
scenario S1 (one frame, FIFO, VMA `0 0 0 0`, trace `c 0 / r 0 / r 0 / e 0`) the
final counters are `maps = 1`, `unmaps = 1`, `zeros = 1`, all others 0, and the
total cost is 2272. -/
theorem C11_total_cost :
    (∀ s : State, total_cost s =
      s.rwcount * 1 + s.ctx_switches * 130 + s.process_exits * 1230 +
        (s.processes.map (fun P => P.stats.maps * 350 + P.stats.unmaps * 410 +
          P.stats.ins * 3200 + P.stats.outs * 2750 + P.stats.fins * 2350 +
          P.stats.fouts * 2800 + P.stats.zeros * 150 + P.stats.segv * 440 +
          P.stats.segprot * 410)).sum) ∧
    ∃ (s : State) (P : Process), run cfgS1 traceS1 = some s ∧ s.processes = [P] ∧
      P.stats = { maps := 1, unmaps := 1, ins := 0, outs := 0, fins := 0, fouts := 0,
                  zeros := 1, segv := 0, segprot := 0 } ∧
      s.rwcount = 2 ∧ s.ctx_switches = 1 ∧ s.process_exits = 1 ∧ total_cost s = 2272 := by
  refine ⟨?_, ⟨_, _, rfl, rfl, rfl, rfl, rfl, rfl, rfl⟩⟩
  intro s
  simp only [total_cost, foldl_add_eq_sum, ProcessStats.computeTotalCost]
  omega

/-- C13 (amended): in scenario S2 (two frames, Clock, VMA `0 2 0 0`, trace
`c 0 / r 0 / r 1 / r 2 / r 0`) each of the first three reads maps a page (`r 0`
and `r 1` into the free frames 0 and 1, `r 2` into frame 0 after evicting page 0),
the final `r 0` faults and evicts page 1, and the final counters are `maps = 4`,
`unmaps = 2`, `zeros = 4`, all others 0. -/
theorem C13_scenario_S2 :
    ∃ (s : State) (P : Process), run cfgS2 traceS2 = some s ∧ s.processes = [P] ∧
      s.output =
        [Event.instr 0 'c' 0,
         Event.instr 1 'r' 0, Event.ZERO, Event.MAP 0,
         Event.instr 2 'r' 1, Event.ZERO, Event.MAP 1,
         Event.instr 3 'r' 2, Event.UNMAP 0 0, Event.ZERO, Event.MAP 0,
         Event.instr 4 'r' 0, Event.UNMAP 0 1, Event.ZERO, Event.MAP 1] ∧
      P.stats = { maps := 4, unmaps := 2, ins := 0, outs := 0, fins := 0, fouts := 0,
                  zeros := 4, segv := 0, segprot := 0 } :=
  ⟨_, _, rfl, rfl, rfl, rfl⟩

/-- C13 as stated fails: the run of scenario S2 does not end with `maps = 4`,
`unmaps = 1`, `zeros = 4`; two pages are evicted (page 0 at `r 2`, page 1 at the
final `r 0`), so `unmaps = 2`. -/
theorem C13_counterexample :
    ¬ ∃ (s : State) (P : Process), run cfgS2 traceS2 = some s ∧ s.processes = [P] ∧
      P.stats.maps = 4 ∧ P.stats.unmaps = 1 ∧ P.stats.zeros = 4 := by
  rintro ⟨s, P, h1, h2, _, h4, _⟩
  obtain ⟨s0, P0, a1, a2, a3⟩ : ∃ (s0 : State) (P0 : Process), run cfgS2 traceS2 = some s0 ∧
      s0.processes = [P0] ∧ P0.stats.unmaps = 2 := ⟨_, _, rfl, rfl, rfl⟩
  rw [a1] at h1
  cases h1
  rw [a2] at h2
  cases h2
  rw [a3] at h4
  cases h4

/-- A fact about the value of an option, read off a computed projection. -/
theorem map_get {α β : Type} {o : Option α} {a : α} (h : o = some a) (f : α → β) (v : β)
    (hv : o.map f = some v) : f a = v := by
  subst h
  simpa using hv

set_option maxRecDepth 100000 in
/-- C14 (amended): in scenario S3 (three frames, Working-Set, VMA `0 9 0 0`, trace
`c 0 / r 0 / r 1 / r 2`, fifty times `r 0`, `r 3`) the fault of `r 3` calls the
policy at `inst_count = 55` with hand 0, frames 0, 1, 2 holding pages 0, 1, 2
last stamped at 2, 3, 4, and all three tenant entries still referenced.  The
scan therefore stamps all three frames with 55 and clears the three referenced
bits; every `temp_age` is 0, no frame is over TAU, and the victim is frame 0,
which holds page 0: `r 3` prints `UNMAP 0:0`, `ZERO`, `MAP 0`, and the hand ends
at 1. -/
theorem C14_scenario_S3 :
    ∃ (s0 s1 s2 s : State) (P : Process),
      run cfgS3 (traceS3.take 54) = some s0 ∧ s0.processes = [P] ∧
      s1 = faultEntry (countAccess (emit s0 (Event.instr s0.inst_count 'r' 3))) 0 3 3 P ∧
      s1.free_frames = [] ∧ s1.hand = 0 ∧ s1.inst_count = 55 ∧
      s1.frame_table.map (fun f => (f.process_id, f.virtual_page, f.age_)) =
        [(0, 0, 2), (0, 1, 3), (0, 2, 4)] ∧
      (List.range 3).map (refAt s1) = [true, true, true] ∧
      (List.range 3).map (tempAgeOf s1) = [0, 0, 0] ∧
      get_frame s1 = some (0, s2) ∧ WorkingSetPager.select_victim_frame s1 = some (0, s2) ∧
      s2.frame_table.map (fun f => (f.process_id, f.virtual_page, f.age_)) =
        [(0, 0, 55), (0, 1, 55), (0, 2, 55)] ∧
      (List.range 3).map (refAt s2) = [false, false, false] ∧ s2.hand = 1 ∧
      run cfgS3 traceS3 = some s ∧
      s.output = s0.output ++
        [Event.instr 54 'r' 3, Event.UNMAP 0 0, Event.ZERO, Event.MAP 0] := by
  obtain ⟨s0, h0⟩ : ∃ s0, run cfgS3 (traceS3.take 54) = some s0 :=
    Option.isSome_iff_exists.mp (by decide)
  obtain ⟨s1, h1⟩ : ∃ s1, (run cfgS3 (traceS3.take 54)).bind scanEntryS3 = some s1 :=
    Option.isSome_iff_exists.mp (by decide)
  obtain ⟨r, h2⟩ : ∃ r, ((run cfgS3 (traceS3.take 54)).bind scanEntryS3).bind get_frame
      = some r := Option.isSome_iff_exists.mp (by decide)
  obtain ⟨s, h3⟩ : ∃ s, run cfgS3 traceS3 = some s := Option.isSome_iff_exists.mp (by decide)
  have hlen : s0.processes.length = 1 := map_get h0 (fun s => s.processes.length) 1 (by decide)
  obtain ⟨P, hP⟩ : ∃ P, s0.processes = [P] := List.length_eq_one.mp hlen
  have e1 : s1 = faultEntry (countAccess (emit s0 (Event.instr s0.inst_count 'r' 3))) 0 3 3 P := by
    rw [h0] at h1
    simpa [scanEntryS3, hP] using h1.symm
  have hfree : s1.free_frames = [] := map_get h1 (fun s => s.free_frames) [] (by decide)
  have halgo : s1.algo = Algo.workingSet := map_get h1 (fun s => s.algo) _ (by decide)
  have hgf : get_frame s1 = some r := by
    rw [h1] at h2
    simpa using h2
  have hr1 : r.1 = 0 := map_get h2 (fun r => r.1) 0 (by decide)
  have hgf2 : get_frame s1 = some (0, r.2) := by
    rw [hgf, ← hr1]
  have hws : WorkingSetPager.select_victim_frame s1 = some (0, r.2) := by
    rw [← hgf2]
    simp [get_frame, hfree, select_victim_frame, halgo]
  refine ⟨s0, s1, r.2, s, P, h0, hP, e1, hfree,
    map_get h1 (fun s => s.hand) 0 (by decide),
    map_get h1 (fun s => s.inst_count) 55 (by decide),
    map_get h1 (fun s => s.frame_table.map (fun f => (f.process_id, f.virtual_page, f.age_)))
      _ (by decide),
    map_get h1 (fun s => (List.range 3).map (refAt s)) _ (by decide),
    map_get h1 (fun s => (List.range 3).map (tempAgeOf s)) _ (by decide),
    hgf2, hws,
    map_get h2 (fun r => r.2.frame_table.map (fun f => (f.process_id, f.virtual_page, f.age_)))
      _ (by decide),
    map_get h2 (fun r => (List.range 3).map (refAt r.2)) _ (by decide),
    map_get h2 (fun r => r.2.hand) 1 (by decide), h3, ?_⟩
  have ho : (run cfgS3 traceS3).map (fun s => s.output) =
      (run cfgS3 (traceS3.take 54)).map (fun s0 => s0.output ++
        [Event.instr 54 'r' 3, Event.UNMAP 0 0, Event.ZERO, Event.MAP 0]) := by decide
  rw [h0, h3] at ho
  simpa using ho

set_option maxRecDepth 100000 in
/-- C14 as stated fails: in the run of scenario S3 page 1 is never evicted (no
`UNMAP 0:1` is printed); the frame evicted at `r 3` holds page 0, and at that scan
the frames of pages 1 and 2 have `temp_age = 0`, not more than TAU. -/
theorem C14_counterexample :
    ¬ ∃ s : State, run cfgS3 traceS3 = some s ∧ Event.UNMAP 0 1 ∈ s.output := by
  rintro ⟨s, h1, h2⟩
  obtain ⟨s0, a1, a2⟩ : ∃ s0 : State, run cfgS3 traceS3 = some s0 ∧
      Event.UNMAP 0 1 ∉ s0.output := ⟨_, rfl, by decide⟩
  rw [a1] at h1
  cases h1
  exact a2 h2

/-! ## The Random and FIFO policies -/

/-- C20 (amended): for every non-empty random table of non-negative integers,
every cursor position inside the table and every frame count `N ≥ 1`,
`myrandom(N)` returns `1 + (table[cursor] % N)` with `%` truncating, this value
lies in `1..N`, the cursor advances by one modulo the table length, and
`RandomPager::select_victim_frame` returns the frame index `myrandom(N) - 1`,
which lies in `0..N-1`. -/
theorem C20_random_victim (s : State) (x : Int) (hx : s.randvals[s.ofs]? = some x)
    (hnn : ∀ y ∈ s.randvals, 0 ≤ y) (hN : 1 ≤ s.frame_table.length) :
    ∃ (r : Int) (s' : State),
      myrandom s s.frame_table.length = some (r, s') ∧
      r = 1 + Int.tmod x s.frame_table.length ∧ 1 ≤ r ∧ r ≤ s.frame_table.length ∧
      s' = { s with ofs := (s.ofs + 1) % s.randvals.length } ∧
      RandomPager.select_victim_frame s = some ((r - 1).toNat, s') ∧
      ((r - 1).toNat : Int) = r - 1 ∧ (r - 1).toNat < s.frame_table.length := by
  have hx0 : 0 ≤ x := hnn x (List.getElem?_mem hx)
  have hne : s.frame_table.isEmpty = false := by
    cases hft : s.frame_table with
    | nil => rw [hft] at hN; simp at hN
    | cons a l => rfl
  have hNpos : (0 : Int) < (s.frame_table.length : Int) := by omega
  have h1 : 0 ≤ Int.tmod x s.frame_table.length := Int.tmod_nonneg _ hx0
  have h2 : Int.tmod x s.frame_table.length < s.frame_table.length :=
    Int.tmod_lt_of_pos _ hNpos
  have hb : ¬ ((s.frame_table.length : Int) = 0) := by omega
  have hm : myrandom s s.frame_table.length = some (1 + Int.tmod x s.frame_table.length,
      { s with ofs := (s.ofs + 1) % s.randvals.length }) := by
    simp only [myrandom, hx, Option.bind_eq_bind, Option.some_bind, if_neg hb, Option.pure_def]
  have hlt : (1 + Int.tmod x s.frame_table.length - 1).toNat < s.frame_table.length := by
    omega
  have hidx : idx? (1 + Int.tmod x s.frame_table.length - 1)
      = some (1 + Int.tmod x s.frame_table.length - 1).toNat := by
    have : ¬ (1 + Int.tmod x s.frame_table.length - 1 < 0) := by omega
    simp only [idx?, if_neg this]
  refine ⟨_, _, hm, rfl, by omega, by omega, rfl, ?_, by omega, hlt⟩
  simp only [RandomPager.select_victim_frame, hne, hm, hidx, Option.bind_eq_bind,
    Option.some_bind, if_pos hlt, Option.pure_def]
  rfl

/-- C20, witness: the table `7, 4` with the cursor on 4 and two frames gives
`myrandom(2) = 1` and the frame index 0. -/
theorem C20_random_victim_witness :
    ∃ (r : Int) (s' : State),
      myrandom stateC20w stateC20w.frame_table.length = some (r, s') ∧
      r = 1 + Int.tmod 4 stateC20w.frame_table.length ∧ 1 ≤ r ∧
      r ≤ stateC20w.frame_table.length ∧
      s' = { stateC20w with ofs := (stateC20w.ofs + 1) % stateC20w.randvals.length } ∧
      RandomPager.select_victim_frame stateC20w = some ((r - 1).toNat, s') ∧
      ((r - 1).toNat : Int) = r - 1 ∧ (r - 1).toNat < stateC20w.frame_table.length :=
  C20_random_victim stateC20w 4 rfl (by decide) (by decide)

/-- C20 as stated fails for a table of signed integers: with the table `-1` and
two frames `myrandom(2)` is `1 + (-1 % 2) = 0`, outside `1..2`, and the policy
indexes the frame table at `-1`. -/
theorem C20_counterexample :
    stateC20.randvals ≠ [] ∧ stateC20.frame_table.length = 2 ∧
    (myrandom stateC20 2).map (fun r => r.1) = some 0 ∧
    RandomPager.select_victim_frame stateC20 = none := by
  refine ⟨by decide, by decide, by decide, rfl⟩

/-- One call of the FIFO policy: the frame under the hand, the hand moved on by
one modulo the frame count, and nothing else changed. -/
theorem FIFO_call (s : State) (hh : s.hand < s.frame_table.length) :
    FIFOPager.select_victim_frame s =
      some (s.hand, { s with hand := (s.hand + 1) % s.frame_table.length }) := by
  simp only [FIFOPager.select_victim_frame, if_pos hh]

/-- C15: take any sequence of states `st 0, st 1, ...` in which the FIFO policy is
called, over `N ≥ 1` frames, with the hand at 0 before the first call and, before
every later call, where the previous call left it; the page tables, the frames
and everything else may differ arbitrarily from call to call.  Then the `k`-th
call returns frame `k mod N` and changes nothing but the hand, which it sets to
`(k + 1) mod N`. -/
theorem C15_fifo (N : Nat) (hN : 1 ≤ N) (st : Nat → State)
    (hlen : ∀ k, (st k).frame_table.length = N) (h0 : (st 0).hand = 0)
    (hnext : ∀ k r, FIFOPager.select_victim_frame (st k) = some r →
      (st (k + 1)).hand = r.2.hand) (k : Nat) :
    ∃ s', FIFOPager.select_victim_frame (st k) = some (k % N, s') ∧
      s' = { st k with hand := (k + 1) % N } ∧
      s'.frame_table = (st k).frame_table ∧ s'.processes = (st k).processes := by
  have hhand : ∀ j, (st j).hand = j % N := by
    intro j
    induction j with
    | zero => simpa using h0
    | succ j ih =>
      have hh : (st j).hand < (st j).frame_table.length := by
        rw [ih, hlen]
        exact Nat.mod_lt _ (by omega)
      rw [hnext j _ (FIFO_call (st j) hh)]
      show ((st j).hand + 1) % (st j).frame_table.length = (j + 1) % N
      rw [ih, hlen, Nat.mod_add_mod]
  have hh : (st k).hand < (st k).frame_table.length := by
    rw [hhand, hlen]
    exact Nat.mod_lt _ (by omega)
  refine ⟨_, ?_, rfl, rfl, rfl⟩
  rw [FIFO_call (st k) hh, hhand k, hlen, Nat.mod_add_mod]

/-- C15, witness: on three frames call number 4 returns frame 1 and sets the hand
to 2. -/
theorem C15_fifo_witness :
    ∃ s', FIFOPager.select_victim_frame (statesC15 4) = some (4 % 3, s') ∧
      s' = { statesC15 4 with hand := (4 + 1) % 3 } ∧
      s'.frame_table = (statesC15 4).frame_table ∧ s'.processes = (statesC15 4).processes :=
  C15_fifo 3 (by decide) statesC15 (fun _ => rfl) rfl
    (fun k r h => by
      have hh : (statesC15 k).hand < (statesC15 k).frame_table.length :=
        Nat.mod_lt _ (by decide)
      rw [FIFO_call _ hh] at h
      cases h
      show (k + 1) % 3 = (k % 3 + 1) % 3
      omega) 4

/-! ## The instruction counters -/

theorem countCmd_cons (c : Char) (i : Instr) (t : List Instr) :
    countCmd c (i :: t) = countCmd c t + if i.command = c then 1 else 0 := by
  simp [countCmd, List.countP_cons]

/-- The counters over a well-formed piece of trace: every instruction adds one to
`inst_count`, every `r` and `w` one to `rwcount`, every `c` one to
`ctx_switches`, every `e` one to `process_exits`. -/
theorem simulate_counts : ∀ (trace : List Instr) (s : State), InvH none s →
    (∀ i ∈ trace, WFInstr s.processes.length i) →
    (s.currentProcess.isSome = true ∨ ∀ i, trace.head? = some i → i.command = 'c') →
    (RandFile s ∨ ∃ r, simulate s trace = some r) →
    ∃ s', simulate s trace = some s' ∧
      s'.inst_count = s.inst_count + trace.length ∧
      s'.rwcount = s.rwcount + (countCmd 'r' trace + countCmd 'w' trace) ∧
      s'.ctx_switches = s.ctx_switches + countCmd 'c' trace ∧
      s'.process_exits = s.process_exits + countCmd 'e' trace := by
  intro trace
  induction trace with
  | nil => intro s _ _ _ _; exact ⟨s, rfl, rfl, rfl, rfl, rfl⟩
  | cons i rest ih =>
    intro s hI hwf hcur hdef
    have hwi : WFInstr s.processes.length i := hwf i (by simp)
    have hc : s.currentProcess.isSome = true ∨ (i.command ≠ 'r' ∧ i.command ≠ 'w') := by
      rcases hcur with h | h
      · exact Or.inl h
      · right
        rw [h i rfl]
        exact ⟨by decide, by decide⟩
    have hdef1 : RandFile s ∨ ∃ r, step s i.command i.operand = some r := by
      rcases hdef with h | ⟨r, h⟩
      · exact Or.inl h
      · right
        simp only [simulate, Option.bind_eq_bind] at h
        obtain ⟨a, ha, _⟩ := Option.bind_eq_some.mp h
        exact ⟨a, ha⟩
    obtain ⟨s1, h1, h2, h3, h4, h5, h6, ⟨hlen, hcc, hce, hcrw⟩, _⟩ :=
      step_spec i.command i.operand hI hc hdef1
    have hcur1 : s1.currentProcess.isSome = true := by
      rcases hcur with h | h
      · exact h3 h
      · rcases hwi with ⟨_, a, b⟩ | ⟨hrw, _⟩
        · exact h4 (h i rfl) a b
        · rw [h i rfl] at hrw
          rcases hrw with h | h <;> exact absurd h (by decide)
    have hsim : simulate s (i :: rest) = simulate s1 rest := by
      simp only [simulate, h1, Option.bind_eq_bind, Option.some_bind]
    have hdef2 : RandFile s1 ∨ ∃ r, simulate s1 rest = some r := by
      rcases hdef with h | ⟨r, h⟩
      · exact Or.inl (RandFile_of_eq h5 h6 h)
      · exact Or.inr ⟨r, hsim ▸ h⟩
    obtain ⟨s', h7, a1, a2, a3, a4⟩ := ih s1 h2
      (fun j hj => by rw [hlen]; exact hwf j (List.mem_cons_of_mem _ hj)) (Or.inl hcur1) hdef2
    have hsome : i.command ≠ 'c' → s.currentProcess.isSome = true := by
      intro hne
      rcases hcur with h | h
      · exact h
      · exact absurd (h i rfl) hne
    refine ⟨s', hsim.trans h7, ?_⟩
    rw [a1, a2, a3, a4]
    simp only [countCmd_cons, List.length_cons]
    rcases hwi with ⟨hce' | hce', hv0, hv1⟩ | ⟨hr | hr, _⟩
    · obtain ⟨b1, b2, b3, b4⟩ := hcc hce' hv0 hv1
      rw [b1, b2, b3, b4, hce']
      simp
      omega
    · obtain ⟨b1, b2, b3, b4⟩ := hce hce' (hsome (by rw [hce']; decide)) hv0 hv1
      rw [b1, b2, b3, b4, hce']
      simp
      omega
    · obtain ⟨b1, b2, b3, b4⟩ := hcrw (Or.inl hr) (hsome (by rw [hr]; decide))
      rw [b1, b2, b3, b4, hr]
      simp
      omega
    · obtain ⟨b1, b2, b3, b4⟩ := hcrw (Or.inr hr) (hsome (by rw [hr]; decide))
      rw [b1, b2, b3, b4, hr]
      simp
      omega

/-- The counters are zero when `main` calls `simulate`. -/
theorem init_counts {cfg : Config} {s : State} (h : init cfg = some s) :
    s.inst_count = 0 ∧ s.rwcount = 0 ∧ s.ctx_switches = 0 ∧ s.process_exits = 0 := by
  unfold init at h
  split at h
  · cases h
  · obtain ⟨procs, _, h⟩ := Option.bind_eq_some.mp h
    cases h
    exact ⟨rfl, rfl, rfl, rfl⟩

/-- C12: for every well-formed configuration and trace and every `k` up to the
length of the trace, in the state after `simulate` has consumed `k` instructions
`inst_count = k`, `rwcount` is the number of `r` and `w` among them (those that
raised SEGV included), `ctx_switches` the number of `c` and `process_exits` the
number of `e`.  That state exists whenever the random file suits the Random
policy (no condition under the other five policies). -/
theorem C12_instruction_counters (cfg : Config) (trace : List Instr) (k : Nat)
    (hcfg : WFConfig cfg) (htr : WFTrace cfg.procs.length trace) (hk : k ≤ trace.length) :
    (WFRandom cfg → ∃ s, run cfg (trace.take k) = some s) ∧
    ∀ s, run cfg (trace.take k) = some s →
      s.inst_count = k ∧
      s.rwcount = countCmd 'r' (trace.take k) + countCmd 'w' (trace.take k) ∧
      s.ctx_switches = countCmd 'c' (trace.take k) ∧
      s.process_exits = countCmd 'e' (trace.take k) := by
  have htk := WFTrace_take k htr
  obtain ⟨s0, h1, h2, _, h4, ha, _, hrv, _⟩ := init_spec hcfg
  obtain ⟨c1, c2, c3, c4⟩ := init_counts h1
  have hrun : run cfg (trace.take k) = simulate s0 (trace.take k) := by
    simp only [run, h1, Option.bind_eq_bind, Option.some_bind]
  have hlen : (trace.take k).length = k := by
    rw [List.length_take]
    omega
  refine ⟨?_, ?_⟩
  · intro hrand
    have hrf : RandFile s0 := by
      unfold RandFile
      rw [ha, hrv]
      exact hrand
    obtain ⟨s, h5, _⟩ := simulate_counts (trace.take k) s0 h2
      (by rw [h4]; exact htk.1) (Or.inr htk.2) (Or.inl hrf)
    exact ⟨s, hrun.trans h5⟩
  · intro s hs
    obtain ⟨s', h5, a1, a2, a3, a4⟩ := simulate_counts (trace.take k) s0 h2
      (by rw [h4]; exact htk.1) (Or.inr htk.2) (Or.inr ⟨s, hrun ▸ hs⟩)
    have hss : s' = s := by
      rw [hrun, h5] at hs
      exact Option.some.inj hs
    subst hss
    exact ⟨by omega, by omega, by omega, by omega⟩

/-- C12, witness: two frames, Random with the random file `5 2`, and the trace
`c 0 / r 0 / w 1 / r 2 / e 0`, after all five instructions: `inst_count = 5`,
`rwcount = 3`, one context switch, one exit. -/
theorem C12_instruction_counters_witness :
    WFConfig cfgC12 ∧ WFTrace cfgC12.procs.length traceC12 ∧ 5 ≤ traceC12.length ∧
      (WFRandom cfgC12 → ∃ s, run cfgC12 (traceC12.take 5) = some s) ∧
      ∀ s, run cfgC12 (traceC12.take 5) = some s →
        s.inst_count = 5 ∧
        s.rwcount = countCmd 'r' (traceC12.take 5) + countCmd 'w' (traceC12.take 5) ∧
        s.ctx_switches = countCmd 'c' (traceC12.take 5) ∧
        s.process_exits = countCmd 'e' (traceC12.take 5) :=
  ⟨by simp [WFConfig, WFVMAs, cfgC12], by simp [WFTrace, WFInstr, traceC12, cfgC12],
    by decide,
    C12_instruction_counters cfgC12 traceC12 5 (by simp [WFConfig, WFVMAs, cfgC12])
      (by simp [WFTrace, WFInstr, traceC12, cfgC12]) (by decide)⟩

/-! ## Tenant entries -/

theorem tenantOf_eq {s : State} {i p v : Nat} {f : frame_t} (hf : s.frame_table[i]? = some f)
    (hp : f.process_id = (p : Int)) (hv : f.virtual_page = (v : Int)) :
    tenantOf s i = s.pte? p v := by
  simp only [tenantOf, hf, hp, hv, idx?_natCast]

theorem tenantOf_none {s : State} {i : Nat} (h : s.frame_table[i]? = none) :
    tenantOf s i = none := by
  simp only [tenantOf, h]

theorem modTenant_eq {s : State} {i p v : Nat} {f : frame_t} (hf : s.frame_table[i]? = some f)
    (hp : f.process_id = (p : Int)) (hv : f.virtual_page = (v : Int)) (g : pte_t → pte_t) :
    modTenant s i g = s.modPte p v g := by
  simp only [modTenant, hf, hp, hv, idx?_natCast]

theorem refAt_eq_tenant (s : State) (i : Nat) :
    refAt s i = match tenantOf s i with
      | some e => e.referenced
      | none => false := by
  unfold refAt tenantOf
  cases s.frame_table[i]? with
  | none => rfl
  | some f =>
    simp only
    cases idx? f.process_id with
    | none => rfl
    | some p =>
      cases idx? f.virtual_page with
      | none => rfl
      | some v => rfl

/-- Writing through the tenant entry of frame `h` changes the tenant entry of
frame `h` and of no other frame, when tenants are distinct. -/
theorem tenantOf_modPte {s : State} {h p v : Nat} {f : frame_t} (hT : Tenants s)
    (hD : DistinctTenants s) (hf : s.frame_table[h]? = some f) (hp : f.process_id = (p : Int))
    (hv : f.virtual_page = (v : Int)) (g : pte_t → pte_t) (i : Nat) :
    tenantOf (s.modPte p v g) i = if i = h then (tenantOf s i).map g else tenantOf s i := by
  cases hfi : s.frame_table[i]? with
  | none =>
    have hne : i ≠ h := by
      rintro rfl
      rw [hf] at hfi
      cases hfi
    have hfi' : (s.modPte p v g).frame_table[i]? = none := hfi
    rw [if_neg hne, tenantOf_none hfi, tenantOf_none hfi']
  | some fi =>
    obtain ⟨p', v', e', hp', hv', he'⟩ := hT i fi hfi
    have hfi' : (s.modPte p v g).frame_table[i]? = some fi := hfi
    rw [tenantOf_eq hfi' hp' hv', tenantOf_eq hfi hp' hv',
      pte?_of_processes (modPte_processes s p v g)]
    by_cases hih : i = h
    · subst hih
      rw [hf] at hfi
      cases hfi
      have h1 : p = p' := by omega
      have h2 : v = v' := by omega
      rw [if_pos ⟨h1, h2⟩, if_pos rfl]
    · rw [if_neg hih, if_neg]
      rintro ⟨rfl, rfl⟩
      exact hih (hD i h fi f hfi hf (hp'.trans hp.symm) (hv'.trans hv.symm))

theorem Tenants_modPte {s : State} (p v : Nat) (g : pte_t → pte_t) (hT : Tenants s) :
    Tenants (s.modPte p v g) := by
  intro i f hf
  obtain ⟨p', v', e', hp', hv', he'⟩ := hT i f hf
  have hpte := pte?_of_processes (modPte_processes s p v g) p' v'
  rw [he'] at hpte
  by_cases hc : p = p' ∧ v = v'
  · rw [if_pos hc] at hpte
    exact ⟨p', v', g e', hp', hv', hpte⟩
  · rw [if_neg hc] at hpte
    exact ⟨p', v', e', hp', hv', hpte⟩

theorem modTenant_cases (s : State) (i : Nat) (g : pte_t → pte_t) :
    modTenant s i g = s ∨ ∃ p v, modTenant s i g = s.modPte p v g := by
  unfold modTenant
  cases s.frame_table[i]? with
  | none => exact Or.inl rfl
  | some f =>
    simp only
    cases idx? f.process_id with
    | none => exact Or.inl rfl
    | some p =>
      cases idx? f.virtual_page with
      | none => exact Or.inl rfl
      | some v => exact Or.inr ⟨p, v, rfl⟩

theorem modTenant_frame_table (s : State) (i : Nat) (g : pte_t → pte_t) :
    (modTenant s i g).frame_table = s.frame_table := by
  rcases modTenant_cases s i g with h | ⟨p, v, h⟩ <;> rw [h]
  rfl

theorem Tenants_modTenant {s : State} (i : Nat) (g : pte_t → pte_t) (hT : Tenants s) :
    Tenants (modTenant s i g) := by
  rcases modTenant_cases s i g with h | ⟨p, v, h⟩ <;> rw [h]
  · exact hT
  · exact Tenants_modPte p v g hT

theorem DistinctTenants_of_frames {s s' : State} (h : s'.frame_table = s.frame_table)
    (hD : DistinctTenants s) : DistinctTenants s' := by
  intro i j f g hi hj
  rw [h] at hi hj
  exact hD i j f g hi hj

theorem tenantOf_modTenant {s : State} {h : Nat} (hT : Tenants s) (hD : DistinctTenants s)
    (hh : h < s.frame_table.length) (g : pte_t → pte_t) (i : Nat) :
    tenantOf (modTenant s h g) i = if i = h then (tenantOf s i).map g else tenantOf s i := by
  obtain ⟨f, hf⟩ := exists_getElem?_of_lt hh
  obtain ⟨p, v, e, hp, hv, _⟩ := hT h f hf
  rw [modTenant_eq hf hp hv]
  exact tenantOf_modPte hT hD hf hp hv g i

theorem modTenant_hand (s : State) (i x : Nat) (g : pte_t → pte_t) :
    modTenant { s with hand := x } i g = { modTenant s i g with hand := x } := by
  unfold modTenant
  show (match s.frame_table[i]? with
    | none => ({ s with hand := x } : State)
    | some f =>
      match idx? f.process_id, idx? f.virtual_page with
      | some p, some v => ({ s with hand := x } : State).modPte p v g
      | _, _ => { s with hand := x }) = _
  cases s.frame_table[i]? with
  | none => rfl
  | some f =>
    simp only
    cases idx? f.process_id with
    | none => rfl
    | some p =>
      cases idx? f.virtual_page with
      | none => rfl
      | some v => rfl

theorem clearList_hand : ∀ (l : List Nat) (s : State) (x : Nat),
    clearList { s with hand := x } l = { clearList s l with hand := x } := by
  intro l
  induction l with
  | nil => intro s x; rfl
  | cons a l ih =>
    intro s x
    show clearList (modTenant { s with hand := x } a clearRef) l = _
    rw [modTenant_hand, ih]
    rfl

theorem clearList_frame_table : ∀ (l : List Nat) (s : State),
    (clearList s l).frame_table = s.frame_table := by
  intro l
  induction l with
  | nil => intro s; rfl
  | cons a l ih =>
    intro s
    show (clearList (modTenant s a clearRef) l).frame_table = _
    rw [ih, modTenant_frame_table]

theorem Tenants_clearList : ∀ (l : List Nat) (s : State), Tenants s → Tenants (clearList s l) := by
  intro l
  induction l with
  | nil => intro s h; exact h
  | cons a l ih =>
    intro s h
    exact ih _ (Tenants_modTenant a clearRef h)

/-- The tenant entries after `clearList`: cleared for the frames in the list,
untouched for the others. -/
theorem tenantOf_clearList : ∀ (l : List Nat) (s : State), Tenants s → DistinctTenants s →
    (∀ x ∈ l, x < s.frame_table.length) → ∀ i : Nat,
    tenantOf (clearList s l) i = if i ∈ l then (tenantOf s i).map clearRef else tenantOf s i := by
  intro l
  induction l with
  | nil => intro s _ _ _ i; simp [clearList]
  | cons a l ih =>
    intro s hT hD hl i
    have ha : a < s.frame_table.length := hl a (by simp)
    have hft := modTenant_frame_table s a clearRef
    have h1 := ih (modTenant s a clearRef) (Tenants_modTenant a clearRef hT)
      (DistinctTenants_of_frames hft hD)
      (fun x hx => by rw [hft]; exact hl x (List.mem_cons_of_mem _ hx)) i
    show tenantOf (clearList (modTenant s a clearRef) l) i = _
    rw [h1, tenantOf_modTenant hT hD ha]
    by_cases hia : i = a
    · subst hia
      simp only [if_true, List.mem_cons, true_or]
      split
      · cases tenantOf s i <;> rfl
      · rfl
    · simp only [if_neg hia, List.mem_cons, hia, false_or, if_false]

/-! ## Ring order -/

theorem ring_inj {h N j k : Nat} (hj : j < N) (hk : k < N)
    (e : (h + j) % N = (h + k) % N) : j = k := by
  have h1 : j ≡ k [MOD N] := Nat.ModEq.add_left_cancel' h e
  have h2 : j % N = k % N := h1
  rwa [Nat.mod_eq_of_lt hj, Nat.mod_eq_of_lt hk] at h2

theorem ringList_succ {h N : Nat} (hh : h < N) (d : Nat) :
    ringList h N (d + 1) = h :: ringList ((h + 1) % N) N d := by
  simp only [ringList, List.range_succ_eq_map, List.map_cons, List.map_map, Nat.add_zero,
    Nat.mod_eq_of_lt hh]
  congr 1
  apply List.map_congr_left
  intro j _
  simp only [Function.comp, Nat.mod_add_mod]
  congr 1
  omega

theorem mem_ringList {h N d i : Nat} : i ∈ ringList h N d ↔ ∃ j, j < d ∧ (h + j) % N = i := by
  simp [ringList]

/-! ## The Clock policy -/

/-- One inspection of a frame whose tenant is not referenced ends the scan. -/
theorem Clock_scan_hit {s : State} (fuel : Nat) (hT : Tenants s)
    (hh : s.hand < s.frame_table.length) (hr : refAt s s.hand = false) :
    ClockPager.scan (fuel + 1) s =
      some (s.hand, { s with hand := (s.hand + 1) % s.frame_table.length }) := by
  obtain ⟨f, hf⟩ := exists_getElem?_of_lt hh
  obtain ⟨p, v, e, hp, hv, he⟩ := hT s.hand f hf
  have hr' : e.referenced = false := by
    rw [refAt_eq_tenant, tenantOf_eq hf hp hv, he] at hr
    exact hr
  simp only [ClockPager.scan, hf, hp, hv, idx?_natCast, he, hr', Option.bind_eq_bind,
    Option.some_bind]
  simp

/-- The scan passes `d` referenced frames: `d` inspections clear their referenced
bits and move the hand on by `d`. -/
theorem Clock_scan_pass : ∀ (d : Nat) (s : State) (fuel : Nat), Tenants s → DistinctTenants s →
    s.hand < s.frame_table.length → d ≤ s.frame_table.length →
    (∀ j, j < d → refAt s ((s.hand + j) % s.frame_table.length) = true) →
    ClockPager.scan (fuel + d) s = ClockPager.scan fuel
      { clearList s (ringList s.hand s.frame_table.length d) with
        hand := (s.hand + d) % s.frame_table.length } := by
  intro d
  induction d with
  | zero =>
    intro s fuel _ _ hh _ _
    have : ({ clearList s (ringList s.hand s.frame_table.length 0) with
        hand := (s.hand + 0) % s.frame_table.length } : State) = s := by
      show ({ s with hand := (s.hand + 0) % s.frame_table.length } : State) = s
      rw [Nat.add_zero, Nat.mod_eq_of_lt hh]
    rw [this]
    rfl
  | succ d ih =>
    intro s fuel hT hD hh hd hall
    obtain ⟨f, hf⟩ := exists_getElem?_of_lt hh
    obtain ⟨p, v, e, hp, hv, he⟩ := hT s.hand f hf
    have hr : e.referenced = true := by
      have := hall 0 (by omega)
      rw [Nat.add_zero, Nat.mod_eq_of_lt hh, refAt_eq_tenant, tenantOf_eq hf hp hv, he] at this
      exact this
    have hstep : ClockPager.scan (fuel + (d + 1)) s = ClockPager.scan (fuel + d)
        { s.modPte p v clearRef with hand := (s.hand + 1) % s.frame_table.length } := by
      show ClockPager.scan ((fuel + d) + 1) s = _
      simp only [ClockPager.scan, hf, hp, hv, idx?_natCast, he, hr, Option.bind_eq_bind,
        Option.some_bind]
      simp
      rfl
    have hnext : (s.hand + 1) % s.frame_table.length < s.frame_table.length :=
      Nat.mod_lt _ (by omega)
    have hall1 : ∀ j, j < d →
        refAt ({ s.modPte p v clearRef with hand := (s.hand + 1) % s.frame_table.length } : State)
          (((s.hand + 1) % s.frame_table.length + j) % s.frame_table.length) = true := by
      intro j hj
      have hne : ((s.hand + 1) % s.frame_table.length + j) % s.frame_table.length ≠ s.hand := by
        rw [Nat.mod_add_mod]
        intro hc
        have h0 : (s.hand + (1 + j)) % s.frame_table.length
            = (s.hand + 0) % s.frame_table.length := by
          rw [Nat.add_zero, Nat.mod_eq_of_lt hh, ← Nat.add_assoc]
          exact hc
        have := ring_inj (by omega) (by omega) h0
        omega
      have h1 := hall (j + 1) (by omega)
      rw [refAt_eq_tenant] at h1 ⊢
      have h2 : tenantOf ({ s.modPte p v clearRef with
          hand := (s.hand + 1) % s.frame_table.length } : State)
          (((s.hand + 1) % s.frame_table.length + j) % s.frame_table.length)
          = tenantOf (s.modPte p v clearRef)
            (((s.hand + 1) % s.frame_table.length + j) % s.frame_table.length) := rfl
      rw [h2, tenantOf_modPte hT hD hf hp hv, if_neg hne, Nat.mod_add_mod]
      rw [show s.hand + 1 + j = s.hand + (j + 1) by omega]
      exact h1
    have hI := ih { s.modPte p v clearRef with hand := (s.hand + 1) % s.frame_table.length } fuel
      (Tenants_modPte (s := s) p v clearRef hT) (DistinctTenants_of_frames (s := s) rfl hD)
      hnext (by show d ≤ s.frame_table.length; omega) hall1
    rw [hstep, hI]
    congr 1
    show ({ clearList { s.modPte p v clearRef with hand := (s.hand + 1) % s.frame_table.length }
        (ringList ((s.hand + 1) % s.frame_table.length) s.frame_table.length d) with
        hand := ((s.hand + 1) % s.frame_table.length + d) % s.frame_table.length } : State) = _
    rw [ringList_succ hh, clearList_hand, Nat.mod_add_mod]
    show _ = ({ clearList (modTenant s s.hand clearRef)
        (ringList ((s.hand + 1) % s.frame_table.length) s.frame_table.length d) with
        hand := (s.hand + (d + 1)) % s.frame_table.length } : State)
    rw [modTenant_eq hf hp hv, show s.hand + 1 + d = s.hand + (d + 1) by omega]

theorem Tenants_of_check {s : State} (h : tenantsCheck s = true) : Tenants s := by
  intro i f hf
  have hm : f ∈ s.frame_table := List.getElem?_mem hf
  have := List.all_eq_true.mp h f hm
  cases hp : idx? f.process_id with
  | none => rw [hp] at this; cases this
  | some p =>
    cases hv : idx? f.virtual_page with
    | none => rw [hp, hv] at this; cases this
    | some v =>
      rw [hp, hv] at this
      simp only at this
      obtain ⟨e, he⟩ := Option.isSome_iff_exists.mp this
      have hp1 : f.process_id = (p : Int) := by
        unfold idx? at hp
        split at hp
        · cases hp
        · cases hp; omega
      have hv1 : f.virtual_page = (v : Int) := by
        unfold idx? at hv
        split at hv
        · cases hv
        · cases hv; omega
      exact ⟨p, v, e, hp1, hv1, he⟩

theorem DistinctTenants_of_nodup {s : State}
    (h : (s.frame_table.map (fun f => (f.process_id, f.virtual_page))).Nodup) :
    DistinctTenants s := by
  intro i j f g hi hj hp hv
  have hi' : (s.frame_table.map (fun f => (f.process_id, f.virtual_page)))[i]?
      = some (f.process_id, f.virtual_page) := by
    rw [List.getElem?_map, hi]; rfl
  have hj' : (s.frame_table.map (fun f => (f.process_id, f.virtual_page)))[j]?
      = some (f.process_id, f.virtual_page) := by
    rw [List.getElem?_map, hj, hp, hv]; rfl
  have hil := getElem?_lt_length hi'
  have hjl := getElem?_lt_length hj'
  rw [List.getElem?_eq_getElem hil] at hi'
  rw [List.getElem?_eq_getElem hjl] at hj'
  exact (List.Nodup.getElem_inj_iff h).mp ((Option.some.inj hi').trans (Option.some.inj hj').symm)

/-- C16: on a frame table of `N ≥ 1` occupied frames with pairwise distinct tenant
entries and a hand `h < N`, `ClockPager::select_victim_frame` returns.  With `d`
the number of frames passed, `d ≤ N`: the frames at the ring positions
`h, ..., h+d-1` have referenced tenants, the victim `(h + d) mod N` is the first
frame in ring order whose tenant is not referenced when there is one (`d < N`),
and the frame at the original hand when all tenants are referenced (`d = N`).
The referenced bits of exactly the `d` frames passed are cleared, nothing else
changes but the hand, which ends at `(victim + 1) mod N`, and the loop makes
exactly `d + 1 ≤ N + 1` inspections. -/
theorem C16_clock (s : State) (hN : 1 ≤ s.frame_table.length) (hT : Tenants s)
    (hD : DistinctTenants s) (hh : s.hand < s.frame_table.length) :
    ∃ (d : Nat) (s' : State), d ≤ s.frame_table.length ∧
      (∀ j, j < d → refAt s ((s.hand + j) % s.frame_table.length) = true) ∧
      (d < s.frame_table.length → refAt s ((s.hand + d) % s.frame_table.length) = false) ∧
      (d = s.frame_table.length → (s.hand + d) % s.frame_table.length = s.hand) ∧
      ClockPager.select_victim_frame s = some ((s.hand + d) % s.frame_table.length, s') ∧
      s' = { clearList s (ringList s.hand s.frame_table.length d) with
             hand := ((s.hand + d) % s.frame_table.length + 1) % s.frame_table.length } ∧
      s'.frame_table = s.frame_table ∧
      (∀ i, tenantOf s' i = if i ∈ ringList s.hand s.frame_table.length d
        then (tenantOf s i).map clearRef else tenantOf s i) ∧
      s'.hand = ((s.hand + d) % s.frame_table.length + 1) % s.frame_table.length ∧
      ClockPager.scan (d + 1) s = some ((s.hand + d) % s.frame_table.length, s') ∧
      ClockPager.scan d s = none ∧ d + 1 ≤ s.frame_table.length + 1 := by
  -- the number of frames passed
  obtain ⟨d, hd, hall, hstop⟩ : ∃ d, d ≤ s.frame_table.length ∧
      (∀ j, j < d → refAt s ((s.hand + j) % s.frame_table.length) = true) ∧
      (d < s.frame_table.length → refAt s ((s.hand + d) % s.frame_table.length) = false) := by
    by_cases hex : ∃ d, d < s.frame_table.length ∧
        refAt s ((s.hand + d) % s.frame_table.length) = false
    · refine ⟨Nat.find hex, (Nat.find_spec hex).1.le, ?_, fun _ => (Nat.find_spec hex).2⟩
      intro j hj
      have hmin := Nat.find_min hex hj
      have hjl : j < s.frame_table.length := lt_trans hj (Nat.find_spec hex).1
      cases hr : refAt s ((s.hand + j) % s.frame_table.length) with
      | true => rfl
      | false => exact absurd ⟨hjl, hr⟩ hmin
    · refine ⟨s.frame_table.length, le_refl _, ?_, fun h => absurd h (Nat.lt_irrefl _)⟩
      intro j hj
      cases hr : refAt s ((s.hand + j) % s.frame_table.length) with
      | true => rfl
      | false => exact absurd ⟨j, hj, hr⟩ hex
  have hmem : ∀ x ∈ ringList s.hand s.frame_table.length d, x < s.frame_table.length := by
    intro x hx
    obtain ⟨j, _, rfl⟩ := mem_ringList.mp hx
    exact Nat.mod_lt _ (by omega)
  have hten := tenantOf_clearList (ringList s.hand s.frame_table.length d) s hT hD hmem
  have hvl : (s.hand + d) % s.frame_table.length < s.frame_table.length :=
    Nat.mod_lt _ (by omega)
  -- the state when the scan reaches the victim
  have hTd : Tenants ({ clearList s (ringList s.hand s.frame_table.length d) with
      hand := (s.hand + d) % s.frame_table.length } : State) := by
    intro i f hf
    exact Tenants_clearList _ s hT i f hf
  have hftd : ({ clearList s (ringList s.hand s.frame_table.length d) with
      hand := (s.hand + d) % s.frame_table.length } : State).frame_table = s.frame_table :=
    clearList_frame_table _ s
  have hrd : refAt ({ clearList s (ringList s.hand s.frame_table.length d) with
      hand := (s.hand + d) % s.frame_table.length } : State)
      ((s.hand + d) % s.frame_table.length) = false := by
    rw [refAt_eq_tenant]
    show (match tenantOf (clearList s (ringList s.hand s.frame_table.length d))
        ((s.hand + d) % s.frame_table.length) with
      | some e => e.referenced
      | none => false) = false
    rw [hten]
    by_cases hin : (s.hand + d) % s.frame_table.length ∈ ringList s.hand s.frame_table.length d
    · rw [if_pos hin]
      cases tenantOf s ((s.hand + d) % s.frame_table.length) <;> rfl
    · rw [if_neg hin]
      have hdl : d < s.frame_table.length := by
        rcases Nat.lt_or_ge d s.frame_table.length with h | h
        · exact h
        · exfalso
          have hdN : d = s.frame_table.length := le_antisymm hd h
          apply hin
          refine mem_ringList.mpr ⟨0, by omega, ?_⟩
          rw [hdN, Nat.add_mod_right, Nat.add_zero]
      have := hstop hdl
      rw [refAt_eq_tenant] at this
      exact this
  have hhit : ∀ fuel, ClockPager.scan (fuel + 1)
      ({ clearList s (ringList s.hand s.frame_table.length d) with
        hand := (s.hand + d) % s.frame_table.length } : State) =
      some ((s.hand + d) % s.frame_table.length,
        { clearList s (ringList s.hand s.frame_table.length d) with
          hand := ((s.hand + d) % s.frame_table.length + 1) % s.frame_table.length }) := by
    intro fuel
    rw [Clock_scan_hit fuel hTd (by rw [hftd]; exact hvl) hrd]
    have hl : (clearList s (ringList s.hand s.frame_table.length d)).frame_table.length
        = s.frame_table.length := congrArg List.length hftd
    show some (_, ({ clearList s (ringList s.hand s.frame_table.length d) with
      hand := ((s.hand + d) % s.frame_table.length + 1) %
        (clearList s (ringList s.hand s.frame_table.length d)).frame_table.length } : State)) = _
    rw [hl]
  have hpass := fun fuel => Clock_scan_pass d s fuel hT hD hh hd hall
  have hsel : ¬ s.hand ≥ s.frame_table.length := by omega
  refine ⟨d, _, hd, hall, hstop, ?_, ?_, rfl, clearList_frame_table _ s, hten, rfl, ?_, ?_,
    by omega⟩
  · intro hdN
    rw [hdN, Nat.add_mod_right, Nat.mod_eq_of_lt hh]
  · simp only [ClockPager.select_victim_frame, if_neg hsel]
    rw [show s.frame_table.length + 1 = (s.frame_table.length - d + 1) + d by omega, hpass,
      hhit]
  · rw [show d + 1 = (0 + 1) + d by omega, hpass, hhit]
  · have := hpass 0
    rw [Nat.zero_add] at this
    rw [this]
    rfl

/-- C16, witness: three frames, hand at frame 1, tenants of frames 0 and 1
referenced, tenant of frame 2 not. -/
theorem C16_clock_witness :
    ∃ (d : Nat) (s' : State), d ≤ stateC16.frame_table.length ∧
      (∀ j, j < d → refAt stateC16 ((stateC16.hand + j) % stateC16.frame_table.length) = true) ∧
      (d < stateC16.frame_table.length →
        refAt stateC16 ((stateC16.hand + d) % stateC16.frame_table.length) = false) ∧
      (d = stateC16.frame_table.length →
        (stateC16.hand + d) % stateC16.frame_table.length = stateC16.hand) ∧
      ClockPager.select_victim_frame stateC16 =
        some ((stateC16.hand + d) % stateC16.frame_table.length, s') ∧
      s' = { clearList stateC16 (ringList stateC16.hand stateC16.frame_table.length d) with
             hand := ((stateC16.hand + d) % stateC16.frame_table.length + 1)
               % stateC16.frame_table.length } ∧
      s'.frame_table = stateC16.frame_table ∧
      (∀ i, tenantOf s' i = if i ∈ ringList stateC16.hand stateC16.frame_table.length d
        then (tenantOf stateC16 i).map clearRef else tenantOf stateC16 i) ∧
      s'.hand = ((stateC16.hand + d) % stateC16.frame_table.length + 1)
        % stateC16.frame_table.length ∧
      ClockPager.scan (d + 1) stateC16 =
        some ((stateC16.hand + d) % stateC16.frame_table.length, s') ∧
      ClockPager.scan d stateC16 = none ∧ d + 1 ≤ stateC16.frame_table.length + 1 :=
  C16_clock stateC16 (by decide) (Tenants_of_check (by decide))
    (DistinctTenants_of_nodup (by decide)) (by decide)

/-! ## The Aging policy -/

theorem ring_surj {h N x : Nat} (hh : h < N) (hx : x < N) : ∃ j, j < N ∧ (h + j) % N = x := by
  by_cases hc : h ≤ x
  · refine ⟨x - h, by omega, ?_⟩
    rw [show h + (x - h) = x by omega, Nat.mod_eq_of_lt hx]
  · refine ⟨x + N - h, by omega, ?_⟩
    rw [show h + (x + N - h) = x + N by omega, Nat.add_mod_right, Nat.mod_eq_of_lt hx]

theorem ageAt_eq {s : State} {i : Nat} {f : frame_t} (hf : s.frame_table[i]? = some f) :
    ageAt s i = f.age := by
  simp only [ageAt, hf]

/-- The second loop of the Aging policy keeps the first frame in ring order among
those of least age seen so far. -/
theorem findMin_exact : ∀ (k i victim : Nat) (s : State) (dv : Nat),
    s.hand < s.frame_table.length → i + k = s.frame_table.length →
    dv < s.frame_table.length → victim = (s.hand + dv) % s.frame_table.length →
    (∀ j, j < i → ageAt s victim ≤ ageAt s ((s.hand + j) % s.frame_table.length)) →
    (∀ j, j < dv → ageAt s victim < ageAt s ((s.hand + j) % s.frame_table.length)) →
    ∃ d, d < s.frame_table.length ∧
      AgingPager.findMin k i victim s = some ((s.hand + d) % s.frame_table.length) ∧
      (∀ j, j < s.frame_table.length → ageAt s ((s.hand + d) % s.frame_table.length)
        ≤ ageAt s ((s.hand + j) % s.frame_table.length)) ∧
      (∀ j, j < d → ageAt s ((s.hand + d) % s.frame_table.length)
        < ageAt s ((s.hand + j) % s.frame_table.length)) := by
  intro k
  induction k with
  | zero =>
    intro i victim s dv _ hik hdv hv h1 h2
    have hi : i = s.frame_table.length := by omega
    subst hv
    refine ⟨dv, hdv, rfl, ?_, h2⟩
    intro j hj
    exact h1 j (by omega)
  | succ k ih =>
    intro i victim s dv hh hik hdv hv h1 h2
    have hidx : (s.hand + i) % s.frame_table.length < s.frame_table.length :=
      Nat.mod_lt _ (by omega)
    have hvl : victim < s.frame_table.length := by
      rw [hv]
      exact Nat.mod_lt _ (by omega)
    obtain ⟨f, hf⟩ := exists_getElem?_of_lt hidx
    obtain ⟨fv, hfv⟩ := exists_getElem?_of_lt hvl
    have hstep : AgingPager.findMin (k + 1) i victim s = AgingPager.findMin k (i + 1)
        (if f.age < fv.age then (s.hand + i) % s.frame_table.length else victim) s := by
      simp only [AgingPager.findMin, hf, hfv, Option.bind_eq_bind, Option.some_bind]
    rw [hstep]
    have haf := ageAt_eq hf
    have hav := ageAt_eq hfv
    by_cases hlt : f.age < fv.age
    · rw [if_pos hlt]
      refine ih (i + 1) _ s i hh (by omega) (by omega) rfl ?_ ?_
      · intro j hj
        rcases Nat.lt_succ_iff_lt_or_eq.mp hj with h | h
        · have := h1 j h
          omega
        · subst h
          exact le_refl _
      · intro j hj
        have := h1 j hj
        omega
    · rw [if_neg hlt]
      refine ih (i + 1) _ s dv hh (by omega) hdv hv ?_ h2
      intro j hj
      rcases Nat.lt_succ_iff_lt_or_eq.mp hj with h | h
      · exact h1 j h
      · subst h
        omega

/-- C18: on a frame table of `N ≥ 1` occupied frames with the hand `h < N`,
`AgingPager::select_victim_frame` first runs its aging step (`s1` is the state
after it) and then returns a frame whose age in `s1` is minimal over all `N`
frames and, among the frames of that age, the first in ring order from `h` (it
sits at ring offset `d`, and every frame at a smaller offset is strictly older);
it sets that frame's age to 0 and the hand to `(victim + 1) mod N` and changes
nothing else. -/
theorem C18_aging (s : State) (hN : 1 ≤ s.frame_table.length) (hT : Tenants s)
    (hh : s.hand < s.frame_table.length) :
    ∃ (s1 s' : State) (d : Nat),
      AgingPager.ageFrom s.frame_table.length 0 s = some s1 ∧
      s1.frame_table.length = s.frame_table.length ∧ d < s.frame_table.length ∧
      (∀ i, i < s.frame_table.length →
        ageAt s1 ((s.hand + d) % s.frame_table.length) ≤ ageAt s1 i) ∧
      (∀ j, j < d → ageAt s1 ((s.hand + d) % s.frame_table.length)
        < ageAt s1 ((s.hand + j) % s.frame_table.length)) ∧
      AgingPager.select_victim_frame s = some ((s.hand + d) % s.frame_table.length, s') ∧
      s' = { s1.modFrame ((s.hand + d) % s.frame_table.length) (fun f => { f with age := 0 }) with
             hand := ((s.hand + d) % s.frame_table.length + 1) % s.frame_table.length } ∧
      ageAt s' ((s.hand + d) % s.frame_table.length) = 0 ∧
      s'.hand = ((s.hand + d) % s.frame_table.length + 1) % s.frame_table.length ∧
      (∀ i, i ≠ (s.hand + d) % s.frame_table.length → s'.frame_table[i]? = s1.frame_table[i]?) ∧
      s'.processes = s1.processes := by
  obtain ⟨s1, h1, hc, hhand, _⟩ := ageFrom_result s.frame_table.length 0 s hT (by omega)
  have hlen : s1.frame_table.length = s.frame_table.length := length_of_core hc.symm
  obtain ⟨d, hd, hfm, hmin, hfirst⟩ := findMin_exact s1.frame_table.length 0 s1.hand s1 0
    (by rw [hhand, hlen]; exact hh) (by omega) (by omega)
    (by rw [Nat.add_zero, Nat.mod_eq_of_lt (by rw [hhand, hlen]; exact hh)])
    (fun j hj => absurd hj (Nat.not_lt_zero j)) (fun j hj => absurd hj (Nat.not_lt_zero j))
  rw [hhand, hlen] at hfm hmin hfirst
  rw [hlen] at hd
  have hvl : (s.hand + d) % s.frame_table.length < s1.frame_table.length := by
    rw [hlen]
    exact Nat.mod_lt _ (by omega)
  obtain ⟨f, hf⟩ := exists_getElem?_of_lt hvl
  refine ⟨s1, _, d, h1, hlen, hd, ?_, hfirst, ?_, rfl, ?_, rfl, ?_, rfl⟩
  · intro i hi
    obtain ⟨j, hj, rfl⟩ := ring_surj hh hi
    exact hmin j hj
  · simp only [AgingPager.select_victim_frame, h1, Option.bind_eq_bind, Option.some_bind]
    rw [hlen, hhand, hfm]
    simp only [Option.some_bind, hf, Option.pure_def]
  · show ageAt (s1.modFrame ((s.hand + d) % s.frame_table.length)
      (fun f => { f with age := 0 })) _ = 0
    have : (s1.modFrame ((s.hand + d) % s.frame_table.length)
        (fun f => { f with age := 0 })).frame_table[(s.hand + d) % s.frame_table.length]?
        = some { f with age := 0 } := by
      show (updateAt _ _ s1.frame_table)[_]? = _
      rw [getElem?_updateAt, hf]
      simp
    rw [ageAt_eq this]
  · intro i hi
    show (updateAt _ _ s1.frame_table)[i]? = _
    rw [getElem?_updateAt, if_neg (fun h => hi h.symm)]

/-- C18, witness: three frames of ages 8, 2, 2, none referenced, hand at frame 0;
after the aging step the ages are 4, 1, 1 and the victim is frame 1. -/
theorem C18_aging_witness :
    ∃ (s1 s' : State) (d : Nat),
      AgingPager.ageFrom stateC18.frame_table.length 0 stateC18 = some s1 ∧
      s1.frame_table.length = stateC18.frame_table.length ∧
      d < stateC18.frame_table.length ∧
      (∀ i, i < stateC18.frame_table.length →
        ageAt s1 ((stateC18.hand + d) % stateC18.frame_table.length) ≤ ageAt s1 i) ∧
      (∀ j, j < d → ageAt s1 ((stateC18.hand + d) % stateC18.frame_table.length)
        < ageAt s1 ((stateC18.hand + j) % stateC18.frame_table.length)) ∧
      AgingPager.select_victim_frame stateC18 =
        some ((stateC18.hand + d) % stateC18.frame_table.length, s') ∧
      s' = { s1.modFrame ((stateC18.hand + d) % stateC18.frame_table.length)
               (fun f => { f with age := 0 }) with
             hand := ((stateC18.hand + d) % stateC18.frame_table.length + 1)
               % stateC18.frame_table.length } ∧
      ageAt s' ((stateC18.hand + d) % stateC18.frame_table.length) = 0 ∧
      s'.hand = ((stateC18.hand + d) % stateC18.frame_table.length + 1)
        % stateC18.frame_table.length ∧
      (∀ i, i ≠ (stateC18.hand + d) % stateC18.frame_table.length →
        s'.frame_table[i]? = s1.frame_table[i]?) ∧
      s'.processes = s1.processes :=
  C18_aging stateC18 (by decide) (Tenants_of_check (by decide)) (by decide)

/-! ## The NRU policy -/

theorem classOf_le (e : pte_t) : classOf e ≤ 3 := by
  unfold classOf
  split <;> split <;> omega

theorem classAt_le (s : State) (i : Nat) : classAt s i ≤ 3 := by
  unfold classAt
  split
  · exact classOf_le _
  · omega

/-- The classification step records the index under the class of the entry, if
that class has no index yet, and leaves the other classes alone. -/
theorem record_get (c : NRUClasses) (pte : pte_t) (idx k : Nat) (hk : k ≤ 3) :
    (c.record pte idx).get k =
      if k = classOf pte ∧ c.get k = none then some idx else c.get k := by
  have hk4 : k = 0 ∨ k = 1 ∨ k = 2 ∨ k = 3 := by omega
  cases hr : pte.referenced <;> cases hm : pte.modified <;>
    rcases hk4 with rfl | rfl | rfl | rfl <;>
    simp only [NRUClasses.record, classOf, NRUClasses.get, hr, hm] <;>
    simp <;>
    split <;> simp_all

theorem RecOK_step {s : State} {i k : Nat} {o : Option Nat} (h : RecOK s i k o) :
    RecOK s (i + 1) k
      (if k = classAt s ((s.hand + i) % s.frame_table.length) ∧ o = none
        then some ((s.hand + i) % s.frame_table.length) else o) := by
  obtain ⟨h1, h2⟩ := h
  unfold RecOK
  by_cases hc : k = classAt s ((s.hand + i) % s.frame_table.length) ∧ o = none
  · rw [if_pos hc]
    refine ⟨(fun h => by cases h), ?_⟩
    intro x hx
    cases hx
    exact ⟨i, by omega, rfl, hc.1.symm, h1 hc.2⟩
  · rw [if_neg hc]
    refine ⟨?_, ?_⟩
    · intro ho j hj
      rcases Nat.lt_succ_iff_lt_or_eq.mp hj with h | h
      · exact h1 ho j h
      · subst h
        intro hk
        exact hc ⟨hk.symm, ho⟩
    · intro x hx
      obtain ⟨j, hj, a, b, c⟩ := h2 x hx
      exact ⟨j, by omega, a, b, c⟩

/-- The scan loop of the NRU policy: it ends after `m` rounds, `1 ≤ m ≤ N`, with
the first frame of each class among the first `m` frames in ring order recorded,
and `m < N` only after an early exit on a class-0 frame. -/
theorem NRU_scan_exact (reset : Bool) (s : State) (hD : DistinctTenants s) :
    ∀ (k i : Nat) (c : NRUClasses) (t : State), Tenants t → t.frame_table = s.frame_table →
    t.hand = s.hand → i + k = s.frame_table.length → 1 ≤ i + k →
    (∀ j, i ≤ j → j < s.frame_table.length →
      tenantOf t ((s.hand + j) % s.frame_table.length)
        = tenantOf s ((s.hand + j) % s.frame_table.length)) →
    (∀ cls, cls ≤ 3 → RecOK s i cls (c.get cls)) →
    (k = 0 → 1 ≤ i) →
    ∃ (m : Nat) (c' : NRUClasses) (t' : State), NRUPager.scan reset k i c t = some (c', t') ∧
      1 ≤ m ∧ m ≤ s.frame_table.length ∧ (∀ cls, cls ≤ 3 → RecOK s m cls (c'.get cls)) ∧
      (m = s.frame_table.length ∨ c'.class0Index ≠ none) ∧
      t'.frame_table = s.frame_table ∧ t'.hand = s.hand ∧
      (reset = false → t' = t) := by
  intro k
  induction k with
  | zero =>
    intro i c t _ hft hhand hik _ _ hrec h1
    exact ⟨i, c, t, rfl, h1 rfl, by omega, hrec, Or.inl (by omega), hft, hhand, fun _ => rfl⟩
  | succ k ih =>
    intro i c t hT hft hhand hik _ hten hrec _
    have hDt : DistinctTenants t := DistinctTenants_of_frames hft hD
    have hidx : (s.hand + i) % s.frame_table.length < s.frame_table.length :=
      Nat.mod_lt _ (by omega)
    obtain ⟨f, hf⟩ : ∃ f, t.frame_table[(s.hand + i) % s.frame_table.length]? = some f := by
      rw [hft]
      exact exists_getElem?_of_lt hidx
    obtain ⟨p, v, e, hp, hv, he⟩ := hT _ f hf
    have hte : tenantOf s ((s.hand + i) % s.frame_table.length) = some e := by
      rw [← hten i (le_refl _) (by omega), tenantOf_eq hf hp hv, he]
    have hcls : classAt s ((s.hand + i) % s.frame_table.length) = classOf e := by
      simp only [classAt, hte]
    have hrec1 : ∀ cls, cls ≤ 3 → RecOK s (i + 1) cls
        ((c.record e ((s.hand + i) % s.frame_table.length)).get cls) := by
      intro cls hc
      rw [record_get c e _ cls hc, ← hcls]
      exact RecOK_step (hrec cls hc)
    have hstep : NRUPager.scan reset (k + 1) i c t =
        if (!reset && (c.record e ((s.hand + i) % s.frame_table.length)).class0Index != none)
            = true then
          some (c.record e ((s.hand + i) % s.frame_table.length),
            if reset then t.modPte p v (fun e => { e with referenced := false }) else t)
        else NRUPager.scan reset k (i + 1) (c.record e ((s.hand + i) % s.frame_table.length))
          (if reset then t.modPte p v (fun e => { e with referenced := false }) else t) := by
      have hf' := hf
      rw [hft] at hf'
      simp only [NRUPager.scan, hhand, hft, hf', hp, hv, idx?_natCast, he, Option.bind_eq_bind,
        Option.some_bind, Option.pure_def]
    rw [hstep]
    by_cases hexit : (!reset && (c.record e ((s.hand + i) % s.frame_table.length)).class0Index
        != none) = true
    · rw [if_pos hexit]
      have hr : reset = false := by
        cases reset
        · rfl
        · simp at hexit
      have h0 : (c.record e ((s.hand + i) % s.frame_table.length)).class0Index ≠ none := by
        rw [hr] at hexit
        simpa using hexit
      refine ⟨i + 1, _, _, rfl, by omega, by omega, hrec1, Or.inr h0, ?_, ?_, ?_⟩
      · rw [hr]; exact hft
      · rw [hr]; exact hhand
      · intro _; rw [hr]; rfl
    · rw [if_neg hexit]
      have hT1 : Tenants (if reset then t.modPte p v (fun e => { e with referenced := false })
          else t) := by
        cases reset
        · exact hT
        · exact Tenants_modPte p v _ hT
      have hft1 : (if reset then t.modPte p v (fun e => { e with referenced := false })
          else t).frame_table = s.frame_table := by
        cases reset
        · exact hft
        · exact hft
      have hhand1 : (if reset then t.modPte p v (fun e => { e with referenced := false })
          else t).hand = s.hand := by
        cases reset
        · exact hhand
        · exact hhand
      have hten1 : ∀ j, i + 1 ≤ j → j < s.frame_table.length →
          tenantOf (if reset then t.modPte p v (fun e => { e with referenced := false }) else t)
            ((s.hand + j) % s.frame_table.length)
            = tenantOf s ((s.hand + j) % s.frame_table.length) := by
        intro j hij hj
        cases reset
        · exact hten j (by omega) hj
        · show tenantOf (t.modPte p v (fun e => { e with referenced := false })) _ = _
          rw [tenantOf_modPte hT hDt hf hp hv, if_neg]
          · exact hten j (by omega) hj
          · intro hc
            have := ring_inj hj (by omega) hc
            omega
      obtain ⟨m, c', t', h1, h2, h3, h4, h5, h6, h7, h8⟩ :=
        ih (i + 1) _ _ hT1 hft1 hhand1 (by omega) (by omega) hten1 hrec1 (fun _ => by omega)
      refine ⟨m, c', t', h1, h2, h3, h4, h5, h6, h7, ?_⟩
      intro hr
      rw [h8 hr, hr]
      rfl

/-- The victim choice after the scan: the first frame, in ring order, of the
lowest class that occurs among all frames. -/
theorem NRU_victim_exact {s : State} {m : Nat} {c : NRUClasses} (hm1 : 1 ≤ m)
    (hm : m ≤ s.frame_table.length)
    (hrec : ∀ cls, cls ≤ 3 → RecOK s m cls (c.get cls))
    (hfull : m = s.frame_table.length ∨ c.class0Index ≠ none) :
    ∃ d, d < s.frame_table.length ∧
      c.victim = some ((s.hand + d) % s.frame_table.length) ∧
      (∀ j, j < s.frame_table.length → classAt s ((s.hand + d) % s.frame_table.length)
        ≤ classAt s ((s.hand + j) % s.frame_table.length)) ∧
      (∀ j, j < d → classAt s ((s.hand + d) % s.frame_table.length)
        < classAt s ((s.hand + j) % s.frame_table.length)) := by
  have r0 := hrec 0 (by omega)
  have r1 := hrec 1 (by omega)
  have r2 := hrec 2 (by omega)
  have r3 := hrec 3 (by omega)
  simp only [NRUClasses.get] at r0 r1 r2 r3
  cases h0 : c.class0Index with
  | some x =>
    obtain ⟨j, hj, hx, hc, hfirst⟩ := r0.2 x h0
    refine ⟨j, by omega, by simp only [NRUClasses.victim, h0, hx], ?_, ?_⟩
    · intro j' _; rw [hc]; omega
    · intro j' hj'
      have := hfirst j' hj'
      rw [hc]; omega
  | none =>
    have hmN : m = s.frame_table.length := by
      rcases hfull with h | h
      · exact h
      · exact absurd h0 h
    subst hmN
    have n0 := r0.1 h0
    cases h1 : c.class1Index with
    | some x =>
      obtain ⟨j, hj, hx, hc, hfirst⟩ := r1.2 x h1
      refine ⟨j, hj, by simp only [NRUClasses.victim, h0, h1, hx], ?_, ?_⟩
      · intro j' hj'
        have := n0 j' hj'
        rw [hc]; omega
      · intro j' hj'
        have := hfirst j' hj'
        have := n0 j' (by omega)
        rw [hc]; omega
    | none =>
      have n1 := r1.1 h1
      cases h2 : c.class2Index with
      | some x =>
        obtain ⟨j, hj, hx, hc, hfirst⟩ := r2.2 x h2
        refine ⟨j, hj, by simp only [NRUClasses.victim, h0, h1, h2, hx], ?_, ?_⟩
        · intro j' hj'
          have := n0 j' hj'
          have := n1 j' hj'
          rw [hc]; omega
        · intro j' hj'
          have := hfirst j' hj'
          have := n0 j' (by omega)
          have := n1 j' (by omega)
          rw [hc]; omega
      | none =>
        have n2 := r2.1 h2
        cases h3 : c.class3Index with
        | some x =>
          obtain ⟨j, hj, hx, hc, hfirst⟩ := r3.2 x h3
          refine ⟨j, hj, by simp only [NRUClasses.victim, h0, h1, h2, h3, hx], ?_, ?_⟩
          · intro j' hj'
            have := n0 j' hj'
            have := n1 j' hj'
            have := n2 j' hj'
            rw [hc]; omega
          · intro j' hj'
            have := hfirst j' hj'
            have := n0 j' (by omega)
            have := n1 j' (by omega)
            have := n2 j' (by omega)
            rw [hc]; omega
        | none =>
          exfalso
          have n3 := r3.1 h3
          have a0 := n0 0 (by omega)
          have a1 := n1 0 (by omega)
          have a2 := n2 0 (by omega)
          have a3 := n3 0 (by omega)
          have := classAt_le s ((s.hand + 0) % s.frame_table.length)
          omega

/-- C17: on a frame table of `N ≥ 1` occupied frames with pairwise distinct tenant
entries, a hand `h < N` and any `inst_count`, `NRUPager::select_victim_frame`
returns the frame at ring offset `d` from `h` whose class, read from the
referenced and modified bits of its tenant before the call, is the lowest class
that occurs among all `N` frames, and which is the first frame of that class in
ring order from `h` (every frame at a smaller offset has a higher class); the
hand ends at `(victim + 1) mod N`.  The statement covers the calls that reset
the referenced bits and those that stop early. -/
theorem C17_nru_victim (s : State) (hN : 1 ≤ s.frame_table.length) (hT : Tenants s)
    (hD : DistinctTenants s) (hh : s.hand < s.frame_table.length) :
    ∃ (d : Nat) (s' : State), d < s.frame_table.length ∧
      NRUPager.select_victim_frame s = some ((s.hand + d) % s.frame_table.length, s') ∧
      (∀ i, i < s.frame_table.length →
        classAt s ((s.hand + d) % s.frame_table.length) ≤ classAt s i) ∧
      (∀ j, j < d → classAt s ((s.hand + d) % s.frame_table.length)
        < classAt s ((s.hand + j) % s.frame_table.length)) ∧
      s'.hand = ((s.hand + d) % s.frame_table.length + 1) % s.frame_table.length ∧
      s'.frame_table = s.frame_table := by
  have key : ∀ (reset : Bool) (s0 : State), s0.frame_table = s.frame_table → s0.hand = s.hand →
      s0.processes = s.processes →
      ∃ (m : Nat) (c' : NRUClasses) (t' : State),
        NRUPager.scan reset s.frame_table.length 0
          { class0Index := none, class1Index := none, class2Index := none,
            class3Index := none } s0 = some (c', t') ∧
        1 ≤ m ∧ m ≤ s.frame_table.length ∧ (∀ cls, cls ≤ 3 → RecOK s m cls (c'.get cls)) ∧
        (m = s.frame_table.length ∨ c'.class0Index ≠ none) ∧
        t'.frame_table = s.frame_table ∧ t'.hand = s.hand := by
    intro reset s0 hft hhand hpr
    have hten0 : ∀ i, tenantOf s0 i = tenantOf s i := by
      intro i
      unfold tenantOf State.pte?
      rw [hft, hpr]
    have hT0 : Tenants s0 := by
      intro i f hf
      rw [hft] at hf
      obtain ⟨p, v, e, a, b, c⟩ := hT i f hf
      refine ⟨p, v, e, a, b, ?_⟩
      unfold State.pte? at c ⊢
      rw [hpr]
      exact c
    obtain ⟨m, c', t', h1, h2, h3, h4, h5, h6, h7, _⟩ :=
      NRU_scan_exact reset s hD s.frame_table.length 0
        { class0Index := none, class1Index := none, class2Index := none, class3Index := none }
        s0 hT0 hft hhand (by omega) (by omega) (fun j _ _ => hten0 _)
        (fun cls hc => by
          have hk4 : cls = 0 ∨ cls = 1 ∨ cls = 2 ∨ cls = 3 := by omega
          refine ⟨fun _ j hj => absurd hj (Nat.not_lt_zero j), ?_⟩
          intro x hx
          rcases hk4 with rfl | rfl | rfl | rfl <;> cases hx)
        (fun h => by omega)
    exact ⟨m, c', t', h1, h2, h3, h4, h5, h6, h7⟩
  obtain ⟨m, c', t', h1, h2, h3, h4, h5, h6, h7⟩ :=
    key (decide (subU64 s.inst_count s.lastReset ≥ 48))
      (if decide (subU64 s.inst_count s.lastReset ≥ 48) = true
        then { s with lastReset := s.inst_count } else s)
      (by split <;> rfl) (by split <;> rfl) (by split <;> rfl)
  obtain ⟨d, hd, hv, hmin, hfirst⟩ := NRU_victim_exact h2 h3 h4 h5
  have hvl : (s.hand + d) % s.frame_table.length < t'.frame_table.length := by
    rw [h6]
    exact Nat.mod_lt _ (by omega)
  obtain ⟨f, hf⟩ := exists_getElem?_of_lt hvl
  rw [h6] at hf
  have hne : ¬ s.frame_table.length = 0 := by omega
  have hlen0 : (if decide (subU64 s.inst_count s.lastReset ≥ 48) = true
      then ({ s with lastReset := s.inst_count } : State) else s).frame_table.length
      = s.frame_table.length := by split <;> rfl
  refine ⟨d, { t' with hand := ((s.hand + d) % s.frame_table.length + 1)
    % s.frame_table.length }, hd, ?_, ?_, hfirst, rfl, h6⟩
  · simp only [NRUPager.select_victim_frame, hlen0, h1, Option.bind_eq_bind, Option.some_bind,
      hv, hf, if_neg hne, Option.pure_def, h6]
  · intro i hi
    obtain ⟨j, hj, rfl⟩ := ring_surj hh hi
    exact hmin j hj

/-- C17, witness: three frames with the classes 3, 1, 1 and the hand at frame 2;
the victim is frame 2. -/
theorem C17_nru_victim_witness :
    ∃ (d : Nat) (s' : State), d < stateC17.frame_table.length ∧
      NRUPager.select_victim_frame stateC17 =
        some ((stateC17.hand + d) % stateC17.frame_table.length, s') ∧
      (∀ i, i < stateC17.frame_table.length →
        classAt stateC17 ((stateC17.hand + d) % stateC17.frame_table.length)
          ≤ classAt stateC17 i) ∧
      (∀ j, j < d → classAt stateC17 ((stateC17.hand + d) % stateC17.frame_table.length)
        < classAt stateC17 ((stateC17.hand + j) % stateC17.frame_table.length)) ∧
      s'.hand = ((stateC17.hand + d) % stateC17.frame_table.length + 1)
        % stateC17.frame_table.length ∧
      s'.frame_table = stateC17.frame_table :=
  C17_nru_victim stateC17 (by decide) (Tenants_of_check (by decide))
    (DistinctTenants_of_nodup (by decide)) (by decide)

/-! ## The Working-Set policy -/

theorem toInt32_sub {a b : Nat} (h1 : b ≤ a) (h2 : a - b < 2147483648) :
    toInt32 (subU64 a b) = ((a - b : Nat) : Int) := by
  unfold toInt32 subU64
  split <;> omega

theorem toInt32_stamp (n : Nat) : toInt32 (subU64 n (n % 4294967296)) = 0 := by
  unfold toInt32 subU64
  split <;> omega

/-- The loop with the statements after it is the function `scan`. -/
theorem WorkingSet_scan_eq_loop : ∀ (k i : Nat) (victim : Option Nat) (minAge : Int) (s : State),
    WorkingSetPager.scan k i victim minAge s =
      (WorkingSetPager.loop k i victim minAge s).bind WorkingSetPager.finish := by
  intro k
  induction k with
  | zero =>
    intro i victim minAge s
    simp only [WorkingSetPager.scan, WorkingSetPager.loop, Option.some_bind,
      WorkingSetPager.finish]
    rfl
  | succ k ih =>
    intro i victim minAge s
    simp only [WorkingSetPager.scan, WorkingSetPager.loop, Option.bind_eq_bind]
    cases s.frame_table[(s.hand + i) % s.frame_table.length]? with
    | none => rfl
    | some frame =>
      simp only [Option.some_bind]
      cases idx? frame.process_id with
      | none => rfl
      | some p =>
        simp only [Option.some_bind]
        cases idx? frame.virtual_page with
        | none => rfl
        | some v =>
          simp only [Option.some_bind]
          cases s.pte? p v with
          | none => rfl
          | some pte =>
            simp only [Option.some_bind]
            cases (if pte.referenced = true then
                (s.modPte p v (fun e => { e with referenced := false })).modFrame
                  ((s.hand + i) % s.frame_table.length)
                  (fun f => { f with age_ := s.inst_count % 4294967296 })
              else s).frame_table[(s.hand + i) % s.frame_table.length]? with
            | none => rfl
            | some frame1 =>
              simp only [Option.some_bind]
              split
              · rfl
              · split
                · exact ih _ _ _ _
                · exact ih _ _ _ _

theorem tenantOf_modFrame (s : State) (a : Nat) (g : frame_t → frame_t)
    (hg : ∀ f, (g f).process_id = f.process_id ∧ (g f).virtual_page = f.virtual_page)
    (i : Nat) : tenantOf (s.modFrame a g) i = tenantOf s i := by
  unfold tenantOf
  show (match (updateAt g a s.frame_table)[i]? with
    | none => none
    | some f =>
      match idx? f.process_id, idx? f.virtual_page with
      | some p, some v => s.pte? p v
      | _, _ => none) = _
  rw [getElem?_updateAt]
  by_cases hai : a = i
  · rw [if_pos hai]
    cases s.frame_table[i]? with
    | none => rfl
    | some f =>
      simp only [Option.map_some', (hg f).1, (hg f).2]
  · rw [if_neg hai]

theorem tenantOf_stamp (s : State) (a x i : Nat) :
    tenantOf (s.modFrame a (fun f => { f with age_ := x })) i = tenantOf s i :=
  tenantOf_modFrame s a (fun f => { f with age_ := x }) (fun _ => ⟨rfl, rfl⟩) i

theorem Tenants_modFrame {s : State} (a : Nat) (g : frame_t → frame_t)
    (hg : ∀ f, (g f).process_id = f.process_id ∧ (g f).virtual_page = f.virtual_page)
    (hT : Tenants s) : Tenants (s.modFrame a g) := by
  intro i f hf
  have hf' : (updateAt g a s.frame_table)[i]? = some f := hf
  rw [getElem?_updateAt] at hf'
  by_cases hai : a = i
  · rw [if_pos hai] at hf'
    obtain ⟨f0, hf0, rfl⟩ := Option.map_eq_some'.mp hf'
    obtain ⟨p, v, e, hp, hv, he⟩ := hT i f0 hf0
    exact ⟨p, v, e, by rw [(hg f0).1]; exact hp, by rw [(hg f0).2]; exact hv, he⟩
  · rw [if_neg hai] at hf'
    exact hT i f hf'

theorem DistinctTenants_modFrame {s : State} (a : Nat) (g : frame_t → frame_t)
    (hg : ∀ f, (g f).process_id = f.process_id ∧ (g f).virtual_page = f.virtual_page)
    (hD : DistinctTenants s) : DistinctTenants (s.modFrame a g) := by
  have key : ∀ (i : Nat) (f : frame_t), (s.modFrame a g).frame_table[i]? = some f →
      ∃ f0, s.frame_table[i]? = some f0 ∧ f.process_id = f0.process_id ∧
        f.virtual_page = f0.virtual_page := by
    intro i f hf
    have hf' : (updateAt g a s.frame_table)[i]? = some f := hf
    rw [getElem?_updateAt] at hf'
    by_cases hai : a = i
    · rw [if_pos hai] at hf'
      obtain ⟨f0, hf0, rfl⟩ := Option.map_eq_some'.mp hf'
      exact ⟨f0, hf0, (hg f0).1, (hg f0).2⟩
    · rw [if_neg hai] at hf'
      exact ⟨f, hf', rfl, rfl⟩
  intro i j f g' hi hj hp hv
  obtain ⟨f0, hf0, a1, a2⟩ := key i f hi
  obtain ⟨g0, hg0, b1, b2⟩ := key j g' hj
  exact hD i j f0 g0 hf0 hg0 (by rw [← a1, ← b1]; exact hp) (by rw [← a2, ← b2]; exact hv)

theorem clearRef_of_not_referenced {e : pte_t} (h : e.referenced = false) : clearRef e = e := by
  cases e
  simp only [clearRef] at h ⊢
  simp only [h]

theorem map_clearRef_of_not_refAt {s : State} {i : Nat} (h : refAt s i = false) :
    (tenantOf s i).map clearRef = tenantOf s i := by
  rw [refAt_eq_tenant] at h
  cases ht : tenantOf s i with
  | none => rfl
  | some e =>
    rw [ht] at h
    simp only [Option.map_some', clearRef_of_not_referenced h]

theorem wsStamp_rest (s : State) (a : Nat) :
    (wsStamp s a).inst_count = s.inst_count ∧ (wsStamp s a).hand = s.hand ∧
      (wsStamp s a).frame_table.length = s.frame_table.length := by
  unfold wsStamp
  split
  · rcases modTenant_cases s a clearRef with h | ⟨p, v, h⟩
    · rw [h]
      exact ⟨rfl, rfl, length_updateAt _ _ _⟩
    · rw [h]
      exact ⟨rfl, rfl, length_updateAt _ _ _⟩
  · exact ⟨rfl, rfl, rfl⟩

theorem Tenants_wsStamp {s : State} (a : Nat) (hT : Tenants s) : Tenants (wsStamp s a) := by
  unfold wsStamp
  split
  · exact Tenants_modFrame a (fun f => { f with age_ := s.inst_count % 4294967296 })
      (fun _ => ⟨rfl, rfl⟩) (Tenants_modTenant a clearRef hT)
  · exact hT

theorem DistinctTenants_wsStamp {s : State} (a : Nat) (hD : DistinctTenants s) :
    DistinctTenants (wsStamp s a) := by
  unfold wsStamp
  split
  · exact DistinctTenants_modFrame a (fun f => { f with age_ := s.inst_count % 4294967296 })
      (fun _ => ⟨rfl, rfl⟩) (DistinctTenants_of_frames (modTenant_frame_table s a clearRef) hD)
  · exact hD

theorem tenantOf_wsStamp {s : State} {a : Nat} (hT : Tenants s) (hD : DistinctTenants s)
    (ha : a < s.frame_table.length) (i : Nat) :
    tenantOf (wsStamp s a) i = if i = a then (tenantOf s i).map clearRef else tenantOf s i := by
  unfold wsStamp
  by_cases hr : refAt s a = true
  · rw [if_pos hr, tenantOf_stamp, tenantOf_modTenant hT hD ha]
  · have hr' : refAt s a = false := by simpa using hr
    rw [if_neg hr]
    by_cases hia : i = a
    · subst hia
      rw [if_pos rfl, map_clearRef_of_not_refAt hr']
    · rw [if_neg hia]

theorem frame_wsStamp (s : State) (a i : Nat) :
    (wsStamp s a).frame_table[i]? = (s.frame_table[i]?).map
      (fun f => if i = a ∧ refAt s a = true
        then { f with age_ := s.inst_count % 4294967296 } else f) := by
  unfold wsStamp
  by_cases hr : refAt s a = true
  · rw [if_pos hr]
    show (updateAt _ a (modTenant s a clearRef).frame_table)[i]? = _
    rw [modTenant_frame_table, getElem?_updateAt]
    by_cases hai : a = i
    · subst hai
      rw [if_pos rfl]
      cases s.frame_table[a]? with
      | none => rfl
      | some f => simp [hr]
    · rw [if_neg hai]
      have hia : ¬ i = a := fun h => hai h.symm
      cases s.frame_table[i]? with
      | none => rfl
      | some f => simp [hia]
  · rw [if_neg hr]
    cases s.frame_table[i]? with
    | none => rfl
    | some f => simp [hr]

theorem refAt_wsStamp {s : State} {a : Nat} (hT : Tenants s) (hD : DistinctTenants s)
    (ha : a < s.frame_table.length) (i : Nat) :
    refAt (wsStamp s a) i = if i = a then false else refAt s i := by
  rw [refAt_eq_tenant, tenantOf_wsStamp hT hD ha]
  by_cases hia : i = a
  · rw [if_pos hia, if_pos hia]
    cases tenantOf s i <;> rfl
  · rw [if_neg hia, if_neg hia, refAt_eq_tenant]

/-- The state after the scan has gone over the frames in `l`: the tenants of
these frames have their referenced bits cleared, those frames among them whose
tenant was referenced carry the current time, and nothing else has changed. -/
theorem wsList_spec : ∀ (l : List Nat) (s : State), Tenants s → DistinctTenants s →
    (∀ x ∈ l, x < s.frame_table.length) →
    (wsList s l).inst_count = s.inst_count ∧ (wsList s l).hand = s.hand ∧
      (wsList s l).frame_table.length = s.frame_table.length ∧
      Tenants (wsList s l) ∧ DistinctTenants (wsList s l) ∧
      (∀ i, tenantOf (wsList s l) i =
        if i ∈ l then (tenantOf s i).map clearRef else tenantOf s i) ∧
      (∀ i, (wsList s l).frame_table[i]? = (s.frame_table[i]?).map
        (fun f => if i ∈ l ∧ refAt s i = true
          then { f with age_ := s.inst_count % 4294967296 } else f)) := by
  intro l
  induction l with
  | nil =>
    intro s hT hD _
    refine ⟨rfl, rfl, rfl, hT, hD, fun i => by simp [wsList], fun i => ?_⟩
    show s.frame_table[i]? = _
    cases s.frame_table[i]? with
    | none => rfl
    | some f => simp
  | cons a l ih =>
    intro s hT hD hl
    have ha : a < s.frame_table.length := hl a (by simp)
    obtain ⟨r1, r2, r3⟩ := wsStamp_rest s a
    obtain ⟨h1, h2, h3, h4, h5, h6, h7⟩ := ih (wsStamp s a) (Tenants_wsStamp a hT)
      (DistinctTenants_wsStamp a hD)
      (fun x hx => by rw [r3]; exact hl x (List.mem_cons_of_mem _ hx))
    refine ⟨h1.trans r1, h2.trans r2, h3.trans r3, h4, h5, ?_, ?_⟩
    · intro i
      show tenantOf (wsList (wsStamp s a) l) i = _
      rw [h6, tenantOf_wsStamp hT hD ha]
      by_cases hia : i = a
      · subst hia
        simp only [if_true, List.mem_cons, true_or]
        split
        · cases tenantOf s i <;> rfl
        · rfl
      · simp only [if_neg hia, List.mem_cons, hia, false_or, if_false]
    · intro i
      show (wsList (wsStamp s a) l).frame_table[i]? = _
      rw [h7, frame_wsStamp, refAt_wsStamp hT hD ha, r1]
      cases s.frame_table[i]? with
      | none => rfl
      | some f =>
        simp only [Option.map_some', List.mem_cons]
        by_cases hia : i = a
        · subst hia
          simp
        · simp [hia]

theorem ringList_succ_last (h N d : Nat) :
    ringList h N (d + 1) = ringList h N d ++ [(h + d) % N] := by
  simp only [ringList, List.range_succ, List.map_append, List.map_cons, List.map_nil]

theorem wsList_append (s : State) (l : List Nat) (a : Nat) :
    wsList s (l ++ [a]) = wsStamp (wsList s l) a := by
  simp only [wsList, List.foldl_append, List.foldl_cons, List.foldl_nil]

theorem not_mem_ringList {h N d : Nat} (hd : d < N) : (h + d) % N ∉ ringList h N d := by
  intro hm
  obtain ⟨j, hj, he⟩ := mem_ringList.mp hm
  have := ring_inj (by omega) hd he
  omega

/-- One round of the loop of the Working-Set policy, on a frame whose time of
last use is less than `2^31` instructions back. -/
theorem WorkingSet_round {t : State} {i : Nat} {f : frame_t} {e : pte_t} (k : Nat)
    (victim : Option Nat) (minAge : Int) (hT : Tenants t)
    (hf : t.frame_table[(t.hand + i) % t.frame_table.length]? = some f)
    (he : tenantOf t ((t.hand + i) % t.frame_table.length) = some e)
    (hage : f.age_ ≤ t.inst_count ∧ t.inst_count - f.age_ < 2147483648) :
    WorkingSetPager.loop (k + 1) i victim minAge t =
      if ((tempAge t ((t.hand + i) % t.frame_table.length) : Nat) : Int) > 49 then
        some (true, some ((t.hand + i) % t.frame_table.length),
          { wsStamp t ((t.hand + i) % t.frame_table.length) with
            hand := ((t.hand + i) % t.frame_table.length + 1) % t.frame_table.length })
      else if ((tempAge t ((t.hand + i) % t.frame_table.length) : Nat) : Int) > minAge then
        WorkingSetPager.loop k (i + 1) (some ((t.hand + i) % t.frame_table.length))
          ((tempAge t ((t.hand + i) % t.frame_table.length) : Nat) : Int)
          (wsStamp t ((t.hand + i) % t.frame_table.length))
      else
        WorkingSetPager.loop k (i + 1) victim minAge
          (wsStamp t ((t.hand + i) % t.frame_table.length)) := by
  obtain ⟨p, v, e', hp, hv, he'⟩ := hT _ f hf
  have hte := tenantOf_eq hf hp hv
  rw [he] at hte
  have hpte : t.pte? p v = some e := hte.symm
  have hrefAt : refAt t ((t.hand + i) % t.frame_table.length) = e.referenced := by
    rw [refAt_eq_tenant, he]
  by_cases hr : e.referenced = true
  · have hstamp : wsStamp t ((t.hand + i) % t.frame_table.length) =
        (t.modPte p v (fun e => { e with referenced := false })).modFrame
          ((t.hand + i) % t.frame_table.length)
          (fun f => { f with age_ := t.inst_count % 4294967296 }) := by
      unfold wsStamp
      rw [hrefAt, if_pos hr, modTenant_eq hf hp hv]
      rfl
    have hta : tempAge t ((t.hand + i) % t.frame_table.length) = 0 := by
      unfold tempAge
      rw [hrefAt, if_pos hr]
    have hf1 : ((t.modPte p v (fun e => { e with referenced := false })).modFrame
        ((t.hand + i) % t.frame_table.length)
        (fun f => { f with age_ := t.inst_count % 4294967296 })).frame_table[
          (t.hand + i) % t.frame_table.length]?
        = some { f with age_ := t.inst_count % 4294967296 } := by
      show (updateAt _ _ t.frame_table)[_]? = _
      rw [getElem?_updateAt, if_pos rfl, hf]
      rfl
    rw [hstamp, hta]
    simp only [WorkingSetPager.loop, hf, hp, hv, idx?_natCast, hpte, hr, Option.bind_eq_bind,
      Option.some_bind, if_true, hf1, toInt32_stamp, TAU, Option.pure_def]
    rfl
  · have hr' : e.referenced = false := by simpa using hr
    have hstamp : wsStamp t ((t.hand + i) % t.frame_table.length) = t := by
      unfold wsStamp
      rw [hrefAt, if_neg hr]
    have hta : tempAge t ((t.hand + i) % t.frame_table.length) = t.inst_count - f.age_ := by
      unfold tempAge
      rw [hrefAt, if_neg hr, hf]
    rw [hstamp, hta]
    simp only [WorkingSetPager.loop, hf, hp, hv, idx?_natCast, hpte, hr', Option.bind_eq_bind,
      Option.some_bind, Bool.false_eq_true, if_false, toInt32_sub hage.1 hage.2, TAU,
      Option.pure_def]

/-- The loop of the Working-Set policy, from round `i` on, in the state the first
`i` rounds have left: it either returns at the first frame in ring order whose age
is over 49, or runs to its end with `victim` the first frame of greatest age. -/
theorem WorkingSet_loop_exact (s : State) (hT : Tenants s) (hD : DistinctTenants s)
    (hh : s.hand < s.frame_table.length)
    (hage : ∀ (i : Nat) (f : frame_t), s.frame_table[i]? = some f →
      f.age_ ≤ s.inst_count ∧ s.inst_count - f.age_ < 2147483648) :
    ∀ (k i : Nat) (victim : Option Nat) (minAge : Int), i + k = s.frame_table.length →
    (∀ j, j < i → tempAge s ((s.hand + j) % s.frame_table.length) ≤ 49) →
    ((i = 0 ∧ victim = none ∧ minAge = -1) ∨
      ∃ dv, dv < i ∧ victim = some ((s.hand + dv) % s.frame_table.length) ∧
        minAge = ((tempAge s ((s.hand + dv) % s.frame_table.length) : Nat) : Int) ∧
        (∀ j, j < i → tempAge s ((s.hand + j) % s.frame_table.length)
          ≤ tempAge s ((s.hand + dv) % s.frame_table.length)) ∧
        (∀ j, j < dv → tempAge s ((s.hand + j) % s.frame_table.length)
          < tempAge s ((s.hand + dv) % s.frame_table.length))) →
    ∃ (early : Bool) (d : Nat) (t : State), d < s.frame_table.length ∧
      WorkingSetPager.loop k i victim minAge
          (wsList s (ringList s.hand s.frame_table.length i))
        = some (early, some ((s.hand + d) % s.frame_table.length), t) ∧
      ((early = true ∧ 49 < tempAge s ((s.hand + d) % s.frame_table.length) ∧
          (∀ j, j < d → tempAge s ((s.hand + j) % s.frame_table.length) ≤ 49) ∧
          t = { wsList s (ringList s.hand s.frame_table.length d) with
                hand := ((s.hand + d) % s.frame_table.length + 1) % s.frame_table.length }) ∨
        (early = false ∧
          (∀ j, j < s.frame_table.length →
            tempAge s ((s.hand + j) % s.frame_table.length) ≤ 49) ∧
          (∀ j, j < s.frame_table.length → tempAge s ((s.hand + j) % s.frame_table.length)
            ≤ tempAge s ((s.hand + d) % s.frame_table.length)) ∧
          (∀ j, j < d → tempAge s ((s.hand + j) % s.frame_table.length)
            < tempAge s ((s.hand + d) % s.frame_table.length)) ∧
          t = wsList s (ringList s.hand s.frame_table.length s.frame_table.length))) := by
  intro k
  induction k with
  | zero =>
    intro i victim minAge hik hle hinv
    have hi : i = s.frame_table.length := by omega
    subst hi
    rcases hinv with ⟨h0, _, _⟩ | ⟨dv, hdv, hv, _, h1, h2⟩
    · omega
    · exact ⟨false, dv, _, hdv, by rw [hv]; rfl, Or.inr ⟨rfl, hle, h1, h2, rfl⟩⟩
  | succ k ih =>
    intro i victim minAge hik hle hinv
    have hiN : i < s.frame_table.length := by omega
    have hmem : ∀ x ∈ ringList s.hand s.frame_table.length i, x < s.frame_table.length := by
      intro x hx
      obtain ⟨j, _, rfl⟩ := mem_ringList.mp hx
      exact Nat.mod_lt _ (by omega)
    obtain ⟨w1, w2, w3, w4, _, w6, w7⟩ :=
      wsList_spec (ringList s.hand s.frame_table.length i) s hT hD hmem
    have hidx : (s.hand + i) % s.frame_table.length < s.frame_table.length :=
      Nat.mod_lt _ (by omega)
    have hnm := not_mem_ringList (h := s.hand) hiN
    obtain ⟨f, hf⟩ := exists_getElem?_of_lt hidx
    obtain ⟨p, v, e, hp, hv, he⟩ := hT _ f hf
    have hte : tenantOf s ((s.hand + i) % s.frame_table.length) = some e := by
      rw [tenantOf_eq hf hp hv, he]
    have hft : (wsList s (ringList s.hand s.frame_table.length i)).frame_table[
        (s.hand + i) % s.frame_table.length]? = some f := by
      rw [w7, hf]
      simp [hnm]
    have htt : tenantOf (wsList s (ringList s.hand s.frame_table.length i))
        ((s.hand + i) % s.frame_table.length) = some e := by
      rw [w6, if_neg hnm, hte]
    have hra : refAt (wsList s (ringList s.hand s.frame_table.length i))
        ((s.hand + i) % s.frame_table.length) = refAt s ((s.hand + i) % s.frame_table.length) := by
      rw [refAt_eq_tenant, refAt_eq_tenant, htt, hte]
    have hta : tempAge (wsList s (ringList s.hand s.frame_table.length i))
        ((s.hand + i) % s.frame_table.length) = tempAge s ((s.hand + i) % s.frame_table.length) := by
      unfold tempAge
      rw [hra, hft, hf, w1]
    have hround := WorkingSet_round (t := wsList s (ringList s.hand s.frame_table.length i))
      (i := i) (f := f) (e := e) k victim minAge w4 (by rw [w2, w3]; exact hft)
      (by rw [w2, w3]; exact htt) (by rw [w1]; exact hage _ f hf)
    rw [w2, w3, hta, ← wsList_append, ← ringList_succ_last] at hround
    rw [hround]
    by_cases hover : ((tempAge s ((s.hand + i) % s.frame_table.length) : Nat) : Int) > 49
    · rw [if_pos hover]
      have hnr : refAt s ((s.hand + i) % s.frame_table.length) = false := by
        cases hr : refAt s ((s.hand + i) % s.frame_table.length) with
        | false => rfl
        | true =>
          exfalso
          have : tempAge s ((s.hand + i) % s.frame_table.length) = 0 := by
            unfold tempAge
            rw [hr]
            rfl
          rw [this] at hover
          omega
      have hsame : wsList s (ringList s.hand s.frame_table.length (i + 1)) =
          wsList s (ringList s.hand s.frame_table.length i) := by
        rw [ringList_succ_last, wsList_append]
        unfold wsStamp
        rw [hra, hnr]
        rfl
      refine ⟨true, i, _, hiN, rfl, Or.inl ⟨rfl, by omega, hle, ?_⟩⟩
      rw [hsame]
    · rw [if_neg hover]
      have hle1 : ∀ j, j < i + 1 → tempAge s ((s.hand + j) % s.frame_table.length) ≤ 49 := by
        intro j hj
        rcases Nat.lt_succ_iff_lt_or_eq.mp hj with h | h
        · exact hle j h
        · subst h
          omega
      by_cases hgt : ((tempAge s ((s.hand + i) % s.frame_table.length) : Nat) : Int) > minAge
      · rw [if_pos hgt]
        refine ih (i + 1) _ _ (by omega) hle1 (Or.inr ⟨i, by omega, rfl, rfl, ?_, ?_⟩)
        · intro j hj
          rcases Nat.lt_succ_iff_lt_or_eq.mp hj with h | h
          · rcases hinv with ⟨h0, _, _⟩ | ⟨dv, _, _, hm, h1, _⟩
            · omega
            · have := h1 j h
              omega
          · subst h
            exact le_refl _
        · intro j hj
          rcases hinv with ⟨h0, _, _⟩ | ⟨dv, _, _, hm, h1, _⟩
          · omega
          · have := h1 j hj
            omega
      · rw [if_neg hgt]
        rcases hinv with ⟨_, _, hm⟩ | ⟨dv, hdv, hv', hm, h1, h2⟩
        · omega
        · refine ih (i + 1) _ _ (by omega) hle1 (Or.inr ⟨dv, by omega, hv', hm, ?_, h2⟩)
          intro j hj
          rcases Nat.lt_succ_iff_lt_or_eq.mp hj with h | h
          · exact h1 j h
          · subst h
            omega

theorem tempAge_of_refAt {s : State} {i : Nat} (h : refAt s i = true) : tempAge s i = 0 := by
  unfold tempAge
  rw [h]
  rfl

/-- C19 (amended): on a frame table of `N ≥ 1` occupied frames with pairwise
distinct tenant entries, a hand `h < N`, and `inst_count` at least every frame's
time of last use and less than `2^31` past it, let `temp_age` of a frame be 0
when its tenant is referenced and `inst_count - last_use` otherwise.
`WorkingSetPager::select_victim_frame` returns the frame at a ring offset `d`
from `h` and sets the hand to `(victim + 1) mod N`.  If some frame has
`temp_age > 49` the victim is the first such frame in ring order, and the state
is that of the scan over the `d` frames before it.  Otherwise the victim has the
largest `temp_age` of all frames and is the first such in ring order (the frame
at `h` when all tenants are referenced), the scan has gone over all `N` frames
and all referenced bits are cleared.  The scan over a list of frames clears the
referenced bits of their tenants, gives those frames among them whose tenant
was referenced `inst_count mod 2^32` as time of last use, and changes nothing
else.  The loop always ends with a non-null `victim`, so the branch that falls
back to the frame at the hand is not taken. -/
theorem C19_working_set (s : State) (hN : 1 ≤ s.frame_table.length) (hT : Tenants s)
    (hD : DistinctTenants s) (hh : s.hand < s.frame_table.length)
    (hage : ∀ f ∈ s.frame_table, f.age_ ≤ s.inst_count ∧ s.inst_count - f.age_ < 2147483648) :
    ∃ (d : Nat) (s' : State) (early : Bool) (t : State), d < s.frame_table.length ∧
      WorkingSetPager.select_victim_frame s
        = some ((s.hand + d) % s.frame_table.length, s') ∧
      s'.hand = ((s.hand + d) % s.frame_table.length + 1) % s.frame_table.length ∧
      WorkingSetPager.loop s.frame_table.length 0 none (-1) s
        = some (early, some ((s.hand + d) % s.frame_table.length), t) ∧
      ((∃ i, i < s.frame_table.length ∧ 49 < tempAge s i) →
        49 < tempAge s ((s.hand + d) % s.frame_table.length) ∧
        (∀ j, j < d → tempAge s ((s.hand + j) % s.frame_table.length) ≤ 49) ∧
        s' = { wsList s (ringList s.hand s.frame_table.length d) with
               hand := ((s.hand + d) % s.frame_table.length + 1) % s.frame_table.length }) ∧
      ((∀ i, i < s.frame_table.length → tempAge s i ≤ 49) →
        (∀ i, i < s.frame_table.length →
          tempAge s i ≤ tempAge s ((s.hand + d) % s.frame_table.length)) ∧
        (∀ j, j < d → tempAge s ((s.hand + j) % s.frame_table.length)
          < tempAge s ((s.hand + d) % s.frame_table.length)) ∧
        s' = { wsList s (ringList s.hand s.frame_table.length s.frame_table.length) with
               hand := ((s.hand + d) % s.frame_table.length + 1) % s.frame_table.length } ∧
        (∀ i, i < s.frame_table.length → refAt s' i = false) ∧
        ((∀ i, i < s.frame_table.length → refAt s i = true) → d = 0)) ∧
      (∀ m, m ≤ s.frame_table.length → ∀ i,
        tenantOf (wsList s (ringList s.hand s.frame_table.length m)) i =
          if i ∈ ringList s.hand s.frame_table.length m then (tenantOf s i).map clearRef
          else tenantOf s i) ∧
      (∀ m, m ≤ s.frame_table.length → ∀ i,
        (wsList s (ringList s.hand s.frame_table.length m)).frame_table[i]? =
          (s.frame_table[i]?).map (fun f =>
            if i ∈ ringList s.hand s.frame_table.length m ∧ refAt s i = true
            then { f with age_ := s.inst_count % 4294967296 } else f)) := by
  have hage' : ∀ (i : Nat) (f : frame_t), s.frame_table[i]? = some f →
      f.age_ ≤ s.inst_count ∧ s.inst_count - f.age_ < 2147483648 :=
    fun i f h => hage f (List.getElem?_mem h)
  have hmem : ∀ m, ∀ x ∈ ringList s.hand s.frame_table.length m, x < s.frame_table.length := by
    intro m x hx
    obtain ⟨j, _, rfl⟩ := mem_ringList.mp hx
    exact Nat.mod_lt _ (by omega)
  obtain ⟨early, d, t, hd, hloop, hcase⟩ :=
    WorkingSet_loop_exact s hT hD hh hage' s.frame_table.length 0 none (-1) (by omega)
      (fun j hj => absurd hj (Nat.not_lt_zero j)) (Or.inl ⟨rfl, rfl, rfl⟩)
  have hstart : wsList s (ringList s.hand s.frame_table.length 0) = s := rfl
  rw [hstart] at hloop
  have hvl : (s.hand + d) % s.frame_table.length < s.frame_table.length :=
    Nat.mod_lt _ (by omega)
  have hsel : WorkingSetPager.select_victim_frame s =
      WorkingSetPager.finish (early, some ((s.hand + d) % s.frame_table.length), t) := by
    unfold WorkingSetPager.select_victim_frame
    rw [WorkingSet_scan_eq_loop, hloop]
    rfl
  have hall := fun m => wsList_spec (ringList s.hand s.frame_table.length m) s hT hD (hmem m)
  have hP1 := fun m (_ : m ≤ s.frame_table.length) => (hall m).2.2.2.2.2.1
  have hP2 := fun m (_ : m ≤ s.frame_table.length) => (hall m).2.2.2.2.2.2
  rcases hcase with ⟨he, hover, hbefore, ht⟩ | ⟨he, hnone, hmax, hfirst, ht⟩
  · -- the loop returned at a frame over TAU
    subst he
    refine ⟨d, t, true, t, hd, ?_, by rw [ht], hloop, ?_, ?_, hP1, hP2⟩
    · rw [hsel]
      rfl
    · intro _
      exact ⟨hover, hbefore, ht⟩
    · intro hle
      have := hle _ hvl
      omega
  · -- the loop ran to its end
    subst he
    have hlen : t.frame_table.length = s.frame_table.length := by
      rw [ht]
      exact (hall s.frame_table.length).2.2.1
    refine ⟨d, { t with hand := ((s.hand + d) % s.frame_table.length + 1)
      % s.frame_table.length }, false, t, hd, ?_, rfl, hloop, ?_, ?_, hP1, hP2⟩
    · rw [hsel]
      simp only [WorkingSetPager.finish, Bool.false_eq_true, if_false, hlen, if_pos hvl]
    · rintro ⟨i, hi, hgt⟩
      obtain ⟨j, hj, rfl⟩ := ring_surj hh hi
      have := hnone j hj
      omega
    · intro _
      refine ⟨?_, hfirst, by rw [ht], ?_, ?_⟩
      · intro i hi
        obtain ⟨j, hj, rfl⟩ := ring_surj hh hi
        exact hmax j hj
      · intro i hi
        obtain ⟨j, hj, hji⟩ := ring_surj hh hi
        have hin : i ∈ ringList s.hand s.frame_table.length s.frame_table.length :=
          mem_ringList.mpr ⟨j, hj, hji⟩
        show refAt t i = false
        rw [ht, refAt_eq_tenant, hP1 _ (le_refl _), if_pos hin]
        cases tenantOf s i <;> rfl
      · intro href
        by_contra hd0
        have h0 := hfirst 0 (by omega)
        rw [tempAge_of_refAt (href _ (Nat.mod_lt _ (by omega))),
          tempAge_of_refAt (href _ hvl)] at h0
        omega

/-- C19, witness: three frames last used at 90, 20, 10 with `inst_count = 100`,
the tenant of frame 0 referenced, the hand at frame 0. -/
theorem C19_working_set_witness :
    ∃ (d : Nat) (s' : State) (early : Bool) (t : State), d < stateC19w.frame_table.length ∧
      WorkingSetPager.select_victim_frame stateC19w
        = some ((stateC19w.hand + d) % stateC19w.frame_table.length, s') ∧
      s'.hand = ((stateC19w.hand + d) % stateC19w.frame_table.length + 1)
        % stateC19w.frame_table.length ∧
      WorkingSetPager.loop stateC19w.frame_table.length 0 none (-1) stateC19w
        = some (early, some ((stateC19w.hand + d) % stateC19w.frame_table.length), t) ∧
      ((∃ i, i < stateC19w.frame_table.length ∧ 49 < tempAge stateC19w i) →
        49 < tempAge stateC19w ((stateC19w.hand + d) % stateC19w.frame_table.length) ∧
        (∀ j, j < d →
          tempAge stateC19w ((stateC19w.hand + j) % stateC19w.frame_table.length) ≤ 49) ∧
        s' = { wsList stateC19w (ringList stateC19w.hand stateC19w.frame_table.length d) with
               hand := ((stateC19w.hand + d) % stateC19w.frame_table.length + 1)
                 % stateC19w.frame_table.length }) ∧
      ((∀ i, i < stateC19w.frame_table.length → tempAge stateC19w i ≤ 49) →
        (∀ i, i < stateC19w.frame_table.length → tempAge stateC19w i
          ≤ tempAge stateC19w ((stateC19w.hand + d) % stateC19w.frame_table.length)) ∧
        (∀ j, j < d →
          tempAge stateC19w ((stateC19w.hand + j) % stateC19w.frame_table.length)
            < tempAge stateC19w ((stateC19w.hand + d) % stateC19w.frame_table.length)) ∧
        s' = { wsList stateC19w (ringList stateC19w.hand stateC19w.frame_table.length
                 stateC19w.frame_table.length) with
               hand := ((stateC19w.hand + d) % stateC19w.frame_table.length + 1)
                 % stateC19w.frame_table.length } ∧
        (∀ i, i < stateC19w.frame_table.length → refAt s' i = false) ∧
        ((∀ i, i < stateC19w.frame_table.length → refAt stateC19w i = true) → d = 0)) ∧
      (∀ m, m ≤ stateC19w.frame_table.length → ∀ i,
        tenantOf (wsList stateC19w (ringList stateC19w.hand stateC19w.frame_table.length m)) i =
          if i ∈ ringList stateC19w.hand stateC19w.frame_table.length m
          then (tenantOf stateC19w i).map clearRef else tenantOf stateC19w i) ∧
      (∀ m, m ≤ stateC19w.frame_table.length → ∀ i,
        (wsList stateC19w
            (ringList stateC19w.hand stateC19w.frame_table.length m)).frame_table[i]? =
          (stateC19w.frame_table[i]?).map (fun f =>
            if i ∈ ringList stateC19w.hand stateC19w.frame_table.length m
              ∧ refAt stateC19w i = true
            then { f with age_ := stateC19w.inst_count % 4294967296 } else f)) :=
  C19_working_set stateC19w (by decide) (Tenants_of_check (by decide))
    (DistinctTenants_of_nodup (by decide)) (by decide) (by decide)

/-- C19 as stated fails once `inst_count` is `2^31` or more past a time of last
use.  In `stateC19` the conditions of the claim hold and the frame at the hand
has `temp_age = 2147483653 > 49`, so it is the first frame over TAU in ring
order, but the policy returns frame 1: as an `int` the age of frame 0 is
negative.  In `stateC19b`, with one frame, the loop ends with `victim` still
null, so the branch that falls back to the frame at the hand is taken. -/
theorem C19_counterexample :
    (1 ≤ stateC19.frame_table.length ∧ Tenants stateC19 ∧ DistinctTenants stateC19 ∧
      stateC19.hand < stateC19.frame_table.length ∧
      (∀ f ∈ stateC19.frame_table, f.age_ ≤ stateC19.inst_count) ∧
      49 < tempAge stateC19 stateC19.hand ∧
      (WorkingSetPager.select_victim_frame stateC19).map (fun r => r.1) = some 1) ∧
    (1 ≤ stateC19b.frame_table.length ∧ Tenants stateC19b ∧ DistinctTenants stateC19b ∧
      stateC19b.hand < stateC19b.frame_table.length ∧
      (∀ f ∈ stateC19b.frame_table, f.age_ ≤ stateC19b.inst_count) ∧
      (WorkingSetPager.loop stateC19b.frame_table.length 0 none (-1) stateC19b).map
        (fun r => (r.1, r.2.1)) = some (false, none)) :=
  ⟨⟨by decide, Tenants_of_check (by decide), DistinctTenants_of_nodup (by decide), by decide,
      by decide, by decide, by decide⟩,
    ⟨by decide, Tenants_of_check (by decide), DistinctTenants_of_nodup (by decide), by decide,
      by decide, by decide⟩⟩

/-! ## The fault accounting identity -/

/-- C26: for every well-formed run, under any policy and after every instruction
(every prefix `trace.take k`), in the state the run has reached every process
has `ins + fins + zeros = maps`, and `maps - unmaps` is the number of its page
table entries with `present = 1`.  That state exists whenever the random file
suits the Random policy (no condition under the other five policies). -/
theorem C26_fault_accounting (cfg : Config) (trace : List Instr) (k : Nat)
    (hcfg : WFConfig cfg) (htr : WFTrace cfg.procs.length trace) :
    (WFRandom cfg → ∃ s, run cfg (trace.take k) = some s) ∧
    ∀ s, run cfg (trace.take k) = some s →
      ∀ (p : Nat) (P : Process), s.processes[p]? = some P →
        P.stats.ins + P.stats.fins + P.stats.zeros = P.stats.maps ∧
          P.stats.maps - P.stats.unmaps = P.page_table.countP (fun e => e.present) := by
  refine ⟨run_defined hcfg (WFTrace_take k htr), ?_⟩
  intro s hs p P hP
  obtain ⟨_, _, h3, h4, _⟩ := (run_returned hcfg (WFTrace_take k htr) hs).procs p P hP
  exact ⟨h4, by omega⟩

theorem WFTrace_traceC26 : WFTrace 1 traceC26 := by
  simp [WFTrace, WFInstr, traceC26]

/-- C26, witness: two frames, Aging, the trace `c 0 / w 0 / r 1 / w 2 / r 0`, after
all five instructions. -/
theorem C26_fault_accounting_witness :
    WFConfig cfgC26w ∧ WFTrace cfgC26w.procs.length traceC26 ∧
      (WFRandom cfgC26w → ∃ s, run cfgC26w (traceC26.take 5) = some s) ∧
      ∀ s, run cfgC26w (traceC26.take 5) = some s →
        ∀ (p : Nat) (P : Process), s.processes[p]? = some P →
          P.stats.ins + P.stats.fins + P.stats.zeros = P.stats.maps ∧
            P.stats.maps - P.stats.unmaps = P.page_table.countP (fun e => e.present) :=
  ⟨by simp [WFConfig, WFVMAs, cfgC26w], WFTrace_traceC26,
    C26_fault_accounting cfgC26w traceC26 5 (by simp [WFConfig, WFVMAs, cfgC26w])
      WFTrace_traceC26⟩

/-! ## Dirty flags and modified bits -/

/-- A well-formed piece of trace keeps the invariant and never marks a
write-protected entry as paged out. -/
theorem simulate_wp : ∀ (trace : List Instr) (s : State), InvH none s → WPClean s →
    (s.currentProcess.isSome = true ∨ ∀ i, trace.head? = some i →
      i.command = 'c' ∧ 0 ≤ i.operand ∧ i.operand < s.processes.length) →
    (RandFile s ∨ ∃ r, simulate s trace = some r) →
    ∃ s', simulate s trace = some s' ∧ InvH none s' ∧ WPClean s' := by
  intro trace
  induction trace with
  | nil => intro s hI hJ _ _; exact ⟨s, rfl, hI, hJ⟩
  | cons i rest ih =>
    intro s hI hJ hcur hdef
    have hc : s.currentProcess.isSome = true ∨ (i.command ≠ 'r' ∧ i.command ≠ 'w') := by
      rcases hcur with h | h
      · exact Or.inl h
      · right
        rw [(h i rfl).1]
        exact ⟨by decide, by decide⟩
    have hdef1 : RandFile s ∨ ∃ r, step s i.command i.operand = some r := by
      rcases hdef with h | ⟨r, h⟩
      · exact Or.inl h
      · right
        simp only [simulate, Option.bind_eq_bind] at h
        obtain ⟨a, ha, _⟩ := Option.bind_eq_some.mp h
        exact ⟨a, ha⟩
    obtain ⟨s1, h1, h2, h3, h4, h5, h6, _, hw⟩ := step_spec i.command i.operand hI hc hdef1
    have hcur1 : s1.currentProcess.isSome = true := by
      rcases hcur with h | h
      · exact h3 h
      · obtain ⟨a, b, c⟩ := h i rfl
        exact h4 a b c
    have hsim : simulate s (i :: rest) = simulate s1 rest := by
      simp only [simulate, h1, Option.bind_eq_bind, Option.some_bind]
    have hdef2 : RandFile s1 ∨ ∃ r, simulate s1 rest = some r := by
      rcases hdef with h | ⟨r, h⟩
      · exact Or.inl (RandFile_of_eq h5 h6 h)
      · exact Or.inr ⟨r, hsim ▸ h⟩
    obtain ⟨s', h7, h8, h9⟩ := ih s1 h2 (hw hJ) (Or.inl hcur1) hdef2
    exact ⟨s', hsim.trans h7, h8, h9⟩

/-- A well-formed run ends in a state that satisfies the invariant and in which no
write-protected entry is marked as paged out. -/
theorem run_wp {cfg : Config} {trace : List Instr} (hcfg : WFConfig cfg)
    (htr : WFTrace cfg.procs.length trace)
    (hdef : WFRandom cfg ∨ ∃ r, run cfg trace = some r) :
    ∃ s, run cfg trace = some s ∧ InvH none s ∧ WPClean s := by
  obtain ⟨s0, h1, h2, _, h4, ha, _, hrv, hbl⟩ := init_spec hcfg
  have hrun : run cfg trace = simulate s0 trace := by
    simp only [run, h1, Option.bind_eq_bind, Option.some_bind]
  have hJ0 : WPClean s0 := by
    intro p v e he _
    obtain ⟨P, hP, hPe⟩ := pte?_some_iff.mp he
    exact (hbl p P hP e (List.getElem?_mem hPe)).2.2.2
  have hdef1 : RandFile s0 ∨ ∃ r, simulate s0 trace = some r := by
    rcases hdef with h | ⟨r, h⟩
    · left
      unfold RandFile
      rw [ha, hrv]
      exact h
    · exact Or.inr ⟨r, hrun ▸ h⟩
  obtain ⟨s, h5, h6, h7⟩ := simulate_wp trace s0 h2 hJ0 (by
    right
    intro i hi
    have hci := htr.2 i hi
    have hmem : i ∈ trace := by
      cases trace with
      | nil => simp at hi
      | cons a rest =>
        simp only [List.head?_cons, Option.some.injEq] at hi
        simp [hi]
    rcases htr.1 i hmem with ⟨_, a, b⟩ | ⟨hrw, _⟩
    · exact ⟨hci, a, by rw [h4]; exact b⟩
    · rw [hci] at hrw
      rcases hrw with h | h <;> exact absurd h (by decide)) hdef1
  exact ⟨s, hrun.trans h5, h6, h7⟩

theorem DirtyAgreement_of_Inv {s : State} (hI : InvH none s) (hJ : WPClean s) :
    DirtyAgreement s := by
  refine ⟨?_, ?_, ?_, ?_⟩
  · intro i f hf hocc
    obtain ⟨⟨p, v, e, a1, a2, a3, _, _, a6⟩, _⟩ := owned_of_occupied hI hf hocc
    exact ⟨p, v, e, a1, a2, a3, a6.symm⟩
  · intro i f hf hfree
    rcases hI.frames i f hf with ⟨⟨_, _, h⟩, _⟩ | ⟨⟨p, _, _, h, _⟩, _⟩
    · exact h
    · rw [h] at hfree
      exact absurd hfree (natCast_ne_neg_one p)
  · intro p v e he hnp
    exact ((hI.clean p v e he).1 hnp).1
  · intro p v e he hwp
    exact ⟨(hI.clean p v e he).2 hwp, hJ p v e he hwp⟩

/-- C27: for every well-formed run, under any policy and after every instruction
(every prefix `trace.take k`), in the state the run has reached every occupied
frame's dirty flag equals the modified bit of its tenant entry, every free frame
has `dirty = false`, every entry that is not present has `modified = 0`, and no
entry with `write_protect = 1` has `modified = 1` or `paged_out = 1`.  That state
exists whenever the random file suits the Random policy (no condition under the
other five policies). -/
theorem C27_dirty_modified (cfg : Config) (trace : List Instr) (k : Nat)
    (hcfg : WFConfig cfg) (htr : WFTrace cfg.procs.length trace) :
    (WFRandom cfg → ∃ s, run cfg (trace.take k) = some s) ∧
    ∀ s, run cfg (trace.take k) = some s → DirtyAgreement s := by
  refine ⟨run_defined hcfg (WFTrace_take k htr), ?_⟩
  intro s hs
  obtain ⟨s', h1, h2, h3⟩ := run_wp hcfg (WFTrace_take k htr) (Or.inr ⟨s, hs⟩)
  rw [h1] at hs
  cases hs
  exact DirtyAgreement_of_Inv h2 h3

theorem WFTrace_traceC27 : WFTrace 1 traceC27 := by
  simp [WFTrace, WFInstr, traceC27]

/-- C27, witness: two frames, Clock, a write-protected VMA `0 1` and a writable
VMA `2 3`, the trace `c 0 / w 0 / w 2 / w 3 / r 0`, after all five
instructions. -/
theorem C27_dirty_modified_witness :
    WFConfig cfgC27w ∧ WFTrace cfgC27w.procs.length traceC27 ∧
      (WFRandom cfgC27w → ∃ s, run cfgC27w (traceC27.take 5) = some s) ∧
      ∀ s, run cfgC27w (traceC27.take 5) = some s → DirtyAgreement s :=
  ⟨by simp [WFConfig, WFVMAs, cfgC27w, VMA.disjoint], WFTrace_traceC27,
    C27_dirty_modified cfgC27w traceC27 5
      (by simp [WFConfig, WFVMAs, cfgC27w, VMA.disjoint]) WFTrace_traceC27⟩

/-! ## The order of the events of an access -/

theorem WFTrace_traceC21 (k : Nat) : WFTrace 1 (traceC21.take k) := by
  apply WFTrace_take
  simp [WFTrace, WFInstr, traceC21]

/-- C21 (amended): let `s` be a reachable state whose random table suits the
Random policy, `cp` its current process and `vp` a page that a VMA of `cp`
covers.  The access `r vp` or `w vp` returns; with event tracing on it prints
its echo and then the lists `U`, `F`, `S` in this order, without tracing it
prints nothing.  `U` is empty, or one `UNMAP`, or one `UNMAP` followed by one
of `OUT` and `FOUT`; `F` is one of `IN`, `FIN`, `ZERO` followed by one `MAP` when
the page was not present; when the page was present `U` and `F` are empty; `S`
is one `SEGPROT` for a `w` to a write-protected page and empty otherwise. -/
theorem C21_event_order (s : State) (c : Char) (cp vp : Nat) (P : Process) (vma : VMA)
    (e : pte_t) (hR : Reachable s) (hrf : RandFile s) (hc : c = 'r' ∨ c = 'w')
    (hcur : s.currentProcess = some cp) (hP : s.processes[cp]? = some P)
    (hvma : vma ∈ P.vmas) (hcov : vma.covers (vp : Int) = true)
    (he : P.page_table[vp]? = some e) :
    ∃ (s' : State) (U F S : List Event), step s c (vp : Int) = some s' ∧
      (s.o_flag = true →
        s'.output = s.output ++ [Event.instr s.inst_count c (vp : Int)] ++ U ++ F ++ S) ∧
      (s.o_flag = false → s'.output = s.output) ∧
      EvictShape U ∧
      (e.present = false → ∃ (ev : Event) (fi : Nat),
        (ev = Event.IN ∨ ev = Event.FIN ∨ ev = Event.ZERO) ∧ F = [ev, Event.MAP fi]) ∧
      (e.present = true → U = [] ∧ F = []) ∧
      S = (if c = 'w' ∧ e.write_protect = true then [Event.SEGPROT] else []) := by
  have hI := (Reachable_inv hR).1
  have hI1 : InvH none (countAccess (emit s (Event.instr s.inst_count c (vp : Int)))) :=
    InvH_of_eq hI rfl rfl rfl rfl rfl rfl rfl hI.cur
  have hP1 : (countAccess (emit s (Event.instr s.inst_count c (vp : Int)))).processes[cp]?
      = some P := hP
  have hpte1 : (countAccess (emit s (Event.instr s.inst_count c (vp : Int)))).pte? cp vp
      = some e := pte?_some_iff.mpr ⟨P, hP1, he⟩
  have hof1 : (countAccess (emit s (Event.instr s.inst_count c (vp : Int)))).o_flag
      = s.o_flag := rfl
  have ho1 : (countAccess (emit s (Event.instr s.inst_count c (vp : Int)))).output
      = if s.o_flag then s.output ++ [Event.instr s.inst_count c (vp : Int)] else s.output :=
    rfl
  rw [step_access hc hcur hP hvma hcov]
  by_cases hp : e.present = true
  · obtain ⟨s', h1, _, _, _, _, _, _, hout⟩ := touch_spec c hI1 hpte1 hp
    refine ⟨s', [], [], _, ?_, ?_, ?_, Or.inl rfl, ?_, fun _ => ⟨rfl, rfl⟩, rfl⟩
    · simp only [access, idx?_natCast, hpte1, Option.bind_eq_bind, Option.some_bind, hp,
        Bool.not_true, Bool.false_eq_true, if_false, Option.pure_def]
      exact h1
    · intro ho
      rw [hout, ho1, hof1, ho]
      simp
    · intro ho
      rw [hout, ho1, hof1, ho]
      simp
    · intro h
      rw [hp] at h
      cases h
  · have hnp : e.present = false := by simpa using hp
    obtain ⟨fi, s2, s3, s', P3, e3, f3, _, h2, _, _, _, hP3, he3, hec, _, _, _, _, _, _, _, _, _,
      _, _, hpr, _, hI', _, _, hofl, hout', _, _, ev, hev, hshape, hevn⟩ :=
      handle_page_fault_spec hI1 hP1 he hnp (Or.inl (RandFile_of_eq rfl rfl hrf))
    have hpte3 : s3.pte? cp vp = some e3 := pte?_some_iff.mpr ⟨P3, hP3, he3⟩
    have hpte' : s'.pte? cp vp = some (mapPte fi e3) := by
      rw [pte?_of_processes hpr, hpte3]
      simp
    obtain ⟨t, h4, _, _, _, _, _, _, hout⟩ := touch_spec c hI' hpte' rfl
    have hwp : (mapPte fi e3).write_protect = e.write_protect := by
      have := congrArg pte_t.write_protect hec
      exact this
    refine ⟨t, ev, [pageInEvent e3.file_mapped e3.paged_out, Event.MAP fi], _, ?_, ?_, ?_,
      hshape, fun _ => ⟨_, fi, pageInEvent_cases _ _, rfl⟩, fun h => absurd h hp, rfl⟩
    · simp only [access, idx?_natCast, hpte1, Option.bind_eq_bind, Option.some_bind, hnp,
        Bool.not_false, if_true, h2]
      exact h4
    · intro ho
      rw [hout, hout', hev, ho1, hof1, hofl, hof1, hwp, ho]
      simp
    · intro ho
      rw [hout, hout', hev, ho1, hof1, hofl, hof1, ho, hevn ho]
      simp

/-- C21, witness: one frame, FIFO, tracing on; after `c 0 / w 0` the access `w 1`
evicts the dirty page 0 and prints `UNMAP 0:0`, `OUT`, `ZERO`, `MAP 0`. -/
theorem C21_event_order_witness :
    ∃ (s : State) (P : Process) (e : pte_t) (vma : VMA),
      run cfgC21w (traceC21.take 2) = some s ∧ s.processes[0]? = some P ∧
      P.page_table[1]? = some e ∧ P.vmas = [vma] ∧
      ∃ (s' : State) (U F S : List Event), step s 'w' ((1 : Nat) : Int) = some s' ∧
        (s.o_flag = true →
          s'.output = s.output ++ [Event.instr s.inst_count 'w' ((1 : Nat) : Int)]
            ++ U ++ F ++ S) ∧
        (s.o_flag = false → s'.output = s.output) ∧
        EvictShape U ∧
        (e.present = false → ∃ (ev : Event) (fi : Nat),
          (ev = Event.IN ∨ ev = Event.FIN ∨ ev = Event.ZERO) ∧ F = [ev, Event.MAP fi]) ∧
        (e.present = true → U = [] ∧ F = []) ∧
        S = (if 'w' = 'w' ∧ e.write_protect = true then [Event.SEGPROT] else []) :=
  ⟨_, _, _, _, rfl, rfl, rfl, rfl,
    C21_event_order _ 'w' 0 1 _ _ _
      ⟨cfgC21w, traceC21.take 2, by simp [WFConfig, WFVMAs, cfgC21w], WFTrace_traceC21 2, rfl⟩
      (fun h => absurd h (by decide)) (Or.inr rfl) rfl rfl (List.mem_cons_self _ _) rfl rfl⟩

/-- C21 as stated fails: under Random with an empty random file the access `w 1`
after `c 0 / w 0` (one frame, page 1 covered by the VMA and not present) needs a
victim and reads `randvals[0]`: the step has no result, so there is no list of
events. -/
theorem C21_counterexample :
    ∃ (s : State) (P : Process) (e : pte_t) (vma : VMA), Reachable s ∧
      s.currentProcess = some 0 ∧ s.processes[0]? = some P ∧ vma ∈ P.vmas ∧
      vma.covers 1 = true ∧ P.page_table[1]? = some e ∧ e.present = false ∧
      step s 'w' 1 = none :=
  ⟨_, _, _, _, ⟨cfgC21, traceC21.take 2, by simp [WFConfig, WFVMAs, cfgC21, cfgC21w],
    WFTrace_traceC21 2, rfl⟩, rfl, rfl, List.mem_cons_self _ _, rfl, rfl, rfl, rfl⟩

/-! ## The random cursor -/

theorem cursor_out {s s' : State} {fi p : Nat} (h : out s fi p = some s') :
    s'.ofs = s.ofs ∧ s'.algo = s.algo := by
  unfold out at h
  simp only [Option.bind_eq_bind, Option.pure_def] at h
  obtain ⟨frame, _, h⟩ := Option.bind_eq_some.mp h
  split at h
  · obtain ⟨v, _, h⟩ := Option.bind_eq_some.mp h
    obtain ⟨pte, _, h⟩ := Option.bind_eq_some.mp h
    cases h
    split <;> exact ⟨rfl, rfl⟩
  · cases h
    exact ⟨rfl, rfl⟩

theorem cursor_unmap {s s' : State} {fi p : Nat} (h : unmap s fi p = some s') :
    s'.ofs = s.ofs ∧ s'.algo = s.algo := by
  unfold unmap at h
  simp only [Option.bind_eq_bind, Option.pure_def] at h
  obtain ⟨frame, _, h⟩ := Option.bind_eq_some.mp h
  split at h
  · obtain ⟨P, _, h⟩ := Option.bind_eq_some.mp h
    obtain ⟨v, _, h⟩ := Option.bind_eq_some.mp h
    obtain ⟨_, _, h⟩ := Option.bind_eq_some.mp h
    split at h
    · obtain ⟨s3, h3, h⟩ := Option.bind_eq_some.mp h
      cases h
      have a := cursor_out h3
      exact a
    · cases h
      exact ⟨rfl, rfl⟩
  · cases h
    exact ⟨rfl, rfl⟩

theorem cursor_unmap2 {s s' : State} {fi p : Nat} (h : unmap2 s fi p = some s') :
    s'.ofs = s.ofs ∧ s'.algo = s.algo := by
  unfold unmap2 at h
  simp only [Option.bind_eq_bind, Option.pure_def] at h
  obtain ⟨frame, _, h⟩ := Option.bind_eq_some.mp h
  split at h
  · obtain ⟨P, _, h⟩ := Option.bind_eq_some.mp h
    obtain ⟨v, _, h⟩ := Option.bind_eq_some.mp h
    obtain ⟨pte, _, h⟩ := Option.bind_eq_some.mp h
    cases h
    split
    · split <;> exact ⟨rfl, rfl⟩
    · exact ⟨rfl, rfl⟩
  · cases h
    exact ⟨rfl, rfl⟩

theorem cursor_map {s s' : State} {fi p : Nat} {vpage : Int} (h : map s fi vpage p = some s') :
    s'.ofs = s.ofs ∧ s'.algo = s.algo := by
  unfold map at h
  simp only [Option.bind_eq_bind, Option.pure_def] at h
  obtain ⟨P, _, h⟩ := Option.bind_eq_some.mp h
  obtain ⟨v, _, h⟩ := Option.bind_eq_some.mp h
  obtain ⟨_, _, h⟩ := Option.bind_eq_some.mp h
  obtain ⟨_, _, h⟩ := Option.bind_eq_some.mp h
  cases h
  exact ⟨rfl, rfl⟩

theorem cursor_FIFO {s : State} {r : Nat × State} (h : FIFOPager.select_victim_frame s = some r) :
    r.2.ofs = s.ofs ∧ r.2.algo = s.algo := by
  unfold FIFOPager.select_victim_frame at h
  split at h
  · cases h
    exact ⟨rfl, rfl⟩
  · cases h

theorem cursor_Clock_scan : ∀ (fuel : Nat) (s : State) (r : Nat × State),
    ClockPager.scan fuel s = some r → r.2.ofs = s.ofs ∧ r.2.algo = s.algo := by
  intro fuel
  induction fuel with
  | zero =>
    intro s r h
    cases h
  | succ fuel ih =>
    intro s r h
    unfold ClockPager.scan at h
    simp only [Option.bind_eq_bind, Option.pure_def] at h
    obtain ⟨candidate, _, h⟩ := Option.bind_eq_some.mp h
    obtain ⟨p, _, h⟩ := Option.bind_eq_some.mp h
    obtain ⟨v, _, h⟩ := Option.bind_eq_some.mp h
    obtain ⟨pte, _, h⟩ := Option.bind_eq_some.mp h
    split at h
    · cases h
      exact ⟨rfl, rfl⟩
    · have a := ih _ _ h
      exact a

theorem cursor_Clock {s : State} {r : Nat × State}
    (h : ClockPager.select_victim_frame s = some r) : r.2.ofs = s.ofs ∧ r.2.algo = s.algo := by
  unfold ClockPager.select_victim_frame at h
  have := cursor_Clock_scan _ _ _ h
  split at this <;> exact this

theorem cursor_ageOne {s s' : State} {i : Nat} (h : AgingPager.ageOne s i = some s') :
    s'.ofs = s.ofs ∧ s'.algo = s.algo := by
  unfold AgingPager.ageOne at h
  simp only [Option.bind_eq_bind, Option.pure_def] at h
  obtain ⟨frame, _, h⟩ := Option.bind_eq_some.mp h
  split at h
  · obtain ⟨p, _, h⟩ := Option.bind_eq_some.mp h
    obtain ⟨v, _, h⟩ := Option.bind_eq_some.mp h
    obtain ⟨pte, _, h⟩ := Option.bind_eq_some.mp h
    split at h <;> cases h <;> exact ⟨rfl, rfl⟩
  · cases h
    exact ⟨rfl, rfl⟩

theorem cursor_ageFrom : ∀ (k i : Nat) (s s' : State),
    AgingPager.ageFrom k i s = some s' → s'.ofs = s.ofs ∧ s'.algo = s.algo := by
  intro k
  induction k with
  | zero =>
    intro i s s' h
    cases h
    exact ⟨rfl, rfl⟩
  | succ k ih =>
    intro i s s' h
    unfold AgingPager.ageFrom at h
    obtain ⟨s1, h1, h⟩ := Option.bind_eq_some.mp h
    have a := cursor_ageOne h1
    have b := ih _ _ _ h
    exact ⟨b.1.trans a.1, b.2.trans a.2⟩

theorem cursor_Aging {s : State} {r : Nat × State}
    (h : AgingPager.select_victim_frame s = some r) : r.2.ofs = s.ofs ∧ r.2.algo = s.algo := by
  unfold AgingPager.select_victim_frame at h
  simp only [Option.bind_eq_bind, Option.pure_def] at h
  obtain ⟨s1, h1, h⟩ := Option.bind_eq_some.mp h
  obtain ⟨victim, _, h⟩ := Option.bind_eq_some.mp h
  obtain ⟨_, _, h⟩ := Option.bind_eq_some.mp h
  cases h
  have a := cursor_ageFrom _ _ _ _ h1
  exact a

theorem cursor_WorkingSet_scan : ∀ (k i : Nat) (victim : Option Nat) (minAge : Int)
    (s : State) (r : Nat × State),
    WorkingSetPager.scan k i victim minAge s = some r → r.2.ofs = s.ofs ∧ r.2.algo = s.algo := by
  intro k
  induction k with
  | zero =>
    intro i victim minAge s r h
    unfold WorkingSetPager.scan at h
    simp only at h
    split at h
    · cases h
      exact ⟨rfl, rfl⟩
    · cases h
  | succ k ih =>
    intro i victim minAge s r h
    unfold WorkingSetPager.scan at h
    simp only [Option.bind_eq_bind, Option.pure_def] at h
    obtain ⟨frame, _, h⟩ := Option.bind_eq_some.mp h
    obtain ⟨p, _, h⟩ := Option.bind_eq_some.mp h
    obtain ⟨v, _, h⟩ := Option.bind_eq_some.mp h
    obtain ⟨pte, _, h⟩ := Option.bind_eq_some.mp h
    obtain ⟨frame1, _, h⟩ := Option.bind_eq_some.mp h
    have key : (if pte.referenced = true then
        (s.modPte p v (fun e => { e with referenced := false })).modFrame
          ((s.hand + i) % s.frame_table.length)
          (fun f => { f with age_ := s.inst_count % 4294967296 })
        else s).ofs = s.ofs ∧ (if pte.referenced = true then
        (s.modPte p v (fun e => { e with referenced := false })).modFrame
          ((s.hand + i) % s.frame_table.length)
          (fun f => { f with age_ := s.inst_count % 4294967296 })
        else s).algo = s.algo := by
      split <;> exact ⟨rfl, rfl⟩
    split at h
    · cases h
      exact key
    · split at h
      · have b := ih _ _ _ _ _ h
        exact ⟨b.1.trans key.1, b.2.trans key.2⟩
      · have b := ih _ _ _ _ _ h
        exact ⟨b.1.trans key.1, b.2.trans key.2⟩

theorem cursor_WorkingSet {s : State} {r : Nat × State}
    (h : WorkingSetPager.select_victim_frame s = some r) :
    r.2.ofs = s.ofs ∧ r.2.algo = s.algo :=
  cursor_WorkingSet_scan _ _ _ _ _ _ h

theorem cursor_NRU_scan (reset : Bool) : ∀ (k i : Nat) (c : NRUClasses) (s : State)
    (r : NRUClasses × State),
    NRUPager.scan reset k i c s = some r → r.2.ofs = s.ofs ∧ r.2.algo = s.algo := by
  intro k
  induction k with
  | zero =>
    intro i c s r h
    cases h
    exact ⟨rfl, rfl⟩
  | succ k ih =>
    intro i c s r h
    unfold NRUPager.scan at h
    simp only [Option.bind_eq_bind, Option.pure_def] at h
    obtain ⟨frame, _, h⟩ := Option.bind_eq_some.mp h
    obtain ⟨p, _, h⟩ := Option.bind_eq_some.mp h
    obtain ⟨v, _, h⟩ := Option.bind_eq_some.mp h
    obtain ⟨pte, _, h⟩ := Option.bind_eq_some.mp h
    have key : (if reset = true then s.modPte p v (fun e => { e with referenced := false })
        else s).ofs = s.ofs ∧
        (if reset = true then s.modPte p v (fun e => { e with referenced := false })
        else s).algo = s.algo := by
      split <;> exact ⟨rfl, rfl⟩
    split at h
    · cases h
      exact key
    · have b := ih _ _ _ _ h
      exact ⟨b.1.trans key.1, b.2.trans key.2⟩

theorem cursor_NRU {s : State} {r : Nat × State}
    (h : NRUPager.select_victim_frame s = some r) : r.2.ofs = s.ofs ∧ r.2.algo = s.algo := by
  unfold NRUPager.select_victim_frame at h
  simp only [Option.bind_eq_bind, Option.pure_def] at h
  obtain ⟨⟨c, s1⟩, h1, h⟩ := Option.bind_eq_some.mp h
  obtain ⟨victim, _, h⟩ := Option.bind_eq_some.mp h
  obtain ⟨_, _, h⟩ := Option.bind_eq_some.mp h
  have a := cursor_NRU_scan _ _ _ _ _ _ h1
  have key : (if decide (subU64 s.inst_count s.lastReset ≥ 48) = true then
      { s with lastReset := s.inst_count } else s).ofs = s.ofs ∧
      (if decide (subU64 s.inst_count s.lastReset ≥ 48) = true then
      { s with lastReset := s.inst_count } else s).algo = s.algo := by
    split <;> exact ⟨rfl, rfl⟩
  split at h
  · cases h
  · cases h
    exact ⟨a.1.trans key.1, a.2.trans key.2⟩

/-- The virtual call of a policy other than Random leaves the random cursor
alone. -/
theorem cursor_select_victim {s : State} {r : Nat × State} (ha : s.algo ≠ Algo.random)
    (h : select_victim_frame s = some r) : r.2.ofs = s.ofs ∧ r.2.algo = s.algo := by
  unfold select_victim_frame at h
  split at h
  · exact cursor_FIFO h
  · rename_i hal
    exact absurd hal ha
  · exact cursor_Clock h
  · exact cursor_NRU h
  · exact cursor_Aging h
  · exact cursor_WorkingSet h

theorem cursor_get_frame {s : State} {r : Nat × State} (ha : s.algo ≠ Algo.random)
    (h : get_frame s = some r) : r.2.ofs = s.ofs ∧ r.2.algo = s.algo := by
  unfold get_frame at h
  split at h
  · cases h
    exact ⟨rfl, rfl⟩
  · exact cursor_select_victim ha h

theorem cursor_faultEntry (s : State) (cp : Nat) (vpage : Int) (vp : Nat) (P : Process) :
    (faultEntry s cp vpage vp P).ofs = s.ofs ∧ (faultEntry s cp vpage vp P).algo = s.algo := by
  unfold faultEntry
  split <;> exact ⟨rfl, rfl⟩

theorem cursor_fault_tail {y s' : State} {fi cp vp : Nat} {vpage : Int}
    (h : ((y.pte? cp vp).bind fun pte =>
      (map (if pte.file_mapped = true then fin y fi cp
            else if pte.paged_out = true then pageIn y fi cp else zero y fi cp)
          fi vpage cp).bind fun s5 =>
        some (s5.modPte cp vp fun e => { e with present := true, frame_number := fi % 128 }))
      = some s') : s'.ofs = y.ofs ∧ s'.algo = y.algo := by
  obtain ⟨pte, _, h⟩ := Option.bind_eq_some.mp h
  obtain ⟨s5, h5, h⟩ := Option.bind_eq_some.mp h
  cases h
  have a5 := cursor_map h5
  have a4 : (if pte.file_mapped = true then fin y fi cp
      else if pte.paged_out = true then pageIn y fi cp else zero y fi cp).ofs = y.ofs ∧
      (if pte.file_mapped = true then fin y fi cp
      else if pte.paged_out = true then pageIn y fi cp else zero y fi cp).algo = y.algo := by
    split
    · exact ⟨rfl, rfl⟩
    · split <;> exact ⟨rfl, rfl⟩
  exact ⟨a5.1.trans a4.1, a5.2.trans a4.2⟩

theorem cursor_handle_page_fault {s s' : State} {cp : Nat} {vpage : Int}
    (ha : s.algo ≠ Algo.random) (h : handle_page_fault s cp vpage = some s') :
    s'.ofs = s.ofs ∧ s'.algo = s.algo := by
  unfold handle_page_fault at h
  simp only [Option.bind_eq_bind, Option.pure_def] at h
  obtain ⟨P, _, h⟩ := Option.bind_eq_some.mp h
  obtain ⟨vp, _, h⟩ := Option.bind_eq_some.mp h
  obtain ⟨_, _, h⟩ := Option.bind_eq_some.mp h
  obtain ⟨⟨fi, s2⟩, h2, h⟩ := Option.bind_eq_some.mp h
  obtain ⟨frame, _, h⟩ := Option.bind_eq_some.mp h
  have a0 := cursor_faultEntry s cp vpage vp P
  have a2 := cursor_get_frame (by rw [a0.2]; exact ha) h2
  split at h
  · obtain ⟨owner, _, h⟩ := Option.bind_eq_some.mp h
    obtain ⟨_, _, h⟩ := Option.bind_eq_some.mp h
    obtain ⟨u, hu, h⟩ := Option.bind_eq_some.mp h
    obtain ⟨y, hy, h⟩ := Option.bind_eq_some.mp h
    have b := cursor_unmap hu
    have c := cursor_out hy
    have d := cursor_fault_tail h
    exact ⟨d.1.trans (c.1.trans (b.1.trans (a2.1.trans a0.1))),
      d.2.trans (c.2.trans (b.2.trans (a2.2.trans a0.2)))⟩
  · simp only [Option.some_bind] at h
    have d := cursor_fault_tail h
    exact ⟨d.1.trans (a2.1.trans a0.1), d.2.trans (a2.2.trans a0.2)⟩

theorem cursor_exit_loop (p : Nat) : ∀ (k v : Nat) (s s' : State),
    process_exit.loop p k v s = some s' → s'.ofs = s.ofs ∧ s'.algo = s.algo := by
  intro k
  induction k with
  | zero =>
    intro v s s' h
    cases h
    exact ⟨rfl, rfl⟩
  | succ k ih =>
    intro v s s' h
    unfold process_exit.loop at h
    simp only [Option.bind_eq_bind, Option.pure_def] at h
    obtain ⟨pte, _, h⟩ := Option.bind_eq_some.mp h
    split at h
    · obtain ⟨_, _, h⟩ := Option.bind_eq_some.mp h
      obtain ⟨s2, h2, h⟩ := Option.bind_eq_some.mp h
      have a := cursor_unmap2 h2
      have b := ih _ _ _ h
      exact ⟨b.1.trans a.1, b.2.trans a.2⟩
    · have b := ih _ _ _ h
      exact b

theorem cursor_process_exit {s s' : State} {p : Nat} (h : process_exit s p = some s') :
    s'.ofs = s.ofs ∧ s'.algo = s.algo := by
  unfold process_exit at h
  obtain ⟨P, _, h⟩ := Option.bind_eq_some.mp h
  have a := cursor_exit_loop _ _ _ _ _ h
  exact a

theorem cursor_touch {s s' : State} {c : Char} {cp vp : Nat} (h : touch s c cp vp = some s') :
    s'.ofs = s.ofs ∧ s'.algo = s.algo := by
  unfold touch at h
  simp only [Option.bind_eq_bind, Option.pure_def] at h
  split at h
  · obtain ⟨pte3, _, h⟩ := Option.bind_eq_some.mp h
    split at h
    · obtain ⟨_, _, h⟩ := Option.bind_eq_some.mp h
      cases h
      exact ⟨rfl, rfl⟩
    · cases h
      exact ⟨rfl, rfl⟩
  · cases h
    exact ⟨rfl, rfl⟩

theorem cursor_access {s s' : State} {c : Char} {cp : Nat} {vpage : Int}
    (ha : s.algo ≠ Algo.random) (h : access s c cp vpage = some s') :
    s'.ofs = s.ofs ∧ s'.algo = s.algo := by
  unfold access at h
  simp only [Option.bind_eq_bind, Option.pure_def] at h
  obtain ⟨vp, _, h⟩ := Option.bind_eq_some.mp h
  obtain ⟨pte, _, h⟩ := Option.bind_eq_some.mp h
  split at h
  · obtain ⟨s2, h2, h⟩ := Option.bind_eq_some.mp h
    have b := cursor_touch h
    have a := cursor_handle_page_fault ha h2
    exact ⟨b.1.trans a.1, b.2.trans a.2⟩
  · simp only [Option.some_bind] at h
    exact cursor_touch h

theorem cursor_step {s s' : State} {c : Char} {v : Int} (ha : s.algo ≠ Algo.random)
    (h : step s c v = some s') : s'.ofs = s.ofs ∧ s'.algo = s.algo := by
  unfold step at h
  simp only [Option.bind_eq_bind, Option.pure_def] at h
  split at h
  · split at h <;> cases h <;> exact ⟨rfl, rfl⟩
  · split at h
    · split at h
      · obtain ⟨s2, h2, h⟩ := Option.bind_eq_some.mp h
        cases h
        have a := cursor_process_exit h2
        exact a
      · cases h
        exact ⟨rfl, rfl⟩
    · split at h
      · split at h
        · cases h
        · cases h
          exact ⟨rfl, rfl⟩
      · obtain ⟨P, _, h⟩ := Option.bind_eq_some.mp h
        split at h
        · cases h
          exact ⟨rfl, rfl⟩
        · split at h
          · have a := cursor_access (s := countAccess (emit s (Event.instr s.inst_count c v)))
              ha h
            exact a
          · cases h
            exact ⟨rfl, rfl⟩

theorem cursor_simulate : ∀ (trace : List Instr) (s s' : State), s.algo ≠ Algo.random →
    simulate s trace = some s' → s'.ofs = s.ofs ∧ s'.algo = s.algo := by
  intro trace
  induction trace with
  | nil =>
    intro s s' _ h
    cases h
    exact ⟨rfl, rfl⟩
  | cons i rest ih =>
    intro s s' ha h
    unfold simulate at h
    obtain ⟨s1, h1, h⟩ := Option.bind_eq_some.mp h
    have a := cursor_step ha h1
    have b := ih _ _ (by rw [a.2]; exact ha) h
    exact ⟨b.1.trans a.1, b.2.trans a.2⟩

theorem cursor_init {cfg : Config} {s : State} (h : init cfg = some s) :
    s.ofs = 0 ∧ s.algo = cfg.algo ∧ s.lastReset = 0 := by
  unfold init at h
  split at h
  · cases h
  · obtain ⟨procs, _, h⟩ := Option.bind_eq_some.mp h
    cases h
    exact ⟨rfl, rfl, rfl⟩

/-- The Random policy, whenever it returns, has moved the cursor one place on,
cyclically, and left the table alone. -/
theorem Random_cursor {s : State} {r : Nat × State}
    (h : RandomPager.select_victim_frame s = some r) :
    r.2.ofs = (s.ofs + 1) % s.randvals.length ∧ r.2.randvals = s.randvals := by
  unfold RandomPager.select_victim_frame at h
  split at h
  · cases h
  · cases hx : s.randvals[s.ofs]? with
    | none => simp [myrandom, hx] at h
    | some x =>
      simp only [myrandom, hx, Option.bind_eq_bind, Option.some_bind] at h
      split at h
      · cases h
      · simp only [Option.pure_def, Option.some_bind] at h
        obtain ⟨i, _, h⟩ := Option.bind_eq_some.mp h
        split at h
        · cases h
          exact ⟨rfl, rfl⟩
        · cases h

/-- The Random policy returns on a non-empty frame table when the cursor is inside
a table of non-negative numbers. -/
theorem Random_defined {s : State} (hn : s.frame_table ≠ []) (ho : s.ofs < s.randvals.length)
    (hr : ∀ x ∈ s.randvals, 0 ≤ x) : ∃ r, RandomPager.select_victim_frame s = some r := by
  have hpos : 0 < s.frame_table.length := List.length_pos.mpr hn
  obtain ⟨r, h, _⟩ := Random_result (s := { s with hand := 0 }) hpos ho hr hpos
  unfold RandomPager.select_victim_frame at h ⊢
  have hne : s.frame_table.isEmpty = false := by
    cases hft : s.frame_table with
    | nil => exact absurd hft hn
    | cons a l => rfl
  obtain ⟨x, hx⟩ : ∃ x, s.randvals[s.ofs]? = some x := ⟨s.randvals[s.ofs], by simp [ho]⟩
  have hb : ¬ ((s.frame_table.length : Int) = 0) := by omega
  simp only [hne, myrandom, hx, Option.bind_eq_bind, Option.some_bind, if_neg hb,
    Option.pure_def, Bool.false_eq_true, if_false] at h ⊢
  obtain ⟨i, hi, h⟩ := Option.bind_eq_some.mp h
  rw [hi]
  simp only [Option.some_bind] at h ⊢
  split at h
  · rename_i hlt
    rw [if_pos hlt]
    exact ⟨_, rfl⟩
  · cases h

/-- C24: every call of `RandomPager::select_victim_frame` that returns has moved
the cursor `ofs` one place on, cyclically over the random table, and left the
table alone; the call returns whenever the frame table is not empty and the
cursor is inside a table of non-negative numbers.  Under each of the other five
policies the state a run returns has `ofs = 0`, for every trace; the run returns
for every well-formed configuration and trace. -/
theorem C24_random_cursor (s : State) (cfg : Config) (trace : List Instr)
    (ha : cfg.algo ≠ Algo.random) :
    ((∀ (i : Nat) (s' : State), RandomPager.select_victim_frame s = some (i, s') →
        s'.ofs = (s.ofs + 1) % s.randvals.length ∧ s'.randvals = s.randvals) ∧
      (s.frame_table ≠ [] → s.ofs < s.randvals.length → (∀ x ∈ s.randvals, 0 ≤ x) →
        ∃ r, RandomPager.select_victim_frame s = some r)) ∧
    ((∀ s', run cfg trace = some s' → s'.ofs = 0) ∧
      (WFConfig cfg → WFTrace cfg.procs.length trace → ∃ s', run cfg trace = some s')) := by
  refine ⟨⟨fun i s' h => Random_cursor h, Random_defined⟩, ?_, ?_⟩
  · intro s' h
    unfold run at h
    obtain ⟨s0, h0, h⟩ := Option.bind_eq_some.mp h
    obtain ⟨a1, a2, _⟩ := cursor_init h0
    have b := cursor_simulate trace s0 s' (by rw [a2]; exact ha) h
    rw [b.1, a1]
  · intro hcfg htr
    obtain ⟨s', h, _⟩ := run_spec hcfg htr (Or.inl (fun h => absurd h ha))
    exact ⟨s', h⟩

/-- C24, witness: with the table `7, 4, 9` and the cursor on 9 the Random policy
moves the cursor to `(2 + 1) % 3 = 0`; one frame under FIFO with the same random
file runs `c 0 / w 0 / w 1 / r 0` and ends with the cursor at 0. -/
theorem C24_random_cursor_witness :
    cfgC24.algo ≠ Algo.random ∧
    ((∀ (i : Nat) (s' : State), RandomPager.select_victim_frame stateC24 = some (i, s') →
        s'.ofs = (stateC24.ofs + 1) % stateC24.randvals.length ∧
          s'.randvals = stateC24.randvals) ∧
      (stateC24.frame_table ≠ [] → stateC24.ofs < stateC24.randvals.length →
        (∀ x ∈ stateC24.randvals, 0 ≤ x) →
        ∃ r, RandomPager.select_victim_frame stateC24 = some r)) ∧
    ((∀ s', run cfgC24 traceC24 = some s' → s'.ofs = 0) ∧
      (WFConfig cfgC24 → WFTrace cfgC24.procs.length traceC24 →
        ∃ s', run cfgC24 traceC24 = some s')) :=
  ⟨by decide, C24_random_cursor stateC24 cfgC24 traceC24 (by decide)⟩

/-! ## The frame condition of the policies -/

theorem core_clearRef (e : pte_t) :
    ({ e with referenced := false } : pte_t).core = e.core := rfl

theorem core_FIFO {s : State} {r : Nat × State} (h : FIFOPager.select_victim_frame s = some r) :
    r.2.core = s.core := by
  unfold FIFOPager.select_victim_frame at h
  split at h
  · cases h
    rfl
  · cases h

theorem core_Random {s : State} {r : Nat × State}
    (h : RandomPager.select_victim_frame s = some r) : r.2.core = s.core := by
  unfold RandomPager.select_victim_frame at h
  split at h
  · cases h
  · cases hx : s.randvals[s.ofs]? with
    | none => simp [myrandom, hx] at h
    | some x =>
      simp only [myrandom, hx, Option.bind_eq_bind, Option.some_bind] at h
      split at h
      · cases h
      · simp only [Option.pure_def, Option.some_bind] at h
        obtain ⟨i, _, h⟩ := Option.bind_eq_some.mp h
        split at h
        · cases h
          rfl
        · cases h

theorem core_Clock_scan : ∀ (fuel : Nat) (s : State) (r : Nat × State),
    ClockPager.scan fuel s = some r → r.2.core = s.core := by
  intro fuel
  induction fuel with
  | zero =>
    intro s r h
    cases h
  | succ fuel ih =>
    intro s r h
    unfold ClockPager.scan at h
    simp only [Option.bind_eq_bind, Option.pure_def] at h
    obtain ⟨candidate, _, h⟩ := Option.bind_eq_some.mp h
    obtain ⟨p, _, h⟩ := Option.bind_eq_some.mp h
    obtain ⟨v, _, h⟩ := Option.bind_eq_some.mp h
    obtain ⟨pte, _, h⟩ := Option.bind_eq_some.mp h
    split at h
    · cases h
      rfl
    · have a := ih _ _ h
      have b : (s.modPte p v (fun e => { e with referenced := false })).core = s.core :=
        core_modPte p v core_clearRef
      exact a.trans b

theorem core_Clock {s : State} {r : Nat × State}
    (h : ClockPager.select_victim_frame s = some r) : r.2.core = s.core := by
  unfold ClockPager.select_victim_frame at h
  have a := core_Clock_scan _ _ _ h
  split at a
  · exact a
  · exact a

theorem core_ageOne {s s' : State} {i : Nat} (h : AgingPager.ageOne s i = some s') :
    s'.core = s.core := by
  unfold AgingPager.ageOne at h
  simp only [Option.bind_eq_bind, Option.pure_def] at h
  obtain ⟨frame, _, h⟩ := Option.bind_eq_some.mp h
  have a1 : (s.modFrame i (fun f => { f with age := f.age >>> 1 })).core = s.core :=
    core_modFrame i (fun _ => rfl)
  split at h
  · obtain ⟨p, _, h⟩ := Option.bind_eq_some.mp h
    obtain ⟨v, _, h⟩ := Option.bind_eq_some.mp h
    obtain ⟨pte, _, h⟩ := Option.bind_eq_some.mp h
    split at h
    · cases h
      have a2 : ((s.modFrame i (fun f => { f with age := f.age >>> 1 })).modFrame i
          (fun f => { f with age := f.age ||| 0x80000000 })).core
          = (s.modFrame i (fun f => { f with age := f.age >>> 1 })).core :=
        core_modFrame i (fun _ => rfl)
      exact ((core_modPte p v core_clearRef).trans a2).trans a1
    · cases h
      exact a1
  · cases h
    rfl

theorem core_ageFrom : ∀ (k i : Nat) (s s' : State),
    AgingPager.ageFrom k i s = some s' → s'.core = s.core := by
  intro k
  induction k with
  | zero =>
    intro i s s' h
    cases h
    rfl
  | succ k ih =>
    intro i s s' h
    unfold AgingPager.ageFrom at h
    obtain ⟨s1, h1, h⟩ := Option.bind_eq_some.mp h
    exact (ih _ _ _ h).trans (core_ageOne h1)

theorem core_Aging {s : State} {r : Nat × State}
    (h : AgingPager.select_victim_frame s = some r) : r.2.core = s.core := by
  unfold AgingPager.select_victim_frame at h
  simp only [Option.bind_eq_bind, Option.pure_def] at h
  obtain ⟨s1, h1, h⟩ := Option.bind_eq_some.mp h
  obtain ⟨victim, _, h⟩ := Option.bind_eq_some.mp h
  obtain ⟨_, _, h⟩ := Option.bind_eq_some.mp h
  cases h
  have a := core_ageFrom _ _ _ _ h1
  have b : (s1.modFrame victim (fun f => { f with age := 0 })).core = s1.core :=
    core_modFrame victim (fun _ => rfl)
  exact Eq.trans b a

theorem core_WorkingSet_scan : ∀ (k i : Nat) (victim : Option Nat) (minAge : Int)
    (s : State) (r : Nat × State),
    WorkingSetPager.scan k i victim minAge s = some r → r.2.core = s.core := by
  intro k
  induction k with
  | zero =>
    intro i victim minAge s r h
    unfold WorkingSetPager.scan at h
    simp only at h
    split at h
    · cases h
      rfl
    · cases h
  | succ k ih =>
    intro i victim minAge s r h
    unfold WorkingSetPager.scan at h
    simp only [Option.bind_eq_bind, Option.pure_def] at h
    obtain ⟨frame, _, h⟩ := Option.bind_eq_some.mp h
    obtain ⟨p, _, h⟩ := Option.bind_eq_some.mp h
    obtain ⟨v, _, h⟩ := Option.bind_eq_some.mp h
    obtain ⟨pte, _, h⟩ := Option.bind_eq_some.mp h
    obtain ⟨frame1, _, h⟩ := Option.bind_eq_some.mp h
    have key : (if pte.referenced = true then
        (s.modPte p v (fun e => { e with referenced := false })).modFrame
          ((s.hand + i) % s.frame_table.length)
          (fun f => { f with age_ := s.inst_count % 4294967296 })
        else s).core = s.core := by
      split
      · have a2 : ((s.modPte p v (fun e => { e with referenced := false })).modFrame
            ((s.hand + i) % s.frame_table.length)
            (fun f => { f with age_ := s.inst_count % 4294967296 })).core
            = (s.modPte p v (fun e => { e with referenced := false })).core :=
          core_modFrame _ (fun _ => rfl)
        exact a2.trans (core_modPte p v core_clearRef)
      · rfl
    split at h
    · cases h
      exact key
    · split at h
      · exact (ih _ _ _ _ _ h).trans key
      · exact (ih _ _ _ _ _ h).trans key

theorem core_WorkingSet {s : State} {r : Nat × State}
    (h : WorkingSetPager.select_victim_frame s = some r) : r.2.core = s.core :=
  core_WorkingSet_scan _ _ _ _ _ _ h

theorem core_NRU_scan (reset : Bool) : ∀ (k i : Nat) (c : NRUClasses) (s : State)
    (r : NRUClasses × State), NRUPager.scan reset k i c s = some r → r.2.core = s.core := by
  intro k
  induction k with
  | zero =>
    intro i c s r h
    cases h
    rfl
  | succ k ih =>
    intro i c s r h
    unfold NRUPager.scan at h
    simp only [Option.bind_eq_bind, Option.pure_def] at h
    obtain ⟨frame, _, h⟩ := Option.bind_eq_some.mp h
    obtain ⟨p, _, h⟩ := Option.bind_eq_some.mp h
    obtain ⟨v, _, h⟩ := Option.bind_eq_some.mp h
    obtain ⟨pte, _, h⟩ := Option.bind_eq_some.mp h
    have key : (if reset = true then s.modPte p v (fun e => { e with referenced := false })
        else s).core = s.core := by
      split
      · exact core_modPte p v core_clearRef
      · rfl
    split at h
    · cases h
      exact key
    · exact (ih _ _ _ _ h).trans key

theorem core_NRU {s : State} {r : Nat × State}
    (h : NRUPager.select_victim_frame s = some r) : r.2.core = s.core := by
  unfold NRUPager.select_victim_frame at h
  simp only [Option.bind_eq_bind, Option.pure_def] at h
  obtain ⟨⟨c, s1⟩, h1, h⟩ := Option.bind_eq_some.mp h
  obtain ⟨victim, _, h⟩ := Option.bind_eq_some.mp h
  obtain ⟨_, _, h⟩ := Option.bind_eq_some.mp h
  have a := core_NRU_scan _ _ _ _ _ _ h1
  have key : (if decide (subU64 s.inst_count s.lastReset ≥ 48) = true then
      { s with lastReset := s.inst_count } else s).core = s.core := by
    split <;> rfl
  split at h
  · cases h
  · cases h
    exact Eq.trans a key

/-- The virtual call, whenever it returns, has changed policy-owned data only. -/
theorem core_select_victim {s : State} {r : Nat × State} (h : select_victim_frame s = some r) :
    r.2.core = s.core := by
  unfold select_victim_frame at h
  split at h
  · exact core_FIFO h
  · exact core_Random h
  · exact core_Clock h
  · exact core_NRU h
  · exact core_Aging h
  · exact core_WorkingSet h

/-- C25: for each of the six policies, whenever `select_victim_frame` returns, no
page table entry has changed in `present`, `modified`, `paged_out`,
`write_protect`, `file_mapped` or `frame_number`, no frame in `process_id`,
`virtual_page` or `dirty`, and the free list is as it was; with the referenced
bits, the frame ages and times of last use, the hand, the time of the last reset
and the random cursor put aside the whole state is as it was, and under every
policy but Random so is the random cursor; this holds for every random table.
On a table of occupied frames with the hand inside it the call returns (under
Random: when the cursor is inside a table of non-negative numbers). -/
theorem C25_policy_frame (s : State) (hT : Tenants s) (hh : s.hand < s.frame_table.length) :
    ((s.algo = Algo.random → s.ofs < s.randvals.length ∧ ∀ x ∈ s.randvals, 0 ≤ x) →
      ∃ r, select_victim_frame s = some r) ∧
    ∀ (i : Nat) (s' : State), select_victim_frame s = some (i, s') →
      (∀ (p v : Nat) (e : pte_t), s.pte? p v = some e → ∃ e', s'.pte? p v = some e' ∧
        e'.present = e.present ∧ e'.modified = e.modified ∧ e'.paged_out = e.paged_out ∧
        e'.write_protect = e.write_protect ∧ e'.file_mapped = e.file_mapped ∧
        e'.frame_number = e.frame_number) ∧
      (∀ (j : Nat) (f : frame_t), s.frame_table[j]? = some f →
        ∃ f', s'.frame_table[j]? = some f' ∧ f'.process_id = f.process_id ∧
          f'.virtual_page = f.virtual_page ∧ f'.dirty = f.dirty) ∧
      s'.frame_table.length = s.frame_table.length ∧
      s'.free_frames = s.free_frames ∧
      s'.core = s.core ∧
      (s.algo ≠ Algo.random → s'.ofs = s.ofs) := by
  refine ⟨?_, ?_⟩
  · intro hr
    unfold select_victim_frame
    cases ha : s.algo with
    | fifo => exact (FIFO_result hh).imp (fun _ h => h.1)
    | random =>
      exact (Random_result (by omega) (hr ha).1 (hr ha).2 hh).imp (fun _ h => h.1)
    | clock => exact (Clock_result hT hh).imp (fun _ h => h.1)
    | nru => exact (NRU_result hT hh).imp (fun _ h => h.1)
    | aging => exact (Aging_result hT hh).imp (fun _ h => h.1)
    | workingSet => exact (WorkingSet_result hT hh).imp (fun _ h => h.1)
  · intro i s' h
    have hc : s'.core = s.core := core_select_victim h
    refine ⟨?_, ?_, length_of_core hc.symm, ?_, hc, ?_⟩
    · intro p v e he
      obtain ⟨e', h1, h2⟩ := pte_of_core hc.symm he
      have a1 := congrArg pte_t.present h2
      have a2 := congrArg pte_t.modified h2
      have a3 := congrArg pte_t.paged_out h2
      have a4 := congrArg pte_t.write_protect h2
      have a5 := congrArg pte_t.file_mapped h2
      have a6 := congrArg pte_t.frame_number h2
      exact ⟨e', h1, a1, a2, a3, a4, a5, a6⟩
    · intro j f hf
      obtain ⟨f', h1, h2⟩ := frame_of_core hc.symm hf
      have a1 := congrArg frame_t.process_id h2
      have a2 := congrArg frame_t.virtual_page h2
      have a3 := congrArg frame_t.dirty h2
      exact ⟨f', h1, a1, a2, a3⟩
    · have a := congrArg State.free_frames hc
      exact a
    · intro ha
      exact (cursor_select_victim ha h).1

/-- C25, witness: three occupied frames under NRU with a reset due; the call
returns and leaves every field named above as it was. -/
theorem C25_policy_frame_witness :
    Tenants stateC25 ∧ stateC25.hand < stateC25.frame_table.length ∧
    (((stateC25.algo = Algo.random →
      stateC25.ofs < stateC25.randvals.length ∧ ∀ x ∈ stateC25.randvals, 0 ≤ x) →
      ∃ r, select_victim_frame stateC25 = some r) ∧
    ∀ (i : Nat) (s' : State), select_victim_frame stateC25 = some (i, s') →
      (∀ (p v : Nat) (e : pte_t), stateC25.pte? p v = some e → ∃ e', s'.pte? p v = some e' ∧
        e'.present = e.present ∧ e'.modified = e.modified ∧ e'.paged_out = e.paged_out ∧
        e'.write_protect = e.write_protect ∧ e'.file_mapped = e.file_mapped ∧
        e'.frame_number = e.frame_number) ∧
      (∀ (j : Nat) (f : frame_t), stateC25.frame_table[j]? = some f →
        ∃ f', s'.frame_table[j]? = some f' ∧ f'.process_id = f.process_id ∧
          f'.virtual_page = f.virtual_page ∧ f'.dirty = f.dirty) ∧
      s'.frame_table.length = stateC25.frame_table.length ∧
      s'.free_frames = stateC25.free_frames ∧
      s'.core = stateC25.core ∧
      (stateC25.algo ≠ Algo.random → s'.ofs = stateC25.ofs)) :=
  ⟨Tenants_of_check (by decide), by decide,
    C25_policy_frame stateC25 (Tenants_of_check (by decide)) (by decide)⟩

/-! ## The reset rule of NRU -/

theorem subU64_eq {a b : Nat} (hle : b ≤ a) (ha : a < 18446744073709551616) :
    subU64 a b = a - b := by
  unfold subU64
  omega

/-- Clearing a referenced bit leaves the cleared tenants cleared. -/
theorem cleared_modPte {t : State} {p v x : Nat} (hT : Tenants t)
    (h : ∃ e, tenantOf t x = some e ∧ e.referenced = false) :
    ∃ e, tenantOf (t.modPte p v (fun e => { e with referenced := false })) x = some e ∧
      e.referenced = false := by
  obtain ⟨e, he, hr⟩ := h
  cases hfx : t.frame_table[x]? with
  | none =>
    rw [tenantOf_none hfx] at he
    cases he
  | some f =>
    obtain ⟨p', v', e', hp', hv', he'⟩ := hT x f hfx
    have hfx' : (t.modPte p v (fun e => { e with referenced := false })).frame_table[x]?
        = some f := hfx
    rw [tenantOf_eq hfx hp' hv', he'] at he
    cases he
    rw [tenantOf_eq hfx' hp' hv', pte?_of_processes (modPte_processes t p v _), he']
    by_cases hc : p = p' ∧ v = v'
    · rw [if_pos hc]
      exact ⟨_, rfl, rfl⟩
    · rw [if_neg hc]
      exact ⟨_, rfl, hr⟩

/-- Clearing the referenced bit of the tenant of a frame leaves that tenant
cleared. -/
theorem cleared_here {t : State} {p v x : Nat} {f : frame_t} {e : pte_t}
    (hf : t.frame_table[x]? = some f) (hp : f.process_id = (p : Int))
    (hv : f.virtual_page = (v : Int)) (he : t.pte? p v = some e) :
    ∃ e', tenantOf (t.modPte p v (fun e => { e with referenced := false })) x = some e' ∧
      e'.referenced = false := by
  have hf' : (t.modPte p v (fun e => { e with referenced := false })).frame_table[x]?
      = some f := hf
  rw [tenantOf_eq hf' hp hv, pte?_of_processes (modPte_processes t p v _), he,
    if_pos ⟨rfl, rfl⟩]
  exact ⟨_, rfl, rfl⟩

/-- The resetting scan of NRU runs through all frames and leaves the tenant of
every frame it has passed with the referenced bit 0. -/
theorem NRU_scan_clears (s : State) : ∀ (k i : Nat) (c : NRUClasses) (t : State),
    Tenants t → t.frame_table = s.frame_table → t.hand = s.hand →
    i + k = s.frame_table.length →
    (∀ j, j < i → ∃ e, tenantOf t ((s.hand + j) % s.frame_table.length) = some e ∧
      e.referenced = false) →
    ∃ (c' : NRUClasses) (t' : State), NRUPager.scan true k i c t = some (c', t') ∧
      t'.frame_table = s.frame_table ∧ t'.lastReset = t.lastReset ∧
      ∀ j, j < s.frame_table.length →
        ∃ e, tenantOf t' ((s.hand + j) % s.frame_table.length) = some e ∧
          e.referenced = false := by
  intro k
  induction k with
  | zero =>
    intro i c t _ hft _ hik hcl
    exact ⟨c, t, rfl, hft, rfl, fun j hj => hcl j (by omega)⟩
  | succ k ih =>
    intro i c t hT hft hhand hik hcl
    have hidx : (s.hand + i) % s.frame_table.length < s.frame_table.length :=
      Nat.mod_lt _ (by omega)
    obtain ⟨f, hf⟩ : ∃ f, t.frame_table[(s.hand + i) % s.frame_table.length]? = some f := by
      rw [hft]
      exact exists_getElem?_of_lt hidx
    obtain ⟨p, v, e, hp, hv, he⟩ := hT _ f hf
    have hstep : NRUPager.scan true (k + 1) i c t =
        NRUPager.scan true k (i + 1) (c.record e ((s.hand + i) % s.frame_table.length))
          (t.modPte p v (fun e => { e with referenced := false })) := by
      have hf' := hf
      rw [hft] at hf'
      simp only [NRUPager.scan, hhand, hft, hf', hp, hv, idx?_natCast, he, Option.bind_eq_bind,
        Option.some_bind, Option.pure_def]
      simp
    rw [hstep]
    obtain ⟨c', t', h1, h2, h3, h4⟩ := ih (i + 1) (c.record e _)
      (t.modPte p v (fun e => { e with referenced := false })) (Tenants_modPte p v _ hT)
      hft hhand (by omega) (by
        intro j hj
        by_cases hji : j = i
        · subst hji
          exact cleared_here hf hp hv he
        · exact cleared_modPte hT (hcl j (by omega)))
    exact ⟨c', t', h1, h2, h3, h4⟩

/-- The scan of NRU that does not reset returns the state it was given. -/
theorem NRU_scan_keeps : ∀ (k i : Nat) (c : NRUClasses) (t : State) (r : NRUClasses × State),
    NRUPager.scan false k i c t = some r → r.2 = t := by
  intro k
  induction k with
  | zero =>
    intro i c t r h
    cases h
    rfl
  | succ k ih =>
    intro i c t r h
    unfold NRUPager.scan at h
    simp only [Option.bind_eq_bind, Option.pure_def] at h
    obtain ⟨frame, _, h⟩ := Option.bind_eq_some.mp h
    obtain ⟨p, _, h⟩ := Option.bind_eq_some.mp h
    obtain ⟨v, _, h⟩ := Option.bind_eq_some.mp h
    obtain ⟨pte, _, h⟩ := Option.bind_eq_some.mp h
    split at h
    · cases h
      rfl
    · have a := ih _ _ _ _ h
      exact a

/-- C22: on a frame table of occupied frames (tenants need not be distinct) with
the hand `h < N` inside the table, so `N ≥ 1`, and `last_reset ≤ t < 2^64` for
the instruction count `t`, `NRUPager::select_victim_frame` returns, and: if
`t - last_reset ≥ 48` the tenant entry of every frame has `referenced = 0` after
the call and `last_reset = t`; if `t - last_reset < 48` the process table, so
every bit of every page table entry, and `last_reset` are as before the call.
The frame table is the same in both cases.  The state `main` builds has
`last_reset = 0`. -/
theorem C22_nru_reset (s : State) (hT : Tenants s) (hh : s.hand < s.frame_table.length)
    (hle : s.lastReset ≤ s.inst_count)
    (h64 : s.inst_count < 18446744073709551616) :
    (∀ (cfg : Config) (s0 : State), init cfg = some s0 → s0.lastReset = 0) ∧
    ∃ (i : Nat) (s' : State), NRUPager.select_victim_frame s = some (i, s') ∧
      s'.frame_table = s.frame_table ∧
      (s.inst_count - s.lastReset ≥ 48 →
        (∀ j, j < s.frame_table.length →
          ∃ e, tenantOf s' j = some e ∧ e.referenced = false) ∧
        s'.lastReset = s.inst_count) ∧
      (s.inst_count - s.lastReset < 48 →
        s'.processes = s.processes ∧ s'.lastReset = s.lastReset) := by
  refine ⟨fun cfg s0 h => (cursor_init h).2.2, ?_⟩
  obtain ⟨⟨i, s'⟩, hr, _⟩ := NRU_result hT hh
  have hsub := subU64_eq hle h64
  refine ⟨i, s', hr, ?_⟩
  unfold NRUPager.select_victim_frame at hr
  simp only [Option.bind_eq_bind, Option.pure_def, hsub] at hr
  by_cases hreset : s.inst_count - s.lastReset ≥ 48
  · simp only [hreset, decide_True, if_true] at hr
    obtain ⟨c', t', h1, h2, h3, h4⟩ := NRU_scan_clears { s with lastReset := s.inst_count }
      s.frame_table.length 0
      { class0Index := none, class1Index := none, class2Index := none, class3Index := none }
      { s with lastReset := s.inst_count } hT rfl rfl (by simp)
      (fun j hj => absurd hj (Nat.not_lt_zero j))
    have h1' : NRUPager.scan true s.frame_table.length 0
        { class0Index := none, class1Index := none, class2Index := none, class3Index := none }
        { s with lastReset := s.inst_count } = some (c', t') := h1
    rw [h1'] at hr
    simp only [Option.some_bind] at hr
    obtain ⟨victim, _, hr⟩ := Option.bind_eq_some.mp hr
    obtain ⟨_, _, hr⟩ := Option.bind_eq_some.mp hr
    by_cases hz : t'.frame_table.length = 0
    · rw [if_pos hz] at hr
      cases hr
    · rw [if_neg hz] at hr
      have hs' : s' = { t' with hand := (victim + 1) % t'.frame_table.length } :=
        (congrArg Prod.snd (Option.some.inj hr)).symm
      rw [hs']
      refine ⟨h2, fun _ => ⟨?_, h3⟩, fun hlt => absurd hreset (by omega)⟩
      intro j hj
      obtain ⟨d, hd, hdj⟩ := ring_surj hh hj
      have := h4 d hd
      rw [hdj] at this
      exact this
  · have hnr : ¬ (48 ≤ s.inst_count - s.lastReset) := hreset
    simp only [ge_iff_le, hnr, decide_False, Bool.false_eq_true, if_false] at hr
    obtain ⟨⟨c', t'⟩, h1, hr⟩ := Option.bind_eq_some.mp hr
    have ht : t' = s := NRU_scan_keeps _ _ _ _ _ h1
    dsimp only at hr
    rw [ht] at hr
    obtain ⟨victim, _, hr⟩ := Option.bind_eq_some.mp hr
    obtain ⟨_, _, hr⟩ := Option.bind_eq_some.mp hr
    by_cases hz : s.frame_table.length = 0
    · rw [if_pos hz] at hr
      cases hr
    · rw [if_neg hz] at hr
      have hs' : s' = { s with hand := (victim + 1) % s.frame_table.length } :=
        (congrArg Prod.snd (Option.some.inj hr)).symm
      rw [hs']
      exact ⟨rfl, fun h => absurd h hreset, fun _ => ⟨rfl, rfl⟩⟩

/-- C22, witness: three frames, last reset at 10, `inst_count = 60`: the call
resets, so every tenant ends with `referenced = 0` and `last_reset = 60`. -/
theorem C22_nru_reset_witness :
    Tenants stateC22 ∧
    stateC22.hand < stateC22.frame_table.length ∧ stateC22.lastReset ≤ stateC22.inst_count ∧
    stateC22.inst_count < 18446744073709551616 ∧
    stateC22.inst_count - stateC22.lastReset ≥ 48 ∧
    ((∀ (cfg : Config) (s0 : State), init cfg = some s0 → s0.lastReset = 0) ∧
    ∃ (i : Nat) (s' : State), NRUPager.select_victim_frame stateC22 = some (i, s') ∧
      s'.frame_table = stateC22.frame_table ∧
      (stateC22.inst_count - stateC22.lastReset ≥ 48 →
        (∀ j, j < stateC22.frame_table.length →
          ∃ e, tenantOf s' j = some e ∧ e.referenced = false) ∧
        s'.lastReset = stateC22.inst_count) ∧
      (stateC22.inst_count - stateC22.lastReset < 48 →
        s'.processes = stateC22.processes ∧ s'.lastReset = stateC22.lastReset)) :=
  ⟨Tenants_of_check (by decide), by decide, by decide, by decide, by decide,
    C22_nru_reset stateC22 (Tenants_of_check (by decide)) (by decide) (by decide)
      (by decide)⟩

/-! ## The aging step -/

theorem idx?_eq_some {x : Int} {n : Nat} (h : idx? x = some n) : x = (n : Int) := by
  unfold idx? at h
  split at h
  · cases h
  · cases h
    omega

theorem OccTenants_of_check {s : State} (h : occTenantsCheck s = true) : OccTenants s := by
  intro i f hf hocc
  have hm : f ∈ s.frame_table := List.getElem?_mem hf
  have := List.all_eq_true.mp h f hm
  have hne : (f.process_id == -1) = false := by simpa using hocc
  rw [hne, Bool.false_or] at this
  cases hp : idx? f.process_id with
  | none => rw [hp] at this; cases this
  | some p =>
    cases hv : idx? f.virtual_page with
    | none => rw [hp, hv] at this; cases this
    | some v =>
      rw [hp, hv] at this
      simp only at this
      obtain ⟨e, he⟩ := Option.isSome_iff_exists.mp this
      exact ⟨p, v, e, idx?_eq_some hp, idx?_eq_some hv, he⟩

theorem DistinctOcc_of_check {s : State} (h : distinctOccCheck s = true) : DistinctOcc s := by
  intro i j f g hi hj hocc hp hv
  have h' := of_decide_eq_true h
  refine h' i (getElem?_lt_length hi) j (getElem?_lt_length hj) ?_ ?_
  · rw [hi]
    simpa using hocc
  · rw [hi, hj]
    simp [hp, hv]

/-- Shifting a 32-bit age right and setting bit 31 is halving and adding `2^31`. -/
theorem newAge_eq {a : Nat} (r : Bool) (h : a < 4294967296) :
    AgingPager.newAge r a = a / 2 + (if r then 2147483648 else 0) ∧
      AgingPager.newAge r a < 4294967296 := by
  have hs : a >>> 1 = a / 2 := by
    rw [Nat.shiftRight_eq_div_pow]
  have hb : a / 2 < 2 ^ 31 := by
    norm_num
    omega
  have hor := Nat.mul_add_lt_is_or hb 1
  rw [Nat.lor_comm] at hor
  norm_num at hor
  unfold AgingPager.newAge
  cases r
  · simp only [Bool.false_eq_true, if_false, hs]
    omega
  · simp only [if_true, hs]
    have h2 : a / 2 ||| 2147483648 = a / 2 + 2147483648 := by omega
    omega

/-- A write to the entry `(p, v)` either leaves the tenant entry of frame `j` as
it was or frame `j` holds `(p, v)` and its tenant entry is the written one. -/
theorem tenantOf_modPte_raw (t : State) (p v : Nat) (g : pte_t → pte_t) (j : Nat) :
    tenantOf (t.modPte p v g) j = tenantOf t j ∨
      ∃ (e : pte_t) (fj : frame_t), tenantOf t j = some e ∧
        tenantOf (t.modPte p v g) j = some (g e) ∧ t.frame_table[j]? = some fj ∧
        fj.process_id = (p : Int) ∧ fj.virtual_page = (v : Int) := by
  cases hf : t.frame_table[j]? with
  | none =>
    left
    have hf' : (t.modPte p v g).frame_table[j]? = none := hf
    rw [tenantOf_none hf, tenantOf_none hf']
  | some fj =>
    have hf' : (t.modPte p v g).frame_table[j]? = some fj := hf
    cases hp : idx? fj.process_id with
    | none =>
      left
      simp only [tenantOf, hf, hf', hp]
    | some p' =>
      cases hv : idx? fj.virtual_page with
      | none =>
        left
        simp only [tenantOf, hf, hf', hp, hv]
      | some v' =>
        have hp1 := idx?_eq_some hp
        have hv1 := idx?_eq_some hv
        rw [tenantOf_eq hf' hp1 hv1, tenantOf_eq hf hp1 hv1,
          pte?_of_processes (modPte_processes t p v g)]
        by_cases hc : p = p' ∧ v = v'
        · rw [if_pos hc]
          cases he : t.pte? p' v' with
          | none =>
            left
            rfl
          | some e =>
            right
            refine ⟨e, fj, rfl, rfl, rfl, ?_, ?_⟩
            · rw [hp1, hc.1]
            · rw [hv1, hc.2]
        · rw [if_neg hc]
          exact Or.inl rfl

/-- One round of the first loop of Aging on a free frame does nothing. -/
theorem ageOne_free {t : State} {i : Nat} {f : frame_t} (hf : t.frame_table[i]? = some f)
    (hfree : f.process_id = -1) : AgingPager.ageOne t i = some t := by
  simp only [AgingPager.ageOne, hf, hfree, Option.bind_eq_bind, Option.some_bind,
    Option.pure_def]
  rfl

/-- One round of the first loop of Aging on an occupied frame. -/
theorem ageOne_occupied {t : State} {i p v : Nat} {f : frame_t} {e : pte_t}
    (hf : t.frame_table[i]? = some f) (hp : f.process_id = (p : Int))
    (hv : f.virtual_page = (v : Int)) (he : t.pte? p v = some e) :
    AgingPager.ageOne t i = some
      (if e.referenced = true then
        ((t.modFrame i (fun f => { f with age := f.age >>> 1 })).modFrame i
          (fun f => { f with age := f.age ||| 0x80000000 })).modPte p v
            (fun e => { e with referenced := false })
       else t.modFrame i (fun f => { f with age := f.age >>> 1 })) := by
  have hne : (f.process_id != -1) = true := by rw [hp]; exact natCast_bne_neg_one p
  have he1 : (t.modFrame i (fun f => { f with age := f.age >>> 1 })).pte? p v = some e := he
  simp only [AgingPager.ageOne, hf, hne, hv, idx?_natCast, Option.bind_eq_bind,
    Option.some_bind, if_true, Option.pure_def]
  rw [hp]
  simp only [idx?_natCast, Option.some_bind, he1]
  split <;> rfl

/-- One round of the first loop of Aging on an occupied frame `i` with tenant
`e`: the frame gets its new age, no other frame changes, the tenant of frame `i`
ends with the referenced bit 0, and the tenant of another frame changes only if
that frame holds the same entry. -/
theorem ageOne_round {t : State} {i p v : Nat} {f : frame_t} {e : pte_t}
    (hf : t.frame_table[i]? = some f) (hp : f.process_id = (p : Int))
    (hv : f.virtual_page = (v : Int)) (he : t.pte? p v = some e) :
    ∃ t1, AgingPager.ageOne t i = some t1 ∧
      t1.frame_table = updateAt
        (fun f => { f with age := AgingPager.newAge e.referenced f.age }) i t.frame_table ∧
      (∀ j, tenantOf t1 j = tenantOf t j ∨
        ∃ (e' : pte_t) (fj : frame_t), tenantOf t j = some e' ∧
          tenantOf t1 j = some { e' with referenced := false } ∧
          t.frame_table[j]? = some fj ∧ fj.process_id = (p : Int) ∧
          fj.virtual_page = (v : Int)) ∧
      ∃ e1, tenantOf t1 i = some e1 ∧ e1.referenced = false := by
  rw [ageOne_occupied hf hp hv he]
  by_cases hr : e.referenced = true
  · rw [if_pos hr]
    have hX : ((t.modFrame i (fun f => { f with age := f.age >>> 1 })).modFrame i
        (fun f => { f with age := f.age ||| 0x80000000 })).frame_table
        = updateAt (fun f => { f with age := AgingPager.newAge e.referenced f.age }) i
          t.frame_table := by
      show updateAt _ i (updateAt _ i t.frame_table) = _
      rw [updateAt_updateAt, hr]
      rfl
    have hmf : ∀ j, tenantOf ((t.modFrame i (fun f => { f with age := f.age >>> 1 })).modFrame
        i (fun f => { f with age := f.age ||| 0x80000000 })) j = tenantOf t j := by
      intro j
      rw [tenantOf_modFrame _ i (fun f => { f with age := f.age ||| 0x80000000 })
          (fun _ => ⟨rfl, rfl⟩),
        tenantOf_modFrame _ i (fun f => { f with age := f.age >>> 1 }) (fun _ => ⟨rfl, rfl⟩)]
    refine ⟨_, rfl, hX, ?_, ?_⟩
    · intro j
      rcases tenantOf_modPte_raw ((t.modFrame i (fun f => { f with age := f.age >>> 1 })).modFrame
        i (fun f => { f with age := f.age ||| 0x80000000 })) p v
        (fun e => { e with referenced := false }) j with h | ⟨e', fj, h1, h2, hfj, hpj, hvj⟩
      · left
        rw [h, hmf]
      · right
        rw [hmf] at h1
        rw [hX, getElem?_updateAt] at hfj
        by_cases hij : i = j
        · subst hij
          rw [if_pos rfl, hf] at hfj
          cases hfj
          exact ⟨e', f, h1, h2, hf, hp, hv⟩
        · rw [if_neg hij] at hfj
          exact ⟨e', fj, h1, h2, hfj, hpj, hvj⟩
    · have hfi : (((t.modFrame i (fun f => { f with age := f.age >>> 1 })).modFrame i
          (fun f => { f with age := f.age ||| 0x80000000 })).modPte p v
          (fun e => { e with referenced := false })).frame_table[i]?
          = some { f with age := AgingPager.newAge e.referenced f.age } := by
        show ((t.modFrame i (fun f => { f with age := f.age >>> 1 })).modFrame i
          (fun f => { f with age := f.age ||| 0x80000000 })).frame_table[i]? = _
        rw [hX, getElem?_updateAt, if_pos rfl, hf]
        rfl
      have hpe : ((t.modFrame i (fun f => { f with age := f.age >>> 1 })).modFrame i
          (fun f => { f with age := f.age ||| 0x80000000 })).pte? p v = some e := he
      rw [tenantOf_eq hfi hp hv, pte?_of_processes (modPte_processes _ p v _), hpe,
        if_pos ⟨rfl, rfl⟩]
      exact ⟨_, rfl, rfl⟩
  · rw [if_neg hr]
    have hr' : e.referenced = false := by simpa using hr
    refine ⟨_, rfl, ?_, fun j => Or.inl ?_, e, ?_, hr'⟩
    · show updateAt _ i t.frame_table = _
      rw [hr']
      rfl
    · exact tenantOf_modFrame t i (fun f => { f with age := f.age >>> 1 })
        (fun _ => ⟨rfl, rfl⟩) j
    · rw [tenantOf_modFrame t i (fun f => { f with age := f.age >>> 1 })
        (fun _ => ⟨rfl, rfl⟩) i, tenantOf_eq hf hp hv, he]

/-- The first loop of Aging from frame `i` on, given the state `t` the frames below
`i` have left: the loop returns, and then every occupied frame has its new age
and a tenant with the referenced bit 0, every free frame is as in `s`. -/
theorem ageFrom_exact (s : State) (hO : OccTenants s) (hD : DistinctOcc s) :
    ∀ (k i : Nat) (t : State), i + k = s.frame_table.length →
    t.frame_table.length = s.frame_table.length →
    (∀ (j : Nat) (f : frame_t), s.frame_table[j]? = some f →
      t.frame_table[j]? = some (if j < i ∧ f.process_id ≠ -1 then
        { f with age := AgingPager.newAge (refAt s j) f.age } else f)) →
    (∀ j, i ≤ j → tenantOf t j = tenantOf s j) →
    (∀ (j : Nat) (f : frame_t), j < i → s.frame_table[j]? = some f → f.process_id ≠ -1 →
      ∃ e, tenantOf t j = some e ∧ e.referenced = false) →
    ∃ t', AgingPager.ageFrom k i t = some t' ∧
      t'.frame_table.length = s.frame_table.length ∧
      (∀ (j : Nat) (f : frame_t), s.frame_table[j]? = some f →
        t'.frame_table[j]? = some (if f.process_id ≠ -1 then
          { f with age := AgingPager.newAge (refAt s j) f.age } else f)) ∧
      (∀ (j : Nat) (f : frame_t), s.frame_table[j]? = some f → f.process_id ≠ -1 →
        ∃ e, tenantOf t' j = some e ∧ e.referenced = false) := by
  intro k
  induction k with
  | zero =>
    intro i t hik h0 h1 _ h3
    refine ⟨t, rfl, h0, ?_, ?_⟩
    · intro j f hf
      have hj : j < i := by
        have := getElem?_lt_length hf
        omega
      rw [h1 j f hf]
      simp only [hj, true_and]
    · intro j f hf hocc
      have hj : j < i := by
        have := getElem?_lt_length hf
        omega
      exact h3 j f hj hf hocc
  | succ k ih =>
    intro i t hik h0 h1 h2 h3
    obtain ⟨f, hfs⟩ : ∃ f, s.frame_table[i]? = some f :=
      exists_getElem?_of_lt (by omega)
    have hft : t.frame_table[i]? = some f := by
      rw [h1 i f hfs, if_neg]
      omega
    have hiff : ∀ (j : Nat) (g : frame_t), j ≠ i →
        ((j < i + 1 ∧ g.process_id ≠ -1) ↔ (j < i ∧ g.process_id ≠ -1)) := by
      intro j g hji
      constructor
      · rintro ⟨a, b⟩
        exact ⟨by omega, b⟩
      · rintro ⟨a, b⟩
        exact ⟨by omega, b⟩
    by_cases hocc : f.process_id = -1
    · -- a free frame: nothing happens
      have hstep : AgingPager.ageFrom (k + 1) i t = AgingPager.ageFrom k (i + 1) t := by
        simp only [AgingPager.ageFrom, ageOne_free hft hocc, Option.bind_eq_bind,
          Option.some_bind]
      rw [hstep]
      refine ih (i + 1) t (by omega) h0 ?_ (fun j hj => h2 j (by omega)) ?_
      · intro j g hg
        rw [h1 j g hg]
        by_cases hji : j = i
        · subst hji
          rw [hfs] at hg
          cases hg
          rw [if_neg (by simp [hocc]), if_neg (by simp [hocc])]
        · simp only [hiff j g hji]
      · intro j g hj hg hgo
        by_cases hji : j = i
        · subst hji
          rw [hfs] at hg
          cases hg
          exact absurd hocc hgo
        · exact h3 j g (by omega) hg hgo
    · -- an occupied frame
      obtain ⟨p, v, e, hp, hv, he⟩ := hO i f hfs hocc
      have hte : tenantOf s i = some e := by rw [tenantOf_eq hfs hp hv, he]
      have het : t.pte? p v = some e := by
        rw [← tenantOf_eq hft hp hv, h2 i (le_refl _), hte]
      have href : refAt s i = e.referenced := by
        rw [refAt_eq_tenant, hte]
      obtain ⟨t1, hone, hfr, hten, hcl⟩ := ageOne_round hft hp hv het
      have hstep : AgingPager.ageFrom (k + 1) i t = AgingPager.ageFrom k (i + 1) t1 := by
        simp only [AgingPager.ageFrom, hone, Option.bind_eq_bind, Option.some_bind]
      rw [hstep]
      refine ih (i + 1) t1 (by omega) ?_ ?_ ?_ ?_
      · rw [hfr, length_updateAt, h0]
      · intro j g hg
        rw [hfr, getElem?_updateAt, h1 j g hg]
        by_cases hji : i = j
        · subst hji
          rw [hfs] at hg
          cases hg
          have c1 : ¬ (i < i ∧ f.process_id ≠ -1) := by omega
          have c2 : i < i + 1 ∧ f.process_id ≠ -1 := ⟨by omega, hocc⟩
          rw [if_pos rfl, if_neg c1, if_pos c2, Option.map_some', href]
        · rw [if_neg hji]
          simp only [hiff j g (fun h => hji h.symm)]
      · intro j hj
        rcases hten j with h | ⟨e', fj, _, _, hfj, hpj, hvj⟩
        · rw [h, h2 j (by omega)]
        · exfalso
          obtain ⟨g, hg⟩ : ∃ g, s.frame_table[j]? = some g :=
            exists_getElem?_of_lt (by rw [← h0]; exact getElem?_lt_length hfj)
          rw [h1 j g hg] at hfj
          have hgp : g.process_id = fj.process_id := by
            cases hfj
            split <;> rfl
          have hgv : g.virtual_page = fj.virtual_page := by
            cases hfj
            split <;> rfl
          have := hD i j f g hfs hg hocc (by rw [hgp, hpj, hp]) (by rw [hgv, hvj, hv])
          omega
      · intro j g hj hg hgo
        by_cases hji : j = i
        · subst hji
          exact hcl
        · obtain ⟨e0, he0, hr0⟩ := h3 j g (by omega) hg hgo
          rcases hten j with h | ⟨e', fj, h', h'', _, _, _⟩
          · rw [h]
            exact ⟨e0, he0, hr0⟩
          · exact ⟨_, h'', rfl⟩

/-- C23: on a frame table whose frames are free or occupied, with pairwise
distinct tenant entries of the occupied frames and ages below `2^32`, the first
loop of `AgingPager::select_victim_frame` returns and leaves every occupied
frame of age `a` with the age `a / 2 + 2^31` if its tenant entry had
`referenced = 1` and `a / 2` otherwise, which is below `2^32` again, and nothing
else of the frame changed; every free frame is as it was; and the tenant entry
of every occupied frame ends with `referenced = 0`. -/
theorem C23_aging_step (s : State) (hO : OccTenants s) (hD : DistinctOcc s)
    (h32 : ∀ f ∈ s.frame_table, f.age < 4294967296) :
    ∃ s1, AgingPager.ageFrom s.frame_table.length 0 s = some s1 ∧
      s1.frame_table.length = s.frame_table.length ∧
      ∀ (i : Nat) (f : frame_t), s.frame_table[i]? = some f →
        (f.process_id = -1 → s1.frame_table[i]? = some f) ∧
        (f.process_id ≠ -1 →
          s1.frame_table[i]? = some
            { f with age := f.age / 2 + (if refAt s i = true then 2147483648 else 0) } ∧
          f.age / 2 + (if refAt s i = true then 2147483648 else 0) < 4294967296 ∧
          ∃ e, tenantOf s1 i = some e ∧ e.referenced = false) := by
  obtain ⟨s1, h1, h2, h3, h4⟩ := ageFrom_exact s hO hD s.frame_table.length 0 s (by simp) rfl
    (fun j f hf => by rw [hf, if_neg (by omega)]) (fun _ _ => rfl)
    (fun j f hj => absurd hj (Nat.not_lt_zero j))
  refine ⟨s1, h1, h2, ?_⟩
  intro i f hf
  have ha := newAge_eq (refAt s i) (h32 f (List.getElem?_mem hf))
  refine ⟨fun hfree => ?_, fun hocc => ⟨?_, ?_, h4 i f hf hocc⟩⟩
  · rw [h3 i f hf, if_neg (by simp [hfree])]
  · rw [h3 i f hf, if_pos hocc, ha.1]
  · rw [← ha.1]
    exact ha.2

/-- C23, witness: frame 0 (age 6, tenant referenced) gets the age `3 + 2^31`, the
free frame 1 keeps its age 5, frame 2 (age 9, tenant not referenced) gets the
age 4. -/
theorem C23_aging_step_witness :
    OccTenants stateC23 ∧ DistinctOcc stateC23 ∧
    (∀ f ∈ stateC23.frame_table, f.age < 4294967296) ∧
    ∃ s1, AgingPager.ageFrom stateC23.frame_table.length 0 stateC23 = some s1 ∧
      s1.frame_table.length = stateC23.frame_table.length ∧
      ∀ (i : Nat) (f : frame_t), stateC23.frame_table[i]? = some f →
        (f.process_id = -1 → s1.frame_table[i]? = some f) ∧
        (f.process_id ≠ -1 →
          s1.frame_table[i]? = some
            { f with age := f.age / 2 + (if refAt stateC23 i = true then 2147483648 else 0) } ∧
          f.age / 2 + (if refAt stateC23 i = true then 2147483648 else 0) < 4294967296 ∧
          ∃ e, tenantOf s1 i = some e ∧ e.referenced = false) :=
  ⟨OccTenants_of_check (by decide), DistinctOcc_of_check (by decide), by decide,
    C23_aging_step stateC23 (OccTenants_of_check (by decide)) (DistinctOcc_of_check (by decide))
      (by decide)⟩

end MMU
